import Mathlib

/-!
# vexcel — the interactive state machine, embedded in Lean

A shallow embedding of the Go sources `pkg/models/models.go`, `internal/ui/ui.go`,
`internal/loader/loader.go`, `internal/app/keys.go`, `internal/app/model.go`,
`internal/app/update.go`, and of the formula bar lookup, the series extraction and the chart
arithmetic of `internal/app/view.go` and `internal/chart/chart.go`.

Modelling conventions.

* A Go `string` is a Lean `String` (a sequence of Unicode scalar values); the byte tests the
  sources make (`input[i] >= 'A'`, the digit test inside `strconv.Atoi`, the comma of
  `strings.Split`) only ever accept ASCII bytes, which in UTF-8 occur exactly as the ASCII
  characters, so they are made on characters.  A length `len(s)` is the length in bytes
  (`utf8ByteSize`), and a slice `s[:n]` is the characters that lie wholly within the first `n`
  bytes (`bytePrefix`).
* A Go `int` is a Lean `Int`.  The viewport and cursor arithmetic works on terminal sizes and
  slice lengths and is written without wrap-around; the two computations that user input can
  drive past 64 bits (the column-letter accumulator of `jumpToCell` and the range check of
  `strconv.Atoi`) are written with the explicit wrap-around `wrap64` and range test.  The line
  rasterisation is written without wrap-around, and `drawLinePath64` is its loop in 64-bit
  arithmetic, which agrees with it for endpoints within 60 bits.
* A run-time panic (index out of range) is the result `none`.
* The Unicode case tables behind `strings.ToUpper` and `strings.ToLower` are a parameter
  (`Unicode`); on ASCII the mapping is fixed as in Go.
* The `float64` arithmetic and `strconv.ParseFloat` are a parameter (`Float64`); the facts of
  IEEE-754 arithmetic a property rests on are its hypotheses, and `Float64.exact` is an instance
  without rounding error for the concrete evaluations.  Of a renderer the embedding keeps the
  numbers, the glyphs, the character grid and the legend entries it computes and the
  placeholder it returns, not the styled text.
* What the outside world answers during one key event (the text the focused `textinput` widget
  holds after it handled the key, whether the clipboard write failed, the error of an export)
  travels with the event in an `Outside` record.
-/

namespace Vexcel

/-! ## `pkg/models` -/

/-- A single cell of the spreadsheet (`models.Cell`). -/
structure Cell where
  Value : String
  Formula : String
  Row : Int
  Col : Int
deriving DecidableEq, Repr

/-- A worksheet with its data (`models.Sheet`). -/
structure Sheet where
  Name : String
  Rows : List (List Cell)
  MaxRows : Int
  MaxCols : Int
deriving DecidableEq, Repr

/-- The application mode (`models.Mode`). -/
inductive Mode where
  | ModeNormal
  | ModeSearch
  | ModeDetail
  | ModeJump
  | ModeExport
  | ModeTheme
  | ModeChart
  | ModeSelectRange
deriving DecidableEq, Repr

/-- A status message with its severity (`models.StatusMsg`; the Go field `Type` is `Typ`). -/
structure StatusMsg where
  Message : String
  Typ : String
deriving DecidableEq, Repr

def StatusInfo : String := "info"
def StatusSuccess : String := "success"
def StatusError : String := "error"
def StatusWarning : String := "warning"

/-! ## Go built-ins and library functions used by the sources -/

/-- Slice indexing `xs[i]` with a Go `int` index: `none` is the index-out-of-range panic. -/
def index? {α : Type} (xs : List α) (i : Int) : Option α :=
  if 0 ≤ i then xs[i.toNat]? else none

/-- Wrap-around of a mathematical integer into the 64-bit two's-complement range of `int`. -/
def wrap64 (x : Int) : Int := (x + 2 ^ 63) % 2 ^ 64 - 2 ^ 63

/-- The largest Go `int`. -/
def maxInt : Int := 2 ^ 63 - 1

/-- The smallest Go `int`. -/
def minInt : Int := -(2 ^ 63)

/-- The Unicode case tables (`unicode.ToUpper`, `unicode.ToLower`) outside ASCII. -/
structure Unicode where
  upper : Char → Char
  lower : Char → Char

/-- The tables that leave every non-ASCII character alone; used for concrete ASCII runs. -/
def Unicode.ascii : Unicode := ⟨id, id⟩

/-- Rune mapping `unicode.ToUpper`: fixed on ASCII, the table elsewhere. -/
def upperRune (U : Unicode) (c : Char) : Char :=
  if c.toNat < 128 then
    (if 'a'.toNat ≤ c.toNat ∧ c.toNat ≤ 'z'.toNat then Char.ofNat (c.toNat - 32) else c)
  else U.upper c

/-- Rune mapping `unicode.ToLower`: fixed on ASCII, the table elsewhere. -/
def lowerRune (U : Unicode) (c : Char) : Char :=
  if c.toNat < 128 then
    (if 'A'.toNat ≤ c.toNat ∧ c.toNat ≤ 'Z'.toNat then Char.ofNat (c.toNat + 32) else c)
  else U.lower c

/-- Go `strings.ToUpper`. -/
def ToUpper (U : Unicode) (s : List Char) : List Char := s.map (upperRune U)

/-- Go `strings.ToLower`. -/
def ToLower (U : Unicode) (s : List Char) : List Char := s.map (lowerRune U)

/-- Go `unicode.IsSpace`: the Latin-1 spaces and the code points with property White_Space. -/
def isSpace (c : Char) : Bool :=
  let n := c.toNat
  n = 9 || n = 10 || n = 11 || n = 12 || n = 13 || n = 32 || n = 0x85 || n = 0xA0 ||
  n = 0x1680 || (0x2000 ≤ n && n ≤ 0x200A) || n = 0x2028 || n = 0x2029 || n = 0x202F ||
  n = 0x205F || n = 0x3000

/-- Go `strings.TrimSpace`: drop leading and trailing white space. -/
def TrimSpace (s : List Char) : List Char :=
  ((s.dropWhile isSpace).reverse.dropWhile isSpace).reverse

/-- Go `strings.HasSuffix`. -/
def HasSuffix (s suffix : List Char) : Bool := suffix.reverse.isPrefixOf s.reverse

/-- Go `strings.Contains`: `substr` occurs in `s` (the empty string occurs everywhere). -/
def Contains (s substr : List Char) : Bool := s.tails.any (fun t => substr.isPrefixOf t)

/-- Go `strings.Split(s, ",")`: the pieces between the commas, always at least one piece. -/
def splitComma : List Char → List (List Char)
  | [] => [[]]
  | c :: cs =>
    if c = ',' then [] :: splitComma cs
    else
      match splitComma cs with
      | [] => [[c]]
      | p :: ps => (c :: p) :: ps

/-- One step of reading a decimal numeral: `n = n*10 + int(ch - '0')`, failing on a byte that
is not a digit (and staying failed afterwards). -/
def digitStep (acc : Option Nat) (c : Char) : Option Nat :=
  match acc with
  | none => none
  | some n =>
    if '0'.toNat ≤ c.toNat ∧ c.toNat ≤ '9'.toNat then some (n * 10 + (c.toNat - '0'.toNat))
    else none

/-- The value of a run of ASCII digits; `none` when the run is empty or holds another byte. -/
def parseDigits : List Char → Option Nat
  | [] => none
  | c :: cs => (c :: cs).foldl digitStep (some 0)

/-- Go `strconv.Atoi`: an optional sign and at least one decimal digit, the value inside the
range of `int`; `none` is a non-nil error (syntax or range). -/
def Atoi (s : List Char) : Option Int :=
  match s with
  | '-' :: ds =>
    match parseDigits ds with
    | some n => if (n : Int) ≤ 2 ^ 63 then some (-(n : Int)) else none
    | none => none
  | '+' :: ds =>
    match parseDigits ds with
    | some n => if (n : Int) ≤ maxInt then some (n : Int) else none
    | none => none
  | ds =>
    match parseDigits ds with
    | some n => if (n : Int) ≤ maxInt then some (n : Int) else none
    | none => none

/-- Go `fmt.Sprintf("%d", n)`. -/
def Sprintf_d (n : Int) : String := toString n

/-! ## `internal/ui` -/

def MinCellWidth : Int := 12

/-- The maximum of two integers (`ui.Max`). -/
def Max (a b : Int) : Int := if a > b then a else b

/-- The minimum of two integers (`ui.Min`). -/
def Min (a b : Int) : Int := if a < b then a else b

/-- Loop of `ColIndexToLetter`: `for index >= 0 { result = letter + result; index = index/26 - 1 }`.
The fuel bounds the number of iterations; `ColIndexToLetter` supplies more than the loop uses. -/
def colLetterLoop : Nat → Int → List Char → List Char
  | 0, _, result => result
  | fuel + 1, index, result =>
    if index ≥ 0 then
      colLetterLoop fuel (Int.tdiv index 26 - 1)
        (Char.ofNat (65 + (Int.tmod index 26).toNat) :: result)
    else result

/-- Converts a 0-indexed column number to its Excel-style letters (`ui.ColIndexToLetter`). -/
def ColIndexToLetter (index : Int) : String :=
  String.mk (colLetterLoop (index.toNat + 1) index [])

/-- The characters of a text that lie wholly within its first `n` bytes of UTF-8: the slice
`s[:n]` of Go, up to the leading bytes of a character that the slice cuts in two, which are
not text. -/
def bytePrefix : List Char → Nat → List Char
  | [], _ => []
  | c :: rest, n => if c.utf8Size ≤ n then c :: bytePrefix rest (n - c.utf8Size) else []

/-- Truncates a string to `maxLen` with an ellipsis (`ui.Truncate`). Go measures and cuts bytes:
`len(s)` is the length in bytes, and the slices are `bytePrefix`. -/
def Truncate (s : String) (maxLen : Int) : String :=
  if (s.utf8ByteSize : Int) ≤ maxLen then s
  else if maxLen ≤ 3 then String.mk (bytePrefix s.data maxLen.toNat)
  else String.mk (bytePrefix s.data (maxLen - 3).toNat) ++ "..."

/-! ## `internal/theme` -/

/-- The table `themes`: the display name stored under each key (the colours are not used by the
state machine). -/
def themeName? (name : String) : Option String :=
  if name = "catppuccin" then some "Catppuccin Mocha"
  else if name = "nord" then some "Nord"
  else if name = "rose-pine" then some "Ros√© Pine"
  else if name = "tokyo-night" then some "Tokyo Night"
  else if name = "gruvbox" then some "Gruvbox Dark"
  else if name = "dracula" then some "Dracula"
  else none

/-! ## `internal/loader` -/

/-- Searches for a term in the sheet (`loader.SearchSheet`). -/
def SearchSheet (U : Unicode) (sheet : Sheet) (term : String) : List Cell :=
  if term = "" then []
  else
    let term := ToLower U term.data
    sheet.Rows.foldl (fun results row =>
      row.foldl (fun results cell =>
        if Contains (ToLower U cell.Value.data) term ||
            Contains (ToLower U cell.Formula.data) term then
          results ++ [cell]
        else results) results) []

/-- The body of the loop over the rows in `loadCSV` and `loadExcel` (the same text but for the
cell built): convert one record to cells, track `MaxCols`, append the row. `cellOf r c v` is the
cell built for the text `v` at row `r`, column `c`. -/
def appendRow (cellOf : Int → Int → String → Cell) (rowIdx : Int) (record : List String)
    (sheet : Sheet) : Sheet :=
  let acc := record.enum.foldl
    (fun (acc : List Cell × Int) jv =>
      (acc.1 ++ [cellOf rowIdx jv.1 jv.2],
       if (jv.1 : Int) + 1 > acc.2 then (jv.1 : Int) + 1 else acc.2))
    ([], sheet.MaxCols)
  { sheet with Rows := sheet.Rows ++ [acc.1], MaxCols := acc.2 }

/-- The sheets `loadCSV` returns once `reader.ReadAll` has returned `records` without error;
`name` is `filepath.Base(filename)`. -/
def loadCSV (name : String) (records : List (List String)) : List Sheet :=
  [records.enum.foldl
    (fun sheet ir => appendRow (fun r c v => ⟨v, "", r, c⟩) ir.1 ir.2 sheet)
    ⟨name, [], records.length, 0⟩]

/-- The sheets `loadExcel` returns for a workbook with at least one sheet: `book` lists the
sheet names of `f.GetSheetList()`, each with the rows `f.GetRows` returned or `none` when it
returned an error (the sheet is skipped); `formula name r c` is what `f.GetCellFormula` answers
for the cell at row `r`, column `c` of that sheet. -/
def loadExcel (formula : String → Int → Int → String)
    (book : List (String × Option (List (List String)))) : List Sheet :=
  book.foldl
    (fun sheets entry =>
      match entry.2 with
      | none => sheets
      | some rows =>
        sheets ++ [rows.enum.foldl
          (fun sheet ir =>
            appendRow (fun r c v => ⟨v, formula entry.1 r c, r, c⟩) ir.1 ir.2 sheet)
          ⟨entry.1, [], rows.length, 0⟩])
    []

/-! ## `internal/app/keys.go` -/

/-- Keyboard shortcuts (`KeyMap`); a binding is the list of its key names. -/
structure KeyMap where
  Up : List String
  Down : List String
  Left : List String
  Right : List String
  PageUp : List String
  PageDown : List String
  Home : List String
  End : List String
  FirstCol : List String
  LastCol : List String
  NextSheet : List String
  PrevSheet : List String
  Search : List String
  NextResult : List String
  PrevResult : List String
  ClearSearch : List String
  Detail : List String
  Jump : List String
  ToggleForm : List String
  Copy : List String
  CopyRow : List String
  Export : List String
  Theme : List String
  Help : List String
  Quit : List String
  Visualize : List String
  SelectRange : List String
deriving DecidableEq, Repr

/-- The default keybindings (`DefaultKeyMap`). -/
def DefaultKeyMap : KeyMap where
  Up := ["up", "k"]
  Down := ["down", "j"]
  Left := ["left", "h"]
  Right := ["right", "l"]
  PageUp := ["pgup", "ctrl+u"]
  PageDown := ["pgdown", "ctrl+d"]
  Home := ["home", "0"]
  End := ["end", "$"]
  FirstCol := ["g"]
  LastCol := ["G"]
  NextSheet := ["tab"]
  PrevSheet := ["shift+tab"]
  Search := ["/"]
  NextResult := ["n"]
  PrevResult := ["N"]
  ClearSearch := ["esc"]
  Detail := ["enter"]
  Jump := ["ctrl+g"]
  ToggleForm := ["f"]
  Copy := ["c"]
  CopyRow := ["C"]
  Export := ["e"]
  Theme := ["t"]
  Help := ["?"]
  Quit := ["q", "ctrl+c"]
  Visualize := ["v"]
  SelectRange := ["V"]

/-! ## Events (`tea.Msg`) -/

/-- The key types (`tea.KeyType`) the handlers distinguish; `named s` is any other special key,
with the name `s` that `Key.String` prints for it. -/
inductive KeyType where
  | KeyRunes
  | KeyEnter
  | KeyEscape
  | named (s : String)
deriving DecidableEq, Repr

/-- A key press (`tea.KeyMsg`). -/
structure KeyMsg where
  Typ : KeyType
  Runes : List Char
  Alt : Bool
  Paste : Bool
deriving DecidableEq, Repr

/-- The text of a key press (`tea.Key.String`). -/
def keyString (k : KeyMsg) : String :=
  (if k.Alt then "alt+" else "") ++
    (match k.Typ with
     | .KeyRunes =>
       (if k.Paste then "[" else "") ++ String.mk k.Runes ++ (if k.Paste then "]" else "")
     | .KeyEnter => "enter"
     | .KeyEscape => "esc"
     | .named s => s)

/-- The bubbles helper `key.Matches`: the key's text is one of the binding's keys. -/
def Matches (msg : KeyMsg) (binding : List String) : Bool := binding.contains (keyString msg)

/-- The answers of the collaborators outside the repository during one key event. -/
structure Outside where
  /-- the value of the focused `textinput` widget after its own `Update` handled the key -/
  typed : String
  /-- whether `clipboard.WriteAll` returned an error -/
  clipboardFails : Bool
  /-- the text of the error returned by the file operations of an export, if any -/
  exportError : Option String
deriving DecidableEq, Repr

/-- An event delivered to `Update` (`tea.Msg`): a resize, a key press, or anything else. -/
inductive Msg where
  | WindowSizeMsg (Width Height : Int)
  | KeyMsg (k : KeyMsg) (out : Outside)
  | other

/-! ## `internal/app/model.go` -/

/-- The application state (`app.Model`).  The three `textinput` widgets are their values; the
`help` widget is its two fields the handlers write; `styles` is render-only and left out. -/
structure Model where
  sheets : List Sheet
  currentSheet : Int
  cursorRow : Int
  cursorCol : Int
  offsetRow : Int
  offsetCol : Int
  width : Int
  height : Int
  mode : Mode
  searchInput : String
  jumpInput : String
  exportInput : String
  searchQuery : String
  searchResults : List Cell
  searchIndex : Int
  showFormulas : Bool
  status : StatusMsg
  helpWidth : Int
  helpShowAll : Bool
  keys : KeyMap
  filename : String
  themeName : String
  chartType : Int
  selectStart : Int × Int
  selectEnd : Int × Int
  isSelecting : Bool
deriving DecidableEq, Repr

/-- Creates a new application model (`NewModel`). -/
def NewModel (filename : String) (sheets : List Sheet) (themeName : String) : Model :=
  let themeName := if (themeName? themeName).isSome then themeName else "catppuccin"
  { sheets := sheets
    currentSheet := 0
    cursorRow := 0
    cursorCol := 0
    offsetRow := 0
    offsetCol := 0
    width := 0
    height := 0
    mode := Mode.ModeNormal
    searchInput := ""
    jumpInput := ""
    exportInput := ""
    searchQuery := ""
    searchResults := []
    searchIndex := 0
    showFormulas := false
    status := ⟨"Ready â€¢ " ++ (themeName? themeName).getD "", StatusInfo⟩
    helpWidth := 0
    helpShowAll := false
    keys := DefaultKeyMap
    filename := filename
    themeName := themeName
    chartType := 0
    selectStart := (0, 0)
    selectEnd := (0, 0)
    isSelecting := false }

/-- Resets cursor and viewport to the initial state (`resetView`). -/
def resetView (m : Model) : Model :=
  { m with cursorRow := 0, cursorCol := 0, offsetRow := 0, offsetCol := 0 }

/-- The local `visibleRows := ui.Max(1, m.height-9)`. -/
def visibleRows (m : Model) : Int := Max 1 (m.height - 9)

/-- The local `visibleCols := ui.Max(1, (m.width-8)/(ui.MinCellWidth+2))`. -/
def visibleCols (m : Model) : Int := Max 1 (Int.tdiv (m.width - 8) (MinCellWidth + 2))

/-- Adjusts the viewport to keep the cursor visible (`adjustViewport`). -/
def adjustViewport (m : Model) : Model :=
  let visibleRows := visibleRows m
  let visibleCols := visibleCols m
  let m :=
    if m.cursorRow < m.offsetRow then { m with offsetRow := m.cursorRow }
    else if m.cursorRow ≥ m.offsetRow + visibleRows then
      { m with offsetRow := m.cursorRow - visibleRows + 1 }
    else m
  if m.cursorCol < m.offsetCol then { m with offsetCol := m.cursorCol }
  else if m.cursorCol ≥ m.offsetCol + visibleCols then
    { m with offsetCol := m.cursorCol - visibleCols + 1 }
  else m

/-- Centers the viewport on the current cursor (`centerView`). -/
def centerView (m : Model) : Model :=
  let visibleRows := visibleRows m
  let visibleCols := visibleCols m
  { m with
    offsetRow := Max 0 (m.cursorRow - Int.tdiv visibleRows 2)
    offsetCol := Max 0 (m.cursorCol - Int.tdiv visibleCols 2) }

/-- Applies a new theme (`applyTheme`). -/
def applyTheme (m : Model) (name : String) : Model :=
  match themeName? name with
  | some display =>
    { m with themeName := name, mode := Mode.ModeNormal,
             status := ⟨"Theme: " ++ display, StatusSuccess⟩ }
  | none => m

/-! ## `internal/app/update.go` -/

/-- Jumps to the current search result (`jumpToSearchResult`). -/
def jumpToSearchResult (m : Model) : Option Model :=
  if m.searchResults.length = 0 then some m
  else
    match index? m.searchResults m.searchIndex with
    | none => none
    | some result =>
      some (centerView { m with cursorRow := result.Row, cursorCol := result.Col })

/-- The loop body `col = col*26 + int(input[i]-'A') + 1` of `jumpToCell`, with the wrap-around
of `int`. -/
def letterStep (col : Int) (c : Char) : Int :=
  wrap64 (col * 26 + ((c.toNat - 'A'.toNat : Nat) : Int) + 1)

/-- The loop of `jumpToCell` that reads the leading column letters:
`for i < len(input) && input[i] >= 'A' && input[i] <= 'Z' { col = col*26 + int(input[i]-'A') + 1; i++ }`.
Returns the final `col` and the unread rest `input[i:]`. -/
def parseColumnLetters : List Char → Int → Int × List Char
  | [], col => (col, [])
  | c :: cs, col =>
    if 'A'.toNat ≤ c.toNat ∧ c.toNat ≤ 'Z'.toNat then
      parseColumnLetters cs (letterStep col c)
    else (col, c :: cs)

/-- The `row` of the first form of `jumpToCell`: `row := 0`, then
`if i < len(input) { if r, err := strconv.Atoi(input[i:]); err == nil { row = r - 1 } }`. -/
def letterFormRow (rest : List Char) : Int :=
  if rest.length > 0 then
    match Atoi rest with
    | some r => wrap64 (r - 1)
    | none => 0
  else 0

/-- First form of `jumpToCell`, `"A100"` (column letters + row number): the state after a
successful jump, or `none` when the form does not apply and the function goes on. -/
def jumpLetterForm (m : Model) (sheet : Sheet) (input : List Char) : Option Model :=
  match input with
  | [] => none
  | c :: _ =>
    if 'A'.toNat ≤ c.toNat ∧ c.toNat ≤ 'Z'.toNat then
      let parsed := parseColumnLetters input 0
      let col := wrap64 (parsed.1 - 1)
      let row := letterFormRow parsed.2
      if row ≥ 0 ∧ row < sheet.MaxRows ∧ col ≥ 0 ∧ col < sheet.MaxCols then
        some { centerView { m with cursorRow := row, cursorCol := col } with
               status := ⟨"→ " ++ (ColIndexToLetter col ++ Sprintf_d (row + 1)), StatusSuccess⟩ }
      else none
    else none

/-- Second form of `jumpToCell`, `"500"` (row number only). -/
def jumpRowForm (m : Model) (sheet : Sheet) (input : List Char) : Option Model :=
  match Atoi input with
  | some r =>
    let row := wrap64 (r - 1)
    if row ≥ 0 ∧ row < sheet.MaxRows then
      some { centerView { m with cursorRow := row } with
             status := ⟨"→ Row " ++ Sprintf_d (row + 1), StatusSuccess⟩ }
    else none
  | none => none

/-- Third form of `jumpToCell`, `"10,5"` (row,col). -/
def jumpPairForm (m : Model) (sheet : Sheet) (input : List Char) : Option Model :=
  match splitComma input with
  | [p0, p1] =>
    match Atoi (TrimSpace p0) with
    | some r =>
      match Atoi (TrimSpace p1) with
      | some c =>
        let row := wrap64 (r - 1)
        let col := wrap64 (c - 1)
        if row ≥ 0 ∧ row < sheet.MaxRows ∧ col ≥ 0 ∧ col < sheet.MaxCols then
          some { centerView { m with cursorRow := row, cursorCol := col } with
                 status := ⟨"→ " ++ Sprintf_d (row + 1) ++ "," ++ Sprintf_d (col + 1),
                            StatusSuccess⟩ }
        else none
      | none => none
    | none => none
  | _ => none

/-- Jumps to a specific cell based on user input (`jumpToCell`). -/
def jumpToCell (U : Unicode) (m : Model) (input : String) : Option Model :=
  match index? m.sheets m.currentSheet with
  | none => none
  | some sheet =>
    let input := ToUpper U (TrimSpace input.data)
    match jumpLetterForm m sheet input with
    | some m1 => some m1
    | none =>
      match jumpRowForm m sheet input with
      | some m2 => some m2
      | none =>
        match jumpPairForm m sheet input with
        | some m3 => some m3
        | none => some { m with status := ⟨"Invalid cell reference", StatusError⟩ }

/-- Copies the current cell to the clipboard (`copyCell`). -/
def copyCell (m : Model) (out : Outside) : Option Model :=
  match index? m.sheets m.currentSheet with
  | none => none
  | some sheet =>
    if m.cursorRow < sheet.Rows.length then
      match index? sheet.Rows m.cursorRow with
      | none => none
      | some row =>
        if m.cursorCol < row.length then
          match index? row m.cursorCol with
          | none => none
          | some cell =>
            let value :=
              if m.showFormulas ∧ cell.Formula ≠ "" then "=" ++ cell.Formula else cell.Value
            if out.clipboardFails then
              some { m with status := ⟨"Failed to copy", StatusError⟩ }
            else
              some { m with status := ⟨"Copied: " ++ Truncate value 30, StatusSuccess⟩ }
        else some m
    else some m

/-- Copies the entire current row to the clipboard (`copyRow`). -/
def copyRow (m : Model) (out : Outside) : Option Model :=
  match index? m.sheets m.currentSheet with
  | none => none
  | some sheet =>
    if m.cursorRow < sheet.Rows.length then
      match index? sheet.Rows m.cursorRow with
      | none => none
      | some row =>
        let values := row.map (fun cell => cell.Value)
        if out.clipboardFails then
          some { m with status := ⟨"Failed to copy row", StatusError⟩ }
        else
          some { m with status :=
            ⟨"Copied row " ++ Sprintf_d (m.cursorRow + 1) ++ " (" ++
               Sprintf_d values.length ++ " cells)", StatusSuccess⟩ }
    else some m

/-- The branch `exportSheet` takes and the error it gets: `none` when the file name has neither
extension, otherwise `some err` with the `err` of `loader.ExportToCSV` or `loader.ExportToJSON`.
Their file operations answer through `out.exportError`; `ExportToJSON` itself refuses a sheet
without rows. -/
def exportOutcome (U : Unicode) (sheet : Sheet) (filename : String) (out : Outside) :
    Option (Option String) :=
  let lower := ToLower U filename.data
  if HasSuffix lower ".csv".data then some out.exportError
  else if HasSuffix lower ".json".data then
    some (match out.exportError with
          | some e => some e
          | none => if sheet.Rows.length = 0 then some "sheet is empty" else none)
  else none

/-- Exports the current sheet to a file (`exportSheet`). -/
def exportSheet (U : Unicode) (m : Model) (filename : String) (out : Outside) : Option Model :=
  match index? m.sheets m.currentSheet with
  | none => none
  | some sheet =>
    match exportOutcome U sheet filename out with
    | none => some { m with status := ⟨"Use .csv or .json extension", StatusError⟩ }
    | some (some err) => some { m with status := ⟨"Export failed: " ++ err, StatusError⟩ }
    | some none => some { m with status := ⟨"✓ Exported to " ++ filename, StatusSuccess⟩ }

/-- The helper `abs`. -/
def abs (x : Int) : Int := if x < 0 then -x else x

/-- Handles normal mode updates (`updateNormal`). -/
def updateNormal (m : Model) (msg : KeyMsg) (out : Outside) : Option Model :=
  if m.sheets.length = 0 then some m
  else
    match index? m.sheets m.currentSheet with
    | none => none
    | some sheet =>
      if Matches msg m.keys.Quit then some m
      else if Matches msg m.keys.Up then
        (if m.cursorRow > 0 then some (adjustViewport { m with cursorRow := m.cursorRow - 1 })
         else some m)
      else if Matches msg m.keys.Down then
        (if m.cursorRow < sheet.MaxRows - 1 then
           some (adjustViewport { m with cursorRow := m.cursorRow + 1 })
         else some m)
      else if Matches msg m.keys.Left then
        (if m.cursorCol > 0 then some (adjustViewport { m with cursorCol := m.cursorCol - 1 })
         else some m)
      else if Matches msg m.keys.Right then
        (if m.cursorCol < sheet.MaxCols - 1 then
           some (adjustViewport { m with cursorCol := m.cursorCol + 1 })
         else some m)
      else if Matches msg m.keys.PageDown then
        let visibleRows := Max 1 (m.height - 9)
        some (adjustViewport
          { m with cursorRow := Min (m.cursorRow + visibleRows) (sheet.MaxRows - 1) })
      else if Matches msg m.keys.PageUp then
        let visibleRows := Max 1 (m.height - 9)
        some (adjustViewport { m with cursorRow := Max (m.cursorRow - visibleRows) 0 })
      else if Matches msg m.keys.Home then
        some { m with cursorCol := 0, offsetCol := 0 }
      else if Matches msg m.keys.End then
        some (adjustViewport { m with cursorCol := sheet.MaxCols - 1 })
      else if Matches msg m.keys.FirstCol then
        some { m with cursorCol := 0, offsetCol := 0 }
      else if Matches msg m.keys.LastCol then
        some (adjustViewport { m with cursorCol := sheet.MaxCols - 1 })
      else if Matches msg m.keys.NextSheet then
        (if m.currentSheet < (m.sheets.length : Int) - 1 then
           let m := resetView { m with currentSheet := m.currentSheet + 1 }
           match index? m.sheets m.currentSheet with
           | none => none
           | some next => some { m with status := ⟨"→ " ++ next.Name, StatusInfo⟩ }
         else some m)
      else if Matches msg m.keys.PrevSheet then
        (if m.currentSheet > 0 then
           let m := resetView { m with currentSheet := m.currentSheet - 1 }
           match index? m.sheets m.currentSheet with
           | none => none
           | some prev => some { m with status := ⟨"← " ++ prev.Name, StatusInfo⟩ }
         else some m)
      else if Matches msg m.keys.Search then
        some { m with mode := Mode.ModeSearch, searchInput := m.searchQuery }
      else if Matches msg m.keys.NextResult then
        (if m.searchResults.length > 0 then
           let next := Int.tmod (m.searchIndex + 1) (m.searchResults.length : Int)
           let m := { m with searchIndex := next }
           match jumpToSearchResult m with
           | none => none
           | some m =>
             some { m with status :=
               ⟨"Match " ++ Sprintf_d (m.searchIndex + 1) ++ "/" ++
                  Sprintf_d m.searchResults.length, StatusInfo⟩ }
         else some m)
      else if Matches msg m.keys.PrevResult then
        (if m.searchResults.length > 0 then
           let prev :=
             Int.tmod (m.searchIndex - 1 + (m.searchResults.length : Int))
               (m.searchResults.length : Int)
           let m := { m with searchIndex := prev }
           match jumpToSearchResult m with
           | none => none
           | some m =>
             some { m with status :=
               ⟨"Match " ++ Sprintf_d (m.searchIndex + 1) ++ "/" ++
                  Sprintf_d m.searchResults.length, StatusInfo⟩ }
         else some m)
      else if Matches msg m.keys.ClearSearch then
        (if m.searchQuery ≠ "" then
           some { m with searchQuery := "", searchResults := [], searchIndex := 0,
                         status := ⟨"Search cleared", StatusInfo⟩ }
         else some m)
      else if Matches msg m.keys.Detail then
        some { m with mode := Mode.ModeDetail }
      else if Matches msg m.keys.Jump then
        some { m with mode := Mode.ModeJump, jumpInput := "" }
      else if Matches msg m.keys.ToggleForm then
        let m := { m with showFormulas := !m.showFormulas }
        (if m.showFormulas then some { m with status := ⟨"Showing formulas", StatusInfo⟩ }
         else some { m with status := ⟨"Showing values", StatusInfo⟩ })
      else if Matches msg m.keys.Copy then copyCell m out
      else if Matches msg m.keys.CopyRow then copyRow m out
      else if Matches msg m.keys.Export then
        some { m with mode := Mode.ModeExport, exportInput := "" }
      else if Matches msg m.keys.Theme then
        some { m with mode := Mode.ModeTheme }
      else if Matches msg m.keys.Help then
        some { m with helpShowAll := !m.helpShowAll }
      else if Matches msg m.keys.Visualize then
        (if !m.isSelecting then
           some { m with status := ⟨"Select range first (V)", StatusWarning⟩ }
         else some { m with mode := Mode.ModeChart, chartType := 0 })
      else if Matches msg m.keys.SelectRange then
        (if !m.isSelecting then
           some { m with selectStart := (m.cursorRow, m.cursorCol),
                         selectEnd := (m.cursorRow, m.cursorCol),
                         isSelecting := true,
                         status := ⟨"Selection started - Move cursor, press V to finish",
                                    StatusInfo⟩ }
         else
           let m := { m with selectEnd := (m.cursorRow, m.cursorCol) }
           some { m with status :=
             ⟨"Selected " ++ Sprintf_d (abs (m.selectEnd.1 - m.selectStart.1) + 1) ++ "x" ++
                Sprintf_d (abs (m.selectEnd.2 - m.selectStart.2) + 1) ++
                " range - Press v to visualize", StatusSuccess⟩ })
      else some m

/-- Handles search mode updates (`updateSearch`). -/
def updateSearch (U : Unicode) (m : Model) (msg : KeyMsg) (out : Outside) : Option Model :=
  match msg.Typ with
  | .KeyEscape => some { m with mode := Mode.ModeNormal }
  | .KeyEnter =>
    let term := String.mk (TrimSpace m.searchInput.data)
    if term ≠ "" then
      match index? m.sheets m.currentSheet with
      | none => none
      | some sheet =>
        let m := { m with searchQuery := term, searchResults := SearchSheet U sheet term,
                          searchIndex := 0 }
        if m.searchResults.length > 0 then
          match jumpToSearchResult m with
          | none => none
          | some m =>
            some { m with
              status := ⟨"Found " ++ Sprintf_d m.searchResults.length ++ " results",
                         StatusSuccess⟩,
              mode := Mode.ModeNormal }
        else
          some { m with status := ⟨"No results found", StatusWarning⟩, mode := Mode.ModeNormal }
    else some { m with mode := Mode.ModeNormal }
  | _ => some { m with searchInput := out.typed }

/-- Handles detail mode updates (`updateDetail`). -/
def updateDetail (m : Model) (msg : KeyMsg) : Option Model :=
  if msg.Typ = .KeyEscape ∨ msg.Typ = .KeyEnter ∨ keyString msg = "q" then
    some { m with mode := Mode.ModeNormal }
  else some m

/-- Handles jump mode updates (`updateJump`). -/
def updateJump (U : Unicode) (m : Model) (msg : KeyMsg) (out : Outside) : Option Model :=
  match msg.Typ with
  | .KeyEscape => some { m with mode := Mode.ModeNormal }
  | .KeyEnter =>
    let input := String.mk (TrimSpace m.jumpInput.data)
    if input ≠ "" then
      match jumpToCell U m input with
      | none => none
      | some m => some { m with mode := Mode.ModeNormal }
    else some { m with mode := Mode.ModeNormal }
  | _ => some { m with jumpInput := out.typed }

/-- Handles export mode updates (`updateExport`). -/
def updateExport (U : Unicode) (m : Model) (msg : KeyMsg) (out : Outside) : Option Model :=
  match msg.Typ with
  | .KeyEscape => some { m with mode := Mode.ModeNormal }
  | .KeyEnter =>
    let filename := String.mk (TrimSpace m.exportInput.data)
    if filename ≠ "" then
      match exportSheet U m filename out with
      | none => none
      | some m => some { m with mode := Mode.ModeNormal }
    else some { m with mode := Mode.ModeNormal }
  | _ => some { m with exportInput := out.typed }

/-- Handles theme selection mode updates (`updateTheme`). -/
def updateTheme (m : Model) (msg : KeyMsg) : Option Model :=
  let s := keyString msg
  if s = "esc" ∨ s = "q" then some { m with mode := Mode.ModeNormal }
  else if s = "1" then some (applyTheme m "catppuccin")
  else if s = "2" then some (applyTheme m "nord")
  else if s = "3" then some (applyTheme m "rose-pine")
  else if s = "4" then some (applyTheme m "tokyo-night")
  else if s = "5" then some (applyTheme m "gruvbox")
  else if s = "6" then some (applyTheme m "dracula")
  else some m

/-- Handles chart visualization mode (`updateChart`). -/
def updateChart (m : Model) (msg : KeyMsg) : Option Model :=
  let s := keyString msg
  if s = "esc" ∨ s = "q" then some { m with mode := Mode.ModeNormal }
  else if s = "1" then some { m with chartType := 0 }
  else if s = "2" then some { m with chartType := 1 }
  else if s = "3" then some { m with chartType := 2 }
  else if s = "4" then some { m with chartType := 3 }
  else some m

/-- Handles range selection mode (`updateSelectRange`). -/
def updateSelectRange (m : Model) (msg : KeyMsg) : Option Model :=
  match index? m.sheets m.currentSheet with
  | none => none
  | some sheet =>
    if Matches msg m.keys.Up then
      (if m.cursorRow > 0 then
         let m := { m with cursorRow := m.cursorRow - 1 }
         some (adjustViewport { m with selectEnd := (m.cursorRow, m.cursorCol) })
       else some m)
    else if Matches msg m.keys.Down then
      (if m.cursorRow < sheet.MaxRows - 1 then
         let m := { m with cursorRow := m.cursorRow + 1 }
         some (adjustViewport { m with selectEnd := (m.cursorRow, m.cursorCol) })
       else some m)
    else if Matches msg m.keys.Left then
      (if m.cursorCol > 0 then
         let m := { m with cursorCol := m.cursorCol - 1 }
         some (adjustViewport { m with selectEnd := (m.cursorRow, m.cursorCol) })
       else some m)
    else if Matches msg m.keys.Right then
      (if m.cursorCol < sheet.MaxCols - 1 then
         let m := { m with cursorCol := m.cursorCol + 1 }
         some (adjustViewport { m with selectEnd := (m.cursorRow, m.cursorCol) })
       else some m)
    else if Matches msg m.keys.SelectRange then
      some { m with mode := Mode.ModeNormal,
                    status := ⟨"Selected range - Press v to visualize", StatusSuccess⟩ }
    else if msg.Typ = .KeyEscape then
      some { m with isSelecting := false, mode := Mode.ModeNormal,
                    status := ⟨"Selection cancelled", StatusInfo⟩ }
    else some m

/-- Handles messages and updates the model (`Update`). -/
def Update (U : Unicode) (m : Model) (msg : Msg) : Option Model :=
  match msg with
  | .WindowSizeMsg w h => some { m with width := w, height := h, helpWidth := w }
  | .KeyMsg k out =>
    match m.mode with
    | .ModeSearch => updateSearch U m k out
    | .ModeDetail => updateDetail m k
    | .ModeJump => updateJump U m k out
    | .ModeExport => updateExport U m k out
    | .ModeTheme => updateTheme m k
    | .ModeChart => updateChart m k
    | .ModeSelectRange => updateSelectRange m k
    | .ModeNormal => updateNormal m k out
  | .other => some m

/-- Runs `Update` over a sequence of events, the way the bubbletea loop feeds them; `none` as
soon as one of them panics. -/
def run (U : Unicode) (m : Model) : List Msg → Option Model
  | [] => some m
  | e :: es =>
    match Update U m e with
    | none => none
    | some m1 => run U m1 es

/-- A state the running program can be in: reached from `NewModel` by some events. -/
def Reachable (U : Unicode) (filename : String) (sheets : List Sheet) (themeName : String)
    (m : Model) : Prop :=
  ∃ events : List Msg, run U (NewModel filename sheets themeName) events = some m

/-- The cursor lies inside `[0,MaxRows) × [0,MaxCols)` of the active sheet. -/
def CursorInBounds (m : Model) : Prop :=
  ∃ sheet, index? m.sheets m.currentSheet = some sheet ∧
    0 ≤ m.cursorRow ∧ m.cursorRow < sheet.MaxRows ∧ 0 ≤ m.cursorCol ∧ m.cursorCol < sheet.MaxCols

/-! ## `internal/app/view.go` -/

/-- Checks if a cell is in the current selection (`isInSelection`). -/
def isInSelection (m : Model) (row col : Int) : Bool :=
  if !m.isSelecting then false
  else
    let startRow := m.selectStart.1
    let startCol := m.selectStart.2
    let endRow := m.selectEnd.1
    let endCol := m.selectEnd.2
    let rows := if startRow > endRow then (endRow, startRow) else (startRow, endRow)
    let cols := if startCol > endCol then (endCol, startCol) else (startCol, endCol)
    decide (row ≥ rows.1) && decide (row ≤ rows.2) && decide (col ≥ cols.1) &&
      decide (col ≤ cols.2)

/-- The rectangle `(startRow, startCol, endRow, endCol)` that `renderChart` passes to
`extractChartData`: the corners of the selection after the `// Normalize selection` block. -/
def chartSelection (m : Model) : Int × Int × Int × Int :=
  let startRow := m.selectStart.1
  let startCol := m.selectStart.2
  let endRow := m.selectEnd.1
  let endCol := m.selectEnd.2
  let rows := if startRow > endRow then (endRow, startRow) else (startRow, endRow)
  let cols := if startCol > endCol then (endCol, startCol) else (startCol, endCol)
  (rows.1, cols.1, rows.2, cols.2)

/-- The cell `renderFormulaBar` shows: the cell under the cursor, or nothing when the test
`m.cursorRow < len(sheet.Rows) && m.cursorCol < len(sheet.Rows[m.cursorRow])` fails. The outer
`none` is an index-out-of-range panic. -/
def renderFormulaBar (m : Model) : Option (Option Cell) :=
  match index? m.sheets m.currentSheet with
  | none => none
  | some sheet =>
    if m.cursorRow < (sheet.Rows.length : Int) then
      match index? sheet.Rows m.cursorRow with
      | none => none
      | some row =>
        if m.cursorCol < (row.length : Int) then
          match index? row m.cursorCol with
          | none => none
          | some cell => some (some cell)
        else some none
    else some none

/-! ## Go `float64` -/

/-- The `float64` arithmetic of the Go language and `strconv.ParseFloat`, as far as the chart
code uses them. They belong to the language and its library, not to the repository, and are a
parameter of the embedding. -/
structure Float64 where
  /-- the values of type `float64` -/
  F : Type
  /-- the conversion `float64(i)` of an `int`, also the constants `0` and `1` -/
  ofInt : Int → F
  /-- the sum `a + b` -/
  add : F → F → F
  /-- the difference `a - b` -/
  sub : F → F → F
  /-- the product `a * b` -/
  mul : F → F → F
  /-- the quotient `a / b`; dividing by zero does not panic, it gives an infinity or NaN -/
  div : F → F → F
  /-- the comparison `a == b` -/
  eq : F → F → Bool
  /-- the comparison `a < b`; the source's `a > b` is `lt b a` -/
  lt : F → F → Bool
  /-- the conversion `int(x)`: the fraction is discarded; for NaN, an infinity or a value
  outside the range of `int` the result is implementation-dependent -/
  toInt : F → Int
  /-- the call `strconv.ParseFloat(s, 64)`; `none` is a non-nil error -/
  ParseFloat : String → Option F

/-- The values of the exact instance of `Float64`: NaN, the two infinities and the fractions
`num / den` with `den > 0`. -/
inductive Exact where
  | nan
  | inf (negative : Bool)
  | fin (num : Int) (den : Int)
deriving DecidableEq, Repr

/-- Negation of an exact value. -/
def Exact.neg : Exact → Exact
  | .nan => .nan
  | .inf s => .inf (!s)
  | .fin a b => .fin (-a) b

/-- Sum of two exact values. -/
def Exact.add : Exact → Exact → Exact
  | .fin a b, .fin c d => .fin (a * d + c * b) (b * d)
  | .inf s, .inf t => if s = t then .inf s else .nan
  | .inf s, .fin _ _ => .inf s
  | .fin _ _, .inf t => .inf t
  | _, _ => .nan

/-- Product of two exact values. -/
def Exact.mul : Exact → Exact → Exact
  | .fin a b, .fin c d => .fin (a * c) (b * d)
  | .inf s, .inf t => .inf (s != t)
  | .inf s, .fin c _ => if c = 0 then .nan else .inf (s != decide (c < 0))
  | .fin a _, .inf t => if a = 0 then .nan else .inf (decide (a < 0) != t)
  | _, _ => .nan

/-- Quotient of two exact values; a zero divisor counts as `+0`. -/
def Exact.div : Exact → Exact → Exact
  | .fin a b, .fin c d =>
    if c = 0 then (if a = 0 then .nan else .inf (decide (a < 0)))
    else if c > 0 then .fin (a * d) (b * c)
    else .fin (-(a * d)) (b * (-c))
  | .fin _ _, .inf _ => .fin 0 1
  | .inf s, .fin c _ => .inf (s != decide (c < 0))
  | _, _ => .nan

/-- Equality `==` of two exact values; NaN equals nothing. -/
def Exact.eq : Exact → Exact → Bool
  | .fin a b, .fin c d => decide (a * d = c * b)
  | .inf s, .inf t => s == t
  | _, _ => false

/-- Order `<` of two exact values; NaN is comparable with nothing. -/
def Exact.lt : Exact → Exact → Bool
  | .fin a b, .fin c d => decide (a * d < c * b)
  | .inf s, .inf t => s && !t
  | .inf s, .fin _ _ => s
  | .fin _ _, .inf t => !t
  | _, _ => false

/-- Conversion `int(x)` of an exact value: truncation toward zero; `indefinite` for NaN, the
infinities and the values outside the range of `int`. -/
def Exact.toInt (indefinite : Int) : Exact → Int
  | .fin a b =>
    let t := Int.tdiv a b
    if minInt ≤ t ∧ t ≤ maxInt then t else indefinite
  | _ => indefinite

/-- The instance of `Float64` that computes without rounding error. It agrees with IEEE-754
binary64 wherever the exact result of an operation is representable (small integers and
fractions with a power of two as denominator); zero is unsigned. `ParseFloat` reads the decimal
integer numerals only. The result of `int(x)` where Go leaves it implementation-dependent is
the parameter `indefinite`. -/
@[reducible]
def Float64.exact (indefinite : Int) : Float64 where
  F := Exact
  ofInt := fun i => .fin i 1
  add := Exact.add
  sub := fun a b => Exact.add a (Exact.neg b)
  mul := Exact.mul
  div := Exact.div
  eq := Exact.eq
  lt := Exact.lt
  toInt := Exact.toInt indefinite
  ParseFloat := fun s => (Atoi s.data).map (fun n => Exact.fin n 1)

/-- The exact instance with the conversion of the amd64 port of Go: `CVTTSD2SQ` answers the
"integer indefinite" value `-2^63` for NaN, the infinities and out-of-range values. -/
@[reducible]
def Float64.amd64 : Float64 := Float64.exact minInt

/-! ## `internal/chart/chart.go` -/

/-- Height of the line chart of the chart package (`ChartHeight`). -/
def ChartHeight : Int := 15

/-- Width of the charts of the chart package (`ChartWidth`). -/
def ChartWidth : Int := 60

/-- The chart variants (`ChartType`, an `iota` enumeration); `renderChart` draws the bar chart
for `chartType` 0, the line chart for 1, the sparkline for 2 and the pie chart for 3. -/
def ChartBar : Int := 0
def ChartLine : Int := 1
def ChartSparkline : Int := 2
def ChartPie : Int := 3

/-- A label/value series (`chart.ChartData`). -/
structure ChartData (fl : Float64) where
  Labels : List String
  Values : List fl.F
  Title : String

/-- The loop of `ExtractChartData`,
`for row := startRow; row <= endRow && row < len(sheet.Rows); row++`, from the iteration with
the given `row` on. `none` is an index-out-of-range panic; the fuel bounds the number of
iterations and `ExtractChartData` supplies more than the loop can use. -/
def ExtractChartDataLoop (fl : Float64) (sheet : Sheet) (startCol endRow endCol : Int) :
    Nat → Int → ChartData fl → Option (ChartData fl)
  | 0, _, _ => none
  | fuel + 1, row, data =>
    if row ≤ endRow ∧ row < (sheet.Rows.length : Int) then
      match index? sheet.Rows row with
      | none => none
      | some cells =>
        if startCol < (cells.length : Int) then
          match index? cells startCol with
          | none => none
          | some labelCell =>
            let label :=
              if labelCell.Value = "" then "Row " ++ Sprintf_d (row + 1) else labelCell.Value
            let data := { data with Labels := data.Labels ++ [label] }
            if startCol + 1 ≤ endCol ∧ startCol + 1 < (cells.length : Int) then
              match index? cells (startCol + 1) with
              | none => none
              | some valCell =>
                match fl.ParseFloat valCell.Value with
                | some val =>
                  ExtractChartDataLoop fl sheet startCol endRow endCol fuel (row + 1)
                    { data with Values := data.Values ++ [val] }
                | none =>
                  ExtractChartDataLoop fl sheet startCol endRow endCol fuel (row + 1)
                    { data with Values := data.Values ++ [fl.ofInt 0] }
            else ExtractChartDataLoop fl sheet startCol endRow endCol fuel (row + 1) data
        else ExtractChartDataLoop fl sheet startCol endRow endCol fuel (row + 1) data
    else some data

/-- Extracts numeric data from selected cells (`chart.ExtractChartData`). -/
def ExtractChartData (fl : Float64) (sheet : Sheet) (startRow startCol endRow endCol : Int) :
    Option (ChartData fl) :=
  ExtractChartDataLoop fl sheet startCol endRow endCol (sheet.Rows.length + 1) startRow
    ⟨[], [], ""⟩

/-- The helper `maxFloat` (the same text in chart.go and in view.go). -/
def maxFloat (fl : Float64) (vals : List fl.F) : fl.F :=
  match vals with
  | [] => fl.ofInt 0
  | v0 :: _ => vals.foldl (fun max v => if fl.lt max v then v else max) v0

/-- The helper `minFloat` (the same text in chart.go and in view.go). -/
def minFloat (fl : Float64) (vals : List fl.F) : fl.F :=
  match vals with
  | [] => fl.ofInt 0
  | v0 :: _ => vals.foldl (fun min v => if fl.lt v min then v else min) v0

/-- What `RenderBarChart` and `renderBarChart` compute before they style and print it: the
scale maximum and the length `barLen` of each bar, in the order of the printed lines. -/
structure Bars (fl : Float64) where
  maxVal : fl.F
  barLens : List Int

/-- The local `maxLabelLen` of `RenderBarChart`: the largest `len(label)` (a count of bytes),
capped at 15. -/
def maxLabelLen (labels : List String) : Int :=
  let maxLabelLen := labels.foldl
    (fun maxLabelLen label =>
      if (label.utf8ByteSize : Int) > maxLabelLen then (label.utf8ByteSize : Int)
      else maxLabelLen) 0
  if maxLabelLen > 15 then 15 else maxLabelLen

/-- The numbers of `chart.RenderBarChart`; `none` is the placeholder "No data to visualize". -/
def RenderBarChart (fl : Float64) (data : ChartData fl) : Option (Bars fl) :=
  if data.Values.length = 0 then none
  else
    let maxVal := maxFloat fl data.Values
    let maxVal := if fl.eq maxVal (fl.ofInt 0) then fl.ofInt 1 else maxVal
    let barWidth := ChartWidth - maxLabelLen data.Labels - 15
    some ⟨maxVal, (data.Values.take data.Labels.length).map (fun val =>
      let barLen := fl.toInt (fl.mul (fl.ofInt barWidth) (fl.div val maxVal))
      let barLen := if barLen < 0 then 0 else barLen
      if barLen > barWidth then barWidth else barLen)⟩

/-- The glyph `drawLine` writes into a blank cell, chosen by the dominant axis and the signs of
the two steps. -/
def lineGlyph (dx dy sx sy : Int) : Char :=
  if dx > dy then '─'
  else if dy > dx then '|'
  else if (sx > 0 ∧ sy > 0) ∨ (sx < 0 ∧ sy < 0) then '\\'
  else '/'

/-- The assignment `grid[y][x] = c`; `none` is an index-out-of-range panic. -/
def setCell (grid : List (List Char)) (y x : Int) (c : Char) : Option (List (List Char)) :=
  match index? grid y with
  | none => none
  | some row =>
    if 0 ≤ x ∧ x < (row.length : Int) then some (grid.set y.toNat (row.set x.toNat c))
    else none

/-- The first statement of the body of the loop of `drawLine`: write the glyph at `(x0, y0)` if
that position is inside the grid and blank. The test reads `len(grid[0])` only when `x0 >= 0`.
`none` is an index-out-of-range panic. -/
def drawLineCell (grid : List (List Char)) (dx dy sx sy x0 y0 : Int) :
    Option (List (List Char)) :=
  if x0 ≥ 0 then
    match index? grid 0 with
    | none => none
    | some row0 =>
      if x0 < (row0.length : Int) ∧ y0 ≥ 0 ∧ y0 < (grid.length : Int) then
        match index? grid y0 with
        | none => none
        | some row =>
          match index? row x0 with
          | none => none
          | some c =>
            if c = ' ' then setCell grid y0 x0 (lineGlyph dx dy sx sy) else some grid
      else some grid
  else some grid

/-- The loop `for { ... }` of `drawLine` from the state `(x0, y0, err)` on. `none` is a panic
or the end of the fuel, which bounds the number of iterations. -/
def drawLineLoop (dx dy sx sy x1 y1 : Int) :
    Nat → List (List Char) → Int → Int → Int → Option (List (List Char))
  | 0, _, _, _, _ => none
  | fuel + 1, grid, x0, y0, err =>
    match drawLineCell grid dx dy sx sy x0 y0 with
    | none => none
    | some grid =>
      if x0 = x1 ∧ y0 = y1 then some grid
      else
        let e2 := 2 * err
        let errx := if e2 > -dy then (err - dy, x0 + sx) else (err, x0)
        let erry := if e2 < dx then (errx.1 + dx, y0 + sy) else (errx.1, y0)
        drawLineLoop dx dy sx sy x1 y1 fuel grid errx.2 erry.2 erry.1

/-- Bresenham rasterisation of the segment from `(x0, y0)` to `(x1, y1)` (`drawLine`), run for
at most `fuel` iterations of its loop. -/
def drawLine (fuel : Nat) (grid : List (List Char)) (x0 y0 x1 y1 : Int) :
    Option (List (List Char)) :=
  let dx := abs (x1 - x0)
  let dy := abs (y1 - y0)
  let sx := if x0 > x1 then -1 else 1
  let sy := if y0 > y1 then -1 else 1
  let err := dx - dy
  drawLineLoop dx dy sx sy x1 y1 fuel grid x0 y0 err

/-- The column `x` of the point with index `i` in a line chart of `n` values:
`int(float64(i) * float64(width-1) / float64(n-1))`, capped at `width - 1`. -/
def lineColumn (fl : Float64) (width : Int) (n : Int) (i : Int) : Int :=
  let x := fl.toInt (fl.div (fl.mul (fl.ofInt i) (fl.ofInt (width - 1))) (fl.ofInt (n - 1)))
  if x ≥ width then width - 1 else x

/-- The row `y` of a value in a line chart:
`height - 1 - int(normalized * float64(height-1))`, brought into `[0, height)`. -/
def lineRow (fl : Float64) (height : Int) (val minVal maxVal : fl.F) : Int :=
  let normalized := fl.div (fl.sub val minVal) (fl.sub maxVal minVal)
  let y := wrap64 (height - 1 - fl.toInt (fl.mul normalized (fl.ofInt (height - 1))))
  let y := if y < 0 then 0 else y
  if y ≥ height then height - 1 else y

/-- The grid of blanks both line charts start from. -/
def blankGrid (height width : Int) : List (List Char) :=
  List.replicate height.toNat (List.replicate width.toNat ' ')

/-- The grid of `chart.RenderLineChart` after the loop `// Plot points`; `none` is an
index-out-of-range panic. With no values the function returns its placeholder before it builds
a grid, which is the empty grid here. -/
def RenderLineChart (fl : Float64) (data : ChartData fl) : Option (List (List Char)) :=
  if data.Values.length = 0 then some []
  else
    let height := ChartHeight
    let width := ChartWidth
    let minVal := minFloat fl data.Values
    let maxVal := maxFloat fl data.Values
    let maxVal := if fl.eq maxVal minVal then fl.add minVal (fl.ofInt 1) else maxVal
    data.Values.enum.foldl (fun acc iv =>
      match acc with
      | none => none
      | some grid =>
        let i : Int := iv.1
        let x := lineColumn fl width data.Values.length i
        let y := lineRow fl height iv.2 minVal maxVal
        match setCell grid y x '●' with
        | none => none
        | some grid =>
          if i > 0 then
            match index? data.Values (i - 1) with
            | none => none
            | some prevVal =>
              let prevX := fl.toInt (fl.div (fl.mul (fl.ofInt (i - 1)) (fl.ofInt (width - 1)))
                (fl.ofInt ((data.Values.length : Int) - 1)))
              let prevY := lineRow fl height prevVal minVal maxVal
              drawLine (abs (x - prevX) + abs (y - prevY) + 1).toNat grid prevX prevY x y
          else some grid) (some (blankGrid height width))

/-- The positions `(x0, y0)` at which the loop of `drawLine` runs its body, in order, from the
state `(x0, y0, err)` on: the loop of `drawLineLoop` without the grid. `none` when the fuel
ends before the loop does. -/
def drawLinePath (dx dy sx sy x1 y1 : Int) : Nat → Int → Int → Int → Option (List (Int × Int))
  | 0, _, _, _ => none
  | fuel + 1, x0, y0, err =>
    if x0 = x1 ∧ y0 = y1 then some [(x0, y0)]
    else
      let e2 := 2 * err
      let errx := if e2 > -dy then (err - dy, x0 + sx) else (err, x0)
      let erry := if e2 < dx then (errx.1 + dx, y0 + sy) else (errx.1, y0)
      match drawLinePath dx dy sx sy x1 y1 fuel errx.2 erry.2 erry.1 with
      | none => none
      | some cells => some ((x0, y0) :: cells)

/-- The cells `drawLine` visits from `(x0, y0)` to `(x1, y1)`, within `fuel` iterations. -/
def drawLineVisits (fuel : Nat) (x0 y0 x1 y1 : Int) : Option (List (Int × Int)) :=
  let dx := abs (x1 - x0)
  let dy := abs (y1 - y0)
  let sx := if x0 > x1 then -1 else 1
  let sy := if y0 > y1 then -1 else 1
  let err := dx - dy
  drawLinePath dx dy sx sy x1 y1 fuel x0 y0 err

/-- The function `abs` with the negation brought into the range of the 64-bit `int`. -/
def abs64 (x : Int) : Int := if x < 0 then wrap64 (-x) else x

/-- The loop of `drawLinePath` with the result of every sum, difference, product and negation
brought into the range of the 64-bit `int` (`wrap64`). -/
def drawLinePath64 (dx dy sx sy x1 y1 : Int) : Nat → Int → Int → Int → Option (List (Int × Int))
  | 0, _, _, _ => none
  | fuel + 1, x0, y0, err =>
    if x0 = x1 ∧ y0 = y1 then some [(x0, y0)]
    else
      let e2 := wrap64 (2 * err)
      let errx :=
        if e2 > wrap64 (-dy) then (wrap64 (err - dy), wrap64 (x0 + sx)) else (err, x0)
      let erry := if e2 < dx then (wrap64 (errx.1 + dx), wrap64 (y0 + sy)) else (errx.1, y0)
      match drawLinePath64 dx dy sx sy x1 y1 fuel errx.2 erry.2 erry.1 with
      | none => none
      | some cells => some ((x0, y0) :: cells)

/-- The cells `drawLine` visits, computed in the 64-bit arithmetic of `int`. -/
def drawLineVisits64 (fuel : Nat) (x0 y0 x1 y1 : Int) : Option (List (Int × Int)) :=
  let dx := abs64 (wrap64 (x1 - x0))
  let dy := abs64 (wrap64 (y1 - y0))
  let sx := if x0 > x1 then -1 else 1
  let sy := if y0 > y1 then -1 else 1
  let err := wrap64 (dx - dy)
  drawLinePath64 dx dy sx sy x1 y1 fuel x0 y0 err

/-- The helper `sumFloat` (the same text in chart.go and in view.go). -/
def sumFloat (fl : Float64) (vals : List fl.F) : fl.F :=
  vals.foldl (fun sum v => fl.add sum v) (fl.ofInt 0)

/-- The local `chars` of both sparklines: the eight block glyphs, in increasing height. -/
def sparkChars : List Char := ['▁', '▂', '▃', '▄', '▅', '▆', '▇', '█']

/-- The index `idx` into `chars` of one value in both sparklines:
`int(normalized * float64(len(chars)-1))`, brought into `[0, len(chars))`. -/
def sparkIndex (fl : Float64) (val minVal maxVal : fl.F) : Int :=
  let normalized := fl.div (fl.sub val minVal) (fl.sub maxVal minVal)
  let idx := fl.toInt (fl.mul normalized (fl.ofInt ((sparkChars.length : Int) - 1)))
  let idx := if idx < 0 then 0 else idx
  if idx ≥ (sparkChars.length : Int) then (sparkChars.length : Int) - 1 else idx

/-- The glyphs of `chart.RenderSparkline`, before the accent colour is applied; with no values
the function returns the empty string. `none` is an index-out-of-range panic. -/
def RenderSparkline (fl : Float64) (data : ChartData fl) : Option (List Char) :=
  if data.Values.length = 0 then some []
  else
    let minVal := minFloat fl data.Values
    let maxVal := maxFloat fl data.Values
    let maxVal := if fl.eq maxVal minVal then fl.add minVal (fl.ofInt 1) else maxVal
    data.Values.foldl (fun b val =>
      match b with
      | none => none
      | some b =>
        match index? sparkChars (sparkIndex fl val minVal maxVal) with
        | none => none
        | some c => some (b ++ [c])) (some [])

/-- What a renderer returns from the guard `if len(data.Values) == 0` at its top. -/
inductive Placeholder where
  /-- the statement `return s` -/
  | plain (s : String)
  /-- the statement `return style.Render(s)`: the text `s` in the style of the caller -/
  | styled (s : String)
deriving DecidableEq, Repr

/-- The guard at the top of `chart.RenderBarChart`; `none` when the function goes on to draw. -/
def RenderBarChart_noData (fl : Float64) (data : ChartData fl) : Option Placeholder :=
  if data.Values.length = 0 then some (.styled "No data to visualize") else none

/-- The guard at the top of `chart.RenderLineChart`; `none` when the function goes on to
draw. -/
def RenderLineChart_noData (fl : Float64) (data : ChartData fl) : Option Placeholder :=
  if data.Values.length = 0 then some (.styled "No data to visualize") else none

/-- The guard at the top of `chart.RenderSparkline`; `none` when the function goes on to
draw. -/
def RenderSparkline_noData (fl : Float64) (data : ChartData fl) : Option Placeholder :=
  if data.Values.length = 0 then some (.plain "") else none

/-- The guard at the top of `chart.RenderPieChart`; `none` when the function goes on to draw. -/
def RenderPieChart_noData (fl : Float64) (data : ChartData fl) : Option Placeholder :=
  if data.Values.length = 0 then some (.styled "No data to visualize") else none

/-- The loop `// Legend` of both pie charts, from the entry `i` on: the colour, the label and
the percentage of each printed line. The loop stops at the first `i` that is not below both
`len(data.Values)` and `len(colors)`. `none` is an index-out-of-range panic. -/
def pieLegendLoop (fl : Float64) (values : List fl.F) (colors : List String) (total : fl.F) :
    List String → Nat → Option (List (String × String × fl.F))
  | [], _ => some []
  | label :: rest, i =>
    if i ≥ values.length ∨ i ≥ colors.length then some []
    else
      match values[i]?, colors[i % colors.length]? with
      | some v, some color =>
        let percentage := fl.mul (fl.div v total) (fl.ofInt 100)
        match pieLegendLoop fl values colors total rest (i + 1) with
        | none => none
        | some lines => some ((color, label, percentage) :: lines)
      | _, _ => none

/-- The legend of `chart.RenderPieChart`: colour, label and percentage of each line; no line
when the function returns its placeholder. `none` is an index-out-of-range panic, which the
title's `colors[0]` is when there is a title and no colour. -/
def RenderPieChartLegend (fl : Float64) (data : ChartData fl) (colors : List String) :
    Option (List (String × String × fl.F)) :=
  if data.Values.length = 0 then some []
  else if data.Title ≠ "" ∧ colors[0]? = none then none
  else
    let total := sumFloat fl data.Values
    let total := if fl.eq total (fl.ofInt 0) then fl.ofInt 1 else total
    pieLegendLoop fl data.Values colors total data.Labels 0

/-! ## `internal/app/view.go`: the chart helpers -/

/-- The series type of the app package (`chartData` in view.go). -/
structure chartData (fl : Float64) where
  Labels : List String
  Values : List fl.F

/-- The loop of `extractChartData` in view.go,
`for row := startRow; row <= endRow && row < len(sheet.Rows); row++`, from the iteration with
the given `row` on. `none` is an index-out-of-range panic; the fuel bounds the number of
iterations and `extractChartData` supplies more than the loop can use. -/
def extractChartDataLoop (fl : Float64) (sheet : Sheet) (startCol endRow endCol : Int) :
    Nat → Int → chartData fl → Option (chartData fl)
  | 0, _, _ => none
  | fuel + 1, row, data =>
    if row ≤ endRow ∧ row < (sheet.Rows.length : Int) then
      match index? sheet.Rows row with
      | none => none
      | some cells =>
        if startCol < (cells.length : Int) then
          match index? cells startCol with
          | none => none
          | some labelCell =>
            let label :=
              if labelCell.Value = "" then "Row " ++ Sprintf_d (row + 1) else labelCell.Value
            let data := { data with Labels := data.Labels ++ [label] }
            if startCol + 1 ≤ endCol ∧ startCol + 1 < (cells.length : Int) then
              match index? cells (startCol + 1) with
              | none => none
              | some valCell =>
                match fl.ParseFloat valCell.Value with
                | some val =>
                  extractChartDataLoop fl sheet startCol endRow endCol fuel (row + 1)
                    { data with Values := data.Values ++ [val] }
                | none =>
                  extractChartDataLoop fl sheet startCol endRow endCol fuel (row + 1)
                    { data with Values := data.Values ++ [fl.ofInt 0] }
            else extractChartDataLoop fl sheet startCol endRow endCol fuel (row + 1) data
        else extractChartDataLoop fl sheet startCol endRow endCol fuel (row + 1) data
    else some data

/-- The series extraction of the app package (`extractChartData` in view.go). -/
def extractChartData (fl : Float64) (sheet : Sheet) (startRow startCol endRow endCol : Int) :
    Option (chartData fl) :=
  extractChartDataLoop fl sheet startCol endRow endCol (sheet.Rows.length + 1) startRow ⟨[], []⟩

/-- The numbers of `renderBarChart` in view.go (label width 15, bar width 40); `none` is the
placeholder "No data". -/
def renderBarChart (fl : Float64) (data : chartData fl) : Option (Bars fl) :=
  if data.Values.length = 0 then none
  else
    let maxVal := maxFloat fl data.Values
    let maxVal := if fl.eq maxVal (fl.ofInt 0) then fl.ofInt 1 else maxVal
    let barWidth := 40
    some ⟨maxVal, (data.Values.take data.Labels.length).map (fun val =>
      let barLen := fl.toInt (fl.mul (fl.ofInt barWidth) (fl.div val maxVal))
      if barLen < 0 then 0 else barLen)⟩

/-- The grid of `renderLineChart` in view.go (12 rows of 50 columns) after its plotting loop;
`none` is an index-out-of-range panic. With no values the function returns its placeholder
before it builds a grid, which is the empty grid here. -/
def renderLineChart (fl : Float64) (data : chartData fl) : Option (List (List Char)) :=
  if data.Values.length = 0 then some []
  else
    let height := 12
    let width := 50
    let minVal := minFloat fl data.Values
    let maxVal := maxFloat fl data.Values
    let maxVal := if fl.eq maxVal minVal then fl.add minVal (fl.ofInt 1) else maxVal
    data.Values.enum.foldl (fun acc iv =>
      match acc with
      | none => none
      | some grid =>
        let x := lineColumn fl width data.Values.length iv.1
        let y := lineRow fl height iv.2 minVal maxVal
        setCell grid y x '●') (some (blankGrid height width))

/-- The guard at the top of `renderBarChart` in view.go; `none` when the function goes on to
draw. -/
def renderBarChart_noData (fl : Float64) (data : chartData fl) : Option Placeholder :=
  if data.Values.length = 0 then some (.plain "No data") else none

/-- The guard at the top of `renderLineChart` in view.go; `none` when the function goes on to
draw. -/
def renderLineChart_noData (fl : Float64) (data : chartData fl) : Option Placeholder :=
  if data.Values.length = 0 then some (.plain "No data") else none

/-- The guard at the top of `renderSparkline` in view.go; `none` when the function goes on to
draw. -/
def renderSparkline_noData (fl : Float64) (data : chartData fl) : Option Placeholder :=
  if data.Values.length = 0 then some (.plain "") else none

/-- The guard at the top of `renderPieChart` in view.go; `none` when the function goes on to
draw. -/
def renderPieChart_noData (fl : Float64) (data : chartData fl) : Option Placeholder :=
  if data.Values.length = 0 then some (.plain "No data") else none

/-- The glyphs of `renderSparkline` in view.go, before the accent colour is applied; with no
values the function returns the empty string. `none` is an index-out-of-range panic. -/
def renderSparkline (fl : Float64) (data : chartData fl) : Option (List Char) :=
  if data.Values.length = 0 then some []
  else
    let minVal := minFloat fl data.Values
    let maxVal := maxFloat fl data.Values
    let maxVal := if fl.eq maxVal minVal then fl.add minVal (fl.ofInt 1) else maxVal
    data.Values.foldl (fun b val =>
      match b with
      | none => none
      | some b =>
        match index? sparkChars (sparkIndex fl val minVal maxVal) with
        | none => none
        | some c => some (b ++ [c])) (some [])

/-- The legend of `renderPieChart` in view.go: colour, label and percentage of each line; no
line when the function returns its placeholder. -/
def renderPieChartLegend (fl : Float64) (data : chartData fl) (colors : List String) :
    Option (List (String × String × fl.F)) :=
  if data.Values.length = 0 then some []
  else
    let total := sumFloat fl data.Values
    let total := if fl.eq total (fl.ofInt 0) then fl.ofInt 1 else total
    pieLegendLoop fl data.Values colors total data.Labels 0

/-- The colours `renderChart` passes to `renderPieChart`, by the theme fields they are read
from: `[]lipgloss.Color{t.Accent, t.Primary, t.Secondary, t.Success, t.Warning}`. -/
def renderChartColors : List String := ["Accent", "Primary", "Secondary", "Success", "Warning"]

/-! ## Reference definitions taken from the specification -/

/-- The minimal-scroll policy in the words of the specification, for one axis: if
`cursor < offset` the offset becomes `cursor`; if `cursor ≥ offset + extent` it becomes
`cursor - extent + 1`; otherwise it is unchanged. -/
def minimalScroll (cursor offset extent : Int) : Int :=
  if cursor < offset then cursor
  else if cursor ≥ offset + extent then cursor - extent + 1
  else offset

/-- The centring policy in the words of the specification, for one axis:
`offset = max(0, cursor - extent/2)`. -/
def centerOffset (cursor extent : Int) : Int := max 0 (cursor - extent / 2)

/-- Two characters are the same letter when case is ignored: their `strings.ToLower` images
are equal. -/
def sameLetter (U : Unicode) (a b : Char) : Prop := lowerRune U a = lowerRune U b

/-- The search match in the words of the specification: `q` occurs in `s` as a substring when
letter case is ignored, that is, some contiguous piece of `s` agrees with `q` letter by letter
up to case. -/
def ContainsIgnoringCase (U : Unicode) (s q : List Char) : Prop :=
  ∃ piece, piece <:+: s ∧ List.Forall₂ (sameLetter U) piece q

/-- Row-major order on cell coordinates: row ascending, then column ascending. -/
def rowMajorLt (a b : Cell) : Prop := a.Row < b.Row ∨ (a.Row = b.Row ∧ a.Col < b.Col)

/-! ## Vocabulary of the properties -/

/-- The key is bound to one of the ten movement actions (up, down, left, right, page-down,
page-up, home, end, first-col, last-col) of the state's key map. -/
def isMovementKey (m : Model) (k : KeyMsg) : Bool :=
  Matches k m.keys.Up || Matches k m.keys.Down || Matches k m.keys.Left ||
  Matches k m.keys.Right || Matches k m.keys.PageDown || Matches k m.keys.PageUp ||
  Matches k m.keys.Home || Matches k m.keys.End || Matches k m.keys.FirstCol ||
  Matches k m.keys.LastCol

/-- A key press of the default key map, without modifiers: the rune `c`. -/
def runeKey (c : Char) : KeyMsg := ⟨.KeyRunes, [c], false, false⟩

/-- A special key by its name, without modifiers. -/
def namedKey (s : String) : KeyMsg := ⟨.named s, [], false, false⟩

/-- An `Outside` record for events that touch no collaborator. -/
def quiet : Outside := ⟨"", false, none⟩

/-- The sheet invariant the loader establishes (`loadCSV`, `loadExcel`): `MaxRows` is the number
of rows, `MaxCols` the largest row length, and the cell stored at `(i, j)` carries `Row = i` and
`Col = j`. -/
def Sheet.wellFormed (s : Sheet) : Bool :=
  decide (s.MaxRows = (s.Rows.length : Int)) &&
  decide (s.MaxCols = (((s.Rows.map List.length).foldl Nat.max 0 : Nat) : Int)) &&
  s.Rows.enum.all (fun ir =>
    ir.2.enum.all (fun jc =>
      decide (jc.2.Row = (ir.1 : Int)) && decide (jc.2.Col = (jc.1 : Int))))

/-- A workbook as `main` hands it to `NewModel` when every sheet has at least one row and one
column: each sheet satisfies the loader's invariant and has `MaxRows ≥ 1`, `MaxCols ≥ 1`. -/
def GoodSheets (sheets : List Sheet) : Prop :=
  ∀ sheet ∈ sheets, sheet.wellFormed = true ∧ 1 ≤ sheet.MaxRows ∧ 1 ≤ sheet.MaxCols

instance (sheets : List Sheet) : Decidable (GoodSheets sheets) :=
  inferInstanceAs (Decidable (∀ sheet ∈ sheets,
    sheet.wellFormed = true ∧ 1 ≤ sheet.MaxRows ∧ 1 ≤ sheet.MaxCols))

/-- The cursor, the viewport offsets and the coordinates of the stored search results are all
non-negative, over the workbook `sheets`. -/
def ViewInv (sheets : List Sheet) (m : Model) : Prop :=
  m.sheets = sheets ∧ 0 ≤ m.cursorRow ∧ 0 ≤ m.cursorCol ∧ 0 ≤ m.offsetRow ∧ 0 ≤ m.offsetCol ∧
    ∀ cell ∈ m.searchResults, 0 ≤ cell.Row ∧ 0 ≤ cell.Col

/-- Decidable form of `CursorInBounds`. -/
def cursorInBounds (m : Model) : Bool :=
  match index? m.sheets m.currentSheet with
  | some sheet =>
    decide (0 ≤ m.cursorRow) && decide (m.cursorRow < sheet.MaxRows) &&
      decide (0 ≤ m.cursorCol) && decide (m.cursorCol < sheet.MaxCols)
  | none => false

/-- A cell holding the text `v` at `(r, c)`, without formula. -/
def textCell (v : String) (r c : Int) : Cell := ⟨v, "", r, c⟩

/-- A 3×1 sheet whose last row holds `"x"`. -/
def demoSheet : Sheet :=
  ⟨"s0", [[textCell "a" 0 0], [textCell "a" 1 0], [textCell "x" 2 0]], 3, 1⟩

/-- A two-sheet workbook as `loadExcel` builds it: `demoSheet` and a 1×1 sheet. -/
def demoBook : List Sheet := [demoSheet, ⟨"s1", [[textCell "b" 0 0]], 1, 1⟩]

/-- The program started on `demoBook`. -/
def demoModel : Model := NewModel "book.xlsx" demoBook "nord"

/-- The key press of the rune `c`, the focused text input (if any) then holding `typed`. -/
def press (c : Char) (typed : String) : Msg := Msg.KeyMsg (runeKey c) ⟨typed, false, none⟩

/-- The Enter key. -/
def pressEnter : Msg := Msg.KeyMsg ⟨.KeyEnter, [], false, false⟩ quiet

/-- The Tab key. -/
def pressTab : Msg := Msg.KeyMsg (namedKey "tab") quiet

/-- The jump key, ctrl+g. -/
def pressJump : Msg := Msg.KeyMsg (namedKey "ctrl+g") quiet

/-- Four movement keys: down, page-down, end, up. -/
def demoKeys : List (KeyMsg × Outside) :=
  [(runeKey 'j', quiet), (namedKey "pgdown", quiet), (runeKey '$', quiet), (runeKey 'k', quiet)]

/-- Search for `"x"` on the first sheet (three rows, the match in the last one), then switch to
the second sheet with tab. -/
def searchThenTab : List Msg := [press '/' "", press 'x' "x", pressEnter, pressTab]

/-- The state of `demoModel` after `searchThenTab`: the second sheet is active, the cursor and
the viewport are reset, the results of the search on the first sheet are still stored. -/
def staleState : Model :=
  { demoModel with currentSheet := 1, searchInput := "x", searchQuery := "x",
                   searchResults := [textCell "x" 2 0], status := ⟨"→ s1", StatusInfo⟩ }

/-- Move to the last row of the first sheet, open the jump prompt and type `typed` (the widget
holds it after the last key). -/
def jumpTyping (typed : String) : List Msg :=
  [press 'j' "", press 'j' "", pressJump, press 'A' typed]

/-- The state of `demoModel` after `jumpTyping typed`: cursor on row 2, jump prompt open. -/
def jumpState (typed : String) : Model :=
  { demoModel with cursorRow := 2, offsetRow := 2, mode := Mode.ModeJump, jumpInput := typed }

/-- The state of `demoModel` after a search for `"x"` and two resizes. -/
def demoReached : Model :=
  (run Unicode.ascii demoModel
    [Msg.WindowSizeMsg 80 24, press '/' "", press 'x' "x", pressEnter,
     Msg.WindowSizeMsg 10 3]).getD demoModel

/-- A 50-row sheet of one column, as `loadCSV` builds it. -/
def fiftySheet : Sheet :=
  ⟨"fifty.csv", (List.range 50).map (fun i => [textCell "v" (i : Int) 0]), 50, 1⟩

/-- The program started on `fiftySheet`. -/
def fiftyModel : Model := NewModel "fifty.csv" [fiftySheet] "catppuccin"

/-- The condition under which the loop of `SearchSheet` appends a cell, for the query `term`. -/
def cellMatches (U : Unicode) (term : String) (cell : Cell) : Bool :=
  Contains (ToLower U cell.Value.data) (ToLower U term.data) ||
    Contains (ToLower U cell.Formula.data) (ToLower U term.data)

/-- A run of `n` spaces. -/
def spaces (n : Nat) : List Char := List.replicate n ' '

/-- The jump input made of the decimal of `r`, a comma and the decimal of `c`, with `a`, `b`,
`c1`, `d` spaces before and after the two numbers. -/
def pairInput (r c : Int) (a b c1 d : Nat) : String :=
  String.mk (spaces a ++ (Sprintf_d r).data ++ spaces b ++ [','] ++ spaces c1 ++
    (Sprintf_d c).data ++ spaces d)

/-- The entries of Go's `unicode` case tables for the three Greek sigmas: the upper case of both
`σ` (U+03C3) and final `ς` (U+03C2) is `Σ` (U+03A3), and the lower case of `Σ` is `σ`. -/
def Unicode.sigma : Unicode where
  upper := fun c => if c = 'ς' ∨ c = 'σ' then 'Σ' else c
  lower := fun c => if c = 'Σ' then 'σ' else c

/-- A one-cell sheet holding the final sigma. -/
def sigmaSheet : Sheet := ⟨"sigma", [[textCell "ς" 0 0]], 1, 1⟩

/-- The Escape key. -/
def escKey : KeyMsg := ⟨.KeyEscape, [], false, false⟩

/-- The Enter key. -/
def enterKey : KeyMsg := ⟨.KeyEnter, [], false, false⟩

/-- A 10×5 sheet as the loader builds it. -/
def gridSheet : Sheet :=
  ⟨"grid", (List.range 10).map (fun i =>
      (List.range 5).map (fun j => textCell "v" (i : Int) (j : Int))), 10, 5⟩

/-- The program started on `gridSheet`. -/
def gridModel : Model := NewModel "grid.csv" [gridSheet] "catppuccin"

/-- Search mode of `demoModel` with a blank input. -/
def blankSearchModel : Model := { demoModel with mode := Mode.ModeSearch, searchInput := "   " }

/-- Search mode of `demoModel` with the input `" a "` typed, a query committed before. -/
def typedSearchModel : Model :=
  { demoModel with mode := Mode.ModeSearch, searchInput := " a ", searchQuery := "x",
                   searchResults := [textCell "x" 2 0], cursorRow := 2, offsetRow := 2 }

/-- Normal mode of `demoModel` after a search for `"a"`, on the last of its two results. -/
def navModel : Model :=
  { demoModel with searchQuery := "a", searchResults := [textCell "a" 0 0, textCell "a" 1 0],
                   searchIndex := 1, cursorRow := 1, offsetRow := 1 }

/-- A state in SelectRange mode holding a selection dragged upwards from `(2,0)` to `(0,0)`. -/
def selectModel : Model :=
  { demoModel with mode := Mode.ModeSelectRange, isSelecting := true, selectStart := (2, 0),
                   selectEnd := (0, 0) }

/-- The cell at row `r`, column `c` of a sheet, if the sheet has one there. -/
def cellAt (sheet : Sheet) (r c : Int) : Option Cell :=
  match index? sheet.Rows r with
  | none => none
  | some cells => index? cells c

/-- The rows of the rectangle that the sheet has: `startRow, startRow + 1, ...` up to the
smaller of `endRow` and the last row of the sheet. -/
def chartRows (sheet : Sheet) (startRow endRow : Int) : List Int :=
  (List.range' startRow.toNat
    (min (endRow + 1) (sheet.Rows.length : Int) - startRow).toNat).map Int.ofNat

/-- The label a row contributes to a series: the value of its cell in the label column
`startCol`, or `Row {r+1}` when that value is empty; nothing when the row has no such cell. -/
def rowLabel (sheet : Sheet) (startCol : Int) (r : Int) : Option String :=
  (cellAt sheet r startCol).map
    (fun cell => if cell.Value = "" then "Row " ++ Sprintf_d (r + 1) else cell.Value)

/-- The value a row contributes to a series whose rectangle ends at column `endCol`: the parsed
value of its cell in the column `startCol + 1`, or zero when that text does not parse; nothing
when the rectangle is one column wide or the row has no such cell. -/
def rowValue (fl : Float64) (sheet : Sheet) (startCol endCol : Int) (r : Int) : Option fl.F :=
  if startCol + 1 ≤ endCol then
    (cellAt sheet r (startCol + 1)).map (fun cell => (fl.ParseFloat cell.Value).getD (fl.ofInt 0))
  else none

/-- A jagged sheet as `loadExcel` builds it from rows whose trailing blank cells are dropped:
the second row has a label but no cell in the value column. -/
def jaggedSheet : Sheet :=
  ⟨"jagged", [[textCell "a" 0 0, textCell "1" 0 1], [textCell "b" 1 0],
              [textCell "c" 2 0, textCell "3" 2 1]], 3, 2⟩

/-- A sheet with a blank label and a value that is not a number. -/
def mixedSheet : Sheet :=
  ⟨"mixed", [[textCell "a" 0 0, textCell "7" 0 1], [textCell "" 1 0, textCell "x" 1 1]], 2, 2⟩

/-- The character at row `y`, column `x` of a grid, if the grid has that position. -/
def gridCell (grid : List (List Char)) (y x : Int) : Option Char :=
  match index? grid y with
  | none => none
  | some row => index? row x

/-- The four glyphs `drawLine` writes. -/
def lineGlyphs : List Char := ['─', '|', '\\', '/']

/-- A grid with at least one row whose rows all have the length `width`, as `RenderLineChart`
builds it. -/
def Rectangular (grid : List (List Char)) (width : Nat) : Prop :=
  grid ≠ [] ∧ ∀ row ∈ grid, row.length = width

instance (grid : List (List Char)) (width : Nat) : Decidable (Rectangular grid width) := by
  unfold Rectangular
  infer_instance

/-- First write wins: `after` has the shape of `before`, and each cell either is unchanged or
was blank and now holds `glyph`. -/
def FirstWriteWins (glyph : Char) (before after : List (List Char)) : Prop :=
  after.length = before.length ∧
  ∀ y x : Int, gridCell after y x = gridCell before y x ∨
    (gridCell before y x = some ' ' ∧ gridCell after y x = some glyph)

/-- A 3×4 grid with a point marker at row 1, column 1. -/
def smallGrid : List (List Char) :=
  [[' ', ' ', ' ', ' '], [' ', '●', ' ', ' '], [' ', ' ', ' ', ' ']]

/-- The rational number an exact value stands for (zero for NaN and the infinities). -/
def Exact.value : Exact → ℚ
  | .fin a b => (a : ℚ) / (b : ℚ)
  | _ => 0

/-- What no handler of `Update` breaks: the mode is not SelectRange, the key map is the default
one, the search index points into the stored results unless there are none, and the active
sheet exists unless the workbook is empty. -/
def StateInv (m : Model) : Prop :=
  m.mode ≠ Mode.ModeSelectRange ∧ m.keys = DefaultKeyMap ∧
  (m.searchResults = [] ∨
    (0 ≤ m.searchIndex ∧ m.searchIndex < (m.searchResults.length : Int))) ∧
  (m.sheets = [] ∨ (0 ≤ m.currentSheet ∧ m.currentSheet < (m.sheets.length : Int)))

/-- The cursor is inside the visible window on both axes. -/
def cursorVisible (m : Model) : Prop :=
  m.offsetRow ≤ m.cursorRow ∧ m.cursorRow < m.offsetRow + visibleRows m ∧
  m.offsetCol ≤ m.cursorCol ∧ m.cursorCol < m.offsetCol + visibleCols m

instance (m : Model) : Decidable (cursorVisible m) := by
  unfold cursorVisible
  infer_instance

/-- The workbook `loadCSV` returns for an empty file: one sheet without rows. -/
def emptyBook : List Sheet := loadCSV "empty.csv" []

/-- The program started on the empty file. -/
def emptyModel : Model := NewModel "empty.csv" emptyBook "catppuccin"

/-- A small workbook as `f.GetRows` returns it: rows of different lengths, one sheet that
could not be read. -/
def demoWorkbook : List (String × Option (List (List String))) :=
  [("first", some [["a", "1"], ["b"], ["c", "3", "x"]]), ("broken", none), ("last", some [])]

/-- The first sheet of the small workbook, as `loadExcel` builds it when no cell has a
formula. -/
def demoLoaded : Sheet :=
  ⟨"first",
    [[⟨"a", "", 0, 0⟩, ⟨"1", "", 0, 1⟩], [⟨"b", "", 1, 0⟩],
      [⟨"c", "", 2, 0⟩, ⟨"3", "", 2, 1⟩, ⟨"x", "", 2, 2⟩]],
    3, 3⟩

/-- The workbook `loadExcel` returns for one sheet with a single row without cells. -/
def blankRowBook : List Sheet := loadExcel (fun _ _ _ => "") [("blank", some [[]])]

/-- The program started on the sheet with a single row without cells. -/
def blankRowModel : Model := NewModel "blank.xlsx" blankRowBook "catppuccin"

/-- The upper end of the scale of both sparklines and line charts: the maximum, or the
minimum plus 1 when the two are equal. -/
def scaleMax (fl : Float64) (values : List fl.F) : fl.F :=
  if fl.eq (maxFloat fl values) (minFloat fl values) then fl.add (minFloat fl values) (fl.ofInt 1)
  else maxFloat fl values

/-- The product `normalized * float64(len(chars)-1)` the sparkline of the series `values`
computes for the value `v`. -/
def sparkScaled (fl : Float64) (values : List fl.F) (v : fl.F) : fl.F :=
  fl.mul (fl.div (fl.sub v (minFloat fl values)) (fl.sub (scaleMax fl values) (minFloat fl values)))
    (fl.ofInt 7)

/-- The level, an index into the eight glyphs, the sparkline of the series `values` gives the
value `v`. -/
def sparkLevel (fl : Float64) (values : List fl.F) (v : fl.F) : Int :=
  sparkIndex fl v (minFloat fl values) (scaleMax fl values)

/-- The total both pie charts divide by: the sum of the values, or 1 when that sum is zero. -/
def pieTotal (fl : Float64) (values : List fl.F) : fl.F :=
  if fl.eq (sumFloat fl values) (fl.ofInt 0) then fl.ofInt 1 else sumFloat fl values

/-- A series of three values: 2, 4 and 3. -/
def threeValues : List Exact := [.fin 2 1, .fin 4 1, .fin 3 1]

/-- A series of six entries with the values 1 to 6. -/
def sixValues : List Exact := [.fin 1 1, .fin 2 1, .fin 3 1, .fin 4 1, .fin 5 1, .fin 6 1]

/-- The labels of the series of six entries. -/
def sixLabels : List String := ["a", "b", "c", "d", "e", "f"]

/-- A series of two values with an unbounded range: 0 and +Inf. -/
def unboundedValues : List Exact := [.fin 0 1, .inf false]

/-- A two-sheet workbook as `loadExcel` builds it: a 1×3 sheet holding `"x"` in its last
column, and a 3×1 sheet. -/
def wideBook : List Sheet :=
  [⟨"wide", [[textCell "a" 0 0, textCell "b" 0 1, textCell "x" 0 2]], 1, 3⟩,
   ⟨"tall", [[textCell "p" 0 0], [textCell "q" 1 0], [textCell "r" 2 0]], 3, 1⟩]

/-- The program started on `wideBook`. -/
def wideModel : Model := NewModel "wide.xlsx" wideBook "nord"

/-- The state of `wideModel` after `searchThenTab`: the second sheet is active, the cursor and
the viewport are reset, the result of the search on the first sheet is still stored. -/
def wideStale : Model :=
  { wideModel with currentSheet := 1, searchInput := "x", searchQuery := "x",
                   searchResults := [textCell "x" 0 2], status := ⟨"→ tall", StatusInfo⟩ }

/-- The state of `wideStale` after the key `n`: the cursor is on the stored result `(0, 2)`,
a column the 3×1 sheet does not have. -/
def wideOutside : Model :=
  { wideStale with cursorCol := 2, offsetCol := 2, status := ⟨"Match 1/1", StatusInfo⟩ }

/-- The state of `wideOutside` after the jump key and the digit `2`: jump prompt open. -/
def wideJumping : Model := { wideOutside with mode := Mode.ModeJump, jumpInput := "2" }

/-- Open the jump prompt, type `2` and press enter. -/
def jumpToRowTwo : List Msg := [pressJump, press '2' "2", pressEnter]

/-- The Escape key pressed with Alt (`tea.KeyMsg{Type: tea.KeyEscape, Alt: true}`), whose text
is `"alt+esc"`. -/
def altEscKey : KeyMsg := ⟨.KeyEscape, [], true, false⟩

/-! # Properties -/

/-! ## Viewport -/

theorem Max_eq_max (a b : Int) : Max a b = max a b := by
  unfold Max
  split_ifs with h
  · exact (max_eq_left (le_of_lt h)).symm
  · exact (max_eq_right (not_lt.mp h)).symm

theorem Min_eq_min (a b : Int) : Min a b = min a b := by
  unfold Min
  split_ifs with h
  · exact (min_eq_left (le_of_lt h)).symm
  · exact (min_eq_right (not_lt.mp h)).symm

theorem visibleRows_pos (m : Model) : 1 ≤ visibleRows m := by
  unfold visibleRows Max
  split_ifs <;> omega

theorem visibleCols_pos (m : Model) : 1 ≤ visibleCols m := by
  unfold visibleCols Max
  split_ifs <;> omega

theorem adjustViewport_eq (m : Model) :
    adjustViewport m =
      { m with
        offsetRow := minimalScroll m.cursorRow m.offsetRow (visibleRows m)
        offsetCol := minimalScroll m.cursorCol m.offsetCol (visibleCols m) } := by
  unfold adjustViewport minimalScroll
  simp only []
  split_ifs <;> rfl

theorem minimalScroll_window (cursor offset extent : Int) (h : 1 ≤ extent) :
    minimalScroll cursor offset extent ≤ cursor ∧
      cursor < minimalScroll cursor offset extent + extent := by
  unfold minimalScroll
  split_ifs <;> omega

theorem minimalScroll_nonneg (cursor offset extent : Int) (hc : 0 ≤ cursor) (ho : 0 ≤ offset) :
    0 ≤ minimalScroll cursor offset extent := by
  unfold minimalScroll
  split_ifs <;> omega

/-- C3. After `adjustViewport` the cursor lies inside the visible window on both axes, whatever
the cursor, the previous offsets and the terminal width and height were; the extents are
`max(1, height-9)` and `max(1, (width-8)/14)` (truncating division), hence at least 1. -/
theorem adjustViewport_cursor_in_window (m : Model) :
    visibleRows m = max 1 (m.height - 9) ∧
    visibleCols m = max 1 (Int.tdiv (m.width - 8) 14) ∧
    1 ≤ visibleRows m ∧ 1 ≤ visibleCols m ∧
    (adjustViewport m).offsetRow ≤ (adjustViewport m).cursorRow ∧
    (adjustViewport m).cursorRow < (adjustViewport m).offsetRow + visibleRows (adjustViewport m) ∧
    (adjustViewport m).offsetCol ≤ (adjustViewport m).cursorCol ∧
    (adjustViewport m).cursorCol <
      (adjustViewport m).offsetCol + visibleCols (adjustViewport m) := by
  have hr := visibleRows_pos m
  have hc := visibleCols_pos m
  have wr := minimalScroll_window m.cursorRow m.offsetRow (visibleRows m) hr
  have wc := minimalScroll_window m.cursorCol m.offsetCol (visibleCols m) hc
  refine ⟨Max_eq_max _ _, Max_eq_max _ _, hr, hc, ?_⟩
  rw [adjustViewport_eq]
  exact ⟨wr.1, wr.2, wc.1, wc.2⟩

/-- C4. `adjustViewport` is the minimal-scroll reference applied to the row axis and to the
column axis independently; it changes nothing but the two offsets (the cursor in particular is
kept), and a cursor that is already inside the window causes no scrolling at all. -/
theorem adjustViewport_eq_minimalScroll (m : Model) :
    adjustViewport m =
      { m with
        offsetRow := minimalScroll m.cursorRow m.offsetRow (visibleRows m)
        offsetCol := minimalScroll m.cursorCol m.offsetCol (visibleCols m) } ∧
    (adjustViewport m).cursorRow = m.cursorRow ∧
    (adjustViewport m).cursorCol = m.cursorCol ∧
    ((m.offsetRow ≤ m.cursorRow ∧ m.cursorRow < m.offsetRow + visibleRows m ∧
      m.offsetCol ≤ m.cursorCol ∧ m.cursorCol < m.offsetCol + visibleCols m) →
        adjustViewport m = m) := by
  refine ⟨adjustViewport_eq m, ?_, ?_, ?_⟩
  · rw [adjustViewport_eq]
  · rw [adjustViewport_eq]
  · rintro ⟨h1, h2, h3, h4⟩
    rw [adjustViewport_eq]
    unfold minimalScroll
    rw [if_neg (by omega), if_neg (by omega), if_neg (by omega), if_neg (by omega)]

/-- C5. `centerView` sets each offset to `max(0, cursor - extent/2)` (integer division of the
visible extent), changes nothing else (the cursor is kept), and the result does not depend on
the offsets the state had before. -/
theorem centerView_eq_centerOffset (m : Model) :
    centerView m =
      { m with
        offsetRow := centerOffset m.cursorRow (visibleRows m)
        offsetCol := centerOffset m.cursorCol (visibleCols m) } ∧
    (centerView m).cursorRow = m.cursorRow ∧
    (centerView m).cursorCol = m.cursorCol ∧
    (∀ r c : Int, centerView { m with offsetRow := r, offsetCol := c } = centerView m) := by
  have hr := visibleRows_pos m
  have hc := visibleCols_pos m
  have e1 : Int.tdiv (visibleRows m) 2 = visibleRows m / 2 :=
    Int.tdiv_eq_ediv (by omega) (by omega)
  have e2 : Int.tdiv (visibleCols m) 2 = visibleCols m / 2 :=
    Int.tdiv_eq_ediv (by omega) (by omega)
  refine ⟨?_, rfl, rfl, fun r c => rfl⟩
  unfold centerView centerOffset
  simp only [Max_eq_max, e1, e2]

/-! ## Cursor movement -/

theorem updateNormal_movement_step (m : Model) (sheet : Sheet) (k : KeyMsg) (out : Outside)
    (hs : index? m.sheets m.currentSheet = some sheet)
    (hr0 : 0 ≤ m.cursorRow) (hr1 : m.cursorRow < sheet.MaxRows)
    (hc0 : 0 ≤ m.cursorCol) (hc1 : m.cursorCol < sheet.MaxCols)
    (hk : isMovementKey m k = true) :
    ∃ m1, updateNormal m k out = some m1 ∧ m1.sheets = m.sheets ∧
      m1.currentSheet = m.currentSheet ∧ m1.keys = m.keys ∧ m1.mode = m.mode ∧
      0 ≤ m1.cursorRow ∧ m1.cursorRow < sheet.MaxRows ∧
      0 ≤ m1.cursorCol ∧ m1.cursorCol < sheet.MaxCols := by
  have hv := visibleRows_pos m
  unfold visibleRows at hv
  unfold updateNormal
  simp only [hs]
  by_cases hlen : m.sheets.length = 0
  · rw [if_pos hlen]; exact ⟨m, rfl, rfl, rfl, rfl, rfl, hr0, hr1, hc0, hc1⟩
  rw [if_neg hlen]
  by_cases hQ : Matches k m.keys.Quit = true
  · rw [if_pos hQ]; exact ⟨m, rfl, rfl, rfl, rfl, rfl, hr0, hr1, hc0, hc1⟩
  rw [if_neg hQ]
  by_cases h1 : Matches k m.keys.Up = true
  · rw [if_pos h1]
    split_ifs
    · refine ⟨_, rfl, ?_⟩
      simp only [adjustViewport_eq]
      refine ⟨trivial, trivial, trivial, trivial, ?_, ?_, hc0, hc1⟩ <;> omega
    · exact ⟨m, rfl, rfl, rfl, rfl, rfl, hr0, hr1, hc0, hc1⟩
  rw [if_neg h1]
  by_cases h2 : Matches k m.keys.Down = true
  · rw [if_pos h2]
    split_ifs
    · refine ⟨_, rfl, ?_⟩
      simp only [adjustViewport_eq]
      refine ⟨trivial, trivial, trivial, trivial, ?_, ?_, hc0, hc1⟩ <;> omega
    · exact ⟨m, rfl, rfl, rfl, rfl, rfl, hr0, hr1, hc0, hc1⟩
  rw [if_neg h2]
  by_cases h3 : Matches k m.keys.Left = true
  · rw [if_pos h3]
    split_ifs
    · refine ⟨_, rfl, ?_⟩
      simp only [adjustViewport_eq]
      refine ⟨trivial, trivial, trivial, trivial, hr0, hr1, ?_, ?_⟩ <;> omega
    · exact ⟨m, rfl, rfl, rfl, rfl, rfl, hr0, hr1, hc0, hc1⟩
  rw [if_neg h3]
  by_cases h4 : Matches k m.keys.Right = true
  · rw [if_pos h4]
    split_ifs
    · refine ⟨_, rfl, ?_⟩
      simp only [adjustViewport_eq]
      refine ⟨trivial, trivial, trivial, trivial, hr0, hr1, ?_, ?_⟩ <;> omega
    · exact ⟨m, rfl, rfl, rfl, rfl, rfl, hr0, hr1, hc0, hc1⟩
  rw [if_neg h4]
  by_cases h5 : Matches k m.keys.PageDown = true
  · rw [if_pos h5]
    refine ⟨_, rfl, ?_⟩
    simp only [adjustViewport_eq, Min_eq_min]
    refine ⟨trivial, trivial, trivial, trivial, ?_, ?_, hc0, hc1⟩
    · exact le_min (by omega) (by omega)
    · exact lt_of_le_of_lt (min_le_right _ _) (by omega)
  rw [if_neg h5]
  by_cases h6 : Matches k m.keys.PageUp = true
  · rw [if_pos h6]
    refine ⟨_, rfl, ?_⟩
    simp only [adjustViewport_eq, Max_eq_max (m.cursorRow - _) 0]
    refine ⟨trivial, trivial, trivial, trivial, ?_, ?_, hc0, hc1⟩
    · exact le_max_right _ _
    · exact max_lt (by omega) (by omega)
  rw [if_neg h6]
  by_cases h7 : Matches k m.keys.Home = true
  · rw [if_pos h7]
    exact ⟨_, rfl, rfl, rfl, rfl, rfl, hr0, hr1, le_refl _, by simp only []; omega⟩
  rw [if_neg h7]
  by_cases h8 : Matches k m.keys.End = true
  · rw [if_pos h8]
    refine ⟨_, rfl, ?_⟩
    simp only [adjustViewport_eq]
    refine ⟨trivial, trivial, trivial, trivial, hr0, hr1, ?_, ?_⟩ <;> omega
  rw [if_neg h8]
  by_cases h9 : Matches k m.keys.FirstCol = true
  · rw [if_pos h9]
    exact ⟨_, rfl, rfl, rfl, rfl, rfl, hr0, hr1, le_refl _, by simp only []; omega⟩
  rw [if_neg h9]
  by_cases h10 : Matches k m.keys.LastCol = true
  · rw [if_pos h10]
    refine ⟨_, rfl, ?_⟩
    simp only [adjustViewport_eq]
    refine ⟨trivial, trivial, trivial, trivial, hr0, hr1, ?_, ?_⟩ <;> omega
  exfalso
  simp only [isMovementKey, Bool.or_eq_true] at hk
  tauto

theorem run_movement_keys (U : Unicode) (sheet : Sheet) :
    ∀ (keys : List (KeyMsg × Outside)) (m : Model),
      m.mode = Mode.ModeNormal →
      index? m.sheets m.currentSheet = some sheet →
      0 ≤ m.cursorRow → m.cursorRow < sheet.MaxRows →
      0 ≤ m.cursorCol → m.cursorCol < sheet.MaxCols →
      (∀ k ∈ keys, isMovementKey m k.1 = true) →
      ∃ m1, run U m (keys.map (fun k => Msg.KeyMsg k.1 k.2)) = some m1 ∧
        m1.sheets = m.sheets ∧ m1.currentSheet = m.currentSheet ∧
        m1.mode = Mode.ModeNormal ∧
        0 ≤ m1.cursorRow ∧ m1.cursorRow < sheet.MaxRows ∧
        0 ≤ m1.cursorCol ∧ m1.cursorCol < sheet.MaxCols := by
  intro keys
  induction keys with
  | nil =>
    intro m hm hs hr0 hr1 hc0 hc1 _
    exact ⟨m, rfl, rfl, rfl, hm, hr0, hr1, hc0, hc1⟩
  | cons k ks ih =>
    intro m hm hs hr0 hr1 hc0 hc1 hk
    obtain ⟨m1, hstep, e1, e2, e3, e4, b1, b2, b3, b4⟩ :=
      updateNormal_movement_step m sheet k.1 k.2 hs hr0 hr1 hc0 hc1
        (hk k (List.mem_cons_self _ _))
    have hs1 : index? m1.sheets m1.currentSheet = some sheet := by rw [e1, e2]; exact hs
    have hk1 : ∀ k2 ∈ ks, isMovementKey m1 k2.1 = true := by
      intro k2 hk2
      have := hk k2 (List.mem_cons_of_mem _ hk2)
      simpa only [isMovementKey, e3] using this
    obtain ⟨m2, hrun, f1, f2, f3, c1, c2, c3, c4⟩ :=
      ih m1 (by rw [e4]; exact hm) hs1 b1 b2 b3 b4 hk1
    refine ⟨m2, ?_, by rw [f1, e1], by rw [f2, e2], f3, c1, c2, c3, c4⟩
    simp only [List.map_cons, run, Update, hm, hstep]
    exact hrun

/-- C1. Starting in Normal mode with the cursor inside the active sheet (which therefore has
`MaxRows ≥ 1` and `MaxCols ≥ 1`), every finite sequence of movement keys (up, down, left, right,
page-up, page-down, home, end, first-col, last-col) is handled by `Update` without failure and
leaves `0 ≤ cursorRow < MaxRows` and `0 ≤ cursorCol < MaxCols` of that same sheet, for every
terminal width and height the state holds. -/
theorem movement_keeps_cursor_in_bounds (U : Unicode) (m : Model) (sheet : Sheet)
    (keys : List (KeyMsg × Outside))
    (hmode : m.mode = Mode.ModeNormal)
    (hsheet : index? m.sheets m.currentSheet = some sheet)
    (hr : 0 ≤ m.cursorRow ∧ m.cursorRow < sheet.MaxRows)
    (hc : 0 ≤ m.cursorCol ∧ m.cursorCol < sheet.MaxCols)
    (hkeys : ∀ k ∈ keys, isMovementKey m k.1 = true) :
    ∃ m1, run U m (keys.map (fun k => Msg.KeyMsg k.1 k.2)) = some m1 ∧
      index? m1.sheets m1.currentSheet = some sheet ∧
      0 ≤ m1.cursorRow ∧ m1.cursorRow < sheet.MaxRows ∧
      0 ≤ m1.cursorCol ∧ m1.cursorCol < sheet.MaxCols := by
  obtain ⟨m1, hrun, e1, e2, _, b⟩ :=
    run_movement_keys U sheet keys m hmode hsheet hr.1 hr.2 hc.1 hc.2 hkeys
  exact ⟨m1, hrun, by rw [e1, e2]; exact hsheet, b⟩

/-! ## Jump -/

theorem centerView_fields (m : Model) :
    (centerView m).cursorRow = m.cursorRow ∧ (centerView m).cursorCol = m.cursorCol ∧
    (centerView m).sheets = m.sheets ∧ (centerView m).currentSheet = m.currentSheet ∧
    (centerView m).mode = m.mode ∧ (centerView m).searchResults = m.searchResults ∧
    (centerView m).searchIndex = m.searchIndex ∧ (centerView m).keys = m.keys ∧
    0 ≤ (centerView m).offsetRow ∧ 0 ≤ (centerView m).offsetCol := by
  refine ⟨rfl, rfl, rfl, rfl, rfl, rfl, rfl, rfl, ?_, ?_⟩
  · show 0 ≤ Max 0 _
    rw [Max_eq_max]; exact le_max_left _ _
  · show 0 ≤ Max 0 _
    rw [Max_eq_max]; exact le_max_left _ _

theorem centerView_offsetRow_nonneg (m : Model) : 0 ≤ (centerView m).offsetRow :=
  (centerView_fields m).2.2.2.2.2.2.2.2.1

theorem centerView_offsetCol_nonneg (m : Model) : 0 ≤ (centerView m).offsetCol :=
  (centerView_fields m).2.2.2.2.2.2.2.2.2

theorem jumpLetterForm_some (m m1 : Model) (sheet : Sheet) (input : List Char)
    (h : jumpLetterForm m sheet input = some m1) :
    m1.sheets = m.sheets ∧ m1.currentSheet = m.currentSheet ∧ m1.mode = m.mode ∧
    m1.searchResults = m.searchResults ∧ m1.searchIndex = m.searchIndex ∧ m1.keys = m.keys ∧
    0 ≤ m1.cursorRow ∧ m1.cursorRow < sheet.MaxRows ∧
    0 ≤ m1.cursorCol ∧ m1.cursorCol < sheet.MaxCols ∧
    0 ≤ m1.offsetRow ∧ 0 ≤ m1.offsetCol ∧ m1.status.Typ = StatusSuccess := by
  unfold jumpLetterForm at h
  split at h
  · exact absurd h (by simp)
  · dsimp only at h
    split_ifs at h with h1 h2
    injection h with h
    subst h
    exact ⟨rfl, rfl, rfl, rfl, rfl, rfl, h2.1, h2.2.1, h2.2.2.1, h2.2.2.2,
      centerView_offsetRow_nonneg _, centerView_offsetCol_nonneg _, rfl⟩

theorem jumpRowForm_some (m m1 : Model) (sheet : Sheet) (input : List Char)
    (h : jumpRowForm m sheet input = some m1) :
    m1.sheets = m.sheets ∧ m1.currentSheet = m.currentSheet ∧ m1.mode = m.mode ∧
    m1.searchResults = m.searchResults ∧ m1.searchIndex = m.searchIndex ∧ m1.keys = m.keys ∧
    0 ≤ m1.cursorRow ∧ m1.cursorRow < sheet.MaxRows ∧ m1.cursorCol = m.cursorCol ∧
    0 ≤ m1.offsetRow ∧ 0 ≤ m1.offsetCol ∧ m1.status.Typ = StatusSuccess := by
  unfold jumpRowForm at h
  split at h
  · dsimp only at h
    split_ifs at h with h1
    injection h with h
    subst h
    exact ⟨rfl, rfl, rfl, rfl, rfl, rfl, h1.1, h1.2, rfl,
      centerView_offsetRow_nonneg _, centerView_offsetCol_nonneg _, rfl⟩
  · exact absurd h (by simp)

theorem jumpPairForm_some (m m1 : Model) (sheet : Sheet) (input : List Char)
    (h : jumpPairForm m sheet input = some m1) :
    m1.sheets = m.sheets ∧ m1.currentSheet = m.currentSheet ∧ m1.mode = m.mode ∧
    m1.searchResults = m.searchResults ∧ m1.searchIndex = m.searchIndex ∧ m1.keys = m.keys ∧
    0 ≤ m1.cursorRow ∧ m1.cursorRow < sheet.MaxRows ∧
    0 ≤ m1.cursorCol ∧ m1.cursorCol < sheet.MaxCols ∧
    0 ≤ m1.offsetRow ∧ 0 ≤ m1.offsetCol ∧ m1.status.Typ = StatusSuccess := by
  unfold jumpPairForm at h
  split at h
  · split at h
    · split at h
      · dsimp only at h
        split_ifs at h with h1
        injection h with h
        subst h
        exact ⟨rfl, rfl, rfl, rfl, rfl, rfl, h1.1, h1.2.1, h1.2.2.1, h1.2.2.2,
          centerView_offsetRow_nonneg _, centerView_offsetCol_nonneg _, rfl⟩
      · exact absurd h (by simp)
    · exact absurd h (by simp)
  · exact absurd h (by simp)

/-- What `jumpToCell` returns, by the form that applied. -/
theorem jumpToCell_cases (U : Unicode) (m : Model) (sheet : Sheet) (input : String)
    (hs : index? m.sheets m.currentSheet = some sheet) :
    (∃ m1, jumpToCell U m input = some m1 ∧
        jumpLetterForm m sheet (ToUpper U (TrimSpace input.data)) = some m1) ∨
    (∃ m1, jumpToCell U m input = some m1 ∧
        jumpLetterForm m sheet (ToUpper U (TrimSpace input.data)) = none ∧
        jumpRowForm m sheet (ToUpper U (TrimSpace input.data)) = some m1) ∨
    (∃ m1, jumpToCell U m input = some m1 ∧
        jumpLetterForm m sheet (ToUpper U (TrimSpace input.data)) = none ∧
        jumpRowForm m sheet (ToUpper U (TrimSpace input.data)) = none ∧
        jumpPairForm m sheet (ToUpper U (TrimSpace input.data)) = some m1) ∨
    (jumpToCell U m input = some { m with status := ⟨"Invalid cell reference", StatusError⟩ } ∧
        jumpLetterForm m sheet (ToUpper U (TrimSpace input.data)) = none ∧
        jumpRowForm m sheet (ToUpper U (TrimSpace input.data)) = none ∧
        jumpPairForm m sheet (ToUpper U (TrimSpace input.data)) = none) := by
  unfold jumpToCell
  simp only [hs]
  cases h1 : jumpLetterForm m sheet (ToUpper U (TrimSpace input.data)) with
  | some m1 => exact Or.inl ⟨m1, rfl, rfl⟩
  | none =>
    cases h2 : jumpRowForm m sheet (ToUpper U (TrimSpace input.data)) with
    | some m1 => exact Or.inr (Or.inl ⟨m1, rfl, rfl, rfl⟩)
    | none =>
      cases h3 : jumpPairForm m sheet (ToUpper U (TrimSpace input.data)) with
      | some m1 => exact Or.inr (Or.inr (Or.inl ⟨m1, rfl, rfl, rfl, rfl⟩))
      | none => exact Or.inr (Or.inr (Or.inr ⟨rfl, rfl, rfl, rfl⟩))

theorem upperRune_digit (U : Unicode) (c : Char) (h : 48 ≤ c.toNat ∧ c.toNat ≤ 57) :
    upperRune U c = c := by
  unfold upperRune
  rw [if_pos (by omega), if_neg]
  have : 'a'.toNat = 97 := by decide
  omega

theorem upperRune_upper (U : Unicode) (c : Char) (h : 65 ≤ c.toNat ∧ c.toNat ≤ 90) :
    upperRune U c = c := by
  unfold upperRune
  rw [if_pos (by omega), if_neg]
  have : 'a'.toNat = 97 := by decide
  omega

theorem isSpace_false_of_alnum (c : Char) (h : 48 ≤ c.toNat ∧ c.toNat ≤ 90) :
    isSpace c = false := by
  unfold isSpace
  simp only [Bool.or_eq_false_iff, Bool.and_eq_false_iff, decide_eq_false_iff_not]
  omega

theorem ToUpper_id (U : Unicode) (s : List Char)
    (h : ∀ c ∈ s, (48 ≤ c.toNat ∧ c.toNat ≤ 57) ∨ (65 ≤ c.toNat ∧ c.toNat ≤ 90)) :
    ToUpper U s = s := by
  unfold ToUpper
  conv_rhs => rw [← List.map_id s]
  apply List.map_congr_left
  intro c hc
  rcases h c hc with hd | hu
  · exact upperRune_digit U c hd
  · exact upperRune_upper U c hu

theorem dropWhile_isSpace_id (s : List Char)
    (h : ∀ c, s.head? = some c → isSpace c = false) : s.dropWhile isSpace = s := by
  cases s with
  | nil => rfl
  | cons a t =>
    have := h a rfl
    simp [List.dropWhile, this]

theorem TrimSpace_id (s : List Char)
    (h1 : ∀ c, s.head? = some c → isSpace c = false)
    (h2 : ∀ c, s.getLast? = some c → isSpace c = false) : TrimSpace s = s := by
  unfold TrimSpace
  rw [dropWhile_isSpace_id s h1, dropWhile_isSpace_id s.reverse, List.reverse_reverse]
  intro c hc
  rw [List.head?_reverse] at hc
  exact h2 c hc

/-- With the cursor column inside the active sheet beforehand, whatever the input string,
`jumpToCell` returns, and either it succeeds — the cursor ends on a cell inside
`[0,MaxRows) × [0,MaxCols)` and the status type is success — or it leaves `cursorRow`,
`cursorCol`, `offsetRow` and `offsetCol` unchanged and sets the error status
"Invalid cell reference"; in particular `"999999"` on a 50-row sheet is rejected in the second
way. The row-only form keeps the cursor column, which is why it has to be inside beforehand. -/
theorem jumpToCell_success_or_rejected (U : Unicode) (m : Model) (sheet : Sheet)
    (input : String)
    (hs : index? m.sheets m.currentSheet = some sheet)
    (hcol : 0 ≤ m.cursorCol ∧ m.cursorCol < sheet.MaxCols) :
    (∃ m1, jumpToCell U m input = some m1 ∧
      ((0 ≤ m1.cursorRow ∧ m1.cursorRow < sheet.MaxRows ∧
        0 ≤ m1.cursorCol ∧ m1.cursorCol < sheet.MaxCols ∧ m1.status.Typ = StatusSuccess) ∨
       (m1.cursorRow = m.cursorRow ∧ m1.cursorCol = m.cursorCol ∧
        m1.offsetRow = m.offsetRow ∧ m1.offsetCol = m.offsetCol ∧
        m1.status = ⟨"Invalid cell reference", StatusError⟩))) ∧
    (sheet.MaxRows = 50 →
      jumpToCell U m "999999" =
        some { m with status := ⟨"Invalid cell reference", StatusError⟩ }) := by
  constructor
  · rcases jumpToCell_cases U m sheet input hs with
      ⟨m1, e, h⟩ | ⟨m1, e, -, h⟩ | ⟨m1, e, -, -, h⟩ | ⟨e, -⟩
    · obtain ⟨-, -, -, -, -, -, b1, b2, b3, b4, -, -, st⟩ := jumpLetterForm_some m m1 sheet _ h
      exact ⟨m1, e, Or.inl ⟨b1, b2, b3, b4, st⟩⟩
    · obtain ⟨-, -, -, -, -, -, b1, b2, b3, -, -, st⟩ := jumpRowForm_some m m1 sheet _ h
      exact ⟨m1, e, Or.inl ⟨b1, b2, by rw [b3]; exact hcol.1, by rw [b3]; exact hcol.2, st⟩⟩
    · obtain ⟨-, -, -, -, -, -, b1, b2, b3, b4, -, -, st⟩ := jumpPairForm_some m m1 sheet _ h
      exact ⟨m1, e, Or.inl ⟨b1, b2, b3, b4, st⟩⟩
    · exact ⟨_, e, Or.inr ⟨rfl, rfl, rfl, rfl, rfl⟩⟩
  · intro h50
    have hin : ToUpper U (TrimSpace ("999999" : String).data) = ['9', '9', '9', '9', '9', '9'] := by
      have e : TrimSpace ("999999" : String).data = ['9', '9', '9', '9', '9', '9'] := by decide
      rw [e]
      apply ToUpper_id
      decide
    have f1 : jumpLetterForm m sheet ['9', '9', '9', '9', '9', '9'] = none := by
      unfold jumpLetterForm
      simp only []
      rw [if_neg (by decide)]
    have f2 : jumpRowForm m sheet ['9', '9', '9', '9', '9', '9'] = none := by
      unfold jumpRowForm
      have ea : Atoi ['9', '9', '9', '9', '9', '9'] = some 999999 := by decide
      have ew : wrap64 (999999 - 1) = 999998 := by decide
      simp only [ea, ew, h50]
      rw [if_neg (by omega)]
    have f3 : jumpPairForm m sheet ['9', '9', '9', '9', '9', '9'] = none := by
      unfold jumpPairForm
      have es : splitComma ['9', '9', '9', '9', '9', '9'] = [['9', '9', '9', '9', '9', '9']] := by
        decide
      simp only [es]
    rcases jumpToCell_cases U m sheet "999999" hs with
      ⟨m1, -, h⟩ | ⟨m1, -, -, h⟩ | ⟨m1, -, -, -, h⟩ | ⟨e, -⟩
    · rw [hin, f1] at h; exact absurd h (by simp)
    · rw [hin, f2] at h; exact absurd h (by simp)
    · rw [hin, f3] at h; exact absurd h (by simp)
    · exact e

/-! ### Decimal numerals and column letters read back -/

theorem wrap64_id (x : Int) (h1 : -(2 ^ 63) ≤ x) (h2 : x < 2 ^ 63) : wrap64 x = x := by
  unfold wrap64
  omega

theorem digitChar_toNat (d : Nat) (h : d < 10) : (Nat.digitChar d).toNat = 48 + d := by
  interval_cases d <;> rfl

theorem letter_toNat (k : Nat) (h : k < 26) : (Char.ofNat (65 + k)).toNat = 65 + k := by
  interval_cases k <;> rfl

theorem digitStep_digit (n d : Nat) (h : d < 10) :
    digitStep (some n) (Nat.digitChar d) = some (n * 10 + d) := by
  unfold digitStep
  have e := digitChar_toNat d h
  have z : '0'.toNat = 48 := by decide
  have n9 : '9'.toNat = 57 := by decide
  simp only [e, z, n9]
  rw [if_pos (by omega)]
  congr 1
  omega

/-- The digits `Nat.toDigits` writes are ASCII digits, at least one, and read back to the
number. -/
theorem toDigitsCore_spec : ∀ (fuel n : Nat) (ds : List Char), n < fuel →
    ∃ ls, Nat.toDigitsCore 10 fuel n ds = ls ++ ds ∧ ls ≠ [] ∧
      (∀ c ∈ ls, 48 ≤ c.toNat ∧ c.toNat ≤ 57) ∧ ls.foldl digitStep (some 0) = some n := by
  intro fuel
  induction fuel with
  | zero => intro n ds h; omega
  | succ fuel ih =>
    intro n ds h
    have hd : n % 10 < 10 := Nat.mod_lt _ (by decide)
    have hdc := digitChar_toNat (n % 10) hd
    unfold Nat.toDigitsCore
    simp only []
    split_ifs with h0
    · refine ⟨[Nat.digitChar (n % 10)], rfl, by simp, ?_, ?_⟩
      · intro c hc
        rw [List.mem_singleton] at hc
        subst hc
        omega
      · simp only [List.foldl_cons, List.foldl_nil]
        rw [digitStep_digit 0 _ hd]
        congr 1
        omega
    · obtain ⟨ls, e, -, hall, hv⟩ := ih (n / 10) (Nat.digitChar (n % 10) :: ds) (by omega)
      refine ⟨ls ++ [Nat.digitChar (n % 10)], ?_, by simp, ?_, ?_⟩
      · rw [e]; simp
      · intro c hc
        rw [List.mem_append, List.mem_singleton] at hc
        rcases hc with hc | hc
        · exact hall c hc
        · subst hc; omega
      · rw [List.foldl_append, hv]
        simp only [List.foldl_cons, List.foldl_nil]
        rw [digitStep_digit _ _ hd]
        congr 1
        omega

theorem toDigits_spec (n : Nat) :
    Nat.toDigits 10 n ≠ [] ∧ (∀ c ∈ Nat.toDigits 10 n, 48 ≤ c.toNat ∧ c.toNat ≤ 57) ∧
      (Nat.toDigits 10 n).foldl digitStep (some 0) = some n := by
  obtain ⟨ls, e, h1, h2, h3⟩ := toDigitsCore_spec (n + 1) n [] (by omega)
  unfold Nat.toDigits
  rw [e, List.append_nil]
  exact ⟨h1, h2, h3⟩

theorem Sprintf_d_data (n : Nat) : (Sprintf_d (n : Int)).data = Nat.toDigits 10 n := rfl

/-- An unsigned run of digits is read by `strconv.Atoi` as its value when that fits an `int`. -/
theorem Atoi_digits (ls : List Char) (n : Nat) (hne : ls ≠ [])
    (hall : ∀ c ∈ ls, 48 ≤ c.toNat ∧ c.toNat ≤ 57)
    (hv : ls.foldl digitStep (some 0) = some n) (hn : (n : Int) ≤ maxInt) :
    Atoi ls = some (n : Int) := by
  cases ls with
  | nil => exact absurd rfl hne
  | cons c cs =>
    have hc := hall c (List.mem_cons_self _ _)
    have hp : parseDigits (c :: cs) = some n := hv
    unfold Atoi
    split
    · rename_i ds heq
      injection heq with h1 h2
      subst h1
      exact absurd hc (by decide)
    · rename_i ds heq
      injection heq with h1 h2
      subst h1
      exact absurd hc (by decide)
    · rw [hp]
      simp only []
      rw [if_pos hn]

theorem Atoi_Sprintf_d (n : Nat) (hn : (n : Int) ≤ maxInt) :
    Atoi (Sprintf_d (n : Int)).data = some (n : Int) := by
  rw [Sprintf_d_data]
  obtain ⟨h1, h2, h3⟩ := toDigits_spec n
  exact Atoi_digits _ n h1 h2 h3 hn

theorem letterStep_letter (v : Int) (k : Nat) (hk : k < 26) (h0 : 0 ≤ v)
    (h1 : v * 26 + k + 1 ≤ maxInt) :
    letterStep v (Char.ofNat (65 + k)) = v * 26 + k + 1 := by
  unfold letterStep
  have e := letter_toNat k hk
  have a : 'A'.toNat = 65 := by decide
  rw [e, a]
  have : ((65 + k - 65 : Nat) : Int) = (k : Int) := by congr 1; omega
  rw [this]
  unfold maxInt at h1
  exact wrap64_id _ (by omega) (by omega)

/-- The letters `ColIndexToLetter` writes are capital ASCII letters, at least one for a
non-negative index, and read back (loop of `jumpToCell`, started at 0) to `index + 1`. -/
theorem colLetterLoop_spec : ∀ (fuel : Nat) (index : Int) (result : List Char),
    -1 ≤ index → index < fuel → index + 1 ≤ maxInt →
    ∃ ls, colLetterLoop fuel index result = ls ++ result ∧ (0 ≤ index → ls ≠ []) ∧
      (∀ c ∈ ls, 65 ≤ c.toNat ∧ c.toNat ≤ 90) ∧ ls.foldl letterStep 0 = index + 1 := by
  intro fuel
  induction fuel with
  | zero =>
    intro index result h1 h2 _
    have : index = -1 := by omega
    subst this
    exact ⟨[], rfl, fun h => absurd h (by decide), by simp, rfl⟩
  | succ fuel ih =>
    intro index result h1 h2 h3
    unfold colLetterLoop
    split_ifs with hi
    · have ed : Int.tdiv index 26 = index / 26 := Int.tdiv_eq_ediv hi (by decide)
      have em : Int.tmod index 26 = index % 26 := Int.tmod_eq_emod hi (by decide)
      rw [ed, em]
      have hk : (index % 26).toNat < 26 := by omega
      have hkc : (((index % 26).toNat : Nat) : Int) = index % 26 := by omega
      push_cast at h2
      obtain ⟨ls, e, -, hall, hv⟩ :=
        ih (index / 26 - 1) (Char.ofNat (65 + (index % 26).toNat) :: result)
          (by omega) (by omega) (by unfold maxInt at *; omega)
      refine ⟨ls ++ [Char.ofNat (65 + (index % 26).toNat)], ?_, by simp, ?_, ?_⟩
      · rw [e]; simp
      · intro c hc
        rw [List.mem_append, List.mem_singleton] at hc
        rcases hc with hc | hc
        · exact hall c hc
        · subst hc
          rw [letter_toNat _ hk]
          omega
      · rw [List.foldl_append, hv]
        simp only [List.foldl_cons, List.foldl_nil]
        rw [letterStep_letter _ _ hk (by omega) (by unfold maxInt at *; omega)]
        omega
    · have : index = -1 := by omega
      subst this
      exact ⟨[], rfl, fun h => absurd h (by decide), by simp, rfl⟩

theorem parseColumnLetters_append (ls rest : List Char)
    (hall : ∀ c ∈ ls, 65 ≤ c.toNat ∧ c.toNat ≤ 90)
    (hrest : ∀ c, rest.head? = some c → ¬(65 ≤ c.toNat ∧ c.toNat ≤ 90)) :
    ∀ col : Int, parseColumnLetters (ls ++ rest) col = (ls.foldl letterStep col, rest) := by
  have a : 'A'.toNat = 65 := by decide
  have z : 'Z'.toNat = 90 := by decide
  induction ls with
  | nil =>
    intro col
    cases rest with
    | nil => rfl
    | cons c cs =>
      have := hrest c rfl
      simp only [List.nil_append, List.foldl_nil]
      unfold parseColumnLetters
      rw [a, z, if_neg this]
  | cons c cs ih =>
    intro col
    have hc := hall c (List.mem_cons_self _ _)
    simp only [List.cons_append, List.foldl_cons]
    unfold parseColumnLetters
    rw [a, z, if_pos hc]
    exact ih (fun d hd => hall d (List.mem_cons_of_mem _ hd)) _

theorem ColIndexToLetter_spec (c : Int) (h0 : 0 ≤ c) (h1 : c + 1 ≤ maxInt) :
    (ColIndexToLetter c).data ≠ [] ∧
    (∀ ch ∈ (ColIndexToLetter c).data, 65 ≤ ch.toNat ∧ ch.toNat ≤ 90) ∧
    (ColIndexToLetter c).data.foldl letterStep 0 = c + 1 := by
  obtain ⟨ls, e, hne, hall, hv⟩ :=
    colLetterLoop_spec (c.toNat + 1) c [] (by omega) (by push_cast; omega) h1
  unfold ColIndexToLetter
  simp only [e, List.append_nil]
  exact ⟨hne h0, hall, hv⟩

theorem TrimSpace_alnum (s : List Char) (h : ∀ c ∈ s, 48 ≤ c.toNat ∧ c.toNat ≤ 90) :
    TrimSpace s = s := by
  apply TrimSpace_id
  · intro c hc
    exact isSpace_false_of_alnum c (h c (List.mem_of_mem_head? hc))
  · intro c hc
    exact isSpace_false_of_alnum c (h c (List.mem_of_getLast?_eq_some hc))

theorem jumpLetterForm_of_letter (m : Model) (sheet : Sheet) (c : Char) (cs : List Char)
    (hc : 65 ≤ c.toNat ∧ c.toNat ≤ 90) :
    jumpLetterForm m sheet (c :: cs) =
      if letterFormRow (parseColumnLetters (c :: cs) 0).2 ≥ 0 ∧
          letterFormRow (parseColumnLetters (c :: cs) 0).2 < sheet.MaxRows ∧
          wrap64 ((parseColumnLetters (c :: cs) 0).1 - 1) ≥ 0 ∧
          wrap64 ((parseColumnLetters (c :: cs) 0).1 - 1) < sheet.MaxCols then
        some { centerView { m with
                 cursorRow := letterFormRow (parseColumnLetters (c :: cs) 0).2,
                 cursorCol := wrap64 ((parseColumnLetters (c :: cs) 0).1 - 1) } with
               status := ⟨"→ " ++ (ColIndexToLetter (wrap64 ((parseColumnLetters (c :: cs) 0).1 - 1))
                            ++ Sprintf_d (letterFormRow (parseColumnLetters (c :: cs) 0).2 + 1)),
                          StatusSuccess⟩ }
      else none := by
  have a : 'A'.toNat = 65 := by decide
  have z : 'Z'.toNat = 90 := by decide
  unfold jumpLetterForm
  simp only [a, z]
  rw [if_pos hc]

theorem jumpLetterForm_of_not_letter (m : Model) (sheet : Sheet) (input : List Char)
    (h : ∀ c, input.head? = some c → ¬(65 ≤ c.toNat ∧ c.toNat ≤ 90)) :
    jumpLetterForm m sheet input = none := by
  have a : 'A'.toNat = 65 := by decide
  have z : 'Z'.toNat = 90 := by decide
  cases input with
  | nil => rfl
  | cons c cs =>
    unfold jumpLetterForm
    simp only [a, z]
    rw [if_neg (h c rfl)]

/-- C8. The column letters of a jump reference are read as the bijective base-26 numeral that
inverts `ColIndexToLetter`: on a sheet whose extents are Go `int`s, for every in-bounds cell
`(r, c)`, `jumpToCell` applied to `ColIndexToLetter(c)` followed by the decimal of `r+1` sets
the cursor to exactly `(r, c)` and the success status shows that same reference; the letters
read back to `c + 1`; `"A1"` is the reference of `(0,0)` and `"J10"` that of `(9,9)`. -/
theorem jumpToCell_letter_reference (U : Unicode) (m : Model) (sheet : Sheet) (r c : Int)
    (hs : index? m.sheets m.currentSheet = some sheet)
    (hint : sheet.MaxRows ≤ maxInt ∧ sheet.MaxCols ≤ maxInt)
    (hr : 0 ≤ r ∧ r < sheet.MaxRows) (hc : 0 ≤ c ∧ c < sheet.MaxCols) :
    (∃ m1, jumpToCell U m (ColIndexToLetter c ++ Sprintf_d (r + 1)) = some m1 ∧
      m1.cursorRow = r ∧ m1.cursorCol = c ∧
      m1.status = ⟨"→ " ++ (ColIndexToLetter c ++ Sprintf_d (r + 1)), StatusSuccess⟩) ∧
    (parseColumnLetters (ColIndexToLetter c).data 0).1 = c + 1 ∧
    ColIndexToLetter 0 ++ Sprintf_d (0 + 1) = "A1" ∧
    ColIndexToLetter 9 ++ Sprintf_d (9 + 1) = "J10" := by
  obtain ⟨lne, lall, lv⟩ := ColIndexToLetter_spec c hc.1 (by omega)
  have hrn : r + 1 = (((r + 1).toNat : Nat) : Int) := by omega
  obtain ⟨dne, dall, dv⟩ := toDigits_spec (r + 1).toNat
  have hd : (Sprintf_d (r + 1)).data = Nat.toDigits 10 (r + 1).toNat := by
    conv_lhs => rw [hrn]
    exact Sprintf_d_data _
  have hatoi : Atoi (Nat.toDigits 10 (r + 1).toNat) = some (r + 1) := by
    have := Atoi_digits _ _ dne dall dv (by omega)
    rw [this, ← hrn]
  have hrest : ∀ ch, (Nat.toDigits 10 (r + 1).toNat).head? = some ch →
      ¬(65 ≤ ch.toNat ∧ ch.toNat ≤ 90) := by
    intro ch hch
    have := dall ch (List.mem_of_mem_head? hch)
    omega
  have hparse := parseColumnLetters_append (ColIndexToLetter c).data
    (Nat.toDigits 10 (r + 1).toNat) lall hrest 0
  rw [lv] at hparse
  refine ⟨?_, ?_, by decide, by decide⟩
  · have hdata : (ColIndexToLetter c ++ Sprintf_d (r + 1)).data =
        (ColIndexToLetter c).data ++ Nat.toDigits 10 (r + 1).toNat := by
      rw [String.data_append, hd]
    have halnum : ∀ ch ∈ (ColIndexToLetter c).data ++ Nat.toDigits 10 (r + 1).toNat,
        (48 ≤ ch.toNat ∧ ch.toNat ≤ 57) ∨ (65 ≤ ch.toNat ∧ ch.toNat ≤ 90) := by
      intro ch hch
      rw [List.mem_append] at hch
      rcases hch with h | h
      · exact Or.inr (lall ch h)
      · exact Or.inl (dall ch h)
    have hin : ToUpper U (TrimSpace (ColIndexToLetter c ++ Sprintf_d (r + 1)).data) =
        (ColIndexToLetter c).data ++ Nat.toDigits 10 (r + 1).toNat := by
      rw [hdata, TrimSpace_alnum _ (fun ch hch => by have := halnum ch hch; omega),
        ToUpper_id U _ halnum]
    have hrow : letterFormRow (Nat.toDigits 10 (r + 1).toNat) = r := by
      unfold letterFormRow
      rw [if_pos (List.length_pos.mpr dne), hatoi]
      simp only []
      unfold maxInt at hint
      rw [wrap64_id _ (by omega) (by omega)]
      omega
    have hcol : wrap64 (c + 1 - 1) = c := by
      unfold maxInt at hint
      rw [wrap64_id _ (by omega) (by omega)]
      omega
    have hform : jumpLetterForm m sheet
        ((ColIndexToLetter c).data ++ Nat.toDigits 10 (r + 1).toNat) =
        some { centerView { m with cursorRow := r, cursorCol := c } with
               status := ⟨"→ " ++ (ColIndexToLetter c ++ Sprintf_d (r + 1)), StatusSuccess⟩ } := by
      cases hl : (ColIndexToLetter c).data with
      | nil => exact absurd hl lne
      | cons c0 cs =>
        rw [hl] at hparse lall
        rw [List.cons_append] at hparse ⊢
        rw [jumpLetterForm_of_letter m sheet c0 _ (lall c0 (List.mem_cons_self _ _)), hparse]
        simp only [hrow, hcol]
        rw [if_pos ⟨hr.1, hr.2, hc.1, hc.2⟩]
    rcases jumpToCell_cases U m sheet (ColIndexToLetter c ++ Sprintf_d (r + 1)) hs with
      ⟨m1, e, h⟩ | ⟨m1, _, h, _⟩ | ⟨m1, _, h, _⟩ | ⟨_, h, _⟩
    · rw [hin, hform] at h
      injection h with h
      subst h
      exact ⟨_, e, rfl, rfl, rfl⟩
    · rw [hin, hform] at h; exact absurd h (by simp)
    · rw [hin, hform] at h; exact absurd h (by simp)
    · rw [hin, hform] at h; exact absurd h (by simp)
  · have := parseColumnLetters_append (ColIndexToLetter c).data [] lall
      (fun ch hch => by simp at hch) 0
    rw [List.append_nil] at this
    rw [this, lv]

/-- C10. A bare decimal jump moves the row only: on a sheet whose row count is a Go `int`, for
every `n` with `1 ≤ n ≤ MaxRows`, `jumpToCell` on the decimal of `n` sets `cursorRow = n - 1`
and leaves `cursorCol` unchanged. -/
theorem jumpToCell_bare_row (U : Unicode) (m : Model) (sheet : Sheet) (n : Int)
    (hs : index? m.sheets m.currentSheet = some sheet)
    (hint : sheet.MaxRows ≤ maxInt)
    (hn : 1 ≤ n ∧ n ≤ sheet.MaxRows) :
    ∃ m1, jumpToCell U m (Sprintf_d n) = some m1 ∧
      m1.cursorRow = n - 1 ∧ m1.cursorCol = m.cursorCol ∧
      m1.status = ⟨"→ Row " ++ Sprintf_d n, StatusSuccess⟩ := by
  have hnn : n = ((n.toNat : Nat) : Int) := by omega
  obtain ⟨dne, dall, dv⟩ := toDigits_spec n.toNat
  have hd : (Sprintf_d n).data = Nat.toDigits 10 n.toNat := by
    conv_lhs => rw [hnn]
    exact Sprintf_d_data _
  have hatoi : Atoi (Nat.toDigits 10 n.toNat) = some n := by
    have := Atoi_digits _ _ dne dall dv (by omega)
    rw [this, ← hnn]
  have hin : ToUpper U (TrimSpace (Sprintf_d n).data) = Nat.toDigits 10 n.toNat := by
    rw [hd, TrimSpace_alnum _ (fun ch hch => by have := dall ch hch; omega),
      ToUpper_id U _ (fun ch hch => Or.inl (dall ch hch))]
  have hletter : jumpLetterForm m sheet (Nat.toDigits 10 n.toNat) = none := by
    apply jumpLetterForm_of_not_letter
    intro ch hch
    have := dall ch (List.mem_of_mem_head? hch)
    omega
  have hw : wrap64 (n - 1) = n - 1 := by
    unfold maxInt at hint
    exact wrap64_id _ (by omega) (by omega)
  have hrowform : jumpRowForm m sheet (Nat.toDigits 10 n.toNat) =
      some { centerView { m with cursorRow := n - 1 } with
             status := ⟨"→ Row " ++ Sprintf_d n, StatusSuccess⟩ } := by
    unfold jumpRowForm
    rw [hatoi]
    simp only [hw]
    rw [if_pos ⟨by omega, by omega⟩]
    have : n - 1 + 1 = n := by omega
    rw [this]
  rcases jumpToCell_cases U m sheet (Sprintf_d n) hs with
    ⟨m1, _, h⟩ | ⟨m1, e, _, h⟩ | ⟨m1, _, _, h, _⟩ | ⟨_, _, h, _⟩
  · rw [hin, hletter] at h; exact absurd h (by simp)
  · rw [hin, hrowform] at h
    injection h with h
    subst h
    exact ⟨_, e, rfl, rfl, rfl⟩
  · rw [hin, hrowform] at h; exact absurd h (by simp)
  · rw [hin, hrowform] at h; exact absurd h (by simp)

/-! ## Non-negative viewport offsets -/

theorem index?_mem {α : Type} (xs : List α) (i : Int) (x : α) (h : index? xs i = some x) :
    x ∈ xs := by
  unfold index? at h
  split_ifs at h
  exact List.getElem?_mem h

theorem mem_enum_snd {α : Type} (l : List α) (a : α) (h : a ∈ l) : ∃ i, (i, a) ∈ l.enum := by
  obtain ⟨i, hi⟩ := List.mem_iff_getElem?.mp h
  exact ⟨i, List.mk_mem_enum_iff_getElem?.mpr hi⟩

theorem wellFormed_cells (s : Sheet) (h : s.wellFormed = true) :
    ∀ row ∈ s.Rows, ∀ cell ∈ row, 0 ≤ cell.Row ∧ 0 ≤ cell.Col := by
  intro row hrow cell hcell
  unfold Sheet.wellFormed at h
  simp only [Bool.and_eq_true, List.all_eq_true, decide_eq_true_eq] at h
  obtain ⟨i, hi⟩ := mem_enum_snd _ _ hrow
  obtain ⟨j, hj⟩ := mem_enum_snd _ _ hcell
  have := h.2 (i, row) hi (j, cell) hj
  simp only at this
  omega

theorem SearchSheet_row_mem (U : Unicode) (term : List Char) (cell : Cell) :
    ∀ (row : List Cell) (results : List Cell),
      cell ∈ row.foldl (fun results c =>
        if Contains (ToLower U c.Value.data) term ||
            Contains (ToLower U c.Formula.data) term then
          results ++ [c]
        else results) results →
      cell ∈ results ∨ cell ∈ row := by
  intro row
  induction row with
  | nil => intro results h; exact Or.inl h
  | cons c cs ih =>
    intro results h
    rw [List.foldl_cons] at h
    rcases ih _ h with h1 | h1
    · split_ifs at h1
      · rw [List.mem_append, List.mem_singleton] at h1
        rcases h1 with h1 | h1
        · exact Or.inl h1
        · exact Or.inr (by rw [h1]; exact List.mem_cons_self _ _)
      · exact Or.inl h1
    · exact Or.inr (List.mem_cons_of_mem _ h1)

theorem SearchSheet_rows_mem (U : Unicode) (term : List Char) (cell : Cell) :
    ∀ (rows : List (List Cell)) (results : List Cell),
      cell ∈ rows.foldl (fun results row =>
        row.foldl (fun results c =>
          if Contains (ToLower U c.Value.data) term ||
              Contains (ToLower U c.Formula.data) term then
            results ++ [c]
          else results) results) results →
      cell ∈ results ∨ ∃ row ∈ rows, cell ∈ row := by
  intro rows
  induction rows with
  | nil => intro results h; exact Or.inl h
  | cons r rs ih =>
    intro results h
    rw [List.foldl_cons] at h
    rcases ih _ h with h1 | ⟨row, hrow, hc⟩
    · rcases SearchSheet_row_mem U term cell r results h1 with h2 | h2
      · exact Or.inl h2
      · exact Or.inr ⟨r, List.mem_cons_self _ _, h2⟩
    · exact Or.inr ⟨row, List.mem_cons_of_mem _ hrow, hc⟩

theorem SearchSheet_mem (U : Unicode) (sheet : Sheet) (term : String) (cell : Cell)
    (h : cell ∈ SearchSheet U sheet term) : ∃ row ∈ sheet.Rows, cell ∈ row := by
  unfold SearchSheet at h
  split_ifs at h
  · exact absurd h (List.not_mem_nil _)
  · rcases SearchSheet_rows_mem U _ cell sheet.Rows [] h with h1 | h1
    · exact absurd h1 (List.not_mem_nil _)
    · exact h1

theorem jumpToSearchResult_inv (S : List Sheet) (m m1 : Model) (hinv : ViewInv S m)
    (h : jumpToSearchResult m = some m1) :
    ViewInv S m1 ∧ m1.searchResults = m.searchResults ∧ m1.searchIndex = m.searchIndex := by
  unfold jumpToSearchResult at h
  split_ifs at h
  · injection h with h; subst h; exact ⟨hinv, rfl, rfl⟩
  · split at h
    · exact absurd h (by simp)
    · rename_i result hres
      injection h with h
      subst h
      have hmem := index?_mem _ _ _ hres
      have := hinv.2.2.2.2.2 result hmem
      exact ⟨⟨hinv.1, this.1, this.2, centerView_offsetRow_nonneg _,
        centerView_offsetCol_nonneg _, hinv.2.2.2.2.2⟩, rfl, rfl⟩

theorem copyCell_inv (S : List Sheet) (m m1 : Model) (out : Outside) (hinv : ViewInv S m)
    (h : copyCell m out = some m1) : ViewInv S m1 := by
  unfold copyCell at h
  repeat' split at h
  all_goals (try dsimp only at h)
  all_goals (cases h <;> exact hinv)

theorem copyRow_inv (S : List Sheet) (m m1 : Model) (out : Outside) (hinv : ViewInv S m)
    (h : copyRow m out = some m1) : ViewInv S m1 := by
  unfold copyRow at h
  repeat' split at h
  all_goals (try dsimp only at h)
  all_goals (cases h <;> exact hinv)

theorem exportSheet_inv (U : Unicode) (S : List Sheet) (m m1 : Model) (f : String)
    (out : Outside) (hinv : ViewInv S m) (h : exportSheet U m f out = some m1) :
    ViewInv S m1 := by
  unfold exportSheet at h
  repeat' split at h
  all_goals (cases h <;> exact hinv)

theorem jumpToCell_inv (U : Unicode) (S : List Sheet) (m m1 : Model) (input : String)
    (hinv : ViewInv S m) (h : jumpToCell U m input = some m1) : ViewInv S m1 := by
  obtain ⟨hS, h1, h2, h3, h4, h5⟩ := hinv
  cases hs : index? m.sheets m.currentSheet with
  | none =>
    unfold jumpToCell at h
    rw [hs] at h
    exact absurd h (by simp)
  | some sheet =>
    rcases jumpToCell_cases U m sheet input hs with
      ⟨m2, e, f⟩ | ⟨m2, e, -, f⟩ | ⟨m2, e, -, -, f⟩ | ⟨e, -⟩
    · rw [e] at h; injection h with h; subst h
      obtain ⟨a1, -, -, a4, -, -, b1, -, b3, -, o1, o2, -⟩ := jumpLetterForm_some m m2 sheet _ f
      exact ⟨by rw [a1, hS], b1, b3, o1, o2, by rw [a4]; exact h5⟩
    · rw [e] at h; injection h with h; subst h
      obtain ⟨a1, -, -, a4, -, -, b1, -, b3, o1, o2, -⟩ := jumpRowForm_some m m2 sheet _ f
      exact ⟨by rw [a1, hS], b1, by rw [b3]; exact h2, o1, o2, by rw [a4]; exact h5⟩
    · rw [e] at h; injection h with h; subst h
      obtain ⟨a1, -, -, a4, -, -, b1, -, b3, -, o1, o2, -⟩ := jumpPairForm_some m m2 sheet _ f
      exact ⟨by rw [a1, hS], b1, b3, o1, o2, by rw [a4]; exact h5⟩
    · rw [e] at h; injection h with h; subst h
      exact ⟨hS, h1, h2, h3, h4, h5⟩

theorem updateNormal_inv (S : List Sheet) (hS : GoodSheets S) (m m1 : Model) (k : KeyMsg)
    (out : Outside) (hinv : ViewInv S m) (h : updateNormal m k out = some m1) :
    ViewInv S m1 := by
  have hinv0 := hinv
  obtain ⟨e, c1, c2, o1, o2, hr⟩ := hinv
  unfold updateNormal at h
  by_cases hlen : m.sheets.length = 0
  · rw [if_pos hlen] at h; cases h; exact hinv0
  rw [if_neg hlen] at h
  cases hs : index? m.sheets m.currentSheet with
  | none => rw [hs] at h; cases h
  | some sheet =>
    rw [hs] at h
    dsimp only at h
    obtain ⟨-, g1, g2⟩ := hS sheet (e ▸ index?_mem _ _ _ hs)
    by_cases hQuit : Matches k m.keys.Quit = true
    · rw [if_pos hQuit] at h
      cases h; exact hinv0
    rw [if_neg hQuit] at h
    by_cases hUp : Matches k m.keys.Up = true
    · rw [if_pos hUp] at h
      split_ifs at h <;> cases h
      · simp only [adjustViewport_eq]
        refine ⟨e, ?_, ?_, ?_, ?_, hr⟩ <;>
          ((try simp only [minimalScroll, Max, Min]); (try split_ifs) <;> omega)
      · exact hinv0
    rw [if_neg hUp] at h
    by_cases hDown : Matches k m.keys.Down = true
    · rw [if_pos hDown] at h
      split_ifs at h <;> cases h
      · simp only [adjustViewport_eq]
        refine ⟨e, ?_, ?_, ?_, ?_, hr⟩ <;>
          ((try simp only [minimalScroll, Max, Min]); (try split_ifs) <;> omega)
      · exact hinv0
    rw [if_neg hDown] at h
    by_cases hLeft : Matches k m.keys.Left = true
    · rw [if_pos hLeft] at h
      split_ifs at h <;> cases h
      · simp only [adjustViewport_eq]
        refine ⟨e, ?_, ?_, ?_, ?_, hr⟩ <;>
          ((try simp only [minimalScroll, Max, Min]); (try split_ifs) <;> omega)
      · exact hinv0
    rw [if_neg hLeft] at h
    by_cases hRight : Matches k m.keys.Right = true
    · rw [if_pos hRight] at h
      split_ifs at h <;> cases h
      · simp only [adjustViewport_eq]
        refine ⟨e, ?_, ?_, ?_, ?_, hr⟩ <;>
          ((try simp only [minimalScroll, Max, Min]); (try split_ifs) <;> omega)
      · exact hinv0
    rw [if_neg hRight] at h
    by_cases hPageDown : Matches k m.keys.PageDown = true
    · rw [if_pos hPageDown] at h
      cases h
      simp only [adjustViewport_eq]
      refine ⟨e, ?_, ?_, ?_, ?_, hr⟩ <;>
        ((try simp only [minimalScroll, Max, Min]); (try split_ifs) <;> omega)
    rw [if_neg hPageDown] at h
    by_cases hPageUp : Matches k m.keys.PageUp = true
    · rw [if_pos hPageUp] at h
      cases h
      simp only [adjustViewport_eq]
      refine ⟨e, ?_, ?_, ?_, ?_, hr⟩ <;>
        ((try simp only [minimalScroll, Max, Min]); (try split_ifs) <;> omega)
    rw [if_neg hPageUp] at h
    by_cases hHome : Matches k m.keys.Home = true
    · rw [if_pos hHome] at h
      cases h; exact ⟨e, c1, le_refl _, o1, le_refl _, hr⟩
    rw [if_neg hHome] at h
    by_cases hEnd : Matches k m.keys.End = true
    · rw [if_pos hEnd] at h
      cases h
      simp only [adjustViewport_eq]
      refine ⟨e, ?_, ?_, ?_, ?_, hr⟩ <;>
        ((try simp only [minimalScroll, Max, Min]); (try split_ifs) <;> omega)
    rw [if_neg hEnd] at h
    by_cases hFirstCol : Matches k m.keys.FirstCol = true
    · rw [if_pos hFirstCol] at h
      cases h; exact ⟨e, c1, le_refl _, o1, le_refl _, hr⟩
    rw [if_neg hFirstCol] at h
    by_cases hLastCol : Matches k m.keys.LastCol = true
    · rw [if_pos hLastCol] at h
      cases h
      simp only [adjustViewport_eq]
      refine ⟨e, ?_, ?_, ?_, ?_, hr⟩ <;>
        ((try simp only [minimalScroll, Max, Min]); (try split_ifs) <;> omega)
    rw [if_neg hLastCol] at h
    by_cases hNextSheet : Matches k m.keys.NextSheet = true
    · rw [if_pos hNextSheet] at h
      split_ifs at h
      · split at h <;> cases h
        exact ⟨e, le_refl _, le_refl _, le_refl _, le_refl _, hr⟩
      · cases h; exact hinv0
    rw [if_neg hNextSheet] at h
    by_cases hPrevSheet : Matches k m.keys.PrevSheet = true
    · rw [if_pos hPrevSheet] at h
      split_ifs at h
      · split at h <;> cases h
        exact ⟨e, le_refl _, le_refl _, le_refl _, le_refl _, hr⟩
      · cases h; exact hinv0
    rw [if_neg hPrevSheet] at h
    by_cases hSearch : Matches k m.keys.Search = true
    · rw [if_pos hSearch] at h
      cases h; exact hinv0
    rw [if_neg hSearch] at h
    by_cases hNextResult : Matches k m.keys.NextResult = true
    · rw [if_pos hNextResult] at h
      split_ifs at h
      · split at h
        · cases h
        · rename_i m2 hj
          cases h
          refine (jumpToSearchResult_inv S _ m2 ?_ hj).1
          exact ⟨e, c1, c2, o1, o2, hr⟩
      · cases h; exact hinv0
    rw [if_neg hNextResult] at h
    by_cases hPrevResult : Matches k m.keys.PrevResult = true
    · rw [if_pos hPrevResult] at h
      split_ifs at h
      · split at h
        · cases h
        · rename_i m2 hj
          cases h
          refine (jumpToSearchResult_inv S _ m2 ?_ hj).1
          exact ⟨e, c1, c2, o1, o2, hr⟩
      · cases h; exact hinv0
    rw [if_neg hPrevResult] at h
    by_cases hClearSearch : Matches k m.keys.ClearSearch = true
    · rw [if_pos hClearSearch] at h
      split_ifs at h <;> cases h
      · exact ⟨e, c1, c2, o1, o2, fun c hc => absurd hc (List.not_mem_nil _)⟩
      · exact hinv0
    rw [if_neg hClearSearch] at h
    by_cases hDetail : Matches k m.keys.Detail = true
    · rw [if_pos hDetail] at h
      cases h; exact hinv0
    rw [if_neg hDetail] at h
    by_cases hJump : Matches k m.keys.Jump = true
    · rw [if_pos hJump] at h
      cases h; exact hinv0
    rw [if_neg hJump] at h
    by_cases hToggleForm : Matches k m.keys.ToggleForm = true
    · rw [if_pos hToggleForm] at h
      split_ifs at h <;> cases h <;> exact hinv0
    rw [if_neg hToggleForm] at h
    by_cases hCopy : Matches k m.keys.Copy = true
    · rw [if_pos hCopy] at h
      exact copyCell_inv S m m1 out hinv0 h
    rw [if_neg hCopy] at h
    by_cases hCopyRow : Matches k m.keys.CopyRow = true
    · rw [if_pos hCopyRow] at h
      exact copyRow_inv S m m1 out hinv0 h
    rw [if_neg hCopyRow] at h
    by_cases hExport : Matches k m.keys.Export = true
    · rw [if_pos hExport] at h
      cases h; exact hinv0
    rw [if_neg hExport] at h
    by_cases hTheme : Matches k m.keys.Theme = true
    · rw [if_pos hTheme] at h
      cases h; exact hinv0
    rw [if_neg hTheme] at h
    by_cases hHelp : Matches k m.keys.Help = true
    · rw [if_pos hHelp] at h
      cases h; exact hinv0
    rw [if_neg hHelp] at h
    by_cases hVisualize : Matches k m.keys.Visualize = true
    · rw [if_pos hVisualize] at h
      split_ifs at h <;> cases h <;> exact hinv0
    rw [if_neg hVisualize] at h
    by_cases hSelectRange : Matches k m.keys.SelectRange = true
    · rw [if_pos hSelectRange] at h
      split_ifs at h <;> cases h <;> exact hinv0
    rw [if_neg hSelectRange] at h
    cases h; exact hinv0

theorem SearchSheet_nonneg (U : Unicode) (S : List Sheet) (hS : GoodSheets S) (sheet : Sheet)
    (hmem : sheet ∈ S) (term : String) :
    ∀ cell ∈ SearchSheet U sheet term, 0 ≤ cell.Row ∧ 0 ≤ cell.Col := by
  intro cell hcell
  obtain ⟨row, hrow, hc⟩ := SearchSheet_mem U sheet term cell hcell
  exact wellFormed_cells sheet (hS sheet hmem).1 row hrow cell hc

theorem updateSearch_inv (U : Unicode) (S : List Sheet) (hS : GoodSheets S) (m m1 : Model)
    (k : KeyMsg) (out : Outside) (hinv : ViewInv S m)
    (h : updateSearch U m k out = some m1) : ViewInv S m1 := by
  have hinv0 := hinv
  obtain ⟨e, c1, c2, o1, o2, hr⟩ := hinv
  unfold updateSearch at h
  split at h
  · cases h; exact hinv0
  · dsimp only at h
    split_ifs at h with hterm
    · cases hs : index? m.sheets m.currentSheet with
      | none => rw [hs] at h; cases h
      | some sheet =>
        rw [hs] at h
        dsimp only at h
        have hres := SearchSheet_nonneg U S hS sheet (e ▸ index?_mem _ _ _ hs)
          (String.mk (TrimSpace m.searchInput.data))
        split_ifs at h
        · split at h
          · cases h
          · rename_i m2 hj
            cases h
            refine (jumpToSearchResult_inv S _ m2 ?_ hj).1
            exact ⟨e, c1, c2, o1, o2, hres⟩
        · cases h
          exact ⟨e, c1, c2, o1, o2, hres⟩
    · cases h; exact hinv0
  · cases h; exact hinv0

theorem updateDetail_inv (S : List Sheet) (m m1 : Model) (k : KeyMsg) (hinv : ViewInv S m)
    (h : updateDetail m k = some m1) : ViewInv S m1 := by
  unfold updateDetail at h
  split_ifs at h <;> cases h <;> exact hinv

theorem updateJump_inv (U : Unicode) (S : List Sheet) (m m1 : Model) (k : KeyMsg)
    (out : Outside) (hinv : ViewInv S m) (h : updateJump U m k out = some m1) :
    ViewInv S m1 := by
  unfold updateJump at h
  split at h
  · cases h; exact hinv
  · dsimp only at h
    split_ifs at h
    · split at h
      · cases h
      · rename_i m2 hj
        cases h
        exact jumpToCell_inv U S m m2 _ hinv hj
    · cases h; exact hinv
  · cases h; exact hinv

theorem updateExport_inv (U : Unicode) (S : List Sheet) (m m1 : Model) (k : KeyMsg)
    (out : Outside) (hinv : ViewInv S m) (h : updateExport U m k out = some m1) :
    ViewInv S m1 := by
  unfold updateExport at h
  split at h
  · cases h; exact hinv
  · dsimp only at h
    split_ifs at h
    · split at h
      · cases h
      · rename_i m2 hj
        cases h
        exact exportSheet_inv U S m m2 _ out hinv hj
    · cases h; exact hinv
  · cases h; exact hinv

theorem updateTheme_inv (S : List Sheet) (m m1 : Model) (k : KeyMsg) (hinv : ViewInv S m)
    (h : updateTheme m k = some m1) : ViewInv S m1 := by
  unfold updateTheme at h
  dsimp only at h
  split_ifs at h <;> cases h <;> exact hinv

theorem updateChart_inv (S : List Sheet) (m m1 : Model) (k : KeyMsg) (hinv : ViewInv S m)
    (h : updateChart m k = some m1) : ViewInv S m1 := by
  unfold updateChart at h
  dsimp only at h
  split_ifs at h <;> cases h <;> exact hinv

theorem updateSelectRange_inv (S : List Sheet) (m m1 : Model) (k : KeyMsg)
    (hinv : ViewInv S m) (h : updateSelectRange m k = some m1) : ViewInv S m1 := by
  have hinv0 := hinv
  obtain ⟨e, c1, c2, o1, o2, hr⟩ := hinv
  unfold updateSelectRange at h
  split at h
  · cases h
  · split_ifs at h <;> cases h <;> first
      | exact hinv0
      | (simp only [adjustViewport_eq]
         refine ⟨e, ?_, ?_, ?_, ?_, hr⟩ <;>
           ((try simp only [minimalScroll]); (try split_ifs) <;> omega))

theorem Update_inv (U : Unicode) (S : List Sheet) (hS : GoodSheets S) (m m1 : Model)
    (msg : Msg) (hinv : ViewInv S m) (h : Update U m msg = some m1) : ViewInv S m1 := by
  unfold Update at h
  split at h
  · cases h; exact hinv
  · split at h
    · exact updateSearch_inv U S hS m m1 _ _ hinv h
    · exact updateDetail_inv S m m1 _ hinv h
    · exact updateJump_inv U S m m1 _ _ hinv h
    · exact updateExport_inv U S m m1 _ _ hinv h
    · exact updateTheme_inv S m m1 _ hinv h
    · exact updateChart_inv S m m1 _ hinv h
    · exact updateSelectRange_inv S m m1 _ hinv h
    · exact updateNormal_inv S hS m m1 _ _ hinv h
  · cases h; exact hinv

theorem run_inv (U : Unicode) (S : List Sheet) (hS : GoodSheets S) :
    ∀ (events : List Msg) (m m1 : Model), ViewInv S m → run U m events = some m1 →
      ViewInv S m1 := by
  intro events
  induction events with
  | nil => intro m m1 hinv h; cases h; exact hinv
  | cons ev evs ih =>
    intro m m1 hinv h
    unfold run at h
    split at h
    · cases h
    · rename_i m2 hstep
      exact ih m2 m1 (Update_inv U S hS m m2 ev hinv hstep) h

theorem NewModel_inv (filename : String) (sheets : List Sheet) (themeName : String) :
    ViewInv sheets (NewModel filename sheets themeName) :=
  ⟨rfl, le_refl _, le_refl _, le_refl _, le_refl _, fun _ hc => absurd hc (List.not_mem_nil _)⟩

/-- C6. For a workbook whose sheets all satisfy the loader's invariant and have at least one
row and one column, every state reachable from `NewModel` by `Update` events has
`offsetRow ≥ 0` and `offsetCol ≥ 0`. -/
theorem reachable_offsets_nonneg (U : Unicode) (filename : String) (sheets : List Sheet)
    (themeName : String) (m : Model) (hgood : GoodSheets sheets)
    (hreach : Reachable U filename sheets themeName m) :
    0 ≤ m.offsetRow ∧ 0 ≤ m.offsetCol := by
  obtain ⟨events, hrun⟩ := hreach
  have := run_inv U sheets hgood events _ m (NewModel_inv filename sheets themeName) hrun
  exact ⟨this.2.2.2.1, this.2.2.2.2.1⟩

/-! ## Concrete runs -/

theorem run_append (U : Unicode) : ∀ (es fs : List Msg) (m : Model),
    run U m (es ++ fs) = (run U m es).bind (fun m1 => run U m1 fs) := by
  intro es
  induction es with
  | nil => intro fs m; rfl
  | cons e es ih =>
    intro fs m
    simp only [List.cons_append, run]
    cases Update U m e with
    | none => rfl
    | some m1 => exact ih fs m1

theorem run_single (U : Unicode) (m : Model) (e : Msg) : run U m [e] = Update U m e := by
  unfold run
  cases Update U m e <;> rfl

/-- C2 (the code leaves the cursor out of bounds). On the two-sheet workbook `demoBook`, whatever
the Unicode tables: search `"x"` on the 3-row first sheet, press tab, press `n`. The stored
search results of the first sheet are still used, the cursor lands on row 2 of the second
sheet, whose `MaxRows` is 1, so the reachable state has its cursor outside the active sheet. -/
theorem stale_search_result_out_of_bounds : ∀ U : Unicode,
    GoodSheets demoBook ∧
    (run U demoModel (searchThenTab ++ [press 'n' ""])).map
        (fun m => (m.currentSheet, m.cursorRow, m.cursorCol, cursorInBounds m)) =
      some (1, 2, 0, false) ∧
    (index? demoBook 1).map (fun sheet => sheet.MaxRows) = some 1 := by
  intro U
  have h1 : run U demoModel searchThenTab = some staleState := rfl
  have h2 : (run U staleState [press 'n' ""]).map
      (fun m => (m.currentSheet, m.cursorRow, m.cursorCol, cursorInBounds m)) =
      some (1, 2, 0, false) := rfl
  refine ⟨by decide, ?_, by decide⟩
  rw [run_append, h1]
  exact h2

theorem jumpToCell_letters_without_row (U : Unicode) (m : Model) (sheet : Sheet)
    (input : String) (hs : index? m.sheets m.currentSheet = some sheet)
    (hrows : 1 ≤ sheet.MaxRows) (hcols : 1 ≤ sheet.MaxCols)
    (hin : input = "A1B" ∨ input = "A") :
    jumpToCell U m input =
      some { centerView { m with cursorRow := 0, cursorCol := 0 } with
             status := ⟨"→ A1", StatusSuccess⟩ } := by
  have hform : jumpLetterForm m sheet (ToUpper U (TrimSpace input.data)) =
      some { centerView { m with cursorRow := 0, cursorCol := 0 } with
             status := ⟨"→ A1", StatusSuccess⟩ } := by
    have hw : wrap64 (1 - 1) = 0 := by decide
    have hmsg : ColIndexToLetter 0 ++ Sprintf_d (0 + 1) = "A1" := by decide
    rcases hin with rfl | rfl
    · have e : TrimSpace ("A1B" : String).data = ['A', '1', 'B'] := by decide
      have hp : parseColumnLetters ['A', '1', 'B'] 0 = (1, ['1', 'B']) := by decide
      have hrow : letterFormRow ['1', 'B'] = 0 := by decide
      rw [e, ToUpper_id U _ (by decide), jumpLetterForm_of_letter m sheet 'A' _ (by decide), hp]
      simp only [hrow, hw, hmsg]
      rw [if_pos ⟨le_refl _, by omega, le_refl _, by omega⟩]
      rfl
    · have e : TrimSpace ("A" : String).data = ['A'] := by decide
      have hp : parseColumnLetters ['A'] 0 = (1, []) := by decide
      have hrow : letterFormRow [] = 0 := by decide
      rw [e, ToUpper_id U _ (by decide), jumpLetterForm_of_letter m sheet 'A' _ (by decide), hp]
      simp only [hrow, hw, hmsg]
      rw [if_pos ⟨le_refl _, by omega, le_refl _, by omega⟩]
      rfl
  rcases jumpToCell_cases U m sheet input hs with
    ⟨m1, e, h⟩ | ⟨m1, _, h, _⟩ | ⟨m1, _, h, _⟩ | ⟨_, h, _⟩
  · rw [e, ← h, hform]
  · rw [hform] at h; exact absurd h (by simp)
  · rw [hform] at h; exact absurd h (by simp)
  · rw [hform] at h; exact absurd h (by simp)

theorem updateJump_enter (U : Unicode) (m : Model) (input : String)
    (hm : m.mode = Mode.ModeJump)
    (h : String.mk (TrimSpace m.jumpInput.data) = input) (hne : input ≠ "") :
    Update U m pressEnter =
      (jumpToCell U m input).bind (fun m1 => some { m1 with mode := Mode.ModeNormal }) := by
  unfold Update pressEnter
  simp only [hm]
  unfold updateJump
  simp only [h]
  rw [if_pos hne]
  cases jumpToCell U m input <;> rfl

/-- C9 (the code accepts a malformed letter reference). On `demoBook`, whatever the Unicode
tables, with the cursor on row 2: the jump input `"A1B"`, whose row part `"1B"` is no decimal
number, is not rejected; the cursor moves to `(0,0)` and the status is the success message
`"→ A1"`. The input `"A"`, with no row part at all, does the same. -/
theorem jump_malformed_reference_accepted : ∀ U : Unicode,
    (run U demoModel (jumpTyping "A1B")).map (fun m => (m.cursorRow, m.cursorCol, m.jumpInput)) =
      some (2, 0, "A1B") ∧
    (run U demoModel (jumpTyping "A1B" ++ [pressEnter])).map
        (fun m => (m.cursorRow, m.cursorCol, m.status)) =
      some (0, 0, ⟨"→ A1", StatusSuccess⟩) ∧
    (run U demoModel (jumpTyping "A" ++ [pressEnter])).map
        (fun m => (m.cursorRow, m.cursorCol, m.status)) =
      some (0, 0, ⟨"→ A1", StatusSuccess⟩) := by
  intro U
  have h1 : run U demoModel (jumpTyping "A1B") = some (jumpState "A1B") := rfl
  have h2 : run U demoModel (jumpTyping "A") = some (jumpState "A") := rfl
  have hs : ∀ t, index? (jumpState t).sheets (jumpState t).currentSheet = some demoSheet :=
    fun _ => rfl
  have s1 := updateJump_enter U (jumpState "A1B") "A1B" rfl (by decide) (by decide)
  have s2 := updateJump_enter U (jumpState "A") "A" rfl (by decide) (by decide)
  have j1 := jumpToCell_letters_without_row U (jumpState "A1B") demoSheet "A1B" (hs _)
    (by decide) (by decide) (Or.inl rfl)
  have j2 := jumpToCell_letters_without_row U (jumpState "A") demoSheet "A" (hs _)
    (by decide) (by decide) (Or.inr rfl)
  refine ⟨by rw [h1]; rfl, ?_, ?_⟩
  · rw [run_append, h1, Option.some_bind, run_single, s1, j1, Option.some_bind,
      Option.map_some']
    rfl
  · rw [run_append, h2, Option.some_bind, run_single, s2, j2, Option.some_bind,
      Option.map_some']
    rfl

theorem jumpToCell_digits_any_tables (U : Unicode) (m : Model) :
    jumpToCell U m "2" = jumpToCell Unicode.ascii m "2" := by
  have hin : ToUpper U (TrimSpace ("2" : String).data) =
      ToUpper Unicode.ascii (TrimSpace ("2" : String).data) := rfl
  unfold jumpToCell
  simp only [hin]

/-- C7 (the code reports a successful jump outside the sheet). On the two-sheet workbook
`wideBook`, whatever the Unicode tables: search `"x"` on the 1×3 first sheet, press tab and
`n`, which puts the cursor on column 2 of the 3×1 second sheet. In this reachable state
`jumpToCell` on the input `"2"` succeeds with the status "→ Row 2" and the cursor ends on
`(1, 2)`, outside `[0,MaxRows) × [0,MaxCols)`; so does the program on the keys ctrl+g, `2`,
enter. The row-only form of `jumpToCell` assigns and tests the row alone and keeps the cursor
column it finds. -/
theorem row_jump_succeeds_outside_columns : ∀ U : Unicode,
    GoodSheets wideBook ∧
    run U wideModel (searchThenTab ++ [press 'n' ""]) = some wideOutside ∧
    (index? wideOutside.sheets wideOutside.currentSheet).map
        (fun sheet => (sheet.MaxRows, sheet.MaxCols)) = some (3, 1) ∧
    (wideOutside.cursorRow, wideOutside.cursorCol) = (0, 2) ∧
    (jumpToCell U wideOutside "2").map
        (fun m1 => (m1.cursorRow, m1.cursorCol, m1.status, cursorInBounds m1)) =
      some (1, 2, ⟨"→ Row 2", StatusSuccess⟩, false) ∧
    (run U wideModel (searchThenTab ++ [press 'n' ""] ++ jumpToRowTwo)).map
        (fun m => (m.mode, m.currentSheet, m.cursorRow, m.cursorCol, m.status,
          cursorInBounds m)) =
      some (Mode.ModeNormal, 1, 1, 2, ⟨"→ Row 2", StatusSuccess⟩, false) := by
  intro U
  have h1 : run U wideModel searchThenTab = some wideStale := rfl
  have h2 : run U wideStale [press 'n' ""] = some wideOutside := rfl
  have h12 : run U wideModel (searchThenTab ++ [press 'n' ""]) = some wideOutside := by
    rw [run_append, h1]
    exact h2
  have h3 : run U wideOutside [pressJump, press '2' "2"] = some wideJumping := rfl
  have h4 := updateJump_enter U wideJumping "2" rfl (by decide) (by decide)
  have h5 : (run U wideOutside jumpToRowTwo).map
      (fun m => (m.mode, m.currentSheet, m.cursorRow, m.cursorCol, m.status,
        cursorInBounds m)) =
      some (Mode.ModeNormal, 1, 1, 2, ⟨"→ Row 2", StatusSuccess⟩, false) := by
    have hsplit : jumpToRowTwo = [pressJump, press '2' "2"] ++ [pressEnter] := rfl
    rw [hsplit, run_append, h3, Option.some_bind, run_single, h4,
      jumpToCell_digits_any_tables]
    decide
  refine ⟨by decide, h12, by decide, by decide, ?_, ?_⟩
  · rw [jumpToCell_digits_any_tables]
    decide
  · rw [run_append, h12, Option.some_bind]
    exact h5

/-! ## Instances on concrete workbooks -/

theorem movement_keeps_cursor_in_bounds_witness :
    demoModel.mode = Mode.ModeNormal ∧
    index? demoModel.sheets demoModel.currentSheet = some demoSheet ∧
    (0 ≤ demoModel.cursorRow ∧ demoModel.cursorRow < demoSheet.MaxRows) ∧
    (0 ≤ demoModel.cursorCol ∧ demoModel.cursorCol < demoSheet.MaxCols) ∧
    (∀ k ∈ demoKeys, isMovementKey demoModel k.1 = true) ∧
    ∃ m1, run Unicode.ascii demoModel (demoKeys.map (fun k => Msg.KeyMsg k.1 k.2)) = some m1 ∧
      index? m1.sheets m1.currentSheet = some demoSheet ∧
      0 ≤ m1.cursorRow ∧ m1.cursorRow < demoSheet.MaxRows ∧
      0 ≤ m1.cursorCol ∧ m1.cursorCol < demoSheet.MaxCols :=
  ⟨by decide, by decide, by decide, by decide, by decide,
    movement_keeps_cursor_in_bounds Unicode.ascii demoModel demoSheet demoKeys
      (by decide) (by decide) (by decide) (by decide) (by decide)⟩

theorem adjustViewport_eq_minimalScroll_witness :
    (demoModel.offsetRow ≤ demoModel.cursorRow ∧
      demoModel.cursorRow < demoModel.offsetRow + visibleRows demoModel ∧
      demoModel.offsetCol ≤ demoModel.cursorCol ∧
      demoModel.cursorCol < demoModel.offsetCol + visibleCols demoModel) ∧
    adjustViewport demoModel = demoModel :=
  ⟨by decide, (adjustViewport_eq_minimalScroll demoModel).2.2.2 (by decide)⟩

theorem reachable_offsets_nonneg_witness :
    GoodSheets demoBook ∧
    Reachable Unicode.ascii "book.xlsx" demoBook "nord" demoReached ∧
    0 ≤ demoReached.offsetRow ∧ 0 ≤ demoReached.offsetCol :=
  ⟨by decide,
    ⟨[Msg.WindowSizeMsg 80 24, press '/' "", press 'x' "x", pressEnter, Msg.WindowSizeMsg 10 3],
      by decide⟩,
    reachable_offsets_nonneg Unicode.ascii "book.xlsx" demoBook "nord" demoReached
      (by decide) ⟨[Msg.WindowSizeMsg 80 24, press '/' "", press 'x' "x", pressEnter,
        Msg.WindowSizeMsg 10 3], by decide⟩⟩

theorem jumpToCell_success_or_rejected_witness :
    index? fiftyModel.sheets fiftyModel.currentSheet = some fiftySheet ∧
    (0 ≤ fiftyModel.cursorCol ∧ fiftyModel.cursorCol < fiftySheet.MaxCols) ∧
    fiftySheet.MaxRows = 50 ∧
    jumpToCell Unicode.ascii fiftyModel "999999" =
      some { fiftyModel with status := ⟨"Invalid cell reference", StatusError⟩ } :=
  ⟨by decide, by decide, by decide,
    (jumpToCell_success_or_rejected Unicode.ascii fiftyModel fiftySheet "999999"
      (by decide) (by decide)).2 (by decide)⟩

theorem jumpToCell_letter_reference_witness :
    index? fiftyModel.sheets fiftyModel.currentSheet = some fiftySheet ∧
    (fiftySheet.MaxRows ≤ maxInt ∧ fiftySheet.MaxCols ≤ maxInt) ∧
    ((0 : Int) ≤ 41 ∧ (41 : Int) < fiftySheet.MaxRows) ∧
    ((0 : Int) ≤ 0 ∧ (0 : Int) < fiftySheet.MaxCols) ∧
    ColIndexToLetter 0 ++ Sprintf_d (41 + 1) = "A42" ∧
    ∃ m1, jumpToCell Unicode.ascii fiftyModel (ColIndexToLetter 0 ++ Sprintf_d (41 + 1)) =
        some m1 ∧ m1.cursorRow = 41 ∧ m1.cursorCol = 0 ∧
      m1.status = ⟨"→ " ++ (ColIndexToLetter 0 ++ Sprintf_d (41 + 1)), StatusSuccess⟩ :=
  ⟨by decide, by decide, by decide, by decide, by decide,
    (jumpToCell_letter_reference Unicode.ascii fiftyModel fiftySheet 41 0
      (by decide) (by decide) (by decide) (by decide)).1⟩

theorem jumpToCell_bare_row_witness :
    index? fiftyModel.sheets fiftyModel.currentSheet = some fiftySheet ∧
    fiftySheet.MaxRows ≤ maxInt ∧
    ((1 : Int) ≤ 50 ∧ (50 : Int) ≤ fiftySheet.MaxRows) ∧
    Sprintf_d 50 = "50" ∧
    ∃ m1, jumpToCell Unicode.ascii fiftyModel (Sprintf_d 50) = some m1 ∧
      m1.cursorRow = 50 - 1 ∧ m1.cursorCol = fiftyModel.cursorCol ∧
      m1.status = ⟨"→ Row " ++ Sprintf_d 50, StatusSuccess⟩ :=
  ⟨by decide, by decide, by decide, by decide,
    jumpToCell_bare_row Unicode.ascii fiftyModel fiftySheet 50
      (by decide) (by decide) (by decide)⟩

/-! ## Key matching under the default key map -/

theorem not_Matches (k : KeyMsg) (s : String) (b : List String) (h : keyString k = s)
    (hb : b.contains s = false) : ¬(Matches k b = true) := by
  unfold Matches
  rw [h, hb]
  decide

theorem yes_Matches (k : KeyMsg) (s : String) (b : List String) (h : keyString k = s)
    (hb : b.contains s = true) : Matches k b = true := by
  unfold Matches
  rw [h, hb]

theorem keyString_escape (k : KeyMsg) (h : k.Typ = KeyType.KeyEscape) :
    keyString k = "esc" ∨ keyString k = "alt+esc" := by
  obtain ⟨typ, runes, alt, paste⟩ := k
  simp only at h
  subst h
  cases alt
  · exact Or.inl rfl
  · exact Or.inr rfl

/-! ## Search mode -/

theorem TrimSpace_blank (s : List Char) (h : ∀ c ∈ s, isSpace c = true) : TrimSpace s = [] := by
  unfold TrimSpace
  have : s.dropWhile isSpace = [] := List.dropWhile_eq_nil_iff.mpr h
  rw [this]
  rfl

/-- C13. `SearchSheet` with the empty query returns no cell, whatever the sheet; and Enter in
Search mode on an input that is empty or holds only white space returns to Normal mode and
changes nothing else: `searchQuery`, `searchResults`, `searchIndex` and the cursor are kept. -/
theorem empty_query_is_noop (U : Unicode) (sheet : Sheet) (m : Model) (k : KeyMsg)
    (out : Outside) (hmode : m.mode = Mode.ModeSearch) (hk : k.Typ = KeyType.KeyEnter)
    (hblank : ∀ c ∈ m.searchInput.data, isSpace c = true) :
    SearchSheet U sheet "" = [] ∧
    Update U m (Msg.KeyMsg k out) = some { m with mode := Mode.ModeNormal } ∧
    ∀ m1, Update U m (Msg.KeyMsg k out) = some m1 →
      m1.searchQuery = m.searchQuery ∧ m1.searchResults = m.searchResults ∧
      m1.searchIndex = m.searchIndex ∧ m1.cursorRow = m.cursorRow ∧
      m1.cursorCol = m.cursorCol := by
  have hstep : Update U m (Msg.KeyMsg k out) = some { m with mode := Mode.ModeNormal } := by
    unfold Update
    simp only [hmode]
    unfold updateSearch
    simp only [hk, TrimSpace_blank _ hblank]
    rw [if_neg (by decide)]
  refine ⟨rfl, hstep, ?_⟩
  intro m1 h1
  rw [hstep] at h1
  cases h1
  exact ⟨rfl, rfl, rfl, rfl, rfl⟩

/-- C16. Escape in Search mode returns to Normal mode and changes nothing else: the committed
`searchQuery`, `searchResults` and `searchIndex`, the cursor, the viewport and the selection are
the same, whatever text the search input holds. -/
theorem search_escape_keeps_state (U : Unicode) (m : Model) (k : KeyMsg) (out : Outside)
    (hmode : m.mode = Mode.ModeSearch) (hk : k.Typ = KeyType.KeyEscape) :
    Update U m (Msg.KeyMsg k out) = some { m with mode := Mode.ModeNormal } ∧
    ∀ m1, Update U m (Msg.KeyMsg k out) = some m1 →
      m1.mode = Mode.ModeNormal ∧
      m1.searchQuery = m.searchQuery ∧ m1.searchResults = m.searchResults ∧
      m1.searchIndex = m.searchIndex ∧
      m1.cursorRow = m.cursorRow ∧ m1.cursorCol = m.cursorCol ∧
      m1.offsetRow = m.offsetRow ∧ m1.offsetCol = m.offsetCol ∧
      m1.selectStart = m.selectStart ∧ m1.selectEnd = m.selectEnd ∧
      m1.isSelecting = m.isSelecting := by
  have hstep : Update U m (Msg.KeyMsg k out) = some { m with mode := Mode.ModeNormal } := by
    unfold Update
    simp only [hmode]
    unfold updateSearch
    simp only [hk]
  refine ⟨hstep, ?_⟩
  intro m1 h1
  rw [hstep] at h1
  cases h1
  exact ⟨rfl, rfl, rfl, rfl, rfl, rfl, rfl, rfl, rfl, rfl, rfl⟩

/-! ## Selection -/

/-- C18. The normalized selection rectangle does not depend on the drag direction: with the
corners `p`, `q` in either order `isInSelection` answers the same for every cell and
`renderChart` passes the same rectangle to the series extraction, namely
`(min rows, min cols, max rows, max cols)`; while selecting, `isInSelection r c` holds exactly
when `min(p.row,q.row) ≤ r ≤ max(p.row,q.row)` and `min(p.col,q.col) ≤ c ≤ max(p.col,q.col)`. -/
theorem selection_rectangle_symmetric (m : Model) (p q : Int × Int) (r c : Int) :
    isInSelection { m with selectStart := p, selectEnd := q } r c =
      isInSelection { m with selectStart := q, selectEnd := p } r c ∧
    chartSelection { m with selectStart := p, selectEnd := q } =
      chartSelection { m with selectStart := q, selectEnd := p } ∧
    chartSelection { m with selectStart := p, selectEnd := q } =
      (min p.1 q.1, min p.2 q.2, max p.1 q.1, max p.2 q.2) ∧
    (m.isSelecting = true →
      (isInSelection { m with selectStart := p, selectEnd := q } r c = true ↔
        (min p.1 q.1 ≤ r ∧ r ≤ max p.1 q.1 ∧ min p.2 q.2 ≤ c ∧ c ≤ max p.2 q.2))) := by
  have key : ∀ a b : Int × Int,
      chartSelection { m with selectStart := a, selectEnd := b } =
        (min a.1 b.1, min a.2 b.2, max a.1 b.1, max a.2 b.2) := by
    intro a b
    unfold chartSelection
    simp only []
    split_ifs with h1 h2 h2 <;>
      simp only [Prod.mk.injEq] <;> refine ⟨?_, ?_, ?_, ?_⟩ <;> omega
  have inSel : ∀ a b : Int × Int, m.isSelecting = true →
      (isInSelection { m with selectStart := a, selectEnd := b } r c = true ↔
        (min a.1 b.1 ≤ r ∧ r ≤ max a.1 b.1 ∧ min a.2 b.2 ≤ c ∧ c ≤ max a.2 b.2)) := by
    intro a b hsel
    unfold isInSelection
    simp only [hsel, Bool.not_true, Bool.false_eq_true, if_false, Bool.and_eq_true,
      decide_eq_true_eq]
    split_ifs with h1 h2 h2 <;> simp only [] <;> omega
  refine ⟨?_, ?_, key p q, inSel p q⟩
  · by_cases hsel : m.isSelecting = true
    · have h1 := inSel p q hsel
      have h2 := inSel q p hsel
      rw [Bool.eq_iff_iff, h1, h2]
      omega
    · have hf : m.isSelecting = false := by simpa using hsel
      unfold isInSelection
      simp only [hf, Bool.not_false, if_true]
  · rw [key p q, key q p]
    simp only [Prod.mk.injEq]
    refine ⟨?_, ?_, ?_, ?_⟩ <;> omega

theorem updateSelectRange_default (m : Model) (sheet : Sheet) (k : KeyMsg)
    (hs : index? m.sheets m.currentSheet = some sheet) (hkeys : m.keys = DefaultKeyMap)
    (hUp : DefaultKeyMap.Up.contains (keyString k) = false)
    (hDown : DefaultKeyMap.Down.contains (keyString k) = false)
    (hLeft : DefaultKeyMap.Left.contains (keyString k) = false)
    (hRight : DefaultKeyMap.Right.contains (keyString k) = false) :
    updateSelectRange m k =
      if Matches k DefaultKeyMap.SelectRange then
        some { m with mode := Mode.ModeNormal,
                      status := ⟨"Selected range - Press v to visualize", StatusSuccess⟩ }
      else if k.Typ = KeyType.KeyEscape then
        some { m with isSelecting := false, mode := Mode.ModeNormal,
                      status := ⟨"Selection cancelled", StatusInfo⟩ }
      else some m := by
  unfold updateSelectRange
  simp only [hs, hkeys]
  rw [if_neg (not_Matches k _ _ rfl hUp), if_neg (not_Matches k _ _ rfl hDown),
    if_neg (not_Matches k _ _ rfl hLeft), if_neg (not_Matches k _ _ rfl hRight)]

/-- C19. In SelectRange mode, with the default key map and a valid active sheet, the
select-range key `V` returns to Normal mode and changes only the mode and the status:
`isSelecting` (still true if it was), `selectStart` and `selectEnd` are kept, so the rectangle
`renderChart` extracts later and the cells `isInSelection` reports are those of the selection
that was made. -/
theorem finish_selection_keeps_rectangle (U : Unicode) (m : Model) (sheet : Sheet)
    (k : KeyMsg) (out : Outside)
    (hmode : m.mode = Mode.ModeSelectRange) (hkeys : m.keys = DefaultKeyMap)
    (hs : index? m.sheets m.currentSheet = some sheet) (hk : keyString k = "V") :
    Update U m (Msg.KeyMsg k out) =
      some { m with mode := Mode.ModeNormal,
                    status := ⟨"Selected range - Press v to visualize", StatusSuccess⟩ } ∧
    ∀ m1, Update U m (Msg.KeyMsg k out) = some m1 →
      m1.mode = Mode.ModeNormal ∧ m1.isSelecting = m.isSelecting ∧
      m1.selectStart = m.selectStart ∧ m1.selectEnd = m.selectEnd ∧
      chartSelection m1 = chartSelection m ∧
      ∀ r c, isInSelection m1 r c = isInSelection m r c := by
  have hstep : Update U m (Msg.KeyMsg k out) =
      some { m with mode := Mode.ModeNormal,
                    status := ⟨"Selected range - Press v to visualize", StatusSuccess⟩ } := by
    unfold Update
    simp only [hmode]
    rw [updateSelectRange_default m sheet k hs hkeys (by rw [hk]; decide) (by rw [hk]; decide)
      (by rw [hk]; decide) (by rw [hk]; decide)]
    rw [if_pos (yes_Matches k "V" _ hk (by decide))]
  refine ⟨hstep, ?_⟩
  intro m1 h1
  rw [hstep] at h1
  cases h1
  exact ⟨rfl, rfl, rfl, rfl, rfl, fun _ _ => rfl⟩

/-- C20. In SelectRange mode, with the default key map and a valid active sheet, Escape sets
`isSelecting = false`, returns to Normal mode with the status "Selection cancelled", and
afterwards `isInSelection r c` is false for every cell; in any state with `isSelecting = false`
the membership test is false. -/
theorem cancel_selection_discards (U : Unicode) (m : Model) (sheet : Sheet)
    (k : KeyMsg) (out : Outside)
    (hmode : m.mode = Mode.ModeSelectRange) (hkeys : m.keys = DefaultKeyMap)
    (hs : index? m.sheets m.currentSheet = some sheet) (hk : k.Typ = KeyType.KeyEscape) :
    Update U m (Msg.KeyMsg k out) =
      some { m with isSelecting := false, mode := Mode.ModeNormal,
                    status := ⟨"Selection cancelled", StatusInfo⟩ } ∧
    (∀ m1, Update U m (Msg.KeyMsg k out) = some m1 →
      m1.isSelecting = false ∧ m1.mode = Mode.ModeNormal ∧
      m1.status = ⟨"Selection cancelled", StatusInfo⟩ ∧
      ∀ r c, isInSelection m1 r c = false) ∧
    (∀ (m2 : Model) (r c : Int), m2.isSelecting = false → isInSelection m2 r c = false) := by
  have hgen : ∀ (m2 : Model) (r c : Int), m2.isSelecting = false →
      isInSelection m2 r c = false := by
    intro m2 r c h2
    unfold isInSelection
    simp only [h2, Bool.not_false, if_true]
  have hno : ∀ b : List String, b.contains "esc" = false → b.contains "alt+esc" = false →
      b.contains (keyString k) = false := by
    intro b h1 h2
    rcases keyString_escape k hk with e | e <;> rw [e] <;> assumption
  have hstep : Update U m (Msg.KeyMsg k out) =
      some { m with isSelecting := false, mode := Mode.ModeNormal,
                    status := ⟨"Selection cancelled", StatusInfo⟩ } := by
    unfold Update
    simp only [hmode]
    rw [updateSelectRange_default m sheet k hs hkeys (hno _ (by decide) (by decide))
      (hno _ (by decide) (by decide)) (hno _ (by decide) (by decide))
      (hno _ (by decide) (by decide))]
    rw [if_neg (not_Matches k _ _ rfl (hno _ (by decide) (by decide))), if_pos hk]
  refine ⟨hstep, ?_, hgen⟩
  intro m1 h1
  rw [hstep] at h1
  cases h1
  exact ⟨rfl, rfl, rfl, fun r c => hgen _ r c rfl⟩

/-- C17 (the code stays in Normal mode). On `demoBook`, whatever the Unicode tables: move the
cursor down once and press the select-range key `V` while no selection is active. The selection
is started at the cursor (`selectStart = selectEnd = (1,0)`, `isSelecting = true`), but the mode
is still Normal, not SelectRange; a second `V` is again handled by the Normal-mode handler. -/
theorem select_range_key_stays_in_normal_mode : ∀ U : Unicode,
    (run U demoModel [press 'j' ""]).map (fun m => (m.mode, m.isSelecting, m.cursorRow)) =
      some (Mode.ModeNormal, false, 1) ∧
    (run U demoModel [press 'j' "", press 'V' ""]).map
        (fun m => (m.mode, m.selectStart, m.selectEnd, m.isSelecting)) =
      some (Mode.ModeNormal, (1, 0), (1, 0), true) ∧
    (run U demoModel [press 'j' "", press 'V' "", press 'j' "", press 'V' ""]).map
        (fun m => (m.mode, m.selectStart, m.selectEnd, m.status)) =
      some (Mode.ModeNormal, (1, 0), (2, 0),
        ⟨"Selected 2x1 range - Press v to visualize", StatusSuccess⟩) := by
  intro U
  exact ⟨rfl, rfl, rfl⟩

/-! ## Search -/

theorem row_foldl_filter (p : Cell → Bool) : ∀ (row acc : List Cell),
    row.foldl (fun results cell => if p cell = true then results ++ [cell] else results) acc =
      acc ++ row.filter p := by
  intro row
  induction row with
  | nil => intro acc; simp
  | cons c cs ih =>
    intro acc
    rw [List.foldl_cons, ih]
    by_cases hp : p c = true
    · rw [if_pos hp, List.filter_cons_of_pos hp, List.append_assoc]
      rfl
    · rw [if_neg hp, List.filter_cons_of_neg hp]

theorem rows_foldl_filter (p : Cell → Bool) : ∀ (rows : List (List Cell)) (acc : List Cell),
    rows.foldl (fun results row =>
      row.foldl (fun results cell => if p cell = true then results ++ [cell] else results)
        results) acc =
      acc ++ rows.flatten.filter p := by
  intro rows
  induction rows with
  | nil => intro acc; simp
  | cons r rs ih =>
    intro acc
    rw [List.foldl_cons, ih, row_foldl_filter, List.flatten_cons, List.filter_append,
      List.append_assoc]

theorem SearchSheet_eq_filter (U : Unicode) (sheet : Sheet) (term : String) (h : term ≠ "") :
    SearchSheet U sheet term = sheet.Rows.flatten.filter (cellMatches U term) := by
  unfold SearchSheet
  rw [if_neg h]
  have := rows_foldl_filter (cellMatches U term) sheet.Rows []
  rw [List.nil_append] at this
  exact this

theorem Contains_iff_infixOf (s sub : List Char) : Contains s sub = true ↔ sub <:+: s := by
  unfold Contains
  rw [List.any_eq_true]
  constructor
  · rintro ⟨t, ht, hp⟩
    exact List.infix_iff_prefix_suffix.mpr
      ⟨t, List.isPrefixOf_iff_prefix.mp hp, (List.mem_tails t s).mp ht⟩
  · intro h
    obtain ⟨t, hp, hs⟩ := List.infix_iff_prefix_suffix.mp h
    exact ⟨t, (List.mem_tails t s).mpr hs, List.isPrefixOf_iff_prefix.mpr hp⟩

theorem forall2_sameLetter_iff (U : Unicode) : ∀ a b : List Char,
    List.Forall₂ (sameLetter U) a b ↔ ToLower U a = ToLower U b := by
  intro a
  induction a with
  | nil =>
    intro b
    cases b with
    | nil => simp [ToLower]
    | cons y ys => simp [ToLower]
  | cons x xs ih =>
    intro b
    cases b with
    | nil => simp [ToLower]
    | cons y ys =>
      rw [List.forall₂_cons, ih ys]
      simp [ToLower, sameLetter]

theorem Contains_ToLower_iff (U : Unicode) (s q : List Char) :
    Contains (ToLower U s) (ToLower U q) = true ↔ ContainsIgnoringCase U s q := by
  rw [Contains_iff_infixOf]
  unfold ContainsIgnoringCase
  constructor
  · rintro ⟨a, b, hab⟩
    unfold ToLower at hab
    obtain ⟨s12, s3, hs, h12, -⟩ := List.map_eq_append_iff.mp hab.symm
    obtain ⟨s1, s2, hs12, -, h2⟩ := List.map_eq_append_iff.mp h12
    refine ⟨s2, ⟨s1, s3, ?_⟩, (forall2_sameLetter_iff U s2 q).mpr h2⟩
    rw [hs, hs12]
  · rintro ⟨piece, ⟨a, b, hab⟩, hf⟩
    have := (forall2_sameLetter_iff U piece q).mp hf
    rw [← this, ← hab]
    exact ⟨ToLower U a, ToLower U b, by simp [ToLower]⟩

theorem cellMatches_iff (U : Unicode) (q : String) (cell : Cell) :
    cellMatches U q cell = true ↔
      ContainsIgnoringCase U cell.Value.data q.data ∨
        ContainsIgnoringCase U cell.Formula.data q.data := by
  unfold cellMatches
  rw [Bool.or_eq_true, Contains_ToLower_iff, Contains_ToLower_iff]

theorem wellFormed_getElem (s : Sheet) (h : s.wellFormed = true) (i j : Nat) (row : List Cell)
    (cell : Cell) (hrow : s.Rows[i]? = some row) (hcell : row[j]? = some cell) :
    cell.Row = (i : Int) ∧ cell.Col = (j : Int) := by
  unfold Sheet.wellFormed at h
  simp only [Bool.and_eq_true, List.all_eq_true, decide_eq_true_eq] at h
  exact h.2 (i, row) (List.mk_mem_enum_iff_getElem?.mpr hrow) (j, cell)
    (List.mk_mem_enum_iff_getElem?.mpr hcell)

theorem wellFormed_rowMajor (s : Sheet) (h : s.wellFormed = true) :
    List.Pairwise rowMajorLt s.Rows.flatten := by
  rw [List.pairwise_flatten]
  constructor
  · intro row hrow
    obtain ⟨i, hi⟩ := List.mem_iff_getElem?.mp hrow
    rw [List.pairwise_iff_getElem]
    intro j1 j2 h1 h2 hlt
    have e1 := wellFormed_getElem s h i j1 row _ hi (List.getElem?_eq_getElem h1)
    have e2 := wellFormed_getElem s h i j2 row _ hi (List.getElem?_eq_getElem h2)
    right
    rw [e1.1, e2.1, e1.2, e2.2]
    exact ⟨rfl, by exact_mod_cast hlt⟩
  · rw [List.pairwise_iff_getElem]
    intro i1 i2 h1 h2 hlt x hx y hy
    obtain ⟨j1, hj1⟩ := List.mem_iff_getElem?.mp hx
    obtain ⟨j2, hj2⟩ := List.mem_iff_getElem?.mp hy
    have e1 := wellFormed_getElem s h i1 j1 _ x (List.getElem?_eq_getElem h1) hj1
    have e2 := wellFormed_getElem s h i2 j2 _ y (List.getElem?_eq_getElem h2) hj2
    left
    rw [e1.1, e2.1]
    exact_mod_cast hlt

theorem ascii_case_roundtrip (U : Unicode) : ∀ n : Nat, n < 128 →
    lowerRune U (upperRune U (Char.ofNat n)) = lowerRune U (Char.ofNat n) ∧
      lowerRune U (lowerRune U (Char.ofNat n)) = lowerRune U (Char.ofNat n) := by
  intro n hn
  interval_cases n <;> exact ⟨rfl, rfl⟩

theorem ToLower_ascii (U : Unicode) (s : List Char) (h : ∀ c ∈ s, c.toNat < 128) :
    ToLower U (ToUpper U s) = ToLower U s ∧ ToLower U (ToLower U s) = ToLower U s := by
  unfold ToLower ToUpper
  rw [List.map_map, List.map_map]
  constructor
  · apply List.map_congr_left
    intro c hc
    have := (ascii_case_roundtrip U c.toNat (h c hc)).1
    rw [Char.ofNat_toNat] at this
    exact this
  · apply List.map_congr_left
    intro c hc
    have := (ascii_case_roundtrip U c.toNat (h c hc)).2
    rw [Char.ofNat_toNat] at this
    exact this

theorem filter_head_first {α : Type} (p : α → Bool) : ∀ (l : List α) (x : α) (rest : List α),
    l.filter p = x :: rest →
    ∃ pre post, l = pre ++ x :: post ∧ (∀ a ∈ pre, p a = false) ∧ p x = true := by
  intro l
  induction l with
  | nil => intro x rest h; simp at h
  | cons a as ih =>
    intro x rest h
    by_cases hp : p a = true
    · rw [List.filter_cons_of_pos hp] at h
      injection h with h1 h2
      subst h1
      exact ⟨[], as, rfl, fun _ hb => absurd hb (List.not_mem_nil _), hp⟩
    · rw [List.filter_cons_of_neg hp] at h
      obtain ⟨pre, post, e, hpre, hx⟩ := ih x rest h
      refine ⟨a :: pre, post, by rw [e]; rfl, ?_, hx⟩
      intro b hb
      rcases List.mem_cons.mp hb with hb | hb
      · rw [hb]; simpa using hp
      · exact hpre b hb

/-- C12 (as amended). For every sheet and every non-empty query `q`, `SearchSheet` returns the
cells of the row-major scan that satisfy the match, each occurrence once and in scan order; a
cell matches exactly when its display value or its formula text contains `q` as a substring
with letter case ignored in the sense of `strings.ToLower` (letters agree when their lower-case
images are equal); on a sheet built by the loader the result is strictly increasing by row,
then column. Replacing the query or a cell text by one with the same `strings.ToLower` image
never changes which cells are returned, and changing the case of ASCII text is such a
replacement. -/
theorem SearchSheet_case_insensitive_row_major (U : Unicode) (sheet : Sheet) (q : String)
    (hq : q ≠ "") :
    SearchSheet U sheet q = sheet.Rows.flatten.filter (cellMatches U q) ∧
    (∀ cell, cellMatches U q cell = true ↔
      (ContainsIgnoringCase U cell.Value.data q.data ∨
        ContainsIgnoringCase U cell.Formula.data q.data)) ∧
    (sheet.wellFormed = true → List.Pairwise rowMajorLt (SearchSheet U sheet q)) ∧
    (∀ q1 : String, q1 ≠ "" → ToLower U q1.data = ToLower U q.data →
      SearchSheet U sheet q1 = SearchSheet U sheet q) ∧
    (∀ cell cell1 : Cell, ToLower U cell1.Value.data = ToLower U cell.Value.data →
      ToLower U cell1.Formula.data = ToLower U cell.Formula.data →
      cellMatches U q cell1 = cellMatches U q cell) ∧
    (∀ s : List Char, (∀ c ∈ s, c.toNat < 128) →
      ToLower U (ToUpper U s) = ToLower U s ∧ ToLower U (ToLower U s) = ToLower U s) := by
  refine ⟨SearchSheet_eq_filter U sheet q hq, cellMatches_iff U q, ?_, ?_, ?_, ToLower_ascii U⟩
  · intro hwf
    rw [SearchSheet_eq_filter U sheet q hq]
    exact (wellFormed_rowMajor sheet hwf).filter _
  · intro q1 hq1 he
    rw [SearchSheet_eq_filter U sheet q hq, SearchSheet_eq_filter U sheet q1 hq1]
    congr 1
    funext cell
    unfold cellMatches
    rw [he]
  · intro cell cell1 hv hf
    unfold cellMatches
    rw [hv, hf]

/-- C12 (the claim as stated fails). With Go's case mapping of the Greek sigmas, a cell holding
the final sigma `"ς"` is found by the query `"ς"`, but not by the same query in upper case,
`strings.ToUpper("ς") = "Σ"`, because `strings.ToLower("Σ") = "σ"`: changing the letter case of
the query changes which cells are returned. -/
theorem case_change_of_sigma_changes_results :
    SearchSheet Unicode.sigma sigmaSheet "ς" = [textCell "ς" 0 0] ∧
    String.mk (ToUpper Unicode.sigma ("ς" : String).data) = "Σ" ∧
    SearchSheet Unicode.sigma sigmaSheet "Σ" = [] := by
  decide

/-! ## Search navigation -/

theorem updateNormal_next (m : Model) (sheet : Sheet) (k : KeyMsg) (out : Outside)
    (hs : index? m.sheets m.currentSheet = some sheet) (hkeys : m.keys = DefaultKeyMap)
    (hk : keyString k = "n") :
    updateNormal m k out =
      if m.searchResults.length > 0 then
        match jumpToSearchResult
            { m with searchIndex := (Int.tmod (m.searchIndex + 1) m.searchResults.length) } with
        | none => none
        | some m1 =>
          some { m1 with status :=
            ⟨"Match " ++ Sprintf_d (m1.searchIndex + 1) ++ "/" ++
               Sprintf_d m1.searchResults.length, StatusInfo⟩ }
      else some m := by
  have hlen : ¬(m.sheets.length = 0) := by
    intro h0
    rw [List.length_eq_zero] at h0
    rw [h0] at hs
    unfold index? at hs
    split_ifs at hs
    simp at hs
  unfold updateNormal
  rw [if_neg hlen]
  simp only [hs, hkeys]
  rw [if_neg (not_Matches k "n" DefaultKeyMap.Quit hk (by decide)),
    if_neg (not_Matches k "n" DefaultKeyMap.Up hk (by decide)),
    if_neg (not_Matches k "n" DefaultKeyMap.Down hk (by decide)),
    if_neg (not_Matches k "n" DefaultKeyMap.Left hk (by decide)),
    if_neg (not_Matches k "n" DefaultKeyMap.Right hk (by decide)),
    if_neg (not_Matches k "n" DefaultKeyMap.PageDown hk (by decide)),
    if_neg (not_Matches k "n" DefaultKeyMap.PageUp hk (by decide)),
    if_neg (not_Matches k "n" DefaultKeyMap.Home hk (by decide)),
    if_neg (not_Matches k "n" DefaultKeyMap.End hk (by decide)),
    if_neg (not_Matches k "n" DefaultKeyMap.FirstCol hk (by decide)),
    if_neg (not_Matches k "n" DefaultKeyMap.LastCol hk (by decide)),
    if_neg (not_Matches k "n" DefaultKeyMap.NextSheet hk (by decide)),
    if_neg (not_Matches k "n" DefaultKeyMap.PrevSheet hk (by decide)),
    if_neg (not_Matches k "n" DefaultKeyMap.Search hk (by decide))]
  rw [if_pos (yes_Matches k "n" DefaultKeyMap.NextResult hk (by decide))]

theorem updateNormal_prev (m : Model) (sheet : Sheet) (k : KeyMsg) (out : Outside)
    (hs : index? m.sheets m.currentSheet = some sheet) (hkeys : m.keys = DefaultKeyMap)
    (hk : keyString k = "N") :
    updateNormal m k out =
      if m.searchResults.length > 0 then
        match jumpToSearchResult
            { m with searchIndex :=
                (Int.tmod (m.searchIndex - 1 + m.searchResults.length) m.searchResults.length) } with
        | none => none
        | some m1 =>
          some { m1 with status :=
            ⟨"Match " ++ Sprintf_d (m1.searchIndex + 1) ++ "/" ++
               Sprintf_d m1.searchResults.length, StatusInfo⟩ }
      else some m := by
  have hlen : ¬(m.sheets.length = 0) := by
    intro h0
    rw [List.length_eq_zero] at h0
    rw [h0] at hs
    unfold index? at hs
    split_ifs at hs
    simp at hs
  unfold updateNormal
  rw [if_neg hlen]
  simp only [hs, hkeys]
  rw [if_neg (not_Matches k "N" DefaultKeyMap.Quit hk (by decide)),
    if_neg (not_Matches k "N" DefaultKeyMap.Up hk (by decide)),
    if_neg (not_Matches k "N" DefaultKeyMap.Down hk (by decide)),
    if_neg (not_Matches k "N" DefaultKeyMap.Left hk (by decide)),
    if_neg (not_Matches k "N" DefaultKeyMap.Right hk (by decide)),
    if_neg (not_Matches k "N" DefaultKeyMap.PageDown hk (by decide)),
    if_neg (not_Matches k "N" DefaultKeyMap.PageUp hk (by decide)),
    if_neg (not_Matches k "N" DefaultKeyMap.Home hk (by decide)),
    if_neg (not_Matches k "N" DefaultKeyMap.End hk (by decide)),
    if_neg (not_Matches k "N" DefaultKeyMap.FirstCol hk (by decide)),
    if_neg (not_Matches k "N" DefaultKeyMap.LastCol hk (by decide)),
    if_neg (not_Matches k "N" DefaultKeyMap.NextSheet hk (by decide)),
    if_neg (not_Matches k "N" DefaultKeyMap.PrevSheet hk (by decide)),
    if_neg (not_Matches k "N" DefaultKeyMap.Search hk (by decide)),
    if_neg (not_Matches k "N" DefaultKeyMap.NextResult hk (by decide))]
  rw [if_pos (yes_Matches k "N" DefaultKeyMap.PrevResult hk (by decide))]

theorem jumpToSearchResult_at (m : Model) (idx : Int) (h0 : 0 ≤ idx)
    (h1 : idx < m.searchResults.length) :
    ∃ result, index? m.searchResults idx = some result ∧
      jumpToSearchResult { m with searchIndex := idx } =
        some (centerView { m with searchIndex := idx, cursorRow := result.Row,
                                  cursorCol := result.Col }) := by
  have hlt : idx.toNat < m.searchResults.length := by omega
  have hidx : index? m.searchResults idx = some (m.searchResults[idx.toNat]) := by
    unfold index?
    rw [if_pos h0]
    exact List.getElem?_eq_getElem hlt
  refine ⟨_, hidx, ?_⟩
  unfold jumpToSearchResult
  rw [if_neg (by simp only []; omega)]
  simp only [hidx]

/-- C14. In Normal mode with the default key map and a valid active sheet: with an empty
result set the keys `n` and `N` leave the whole state unchanged; with `len ≥ 1` results and a
current index `0 ≤ i < len`, `n` sets the index to `(i+1) mod len` and `N` sets it to
`(i-1+len) mod len`, and the cursor moves to the result stored at the new index (the result
list itself is kept). The last index therefore wraps to 0 and index 0 wraps to `len-1`. -/
theorem search_navigation_cyclic (U : Unicode) (m : Model) (sheet : Sheet) (k : KeyMsg)
    (out : Outside) (hmode : m.mode = Mode.ModeNormal) (hkeys : m.keys = DefaultKeyMap)
    (hs : index? m.sheets m.currentSheet = some sheet)
    (hk : keyString k = "n" ∨ keyString k = "N") :
    (m.searchResults = [] → Update U m (Msg.KeyMsg k out) = some m) ∧
    (0 ≤ m.searchIndex → m.searchIndex < m.searchResults.length →
      ∃ m1 result, Update U m (Msg.KeyMsg k out) = some m1 ∧
        (keyString k = "n" →
          m1.searchIndex = (m.searchIndex + 1) % m.searchResults.length) ∧
        (keyString k = "N" →
          m1.searchIndex =
            (m.searchIndex - 1 + m.searchResults.length) % m.searchResults.length) ∧
        index? m.searchResults m1.searchIndex = some result ∧
        m1.cursorRow = result.Row ∧ m1.cursorCol = result.Col ∧
        m1.searchResults = m.searchResults) ∧
    (∀ n : Int, 1 ≤ n → (n - 1 + 1) % n = 0 ∧ (0 - 1 + n) % n = n - 1) := by
  have hU : Update U m (Msg.KeyMsg k out) = updateNormal m k out := by
    unfold Update
    simp only [hmode]
  refine ⟨?_, ?_, ?_⟩
  · intro hnil
    rw [hU]
    rcases hk with hk | hk
    · rw [updateNormal_next m sheet k out hs hkeys hk, if_neg (by rw [hnil]; decide)]
    · rw [updateNormal_prev m sheet k out hs hkeys hk, if_neg (by rw [hnil]; decide)]
  · intro h0 h1
    have hpos : m.searchResults.length > 0 := by omega
    have hn : (0 : Int) < m.searchResults.length := by omega
    rw [hU]
    rcases hk with hk | hk
    · have e : Int.tmod (m.searchIndex + 1) m.searchResults.length =
          (m.searchIndex + 1) % m.searchResults.length :=
        Int.tmod_eq_emod (by omega) (by omega)
      obtain ⟨result, hidx, hj⟩ := jumpToSearchResult_at m
        ((m.searchIndex + 1) % m.searchResults.length)
        (Int.emod_nonneg _ (by omega)) (Int.emod_lt_of_pos _ hn)
      rw [updateNormal_next m sheet k out hs hkeys hk, if_pos hpos, e, hj]
      refine ⟨_, result, rfl, fun _ => rfl, ?_, hidx, rfl, rfl, rfl⟩
      intro h
      rw [hk] at h
      exact absurd h (by decide)
    · have e : Int.tmod (m.searchIndex - 1 + m.searchResults.length) m.searchResults.length =
          (m.searchIndex - 1 + m.searchResults.length) % m.searchResults.length :=
        Int.tmod_eq_emod (by omega) (by omega)
      obtain ⟨result, hidx, hj⟩ := jumpToSearchResult_at m
        ((m.searchIndex - 1 + m.searchResults.length) % m.searchResults.length)
        (Int.emod_nonneg _ (by omega)) (Int.emod_lt_of_pos _ hn)
      rw [updateNormal_prev m sheet k out hs hkeys hk, if_pos hpos, e, hj]
      refine ⟨_, result, rfl, ?_, fun _ => rfl, hidx, rfl, rfl, rfl⟩
      intro h
      rw [hk] at h
      exact absurd h (by decide)
  · intro n hn
    constructor
    · have : n - 1 + 1 = n := by omega
      rw [this, Int.emod_self]
    · have : 0 - 1 + n = n - 1 := by omega
      rw [this]
      exact Int.emod_eq_of_lt (by omega) (by omega)

theorem String_mk_ne_empty (l : List Char) (h : l ≠ []) : String.mk l ≠ "" := by
  intro e
  exact h (congrArg String.data e)

theorem centerView_offsets (m : Model) :
    (centerView m).offsetRow = centerOffset m.cursorRow (visibleRows m) ∧
      (centerView m).offsetCol = centerOffset m.cursorCol (visibleCols m) := by
  have hr := visibleRows_pos m
  have hc := visibleCols_pos m
  have e1 : Int.tdiv (visibleRows m) 2 = visibleRows m / 2 :=
    Int.tdiv_eq_ediv (by omega) (by omega)
  have e2 : Int.tdiv (visibleCols m) 2 = visibleCols m / 2 :=
    Int.tdiv_eq_ediv (by omega) (by omega)
  constructor
  · show Max 0 (m.cursorRow - Int.tdiv (visibleRows m) 2) = max 0 (m.cursorRow - visibleRows m / 2)
    rw [Max_eq_max, e1]
  · show Max 0 (m.cursorCol - Int.tdiv (visibleCols m) 2) = max 0 (m.cursorCol - visibleCols m / 2)
    rw [Max_eq_max, e2]

/-- C15. Enter in Search mode with a query that is not blank, on a valid active sheet, commits
the trimmed query, stores the result of `SearchSheet` with index 0 and returns to Normal mode.
With no result the cursor and the viewport are unchanged and the status is the warning
"No results found". Otherwise the cursor is on the first result, which is the first matching
cell of the row-major scan (no cell before it matches), and both offsets are the centring
offsets `max(0, cursor - extent/2)` for that cell. -/
theorem search_commit (U : Unicode) (m : Model) (sheet : Sheet) (k : KeyMsg) (out : Outside)
    (hmode : m.mode = Mode.ModeSearch) (hk : k.Typ = KeyType.KeyEnter)
    (hs : index? m.sheets m.currentSheet = some sheet)
    (hterm : TrimSpace m.searchInput.data ≠ []) :
    ∃ m1, Update U m (Msg.KeyMsg k out) = some m1 ∧
      m1.mode = Mode.ModeNormal ∧
      m1.searchQuery = String.mk (TrimSpace m.searchInput.data) ∧
      m1.searchResults = SearchSheet U sheet (String.mk (TrimSpace m.searchInput.data)) ∧
      m1.searchIndex = 0 ∧
      (SearchSheet U sheet (String.mk (TrimSpace m.searchInput.data)) = [] →
        m1.cursorRow = m.cursorRow ∧ m1.cursorCol = m.cursorCol ∧
        m1.offsetRow = m.offsetRow ∧ m1.offsetCol = m.offsetCol ∧
        m1.status = ⟨"No results found", StatusWarning⟩) ∧
      (∀ first rest,
        SearchSheet U sheet (String.mk (TrimSpace m.searchInput.data)) = first :: rest →
        m1.cursorRow = first.Row ∧ m1.cursorCol = first.Col ∧
        m1.offsetRow = centerOffset first.Row (visibleRows m) ∧
        m1.offsetCol = centerOffset first.Col (visibleCols m) ∧
        m1.status.Typ = StatusSuccess ∧
        ∃ pre post, sheet.Rows.flatten = pre ++ first :: post ∧
          (∀ c ∈ pre, cellMatches U (String.mk (TrimSpace m.searchInput.data)) c = false) ∧
          cellMatches U (String.mk (TrimSpace m.searchInput.data)) first = true) := by
  have hne := String_mk_ne_empty _ hterm
  have hfilter := SearchSheet_eq_filter U sheet _ hne
  unfold Update
  simp only [hmode]
  unfold updateSearch
  simp only [hk]
  rw [if_pos hne]
  simp only [hs]
  generalize SearchSheet U sheet (String.mk (TrimSpace m.searchInput.data)) = results
    at hfilter ⊢
  cases results with
  | nil =>
    rw [if_neg (by decide)]
    exact ⟨_, rfl, rfl, rfl, rfl, rfl, fun _ => ⟨rfl, rfl, rfl, rfl, rfl⟩,
      fun first rest h => absurd h (by simp)⟩
  | cons first rest =>
    rw [if_pos (by simp)]
    have hj : jumpToSearchResult
        { m with searchQuery := String.mk (TrimSpace m.searchInput.data),
                 searchResults := first :: rest, searchIndex := 0 } =
        some (centerView
          { m with searchQuery := String.mk (TrimSpace m.searchInput.data),
                   searchResults := first :: rest, searchIndex := 0,
                   cursorRow := first.Row, cursorCol := first.Col }) := by
      have hidx : index? (first :: rest) (0 : Int) = some first := by
        unfold index?
        simp
      unfold jumpToSearchResult
      rw [if_neg (by simp)]
      simp only [hidx]
    rw [hj]
    refine ⟨_, rfl, rfl, rfl, rfl, rfl, fun h => absurd h (by simp), ?_⟩
    intro f r hfr
    injection hfr with h1 h2
    subst h1
    refine ⟨rfl, rfl, ?_, ?_, rfl, filter_head_first _ _ _ _ hfilter.symm⟩
    · exact (centerView_offsets _).1
    · exact (centerView_offsets _).2

/-! ## Jump by row and column -/

theorem dropWhile_spaces (n : Nat) (xs : List Char) :
    (spaces n ++ xs).dropWhile isSpace = xs.dropWhile isSpace := by
  induction n with
  | zero => rfl
  | succ n ih =>
    have hsp : isSpace ' ' = true := by decide
    unfold spaces at ih ⊢
    rw [List.replicate_succ, List.cons_append, List.dropWhile_cons, if_pos hsp]
    exact ih

theorem TrimSpace_spaces (a d : Nat) (xs : List Char) (hne : xs ≠ [])
    (h1 : ∀ c, xs.head? = some c → isSpace c = false)
    (h2 : ∀ c, xs.getLast? = some c → isSpace c = false) :
    TrimSpace (spaces a ++ xs ++ spaces d) = xs := by
  unfold TrimSpace
  rw [List.append_assoc, dropWhile_spaces,
    dropWhile_isSpace_id (xs ++ spaces d) (by rw [List.head?_append_of_ne_nil _ hne]; exact h1),
    List.reverse_append]
  have hrev : (spaces d).reverse = spaces d := by
    unfold spaces
    exact List.reverse_replicate _ _
  rw [hrev, dropWhile_spaces, dropWhile_isSpace_id xs.reverse
    (by rw [List.head?_reverse]; exact h2), List.reverse_reverse]

theorem ToUpper_id_of_lt (U : Unicode) (s : List Char) (h : ∀ c ∈ s, c.toNat < 97) :
    ToUpper U s = s := by
  unfold ToUpper
  conv_rhs => rw [← List.map_id s]
  apply List.map_congr_left
  intro c hc
  have := h c hc
  have a : 'a'.toNat = 97 := by decide
  unfold upperRune
  rw [if_pos (by omega), if_neg (by omega)]
  rfl

theorem foldl_digitStep_none : ∀ l : List Char, l.foldl digitStep none = none := by
  intro l
  induction l with
  | nil => rfl
  | cons c cs ih => exact ih

theorem foldl_digitStep_nondigit : ∀ (l : List Char) (acc : Option Nat),
    (∃ c ∈ l, ¬(48 ≤ c.toNat ∧ c.toNat ≤ 57)) → l.foldl digitStep acc = none := by
  intro l
  induction l with
  | nil => intro acc h; obtain ⟨c, hc, _⟩ := h; exact absurd hc (List.not_mem_nil _)
  | cons x xs ih =>
    intro acc h
    have z : '0'.toNat = 48 := by decide
    have n9 : '9'.toNat = 57 := by decide
    rw [List.foldl_cons]
    cases acc with
    | none => exact foldl_digitStep_none xs
    | some n =>
      by_cases hx : 48 ≤ x.toNat ∧ x.toNat ≤ 57
      · obtain ⟨c, hc, hnd⟩ := h
        rcases List.mem_cons.mp hc with e | e
        · rw [e] at hnd; exact absurd hx hnd
        · exact ih _ ⟨c, e, hnd⟩
      · have : digitStep (some n) x = none := by
          unfold digitStep
          simp only [z, n9]
          rw [if_neg hx]
        rw [this]
        exact foldl_digitStep_none xs

theorem Atoi_none_of_nondigit (s : List Char)
    (hhead : ∀ c, s.head? = some c → 48 ≤ c.toNat ∧ c.toNat ≤ 57)
    (h : ∃ c ∈ s, ¬(48 ≤ c.toNat ∧ c.toNat ≤ 57)) : Atoi s = none := by
  cases s with
  | nil => rfl
  | cons c cs =>
    have hc := hhead c rfl
    have hp : parseDigits (c :: cs) = none := foldl_digitStep_nondigit _ _ h
    unfold Atoi
    split
    · rename_i ds heq
      injection heq with e1 e2
      subst e1
      exact absurd hc (by decide)
    · rename_i ds heq
      injection heq with e1 e2
      subst e1
      exact absurd hc (by decide)
    · rw [hp]

theorem splitComma_no_comma : ∀ p : List Char, ',' ∉ p → splitComma p = [p] := by
  intro p
  induction p with
  | nil => intro _; rfl
  | cons c cs ih =>
    intro h
    have hc : c ≠ ',' := fun e => h (by rw [e]; exact List.mem_cons_self _ _)
    have hcs : ',' ∉ cs := fun e => h (List.mem_cons_of_mem _ e)
    unfold splitComma
    rw [if_neg hc, ih hcs]

theorem splitComma_append : ∀ p q : List Char, ',' ∉ p →
    splitComma (p ++ ',' :: q) = p :: splitComma q := by
  intro p
  induction p with
  | nil =>
    intro q _
    rw [List.nil_append]
    conv_lhs => unfold splitComma
    rw [if_pos rfl]
  | cons c cs ih =>
    intro q h
    have hc : c ≠ ',' := fun e => h (by rw [e]; exact List.mem_cons_self _ _)
    have hcs : ',' ∉ cs := fun e => h (List.mem_cons_of_mem _ e)
    rw [List.cons_append]
    conv_lhs => unfold splitComma
    rw [if_neg hc, ih q hcs]

theorem Sprintf_d_digits (n : Int) (hn : 0 ≤ n) (hmax : n ≤ maxInt) :
    (Sprintf_d n).data ≠ [] ∧ (∀ c ∈ (Sprintf_d n).data, 48 ≤ c.toNat ∧ c.toNat ≤ 57) ∧
      Atoi (Sprintf_d n).data = some n := by
  have hnn : n = ((n.toNat : Nat) : Int) := by omega
  obtain ⟨dne, dall, dv⟩ := toDigits_spec n.toNat
  have hd : (Sprintf_d n).data = Nat.toDigits 10 n.toNat := by
    conv_lhs => rw [hnn]
    exact Sprintf_d_data _
  rw [hd]
  refine ⟨dne, dall, ?_⟩
  have := Atoi_digits _ _ dne dall dv (by omega)
  rw [this, ← hnn]

theorem getLast?_append_mem (l l1 : List Char) (hne : l1 ≠ []) (c : Char)
    (h : (l ++ l1).getLast? = some c) : c ∈ l1 := by
  rw [List.getLast?_append] at h
  cases hl : l1.getLast? with
  | none => exact absurd (List.getLast?_eq_none_iff.mp hl) hne
  | some y =>
    rw [hl] at h
    have : y = c := by simpa [Option.or] using h
    rw [← this]
    exact List.mem_of_getLast?_eq_some hl

theorem head?_append_mem (l l1 : List Char) (hne : l ≠ []) (c : Char)
    (h : (l ++ l1).head? = some c) : c ∈ l := by
  rw [List.head?_append_of_ne_nil _ hne] at h
  exact List.mem_of_mem_head? h

theorem not_mem_spaces (n : Nat) (c : Char) (hc : c ≠ ' ') : c ∉ spaces n := by
  unfold spaces
  intro h
  exact hc (List.eq_of_mem_replicate h)

/-- C11. A `"row,col"` jump is 1-indexed on both parts and tolerates spaces around each number:
on a sheet whose extents are Go `int`s, for every `r`, `c` with `1 ≤ r ≤ MaxRows` and
`1 ≤ c ≤ MaxCols` and any numbers of spaces before and after the decimal of `r` and the decimal
of `c`, `jumpToCell` sets the cursor to `(r-1, c-1)` with the success status `"→ r,c"`;
`"10,5"` is such an input, for `(9,4)`. -/
theorem jumpToCell_row_col_pair (U : Unicode) (m : Model) (sheet : Sheet) (r c : Int)
    (a b c1 d : Nat)
    (hs : index? m.sheets m.currentSheet = some sheet)
    (hint : sheet.MaxRows ≤ maxInt ∧ sheet.MaxCols ≤ maxInt)
    (hr : 1 ≤ r ∧ r ≤ sheet.MaxRows) (hc : 1 ≤ c ∧ c ≤ sheet.MaxCols) :
    (∃ m1, jumpToCell U m (pairInput r c a b c1 d) = some m1 ∧
      m1.cursorRow = r - 1 ∧ m1.cursorCol = c - 1 ∧
      m1.status = ⟨"→ " ++ Sprintf_d r ++ "," ++ Sprintf_d c, StatusSuccess⟩) ∧
    pairInput 10 5 0 0 0 0 = "10,5" ∧ pairInput 10 5 1 0 2 1 = " 10,  5 " := by
  refine ⟨?_, by decide, by decide⟩
  obtain ⟨d1ne, d1all, d1atoi⟩ := Sprintf_d_digits r (by omega) (by omega)
  obtain ⟨d2ne, d2all, d2atoi⟩ := Sprintf_d_digits c (by omega) (by omega)
  have hcomma : ∀ l : List Char, (∀ ch ∈ l, 48 ≤ ch.toNat ∧ ch.toNat ≤ 57) → ',' ∉ l := by
    intro l hl hmem
    exact absurd (hl _ hmem) (by decide)
  have hspace : ∀ ch : Char, 48 ≤ ch.toNat ∧ ch.toNat ≤ 57 → isSpace ch = false :=
    fun ch h => isSpace_false_of_alnum ch (by omega)
  -- the input between the outer spaces
  have hdata : (pairInput r c a b c1 d).data =
      spaces a ++ ((Sprintf_d r).data ++ spaces b ++ ',' :: (spaces c1 ++ (Sprintf_d c).data))
        ++ spaces d := by
    unfold pairInput
    simp only [List.append_assoc, List.singleton_append, List.cons_append, List.nil_append]
  have hXne : (Sprintf_d r).data ++ spaces b ++ ',' :: (spaces c1 ++ (Sprintf_d c).data) ≠ [] := by
    simp [d1ne]
  have htrim : TrimSpace (pairInput r c a b c1 d).data =
      (Sprintf_d r).data ++ spaces b ++ ',' :: (spaces c1 ++ (Sprintf_d c).data) := by
    rw [hdata]
    apply TrimSpace_spaces _ _ _ hXne
    · intro ch hch
      rw [List.append_assoc] at hch
      exact hspace ch (d1all ch (head?_append_mem _ _ d1ne ch hch))
    · intro ch hch
      have e : (Sprintf_d r).data ++ spaces b ++ ',' :: (spaces c1 ++ (Sprintf_d c).data) =
          ((Sprintf_d r).data ++ spaces b ++ ',' :: spaces c1) ++ (Sprintf_d c).data := by
        simp only [List.append_assoc, List.cons_append]
      rw [e] at hch
      exact hspace ch (d2all ch (getLast?_append_mem _ _ d2ne ch hch))
  have hlow : ∀ ch ∈ (Sprintf_d r).data ++ spaces b ++ ',' :: (spaces c1 ++ (Sprintf_d c).data),
      ch.toNat < 97 := by
    intro ch hch
    simp only [List.mem_append, List.mem_cons] at hch
    rcases hch with (h | h) | h | h | h
    · have := d1all ch h; omega
    · rw [List.eq_of_mem_replicate h]; decide
    · rw [h]; decide
    · rw [List.eq_of_mem_replicate h]; decide
    · have := d2all ch h; omega
  have hin : ToUpper U (TrimSpace (pairInput r c a b c1 d).data) =
      (Sprintf_d r).data ++ spaces b ++ ',' :: (spaces c1 ++ (Sprintf_d c).data) := by
    rw [htrim, ToUpper_id_of_lt U _ hlow]
  have hhead : ∀ ch,
      ((Sprintf_d r).data ++ spaces b ++ ',' :: (spaces c1 ++ (Sprintf_d c).data)).head? =
        some ch → 48 ≤ ch.toNat ∧ ch.toNat ≤ 57 := by
    intro ch hch
    rw [List.append_assoc] at hch
    exact d1all ch (head?_append_mem _ _ d1ne ch hch)
  have hletter : jumpLetterForm m sheet
      ((Sprintf_d r).data ++ spaces b ++ ',' :: (spaces c1 ++ (Sprintf_d c).data)) = none := by
    apply jumpLetterForm_of_not_letter
    intro ch hch
    have := hhead ch hch
    omega
  have hrowform : jumpRowForm m sheet
      ((Sprintf_d r).data ++ spaces b ++ ',' :: (spaces c1 ++ (Sprintf_d c).data)) = none := by
    unfold jumpRowForm
    rw [Atoi_none_of_nondigit _ hhead ⟨',', by simp, by decide⟩]
  have hsplit : splitComma
      ((Sprintf_d r).data ++ spaces b ++ ',' :: (spaces c1 ++ (Sprintf_d c).data)) =
      [(Sprintf_d r).data ++ spaces b, spaces c1 ++ (Sprintf_d c).data] := by
    rw [splitComma_append, splitComma_no_comma]
    · intro hmem
      rcases List.mem_append.mp hmem with h | h
      · exact not_mem_spaces _ _ (by decide) h
      · exact hcomma _ d2all h
    · intro hmem
      rcases List.mem_append.mp hmem with h | h
      · exact hcomma _ d1all h
      · exact not_mem_spaces _ _ (by decide) h
  have ht1 : TrimSpace ((Sprintf_d r).data ++ spaces b) = (Sprintf_d r).data := by
    have := TrimSpace_spaces 0 b (Sprintf_d r).data d1ne
      (fun ch hch => hspace ch (d1all ch (List.mem_of_mem_head? hch)))
      (fun ch hch => hspace ch (d1all ch (List.mem_of_getLast?_eq_some hch)))
    exact this
  have ht2 : TrimSpace (spaces c1 ++ (Sprintf_d c).data) = (Sprintf_d c).data := by
    have := TrimSpace_spaces c1 0 (Sprintf_d c).data d2ne
      (fun ch hch => hspace ch (d2all ch (List.mem_of_mem_head? hch)))
      (fun ch hch => hspace ch (d2all ch (List.mem_of_getLast?_eq_some hch)))
    rw [show spaces 0 = [] from rfl, List.append_nil] at this
    exact this
  have hw1 : wrap64 (r - 1) = r - 1 := by
    unfold maxInt at hint
    exact wrap64_id _ (by omega) (by omega)
  have hw2 : wrap64 (c - 1) = c - 1 := by
    unfold maxInt at hint
    exact wrap64_id _ (by omega) (by omega)
  have hpair : jumpPairForm m sheet
      ((Sprintf_d r).data ++ spaces b ++ ',' :: (spaces c1 ++ (Sprintf_d c).data)) =
      some { centerView { m with cursorRow := r - 1, cursorCol := c - 1 } with
             status := ⟨"→ " ++ Sprintf_d r ++ "," ++ Sprintf_d c, StatusSuccess⟩ } := by
    unfold jumpPairForm
    simp only [hsplit, ht1, ht2, d1atoi, d2atoi, hw1, hw2]
    rw [if_pos ⟨by omega, by omega, by omega, by omega⟩]
    have e1 : r - 1 + 1 = r := by omega
    have e2 : c - 1 + 1 = c := by omega
    rw [e1, e2]
  rcases jumpToCell_cases U m sheet (pairInput r c a b c1 d) hs with
    ⟨m1, _, h⟩ | ⟨m1, _, _, h⟩ | ⟨m1, e, _, _, h⟩ | ⟨_, _, _, h⟩
  · rw [hin, hletter] at h; exact absurd h (by simp)
  · rw [hin, hrowform] at h; exact absurd h (by simp)
  · rw [hin, hpair] at h
    injection h with h
    subst h
    exact ⟨_, e, rfl, rfl, rfl⟩
  · rw [hin, hpair] at h; exact absurd h (by simp)

/-! ## Instances on concrete workbooks, continued -/

theorem jumpToCell_row_col_pair_witness :
    index? gridModel.sheets gridModel.currentSheet = some gridSheet ∧
    (gridSheet.MaxRows ≤ maxInt ∧ gridSheet.MaxCols ≤ maxInt) ∧
    ((1 : Int) ≤ 10 ∧ (10 : Int) ≤ gridSheet.MaxRows) ∧
    ((1 : Int) ≤ 5 ∧ (5 : Int) ≤ gridSheet.MaxCols) ∧
    pairInput 10 5 1 0 2 1 = " 10,  5 " ∧
    ∃ m1, jumpToCell Unicode.ascii gridModel (pairInput 10 5 1 0 2 1) = some m1 ∧
      m1.cursorRow = 10 - 1 ∧ m1.cursorCol = 5 - 1 ∧
      m1.status = ⟨"→ " ++ Sprintf_d 10 ++ "," ++ Sprintf_d 5, StatusSuccess⟩ :=
  ⟨by decide, by decide, by decide, by decide, by decide,
    (jumpToCell_row_col_pair Unicode.ascii gridModel gridSheet 10 5 1 0 2 1
      (by decide) (by decide) (by decide) (by decide)).1⟩

theorem SearchSheet_case_insensitive_row_major_witness :
    ("a" : String) ≠ "" ∧ demoSheet.wellFormed = true ∧
    SearchSheet Unicode.ascii demoSheet "a" =
      demoSheet.Rows.flatten.filter (cellMatches Unicode.ascii "a") ∧
    List.Pairwise rowMajorLt (SearchSheet Unicode.ascii demoSheet "a") ∧
    SearchSheet Unicode.ascii demoSheet "A" = SearchSheet Unicode.ascii demoSheet "a" :=
  ⟨by decide, by decide,
    (SearchSheet_case_insensitive_row_major Unicode.ascii demoSheet "a" (by decide)).1,
    (SearchSheet_case_insensitive_row_major Unicode.ascii demoSheet "a" (by decide)).2.2.1
      (by decide),
    (SearchSheet_case_insensitive_row_major Unicode.ascii demoSheet "a" (by decide)).2.2.2.1
      "A" (by decide) (by decide)⟩

theorem empty_query_is_noop_witness :
    blankSearchModel.mode = Mode.ModeSearch ∧ enterKey.Typ = KeyType.KeyEnter ∧
    (∀ c ∈ blankSearchModel.searchInput.data, isSpace c = true) ∧
    Update Unicode.ascii blankSearchModel (Msg.KeyMsg enterKey quiet) =
      some { blankSearchModel with mode := Mode.ModeNormal } :=
  ⟨by decide, by decide, by decide,
    (empty_query_is_noop Unicode.ascii demoSheet blankSearchModel enterKey quiet
      (by decide) (by decide) (by decide)).2.1⟩

theorem search_navigation_cyclic_witness :
    navModel.mode = Mode.ModeNormal ∧ navModel.keys = DefaultKeyMap ∧
    index? navModel.sheets navModel.currentSheet = some demoSheet ∧
    keyString (runeKey 'n') = "n" ∧
    (0 ≤ navModel.searchIndex ∧ navModel.searchIndex < navModel.searchResults.length) ∧
    ∃ m1 result, Update Unicode.ascii navModel (Msg.KeyMsg (runeKey 'n') quiet) = some m1 ∧
      (keyString (runeKey 'n') = "n" →
        m1.searchIndex = (navModel.searchIndex + 1) % navModel.searchResults.length) ∧
      (keyString (runeKey 'n') = "N" →
        m1.searchIndex =
          (navModel.searchIndex - 1 + navModel.searchResults.length) %
            navModel.searchResults.length) ∧
      index? navModel.searchResults m1.searchIndex = some result ∧
      m1.cursorRow = result.Row ∧ m1.cursorCol = result.Col ∧
      m1.searchResults = navModel.searchResults :=
  ⟨by decide, by decide, by decide, by decide, by decide,
    (search_navigation_cyclic Unicode.ascii navModel demoSheet (runeKey 'n') quiet
      (by decide) (by decide) (by decide) (Or.inl (by decide))).2.1 (by decide) (by decide)⟩

theorem search_commit_witness :
    typedSearchModel.mode = Mode.ModeSearch ∧ enterKey.Typ = KeyType.KeyEnter ∧
    index? typedSearchModel.sheets typedSearchModel.currentSheet = some demoSheet ∧
    TrimSpace typedSearchModel.searchInput.data ≠ [] ∧
    ∃ m1, Update Unicode.ascii typedSearchModel (Msg.KeyMsg enterKey quiet) = some m1 ∧
      m1.mode = Mode.ModeNormal ∧ m1.searchQuery = "a" ∧ m1.searchIndex = 0 ∧
      m1.cursorRow = 0 ∧ m1.cursorCol = 0 := by
  refine ⟨by decide, by decide, by decide, by decide, ?_⟩
  obtain ⟨m1, h1, h2, h3, h4, h5, -, h7⟩ :=
    search_commit Unicode.ascii typedSearchModel demoSheet enterKey quiet
      (by decide) (by decide) (by decide) (by decide)
  have hres : SearchSheet Unicode.ascii demoSheet
      (String.mk (TrimSpace typedSearchModel.searchInput.data)) =
      textCell "a" 0 0 :: [textCell "a" 1 0] := by decide
  obtain ⟨c1, c2, -⟩ := h7 _ _ hres
  exact ⟨m1, h1, h2, by rw [h3]; decide, h5, c1, c2⟩

theorem search_escape_keeps_state_witness :
    typedSearchModel.mode = Mode.ModeSearch ∧ escKey.Typ = KeyType.KeyEscape ∧
    Update Unicode.ascii typedSearchModel (Msg.KeyMsg escKey quiet) =
      some { typedSearchModel with mode := Mode.ModeNormal } :=
  ⟨by decide, by decide,
    (search_escape_keeps_state Unicode.ascii typedSearchModel escKey quiet
      (by decide) (by decide)).1⟩

theorem selection_rectangle_symmetric_witness :
    selectModel.isSelecting = true ∧
    (isInSelection { selectModel with selectStart := (2, 0), selectEnd := (0, 0) } 1 0 = true ↔
      (min (2 : Int) 0 ≤ 1 ∧ (1 : Int) ≤ max 2 0 ∧ min (0 : Int) 0 ≤ 0 ∧
        (0 : Int) ≤ max 0 0)) :=
  ⟨by decide, (selection_rectangle_symmetric selectModel (2, 0) (0, 0) 1 0).2.2.2 (by decide)⟩

theorem finish_selection_keeps_rectangle_witness :
    selectModel.mode = Mode.ModeSelectRange ∧ selectModel.keys = DefaultKeyMap ∧
    index? selectModel.sheets selectModel.currentSheet = some demoSheet ∧
    keyString (runeKey 'V') = "V" ∧
    Update Unicode.ascii selectModel (Msg.KeyMsg (runeKey 'V') quiet) =
      some { selectModel with
        mode := Mode.ModeNormal,
        status := ⟨"Selected range - Press v to visualize", StatusSuccess⟩ } :=
  ⟨by decide, by decide, by decide, by decide,
    (finish_selection_keeps_rectangle Unicode.ascii selectModel demoSheet (runeKey 'V') quiet
      (by decide) (by decide) (by decide) (by decide)).1⟩

theorem cancel_selection_discards_witness :
    selectModel.mode = Mode.ModeSelectRange ∧ selectModel.keys = DefaultKeyMap ∧
    index? selectModel.sheets selectModel.currentSheet = some demoSheet ∧
    escKey.Typ = KeyType.KeyEscape ∧
    Update Unicode.ascii selectModel (Msg.KeyMsg escKey quiet) =
      some { selectModel with
        isSelecting := false, mode := Mode.ModeNormal,
        status := ⟨"Selection cancelled", StatusInfo⟩ } :=
  ⟨by decide, by decide, by decide, by decide,
    (cancel_selection_discards Unicode.ascii selectModel demoSheet escKey quiet
      (by decide) (by decide) (by decide) (by decide)).1⟩

/-! ## Escape, resize and the visualize key -/

/-- C22. A terminal-resize event changes only the stored width and height and the help width:
for every state and every `WindowSizeMsg`, `Update` returns the state with these three fields
set, so the cursor, the offsets, the selection, the search state, the active sheet and the mode
are the same as before. -/
theorem resize_changes_only_size (U : Unicode) (m : Model) (w h : Int) :
    Update U m (Msg.WindowSizeMsg w h) = some { m with width := w, height := h, helpWidth := w } ∧
    ∀ m1, Update U m (Msg.WindowSizeMsg w h) = some m1 →
      m1.width = w ∧ m1.height = h ∧
      m1.cursorRow = m.cursorRow ∧ m1.cursorCol = m.cursorCol ∧
      m1.offsetRow = m.offsetRow ∧ m1.offsetCol = m.offsetCol ∧
      m1.selectStart = m.selectStart ∧ m1.selectEnd = m.selectEnd ∧
      m1.isSelecting = m.isSelecting ∧
      m1.searchQuery = m.searchQuery ∧ m1.searchResults = m.searchResults ∧
      m1.searchIndex = m.searchIndex ∧ m1.searchInput = m.searchInput ∧
      m1.currentSheet = m.currentSheet ∧ m1.sheets = m.sheets ∧ m1.mode = m.mode := by
  refine ⟨rfl, ?_⟩
  intro m1 h1
  have hstep : Update U m (Msg.WindowSizeMsg w h) =
      some { m with width := w, height := h, helpWidth := w } := rfl
  rw [hstep] at h1
  cases h1
  exact ⟨rfl, rfl, rfl, rfl, rfl, rfl, rfl, rfl, rfl, rfl, rfl, rfl, rfl, rfl, rfl, rfl⟩

theorem updateNormal_visualize (m : Model) (sheet : Sheet) (k : KeyMsg) (out : Outside)
    (hs : index? m.sheets m.currentSheet = some sheet) (hkeys : m.keys = DefaultKeyMap)
    (hk : keyString k = "v") :
    updateNormal m k out =
      if !m.isSelecting then some { m with status := ⟨"Select range first (V)", StatusWarning⟩ }
      else some { m with mode := Mode.ModeChart, chartType := 0 } := by
  have hlen : ¬(m.sheets.length = 0) := by
    intro h0
    rw [List.length_eq_zero] at h0
    rw [h0] at hs
    unfold index? at hs
    split_ifs at hs
    simp at hs
  unfold updateNormal
  rw [if_neg hlen]
  simp only [hs, hkeys]
  rw [if_neg (not_Matches k "v" DefaultKeyMap.Quit hk (by decide)),
    if_neg (not_Matches k "v" DefaultKeyMap.Up hk (by decide)),
    if_neg (not_Matches k "v" DefaultKeyMap.Down hk (by decide)),
    if_neg (not_Matches k "v" DefaultKeyMap.Left hk (by decide)),
    if_neg (not_Matches k "v" DefaultKeyMap.Right hk (by decide)),
    if_neg (not_Matches k "v" DefaultKeyMap.PageDown hk (by decide)),
    if_neg (not_Matches k "v" DefaultKeyMap.PageUp hk (by decide)),
    if_neg (not_Matches k "v" DefaultKeyMap.Home hk (by decide)),
    if_neg (not_Matches k "v" DefaultKeyMap.End hk (by decide)),
    if_neg (not_Matches k "v" DefaultKeyMap.FirstCol hk (by decide)),
    if_neg (not_Matches k "v" DefaultKeyMap.LastCol hk (by decide)),
    if_neg (not_Matches k "v" DefaultKeyMap.NextSheet hk (by decide)),
    if_neg (not_Matches k "v" DefaultKeyMap.PrevSheet hk (by decide)),
    if_neg (not_Matches k "v" DefaultKeyMap.Search hk (by decide)),
    if_neg (not_Matches k "v" DefaultKeyMap.NextResult hk (by decide)),
    if_neg (not_Matches k "v" DefaultKeyMap.PrevResult hk (by decide)),
    if_neg (not_Matches k "v" DefaultKeyMap.ClearSearch hk (by decide)),
    if_neg (not_Matches k "v" DefaultKeyMap.Detail hk (by decide)),
    if_neg (not_Matches k "v" DefaultKeyMap.Jump hk (by decide)),
    if_neg (not_Matches k "v" DefaultKeyMap.ToggleForm hk (by decide)),
    if_neg (not_Matches k "v" DefaultKeyMap.Copy hk (by decide)),
    if_neg (not_Matches k "v" DefaultKeyMap.CopyRow hk (by decide)),
    if_neg (not_Matches k "v" DefaultKeyMap.Export hk (by decide)),
    if_neg (not_Matches k "v" DefaultKeyMap.Theme hk (by decide)),
    if_neg (not_Matches k "v" DefaultKeyMap.Help hk (by decide))]
  rw [if_pos (yes_Matches k "v" DefaultKeyMap.Visualize hk (by decide))]

/-- C23. In Normal mode, with the default key map and a valid active sheet, the visualize key
`v` enters Chart mode exactly when a selection exists (`isSelecting`), and then the chart variant
is the bar chart; with no selection the mode stays Normal and the status is the warning
"Select range first (V)". In both cases the cursor, the viewport and the selection corners are
unchanged. -/
theorem visualize_needs_selection (U : Unicode) (m : Model) (sheet : Sheet) (k : KeyMsg)
    (out : Outside) (hmode : m.mode = Mode.ModeNormal) (hkeys : m.keys = DefaultKeyMap)
    (hs : index? m.sheets m.currentSheet = some sheet) (hk : keyString k = "v") :
    ∃ m1, Update U m (Msg.KeyMsg k out) = some m1 ∧
      (m1.mode = Mode.ModeChart ↔ m.isSelecting = true) ∧
      (m.isSelecting = true → m1.mode = Mode.ModeChart ∧ m1.chartType = ChartBar ∧
        m1.status = m.status) ∧
      (m.isSelecting = false → m1.mode = Mode.ModeNormal ∧
        m1.status = ⟨"Select range first (V)", StatusWarning⟩ ∧ m1.chartType = m.chartType) ∧
      m1.cursorRow = m.cursorRow ∧ m1.cursorCol = m.cursorCol ∧
      m1.offsetRow = m.offsetRow ∧ m1.offsetCol = m.offsetCol ∧
      m1.selectStart = m.selectStart ∧ m1.selectEnd = m.selectEnd ∧
      m1.isSelecting = m.isSelecting := by
  have hU : Update U m (Msg.KeyMsg k out) = updateNormal m k out := by
    unfold Update
    simp only [hmode]
  rw [hU, updateNormal_visualize m sheet k out hs hkeys hk]
  by_cases hsel : m.isSelecting = true
  · rw [if_neg (by simp [hsel])]
    refine ⟨_, rfl, ?_, ?_, ?_, rfl, rfl, rfl, rfl, rfl, rfl, rfl⟩
    · exact ⟨fun _ => hsel, fun _ => rfl⟩
    · intro _
      exact ⟨rfl, rfl, rfl⟩
    · intro hf
      rw [hsel] at hf
      cases hf
  · have hf : m.isSelecting = false := by simpa using hsel
    rw [if_pos (by simp [hf])]
    refine ⟨_, rfl, ?_, ?_, ?_, rfl, rfl, rfl, rfl, rfl, rfl, rfl⟩
    · constructor
      · intro h
        simp only [hmode] at h
        cases h
      · intro h
        exact absurd h hsel
    · intro h
      exact absurd h hsel
    · intro _
      exact ⟨hmode, rfl, rfl⟩

/-- An Escape key event handled by `Update` in a modal mode gives a state in Normal mode, in
Theme and Chart mode if the key comes without Alt: these two handlers compare the key text with
`"esc"`, the text of Escape without Alt, where the others test the key type. In Search, Detail,
Jump, Export, Theme and Chart mode the result is the state with only the mode changed, so the
cursor, the viewport, the selection and the committed search state are kept. For SelectRange
mode the key map is the default one and the active sheet is valid (the handler reads it). -/
theorem escape_returns_to_normal (U : Unicode) (m : Model) (k : KeyMsg) (out : Outside)
    (hmode : m.mode ≠ Mode.ModeNormal) (hk : k.Typ = KeyType.KeyEscape)
    (halt : m.mode = Mode.ModeTheme ∨ m.mode = Mode.ModeChart → k.Alt = false)
    (hsel : m.mode = Mode.ModeSelectRange →
      m.keys = DefaultKeyMap ∧ ∃ sheet, index? m.sheets m.currentSheet = some sheet) :
    ∃ m1, Update U m (Msg.KeyMsg k out) = some m1 ∧ m1.mode = Mode.ModeNormal ∧
      (m.mode ≠ Mode.ModeSelectRange →
        m1 = { m with mode := Mode.ModeNormal } ∧
        m1.cursorRow = m.cursorRow ∧ m1.cursorCol = m.cursorCol ∧
        m1.offsetRow = m.offsetRow ∧ m1.offsetCol = m.offsetCol ∧
        m1.selectStart = m.selectStart ∧ m1.selectEnd = m.selectEnd ∧
        m1.isSelecting = m.isSelecting ∧
        m1.searchQuery = m.searchQuery ∧ m1.searchResults = m.searchResults ∧
        m1.searchIndex = m.searchIndex) := by
  have hplain : k.Alt = false → keyString k = "esc" := by
    intro ha
    obtain ⟨typ, runes, alt, paste⟩ := k
    simp only at hk ha
    subst hk
    subst ha
    rfl
  have frame : ∀ m1 : Model, m1 = { m with mode := Mode.ModeNormal } →
      m1.mode = Mode.ModeNormal ∧
      (m.mode ≠ Mode.ModeSelectRange →
        m1 = { m with mode := Mode.ModeNormal } ∧
        m1.cursorRow = m.cursorRow ∧ m1.cursorCol = m.cursorCol ∧
        m1.offsetRow = m.offsetRow ∧ m1.offsetCol = m.offsetCol ∧
        m1.selectStart = m.selectStart ∧ m1.selectEnd = m.selectEnd ∧
        m1.isSelecting = m.isSelecting ∧
        m1.searchQuery = m.searchQuery ∧ m1.searchResults = m.searchResults ∧
        m1.searchIndex = m.searchIndex) := by
    intro m1 h1
    subst h1
    exact ⟨rfl, fun _ => ⟨rfl, rfl, rfl, rfl, rfl, rfl, rfl, rfl, rfl, rfl, rfl⟩⟩
  have hmodes : m.mode = Mode.ModeSearch ∨ m.mode = Mode.ModeDetail ∨ m.mode = Mode.ModeJump ∨
      m.mode = Mode.ModeExport ∨ m.mode = Mode.ModeTheme ∨ m.mode = Mode.ModeChart ∨
      m.mode = Mode.ModeSelectRange := by
    cases h : m.mode <;> simp only [h, ne_eq, not_true_eq_false, reduceCtorEq, or_true, true_or,
      or_false, false_or] at hmode ⊢
  rcases hmodes with hm | hm | hm | hm | hm | hm | hm
  · refine ⟨{ m with mode := Mode.ModeNormal }, ?_, frame _ rfl⟩
    unfold Update
    simp only [hm]
    unfold updateSearch
    simp only [hk]
  · refine ⟨{ m with mode := Mode.ModeNormal }, ?_, frame _ rfl⟩
    unfold Update
    simp only [hm]
    unfold updateDetail
    rw [if_pos (Or.inl hk)]
  · refine ⟨{ m with mode := Mode.ModeNormal }, ?_, frame _ rfl⟩
    unfold Update
    simp only [hm]
    unfold updateJump
    simp only [hk]
  · refine ⟨{ m with mode := Mode.ModeNormal }, ?_, frame _ rfl⟩
    unfold Update
    simp only [hm]
    unfold updateExport
    simp only [hk]
  · refine ⟨{ m with mode := Mode.ModeNormal }, ?_, frame _ rfl⟩
    unfold Update
    simp only [hm]
    unfold updateTheme
    simp only []
    rw [if_pos (Or.inl (hplain (halt (Or.inl hm))))]
  · refine ⟨{ m with mode := Mode.ModeNormal }, ?_, frame _ rfl⟩
    unfold Update
    simp only [hm]
    unfold updateChart
    simp only []
    rw [if_pos (Or.inl (hplain (halt (Or.inr hm))))]
  · obtain ⟨hkeys, sheet, hs⟩ := hsel hm
    have hno : ∀ b : List String, b.contains "esc" = false → b.contains "alt+esc" = false →
        b.contains (keyString k) = false := by
      intro b h1 h2
      rcases keyString_escape k hk with e | e <;> rw [e] <;> assumption
    refine ⟨{ m with isSelecting := false, mode := Mode.ModeNormal,
                     status := ⟨"Selection cancelled", StatusInfo⟩ }, ?_, rfl, ?_⟩
    · unfold Update
      simp only [hm]
      rw [updateSelectRange_default m sheet k hs hkeys (hno _ (by decide) (by decide))
        (hno _ (by decide) (by decide)) (hno _ (by decide) (by decide))
        (hno _ (by decide) (by decide))]
      rw [if_neg (not_Matches k _ _ rfl (hno _ (by decide) (by decide))), if_pos hk]
    · intro hne
      exact absurd hm hne

/-- In Theme and in Chart mode an Escape key event with Alt is ignored: the handlers compare the
key text, which is `"alt+esc"`, with `"esc"`. -/
theorem alt_escape_ignored (U : Unicode) (m : Model) (k : KeyMsg) (out : Outside)
    (hmode : m.mode = Mode.ModeTheme ∨ m.mode = Mode.ModeChart)
    (hk : k.Typ = KeyType.KeyEscape) (halt : k.Alt = true) :
    Update U m (Msg.KeyMsg k out) = some m := by
  have hs : keyString k = "alt+esc" := by
    obtain ⟨typ, runes, alt, paste⟩ := k
    simp only at hk halt
    subst hk
    subst halt
    rfl
  rcases hmode with h | h
  · unfold Update
    simp only [h]
    unfold updateTheme
    simp only [hs]
    rfl
  · unfold Update
    simp only [h]
    unfold updateChart
    simp only [hs]
    rfl

/-- C21 (the Theme and Chart handlers miss Escape with Alt). The key event Escape with Alt has
the type `KeyEscape` and the text `"alt+esc"`. After the theme key `t` the program is in Theme
mode and this event leaves it there; after a selection and the visualize key it is in Chart
mode and the event leaves it there. From Search, Detail, Jump and Export mode the same event
leads to Normal mode, and so does Escape without Alt from Theme and Chart mode. -/
theorem alt_escape_stays_in_theme_and_chart : ∀ U : Unicode,
    altEscKey.Typ = KeyType.KeyEscape ∧ keyString altEscKey = "alt+esc" ∧
    (run U demoModel [press 't' ""]).map (fun m => m.mode) = some Mode.ModeTheme ∧
    (run U demoModel [press 't' "", Msg.KeyMsg altEscKey quiet]).map (fun m => m.mode) =
      some Mode.ModeTheme ∧
    (run U demoModel [press 'V' "", press 'v' ""]).map (fun m => m.mode) =
      some Mode.ModeChart ∧
    (run U demoModel [press 'V' "", press 'v' "", Msg.KeyMsg altEscKey quiet]).map
      (fun m => m.mode) = some Mode.ModeChart ∧
    (run U demoModel [press 't' "", Msg.KeyMsg escKey quiet]).map (fun m => m.mode) =
      some Mode.ModeNormal ∧
    (run U demoModel [press 'V' "", press 'v' "", Msg.KeyMsg escKey quiet]).map
      (fun m => m.mode) = some Mode.ModeNormal ∧
    (run U demoModel [press '/' ""]).map (fun m => m.mode) = some Mode.ModeSearch ∧
    (run U demoModel [press '/' "", Msg.KeyMsg altEscKey quiet]).map (fun m => m.mode) =
      some Mode.ModeNormal ∧
    (run U demoModel [pressEnter]).map (fun m => m.mode) = some Mode.ModeDetail ∧
    (run U demoModel [pressEnter, Msg.KeyMsg altEscKey quiet]).map (fun m => m.mode) =
      some Mode.ModeNormal ∧
    (run U demoModel [pressJump]).map (fun m => m.mode) = some Mode.ModeJump ∧
    (run U demoModel [pressJump, Msg.KeyMsg altEscKey quiet]).map (fun m => m.mode) =
      some Mode.ModeNormal ∧
    (run U demoModel [press 'e' ""]).map (fun m => m.mode) = some Mode.ModeExport ∧
    (run U demoModel [press 'e' "", Msg.KeyMsg altEscKey quiet]).map (fun m => m.mode) =
      some Mode.ModeNormal := by
  intro U
  refine ⟨rfl, by decide, rfl, rfl, rfl, rfl, rfl, rfl, rfl, rfl, rfl, rfl, rfl, rfl, rfl, rfl⟩

/-! ## Series extraction -/

theorem index?_some_of_lt {α : Type} (xs : List α) (i : Int) (h0 : 0 ≤ i)
    (h : i < (xs.length : Int)) : ∃ x, index? xs i = some x := by
  unfold index?
  rw [if_pos h0]
  have hlt : i.toNat < xs.length := by omega
  exact ⟨xs[i.toNat], List.getElem?_eq_getElem hlt⟩

theorem index?_lt_length {α : Type} (xs : List α) (i : Int) (x : α) (h : index? xs i = some x) :
    0 ≤ i ∧ i < (xs.length : Int) := by
  unfold index? at h
  split_ifs at h with h0
  have := (List.getElem?_eq_some_iff.mp h).1
  omega

theorem index?_none_of_ge {α : Type} (xs : List α) (i : Int) (h : (xs.length : Int) ≤ i) :
    index? xs i = none := by
  unfold index?
  split_ifs with h0
  · apply List.getElem?_eq_none
    omega
  · rfl

/-- One iteration of the loop of `extractChartData`, in terms of what the row contributes. -/
theorem extractChartDataLoop_step (fl : Float64) (sheet : Sheet) (startCol endRow endCol : Int)
    (h0 : 0 ≤ startCol) (fuel : Nat) (row : Int) (data : chartData fl)
    (hr0 : 0 ≤ row) (hrow : row ≤ endRow ∧ row < (sheet.Rows.length : Int)) :
    extractChartDataLoop fl sheet startCol endRow endCol (fuel + 1) row data =
      extractChartDataLoop fl sheet startCol endRow endCol fuel (row + 1)
        ⟨data.Labels ++ (rowLabel sheet startCol row).toList,
         data.Values ++ (rowValue fl sheet startCol endCol row).toList⟩ := by
  obtain ⟨cells, hcells⟩ := index?_some_of_lt sheet.Rows row hr0 hrow.2
  rw [extractChartDataLoop, if_pos hrow]
  simp only [hcells]
  by_cases hlab : startCol < (cells.length : Int)
  · obtain ⟨labelCell, hl⟩ := index?_some_of_lt cells startCol h0 hlab
    have hrl : rowLabel sheet startCol row =
        some (if labelCell.Value = "" then "Row " ++ Sprintf_d (row + 1)
              else labelCell.Value) := by
      unfold rowLabel cellAt
      simp only [hcells, hl, Option.map_some']
    rw [if_pos hlab]
    simp only [hl, hrl, Option.toList_some]
    by_cases hval : startCol + 1 ≤ endCol ∧ startCol + 1 < (cells.length : Int)
    · obtain ⟨valCell, hv⟩ := index?_some_of_lt cells (startCol + 1) (by omega) hval.2
      rw [if_pos hval]
      simp only [hv]
      have hrv : rowValue fl sheet startCol endCol row =
          some ((fl.ParseFloat valCell.Value).getD (fl.ofInt 0)) := by
        unfold rowValue cellAt
        rw [if_pos hval.1]
        simp only [hcells, hv, Option.map_some']
      rw [hrv]
      cases hp : fl.ParseFloat valCell.Value <;>
        simp only [Option.toList_some, Option.getD_none, Option.getD_some]
    · rw [if_neg hval]
      have hrv : rowValue fl sheet startCol endCol row = none := by
        unfold rowValue cellAt
        by_cases h1 : startCol + 1 ≤ endCol
        · rw [if_pos h1]
          simp only [hcells]
          rw [index?_none_of_ge cells (startCol + 1) (by
            by_contra hcon
            exact hval ⟨h1, by omega⟩)]
          rfl
        · rw [if_neg h1]
      rw [hrv]
      simp only [Option.toList_none, List.append_nil]
  · rw [if_neg hlab]
    have hnone : index? cells startCol = none := index?_none_of_ge cells startCol (by omega)
    have hnone1 : index? cells (startCol + 1) = none :=
      index?_none_of_ge cells (startCol + 1) (by omega)
    have hrl : rowLabel sheet startCol row = none := by
      unfold rowLabel cellAt
      simp only [hcells, hnone, Option.map_none']
    have hrv : rowValue fl sheet startCol endCol row = none := by
      unfold rowValue cellAt
      simp only [hcells, hnone1, Option.map_none', ite_self]
    rw [hrl, hrv]
    simp only [Option.toList_none, List.append_nil]

/-- The loop of `extractChartData` run from row `row` on: it ends, and appends the contributions
of the rows `row, ..., min(endRow, len-1)` in order. -/
theorem extractChartDataLoop_spec (fl : Float64) (sheet : Sheet) (startCol endRow endCol : Int)
    (h0 : 0 ≤ startCol) :
    ∀ (n fuel row : Nat) (data : chartData fl),
      n = (min (endRow + 1) (sheet.Rows.length : Int) - (row : Int)).toNat → n < fuel →
      extractChartDataLoop fl sheet startCol endRow endCol fuel (row : Int) data =
        some ⟨data.Labels ++
            ((List.range' row n).map Int.ofNat).filterMap (rowLabel sheet startCol),
          data.Values ++
            ((List.range' row n).map Int.ofNat).filterMap
              (rowValue fl sheet startCol endCol)⟩ := by
  intro n
  induction n with
  | zero =>
    intro fuel row data hn hfuel
    obtain ⟨f, rfl⟩ : ∃ f, fuel = f + 1 := ⟨fuel - 1, by omega⟩
    rw [extractChartDataLoop, if_neg (by omega)]
    simp only [List.range'_zero, List.map_nil, List.filterMap_nil, List.append_nil]
  | succ n ih =>
    intro fuel row data hn hfuel
    obtain ⟨f, rfl⟩ : ∃ f, fuel = f + 1 := ⟨fuel - 1, by omega⟩
    have hrow : (row : Int) ≤ endRow ∧ (row : Int) < (sheet.Rows.length : Int) := by omega
    rw [extractChartDataLoop_step fl sheet startCol endRow endCol h0 f row data
      (Int.ofNat_nonneg row) hrow]
    have hcast : ((row : Int) + 1) = ((row + 1 : Nat) : Int) := by push_cast; rfl
    rw [hcast, ih f (row + 1) _ (by omega) (by omega)]
    have hr : List.range' row (n + 1) = row :: List.range' (row + 1) n := List.range'_succ _ _ _
    rw [hr]
    simp only [List.map_cons, List.append_assoc]
    have hL : ∀ {β : Type} (g : Int → Option β) (l : List Int),
        List.filterMap g (Int.ofNat row :: l) = (g (row : Int)).toList ++ List.filterMap g l := by
      intro β g l
      rw [List.filterMap_cons]
      show (match g (row : Int) with
        | none => List.filterMap g l
        | some b => b :: List.filterMap g l) = _
      cases g (row : Int) <;> rfl
    rw [hL, hL]

/-- The series of `extractChartData` for a rectangle with non-negative corner. -/
theorem extractChartData_spec (fl : Float64) (sheet : Sheet)
    (startRow startCol endRow endCol : Int) (hr : 0 ≤ startRow) (hc : 0 ≤ startCol) :
    extractChartData fl sheet startRow startCol endRow endCol =
      some ⟨(chartRows sheet startRow endRow).filterMap (rowLabel sheet startCol),
            (chartRows sheet startRow endRow).filterMap (rowValue fl sheet startCol endCol)⟩ := by
  unfold extractChartData chartRows
  have hrow : startRow = ((startRow.toNat : Nat) : Int) := (Int.toNat_of_nonneg hr).symm
  have h := extractChartDataLoop_spec fl sheet startCol endRow endCol hc
    (min (endRow + 1) (sheet.Rows.length : Int) - startRow).toNat (sheet.Rows.length + 1)
    startRow.toNat ⟨[], []⟩ (by rw [← hrow]) (by omega)
  rw [← hrow] at h
  rw [h]
  simp only [List.nil_append]

/-- The two extraction loops are the same loop. -/
theorem ExtractChartDataLoop_eq (fl : Float64) (sheet : Sheet) (startCol endRow endCol : Int)
    (title : String) :
    ∀ (fuel : Nat) (row : Int) (data : chartData fl),
      ExtractChartDataLoop fl sheet startCol endRow endCol fuel row
          ⟨data.Labels, data.Values, title⟩ =
        (extractChartDataLoop fl sheet startCol endRow endCol fuel row data).map
          (fun d => ⟨d.Labels, d.Values, title⟩) := by
  intro fuel
  induction fuel with
  | zero =>
    intro row data
    rfl
  | succ fuel ih =>
    intro row data
    rw [ExtractChartDataLoop, extractChartDataLoop]
    split_ifs with h1
    · cases hcells : index? sheet.Rows row with
      | none => rfl
      | some cells =>
        simp only []
        split_ifs with h2 h3
        · cases hl : index? cells startCol with
          | none => rfl
          | some labelCell =>
            simp only []
            cases hv : index? cells (startCol + 1) with
            | none => rfl
            | some valCell =>
              simp only []
              cases hp : fl.ParseFloat valCell.Value with
              | none => exact ih _ ⟨_, _⟩
              | some val => exact ih _ ⟨_, _⟩
        · cases hl : index? cells startCol with
          | none => rfl
          | some labelCell => exact ih _ ⟨_, _⟩
        · exact ih _ data
    · rfl

theorem ExtractChartData_eq (fl : Float64) (sheet : Sheet)
    (startRow startCol endRow endCol : Int) :
    ExtractChartData fl sheet startRow startCol endRow endCol =
      (extractChartData fl sheet startRow startCol endRow endCol).map
        (fun d => ⟨d.Labels, d.Values, ""⟩) :=
  ExtractChartDataLoop_eq fl sheet startCol endRow endCol "" _ _ ⟨[], []⟩

/-- The loop of `extractChartData` keeps "no more values than labels, and no value at all for a
rectangle one column wide", whatever the sheet and the rectangle. -/
theorem extractChartDataLoop_inv (fl : Float64) (sheet : Sheet) (startCol endRow endCol : Int) :
    ∀ (fuel : Nat) (row : Int) (data out : chartData fl),
      extractChartDataLoop fl sheet startCol endRow endCol fuel row data = some out →
      (data.Values.length ≤ data.Labels.length ∧ (startCol + 1 > endCol → data.Values = [])) →
      out.Values.length ≤ out.Labels.length ∧ (startCol + 1 > endCol → out.Values = []) := by
  intro fuel
  induction fuel with
  | zero =>
    intro row data out h
    cases h
  | succ fuel ih =>
    intro row data out h hinv
    rw [extractChartDataLoop] at h
    split_ifs at h with h1
    · cases hcells : index? sheet.Rows row with
      | none =>
        rw [hcells] at h
        cases h
      | some cells =>
        rw [hcells] at h
        simp only [] at h
        split_ifs at h with h2 h3
        · cases hl : index? cells startCol with
          | none =>
            rw [hl] at h
            cases h
          | some labelCell =>
            rw [hl] at h
            simp only [] at h
            cases hv : index? cells (startCol + 1) with
            | none =>
              rw [hv] at h
              cases h
            | some valCell =>
              rw [hv] at h
              simp only [] at h
              cases hp : fl.ParseFloat valCell.Value with
              | none =>
                rw [hp] at h
                refine ih _ _ _ h ⟨?_, ?_⟩
                · simp only [List.length_append, List.length_singleton]
                  omega
                · intro hcol
                  omega
              | some val =>
                rw [hp] at h
                refine ih _ _ _ h ⟨?_, ?_⟩
                · simp only [List.length_append, List.length_singleton]
                  omega
                · intro hcol
                  omega
        · cases hl : index? cells startCol with
          | none =>
            rw [hl] at h
            cases h
          | some labelCell =>
            rw [hl] at h
            refine ih _ _ _ h ⟨?_, hinv.2⟩
            simp only [List.length_append, List.length_singleton]
            omega
        · exact ih _ _ _ h hinv
    · cases h
      exact hinv


theorem mem_chartRows (sheet : Sheet) (startRow endRow : Int) (hr : 0 ≤ startRow) (r : Int) :
    r ∈ chartRows sheet startRow endRow ↔
      startRow ≤ r ∧ r ≤ endRow ∧ r < (sheet.Rows.length : Int) := by
  unfold chartRows
  simp only [List.mem_map, List.mem_range'_1]
  constructor
  · rintro ⟨a, ⟨h1, h2⟩, rfl⟩
    simp only [Int.ofNat_eq_coe]
    omega
  · intro h
    refine ⟨r.toNat, ⟨by omega, by omega⟩, ?_⟩
    simp only [Int.ofNat_eq_coe]
    omega

/-- C24. For every sheet, jagged or not, and every rectangle, a series returned by
`extractChartData` (view.go) or `ExtractChartData` (chart.go) has at most as many values as
labels, and no value at all when the rectangle is a single column (`startCol + 1 > endCol`);
for a rectangle whose corner `(startRow, startCol)` is not negative both functions return a
series (they end, and no index is out of range). -/
theorem series_values_at_most_labels (fl : Float64) (sheet : Sheet)
    (startRow startCol endRow endCol : Int) :
    (∀ data, extractChartData fl sheet startRow startCol endRow endCol = some data →
      data.Values.length ≤ data.Labels.length ∧ (startCol + 1 > endCol → data.Values = [])) ∧
    (∀ data, ExtractChartData fl sheet startRow startCol endRow endCol = some data →
      data.Values.length ≤ data.Labels.length ∧ (startCol + 1 > endCol → data.Values = [])) ∧
    (0 ≤ startRow → 0 ≤ startCol →
      (extractChartData fl sheet startRow startCol endRow endCol).isSome = true ∧
      (ExtractChartData fl sheet startRow startCol endRow endCol).isSome = true) := by
  have hview : ∀ data, extractChartData fl sheet startRow startCol endRow endCol = some data →
      data.Values.length ≤ data.Labels.length ∧ (startCol + 1 > endCol → data.Values = []) := by
    intro data h
    exact extractChartDataLoop_inv fl sheet startCol endRow endCol _ _ _ _ h
      ⟨Nat.le_refl _, fun _ => rfl⟩
  refine ⟨hview, ?_, ?_⟩
  · intro data h
    rw [ExtractChartData_eq] at h
    cases hd : extractChartData fl sheet startRow startCol endRow endCol with
    | none =>
      rw [hd] at h
      cases h
    | some d =>
      rw [hd] at h
      cases h
      exact hview d hd
  · intro hr hc
    rw [ExtractChartData_eq, extractChartData_spec fl sheet startRow startCol endRow endCol hr hc]
    exact ⟨rfl, rfl⟩

/-- C25. For a rectangle whose corner is not negative, the series of `extractChartData` (and of
`ExtractChartData`) lists, for the rows `startRow, ..., min(endRow, len-1)` in order, the label
and the value each row contributes. A row whose label cell exists contributes as label that
cell's value, or `Row {r+1}` when the value is the empty string. A value cell that exists (in a
rectangle at least two columns wide) contributes its parsed value when `strconv.ParseFloat`
accepts its text, and zero when it does not. -/
theorem series_labels_and_values (fl : Float64) (sheet : Sheet)
    (startRow startCol endRow endCol : Int) (hr : 0 ≤ startRow) (hc : 0 ≤ startCol) :
    (∃ data, extractChartData fl sheet startRow startCol endRow endCol = some data ∧
      ExtractChartData fl sheet startRow startCol endRow endCol =
        some ⟨data.Labels, data.Values, ""⟩ ∧
      data.Labels = (chartRows sheet startRow endRow).filterMap (rowLabel sheet startCol) ∧
      data.Values =
        (chartRows sheet startRow endRow).filterMap (rowValue fl sheet startCol endCol)) ∧
    (∀ r, r ∈ chartRows sheet startRow endRow ↔
      startRow ≤ r ∧ r ≤ endRow ∧ r < (sheet.Rows.length : Int)) ∧
    (∀ r cell, cellAt sheet r startCol = some cell →
      (cell.Value = "" → rowLabel sheet startCol r = some ("Row " ++ Sprintf_d (r + 1))) ∧
      (cell.Value ≠ "" → rowLabel sheet startCol r = some cell.Value)) ∧
    (∀ r cell, startCol + 1 ≤ endCol → cellAt sheet r (startCol + 1) = some cell →
      (fl.ParseFloat cell.Value = none →
        rowValue fl sheet startCol endCol r = some (fl.ofInt 0)) ∧
      (∀ val, fl.ParseFloat cell.Value = some val →
        rowValue fl sheet startCol endCol r = some val)) := by
  refine ⟨⟨_, extractChartData_spec fl sheet startRow startCol endRow endCol hr hc, ?_, rfl, rfl⟩,
    mem_chartRows sheet startRow endRow hr, ?_, ?_⟩
  · rw [ExtractChartData_eq, extractChartData_spec fl sheet startRow startCol endRow endCol hr hc]
    rfl
  · intro r cell hcell
    unfold rowLabel
    rw [hcell]
    constructor
    · intro he
      simp only [Option.map_some', he, if_true]
    · intro hne
      simp only [Option.map_some', hne, if_false]
  · intro r cell hcol hcell
    unfold rowValue
    rw [if_pos hcol, hcell]
    constructor
    · intro hp
      simp only [Option.map_some', hp, Option.getD_none]
    · intro val hp
      simp only [Option.map_some', hp, Option.getD_some]

/-- C26 (the code drops the value of a short row). On `jaggedSheet`, whose second row has a
label cell but no cell in the value column, the rectangle of rows 0..2 and columns 0..1 gives
three labels and two values, whatever the float arithmetic: the row `"b"` contributes a label
and no value (not zero), and the second value belongs to the row of the third label. -/
theorem absent_value_cell_drops_value : ∀ fl : Float64,
    (extractChartData fl jaggedSheet 0 0 2 1).map (fun d => (d.Labels, d.Values)) =
      some (["a", "b", "c"],
        [(fl.ParseFloat "1").getD (fl.ofInt 0), (fl.ParseFloat "3").getD (fl.ofInt 0)]) ∧
    (ExtractChartData fl jaggedSheet 0 0 2 1).map (fun d => (d.Labels, d.Values)) =
      some (["a", "b", "c"],
        [(fl.ParseFloat "1").getD (fl.ofInt 0), (fl.ParseFloat "3").getD (fl.ofInt 0)]) ∧
    rowLabel jaggedSheet 0 1 = some "b" ∧ rowValue fl jaggedSheet 0 1 1 = none ∧
    rowValue fl jaggedSheet 0 1 2 = some ((fl.ParseFloat "3").getD (fl.ofInt 0)) := by
  intro fl
  have h := extractChartData_spec fl jaggedSheet 0 0 2 1 (by decide) (by decide)
  refine ⟨?_, ?_, rfl, rfl, rfl⟩
  · rw [h]
    rfl
  · rw [ExtractChartData_eq, h]
    rfl

/-! ## Line rasterisation -/

theorem mem_of_index? {α : Type} (xs : List α) (i : Int) (x : α) (h : index? xs i = some x) :
    x ∈ xs := by
  unfold index? at h
  split_ifs at h
  obtain ⟨hlt, rfl⟩ := List.getElem?_eq_some_iff.mp h
  exact List.getElem_mem hlt

theorem lineGlyph_mem (dx dy sx sy : Int) : lineGlyph dx dy sx sy ∈ lineGlyphs := by
  unfold lineGlyph lineGlyphs
  split_ifs <;> simp

theorem lineGlyph_ne_blank (dx dy sx sy : Int) : lineGlyph dx dy sx sy ≠ ' ' := by
  unfold lineGlyph
  split_ifs <;> decide

theorem setCell_spec (grid g1 : List (List Char)) (y x : Int) (c : Char)
    (h : setCell grid y x c = some g1) :
    g1.length = grid.length ∧
    (∀ w, (∀ row ∈ grid, row.length = w) → ∀ row ∈ g1, row.length = w) ∧
    ∀ y1 x1 : Int, gridCell g1 y1 x1 =
      if y1 = y ∧ x1 = x then some c else gridCell grid y1 x1 := by
  unfold setCell at h
  cases hrow : index? grid y with
  | none =>
    rw [hrow] at h
    cases h
  | some row =>
    rw [hrow] at h
    simp only [] at h
    split_ifs at h with hx
    cases h
    obtain ⟨hy0, hylt⟩ := index?_lt_length grid y row hrow
    have hrowget : grid[y.toNat]? = some row := by
      unfold index? at hrow
      rw [if_pos hy0] at hrow
      exact hrow
    refine ⟨List.length_set _ _ _, ?_, ?_⟩
    · intro w hw r hr
      rcases List.mem_or_eq_of_mem_set hr with h1 | h1
      · exact hw r h1
      · rw [h1, List.length_set]
        exact hw row (mem_of_index? grid y row hrow)
    · intro y1 x1
      unfold gridCell
      by_cases hyy : y1 = y
      · subst hyy
        have hget : index? (grid.set y1.toNat (row.set x.toNat c)) y1 =
            some (row.set x.toNat c) := by
          unfold index?
          rw [if_pos hy0, List.getElem?_set_self (by omega)]
        rw [hget, hrow]
        simp only [true_and]
        by_cases hxx : x1 = x
        · subst hxx
          rw [if_pos rfl]
          unfold index?
          rw [if_pos hx.1, List.getElem?_set_self (by omega)]
        · rw [if_neg hxx]
          unfold index?
          by_cases hx1 : 0 ≤ x1
          · rw [if_pos hx1, if_pos hx1, List.getElem?_set_ne (by omega)]
          · rw [if_neg hx1, if_neg hx1]
      · rw [if_neg (fun hcon => hyy hcon.1)]
        have hget : index? (grid.set y.toNat (row.set x.toNat c)) y1 = index? grid y1 := by
          unfold index?
          by_cases hy1 : 0 ≤ y1
          · rw [if_pos hy1, if_pos hy1, List.getElem?_set_ne (by omega)]
          · rw [if_neg hy1, if_neg hy1]
        rw [hget]

theorem FirstWriteWins_refl (glyph : Char) (g : List (List Char)) : FirstWriteWins glyph g g :=
  ⟨rfl, fun _ _ => Or.inl rfl⟩

theorem FirstWriteWins_trans (glyph : Char) (hg : glyph ≠ ' ') (a b c : List (List Char))
    (hab : FirstWriteWins glyph a b) (hbc : FirstWriteWins glyph b c) :
    FirstWriteWins glyph a c := by
  refine ⟨hbc.1.trans hab.1, ?_⟩
  intro y x
  rcases hab.2 y x with h1 | ⟨h1, h2⟩
  · rcases hbc.2 y x with h3 | ⟨h3, h4⟩
    · exact Or.inl (h3.trans h1)
    · exact Or.inr ⟨h1 ▸ h3, h4⟩
  · rcases hbc.2 y x with h3 | ⟨h3, h4⟩
    · exact Or.inr ⟨h1, h3.trans h2⟩
    · rw [h2] at h3
      exact absurd (Option.some.inj h3) hg

/-- One visit of `drawLine` writes at most the visited cell, and only if it was blank. -/
theorem drawLineCell_frame (grid g1 : List (List Char)) (dx dy sx sy x0 y0 : Int)
    (h : drawLineCell grid dx dy sx sy x0 y0 = some g1) :
    FirstWriteWins (lineGlyph dx dy sx sy) grid g1 ∧
    ∀ w, (∀ row ∈ grid, row.length = w) → ∀ row ∈ g1, row.length = w := by
  have hsame : ∀ g : List (List Char), some grid = some g →
      FirstWriteWins (lineGlyph dx dy sx sy) grid g ∧
      ∀ w, (∀ row ∈ grid, row.length = w) → ∀ row ∈ g, row.length = w := by
    intro g hg
    cases hg
    exact ⟨FirstWriteWins_refl _ _, fun _ hw => hw⟩
  unfold drawLineCell at h
  split_ifs at h with hx0
  · cases hr0 : index? grid 0 with
    | none =>
      rw [hr0] at h
      cases h
    | some row0 =>
      rw [hr0] at h
      simp only [] at h
      split_ifs at h with hin
      · cases hrow : index? grid y0 with
        | none =>
          rw [hrow] at h
          cases h
        | some row =>
          rw [hrow] at h
          simp only [] at h
          cases hc : index? row x0 with
          | none =>
            rw [hc] at h
            cases h
          | some c =>
            rw [hc] at h
            simp only [] at h
            split_ifs at h with hblank
            · obtain ⟨hlen, hw, hcell⟩ := setCell_spec grid g1 y0 x0 _ h
              refine ⟨⟨hlen, ?_⟩, hw⟩
              intro y x
              rw [hcell y x]
              by_cases hyx : y = y0 ∧ x = x0
              · rw [if_pos hyx]
                right
                refine ⟨?_, rfl⟩
                unfold gridCell
                rw [hyx.1, hyx.2, hrow]
                simp only []
                rw [hc, hblank]
              · rw [if_neg hyx]
                exact Or.inl rfl
            · exact hsame g1 h
      · exact hsame g1 h
  · exact hsame g1 h

/-- On a rectangular grid a visit of `drawLine` does not panic. -/
theorem drawLineCell_some (grid : List (List Char)) (w : Nat) (hrect : Rectangular grid w)
    (dx dy sx sy x0 y0 : Int) :
    ∃ g1, drawLineCell grid dx dy sx sy x0 y0 = some g1 ∧ Rectangular g1 w := by
  have hlenpos : 0 < grid.length := List.length_pos.mpr hrect.1
  have keep : ∀ g1, drawLineCell grid dx dy sx sy x0 y0 = some g1 → Rectangular g1 w := by
    intro g1 h
    obtain ⟨hf, hw⟩ := drawLineCell_frame grid g1 dx dy sx sy x0 y0 h
    refine ⟨?_, hw w hrect.2⟩
    intro hnil
    rw [hnil] at hf
    have := hf.1
    simp only [List.length_nil] at this
    omega
  suffices hsome : ∃ g1, drawLineCell grid dx dy sx sy x0 y0 = some g1 by
    obtain ⟨g1, h⟩ := hsome
    exact ⟨g1, h, keep g1 h⟩
  unfold drawLineCell
  split_ifs with hx0
  · obtain ⟨row0, hr0⟩ := index?_some_of_lt grid 0 (le_refl _) (by omega)
    rw [hr0]
    simp only []
    have hrow0len : row0.length = w := by
      exact hrect.2 row0 (mem_of_index? grid 0 row0 hr0)
    split_ifs with hin
    · obtain ⟨row, hrow⟩ := index?_some_of_lt grid y0 hin.2.1 hin.2.2
      rw [hrow]
      simp only []
      have hrowlen : row.length = w := by
        exact hrect.2 row (mem_of_index? grid y0 row hrow)
      obtain ⟨c, hc⟩ := index?_some_of_lt row x0 hx0 (by omega)
      rw [hc]
      simp only []
      split_ifs with hblank
      · unfold setCell
        rw [hrow]
        simp only []
        rw [if_pos ⟨hx0, by omega⟩]
        exact ⟨_, rfl⟩
      · exact ⟨_, rfl⟩
    · exact ⟨_, rfl⟩
  · exact ⟨_, rfl⟩

/-- Whatever the fuel, a grid returned by the loop of `drawLine` differs from the grid it
started with only in cells that were blank, which now hold the glyph of the line. -/
theorem drawLineLoop_frame (dx dy sx sy x1 y1 : Int) :
    ∀ (fuel : Nat) (grid g1 : List (List Char)) (x0 y0 err : Int),
      drawLineLoop dx dy sx sy x1 y1 fuel grid x0 y0 err = some g1 →
      FirstWriteWins (lineGlyph dx dy sx sy) grid g1 := by
  intro fuel
  induction fuel with
  | zero =>
    intro grid g1 x0 y0 err h
    cases h
  | succ fuel ih =>
    intro grid g1 x0 y0 err h
    rw [drawLineLoop] at h
    cases hcell : drawLineCell grid dx dy sx sy x0 y0 with
    | none =>
      rw [hcell] at h
      cases h
    | some g =>
      rw [hcell] at h
      simp only [] at h
      have hstep := (drawLineCell_frame grid g dx dy sx sy x0 y0 hcell).1
      by_cases hend : x0 = x1 ∧ y0 = y1
      · rw [if_pos hend] at h
        cases h
        exact hstep
      · rw [if_neg hend] at h
        exact FirstWriteWins_trans _ (lineGlyph_ne_blank dx dy sx sy) _ _ _ hstep
          (ih _ _ _ _ _ h)

/-- The loop of `drawLine` ends: with `rx` steps left along x and `ry` steps left along y, and
the error term that belongs to that position, `rx + ry + 1` iterations are enough. -/
theorem drawLineLoop_terminates (dx dy sx sy x1 y1 : Int) (hdx : 0 ≤ dx) (hdy : 0 ≤ dy)
    (w : Nat) :
    ∀ (n fuel : Nat) (grid : List (List Char)) (rx ry : Nat),
      rx + ry = n → n < fuel → (rx : Int) ≤ dx → (ry : Int) ≤ dy → Rectangular grid w →
      ∃ g1, drawLineLoop dx dy sx sy x1 y1 fuel grid (x1 - sx * rx) (y1 - sy * ry)
        (dx - dy + dy * rx - dx * ry) = some g1 ∧ Rectangular g1 w := by
  intro n
  induction n using Nat.strong_induction_on with
  | _ n ih =>
    intro fuel grid rx ry hn hfuel hrx hry hrect
    obtain ⟨f, rfl⟩ : ∃ f, fuel = f + 1 := ⟨fuel - 1, by omega⟩
    rw [drawLineLoop]
    obtain ⟨g, hcell, hrect1⟩ := drawLineCell_some grid w hrect dx dy sx sy
      (x1 - sx * rx) (y1 - sy * ry)
    rw [hcell]
    simp only []
    by_cases hend : x1 - sx * (rx : Int) = x1 ∧ y1 - sy * (ry : Int) = y1
    · rw [if_pos hend]
      exact ⟨g, rfl, hrect1⟩
    · rw [if_neg hend]
      have hnot0 : ¬(rx = 0 ∧ ry = 0) := by
        rintro ⟨h1, h2⟩
        apply hend
        subst h1
        subst h2
        simp
      have hprodx : dy * (rx : Int) ≥ 0 := mul_nonneg hdy (Int.ofNat_nonneg rx)
      have hprody : dx * (ry : Int) ≥ 0 := mul_nonneg hdx (Int.ofNat_nonneg ry)
      by_cases hxs : 2 * (dx - dy + dy * (rx : Int) - dx * (ry : Int)) > -dy
      · have hrxpos : 0 < rx := by
          by_contra hcon
          have hrx0 : rx = 0 := by omega
          have hry1 : 1 ≤ ry := by omega
          subst hrx0
          have : dx * (ry : Int) ≥ dx * 1 :=
            mul_le_mul_of_nonneg_left (by exact_mod_cast hry1) hdx
          simp only [Nat.cast_zero, mul_zero, add_zero] at hxs
          omega
        rw [if_pos hxs]
        simp only []
        by_cases hys : 2 * (dx - dy + dy * (rx : Int) - dx * (ry : Int)) < dx
        · have hrypos : 0 < ry := by
            by_contra hcon
            have hry0 : ry = 0 := by omega
            have hrx1 : 1 ≤ rx := by omega
            subst hry0
            have : dy * (rx : Int) ≥ dy * 1 :=
              mul_le_mul_of_nonneg_left (by exact_mod_cast hrx1) hdy
            simp only [Nat.cast_zero, mul_zero, sub_zero] at hys
            omega
          rw [if_pos hys]
          simp only []
          have hx : x1 - sx * (rx : Int) + sx = x1 - sx * ((rx - 1 : Nat) : Int) := by
            have : ((rx - 1 : Nat) : Int) = (rx : Int) - 1 := by omega
            rw [this]
            ring
          have hy : y1 - sy * (ry : Int) + sy = y1 - sy * ((ry - 1 : Nat) : Int) := by
            have : ((ry - 1 : Nat) : Int) = (ry : Int) - 1 := by omega
            rw [this]
            ring
          have he : dx - dy + dy * (rx : Int) - dx * (ry : Int) - dy + dx =
              dx - dy + dy * ((rx - 1 : Nat) : Int) - dx * ((ry - 1 : Nat) : Int) := by
            have h1 : ((rx - 1 : Nat) : Int) = (rx : Int) - 1 := by omega
            have h2 : ((ry - 1 : Nat) : Int) = (ry : Int) - 1 := by omega
            rw [h1, h2]
            ring
          rw [hx, hy, he]
          exact ih (rx - 1 + (ry - 1)) (by omega) f g (rx - 1) (ry - 1) rfl (by omega)
            (by omega) (by omega) hrect1
        · rw [if_neg hys]
          simp only []
          have hx : x1 - sx * (rx : Int) + sx = x1 - sx * ((rx - 1 : Nat) : Int) := by
            have : ((rx - 1 : Nat) : Int) = (rx : Int) - 1 := by omega
            rw [this]
            ring
          have he : dx - dy + dy * (rx : Int) - dx * (ry : Int) - dy =
              dx - dy + dy * ((rx - 1 : Nat) : Int) - dx * (ry : Int) := by
            have h1 : ((rx - 1 : Nat) : Int) = (rx : Int) - 1 := by omega
            rw [h1]
            ring
          rw [hx, he]
          exact ih (rx - 1 + ry) (by omega) f g (rx - 1) ry rfl (by omega)
            (by omega) hry hrect1
      · rw [if_neg hxs]
        simp only []
        have hys : 2 * (dx - dy + dy * (rx : Int) - dx * (ry : Int)) < dx := by
          by_contra hcon
          have hdx0 : dx = 0 := by omega
          have hdy0 : dy = 0 := by omega
          apply hnot0
          constructor <;> omega
        have hrypos : 0 < ry := by
          by_contra hcon
          have hry0 : ry = 0 := by omega
          have hrx1 : 1 ≤ rx := by omega
          subst hry0
          have : dy * (rx : Int) ≥ dy * 1 :=
            mul_le_mul_of_nonneg_left (by exact_mod_cast hrx1) hdy
          simp only [Nat.cast_zero, mul_zero, sub_zero] at hys
          omega
        rw [if_pos hys]
        simp only []
        have hy : y1 - sy * (ry : Int) + sy = y1 - sy * ((ry - 1 : Nat) : Int) := by
          have : ((ry - 1 : Nat) : Int) = (ry : Int) - 1 := by omega
          rw [this]
          ring
        have he : dx - dy + dy * (rx : Int) - dx * (ry : Int) + dx =
            dx - dy + dy * (rx : Int) - dx * ((ry - 1 : Nat) : Int) := by
          have h2 : ((ry - 1 : Nat) : Int) = (ry : Int) - 1 := by omega
          rw [h2]
          ring
        rw [hy, he]
        exact ih (rx + (ry - 1)) (by omega) f g rx (ry - 1) rfl (by omega)
          hrx (by omega) hrect1

theorem abs_eq_natAbs (x : Int) : abs x = x.natAbs := by
  unfold abs
  split_ifs <;> omega

/-- C30. Line rasterisation is first-write-wins. For every grid, every pair of endpoints and
every bound on the number of iterations, a grid returned by `drawLine` has the shape of the grid
it was given, and each cell either is unchanged or was blank before the call and now holds the
glyph of the line, one of the four line glyphs; so every non-blank cell is the same before and
after. On a grid with at least one row whose rows have the same length (the grids
`RenderLineChart` builds), `drawLine` returns within `|x1-x0| + |y1-y0| + 1` iterations. -/
theorem drawLine_first_write_wins (fuel : Nat) (grid : List (List Char)) (x0 y0 x1 y1 : Int) :
    (∀ g1, drawLine fuel grid x0 y0 x1 y1 = some g1 →
      g1.length = grid.length ∧
      ∀ y x : Int, gridCell g1 y x = gridCell grid y x ∨
        (gridCell grid y x = some ' ' ∧ ∃ glyph ∈ lineGlyphs, gridCell g1 y x = some glyph)) ∧
    (∀ g1, drawLine fuel grid x0 y0 x1 y1 = some g1 →
      ∀ (y x : Int) (c : Char), gridCell grid y x = some c → c ≠ ' ' →
        gridCell g1 y x = some c) ∧
    (∀ w, Rectangular grid w → (x1 - x0).natAbs + (y1 - y0).natAbs < fuel →
      ∃ g1, drawLine fuel grid x0 y0 x1 y1 = some g1 ∧ Rectangular g1 w) := by
  have hframe : ∀ g1, drawLine fuel grid x0 y0 x1 y1 = some g1 →
      FirstWriteWins (lineGlyph (abs (x1 - x0)) (abs (y1 - y0)) (if x0 > x1 then -1 else 1)
        (if y0 > y1 then -1 else 1)) grid g1 := by
    intro g1 h
    unfold drawLine at h
    exact drawLineLoop_frame _ _ _ _ _ _ _ _ _ _ _ _ h
  refine ⟨?_, ?_, ?_⟩
  · intro g1 h
    obtain ⟨hlen, hcells⟩ := hframe g1 h
    refine ⟨hlen, ?_⟩
    intro y x
    rcases hcells y x with h1 | ⟨h1, h2⟩
    · exact Or.inl h1
    · exact Or.inr ⟨h1, _, lineGlyph_mem _ _ _ _, h2⟩
  · intro g1 h y x c hc hne
    rcases (hframe g1 h).2 y x with h1 | ⟨h1, _⟩
    · rw [h1, hc]
    · rw [hc] at h1
      exact absurd (Option.some.inj h1) hne
  · intro w hrect hfuel
    have hdx : abs (x1 - x0) = ((x1 - x0).natAbs : Int) := abs_eq_natAbs _
    have hdy : abs (y1 - y0) = ((y1 - y0).natAbs : Int) := abs_eq_natAbs _
    have hterm := drawLineLoop_terminates (abs (x1 - x0)) (abs (y1 - y0))
      (if x0 > x1 then -1 else 1) (if y0 > y1 then -1 else 1) x1 y1
      (by rw [hdx]; exact Int.ofNat_nonneg _) (by rw [hdy]; exact Int.ofNat_nonneg _) w
      ((x1 - x0).natAbs + (y1 - y0).natAbs) fuel grid (x1 - x0).natAbs (y1 - y0).natAbs rfl
      hfuel (by rw [hdx]) (by rw [hdy]) hrect
    have hx : x1 - (if x0 > x1 then (-1 : Int) else 1) * ((x1 - x0).natAbs : Int) = x0 := by
      split_ifs <;> omega
    have hy : y1 - (if y0 > y1 then (-1 : Int) else 1) * ((y1 - y0).natAbs : Int) = y0 := by
      split_ifs <;> omega
    have he : abs (x1 - x0) - abs (y1 - y0) + abs (y1 - y0) * ((x1 - x0).natAbs : Int) -
        abs (x1 - x0) * ((y1 - y0).natAbs : Int) = abs (x1 - x0) - abs (y1 - y0) := by
      rw [hdx, hdy]
      ring
    rw [hx, hy, he] at hterm
    obtain ⟨g1, hg1, hrect1⟩ := hterm
    refine ⟨g1, ?_, hrect1⟩
    unfold drawLine
    exact hg1


/-! ## Bar and line charts -/

theorem maxFloat_mem (fl : Float64) (vals : List fl.F) (h : vals ≠ []) :
    maxFloat fl vals ∈ vals := by
  have key : ∀ (l : List fl.F) (m : fl.F),
      l.foldl (fun max v => if fl.lt max v then v else max) m = m ∨
      l.foldl (fun max v => if fl.lt max v then v else max) m ∈ l := by
    intro l
    induction l with
    | nil =>
      intro m
      exact Or.inl rfl
    | cons a l ih =>
      intro m
      rw [List.foldl_cons]
      rcases ih (if fl.lt m a then a else m) with h1 | h1
      · rw [h1]
        split_ifs
        · exact Or.inr (List.mem_cons_self _ _)
        · exact Or.inl rfl
      · exact Or.inr (List.mem_cons_of_mem _ h1)
  cases vals with
  | nil => exact absurd rfl h
  | cons v0 vs =>
    show (v0 :: vs).foldl (fun max v => if fl.lt max v then v else max) v0 ∈ v0 :: vs
    rcases key (v0 :: vs) v0 with h1 | h1
    · rw [h1]
      exact List.mem_cons_self _ _
    · exact h1

theorem maxFloat_ge (fl : Float64) (value : fl.F → ℚ) (vals : List fl.F)
    (hlt : ∀ a ∈ vals, ∀ b ∈ vals, (fl.lt a b = true ↔ value a < value b)) :
    ∀ a ∈ vals, value a ≤ value (maxFloat fl vals) := by
  have key : ∀ (l : List fl.F) (m : fl.F), (∀ x ∈ l, x ∈ vals) → m ∈ vals →
      value m ≤ value (l.foldl (fun max v => if fl.lt max v then v else max) m) ∧
      ∀ a ∈ l, value a ≤ value (l.foldl (fun max v => if fl.lt max v then v else max) m) := by
    intro l
    induction l with
    | nil =>
      intro m _ _
      exact ⟨le_refl _, fun a ha => absurd ha (List.not_mem_nil a)⟩
    | cons x l ih =>
      intro m hl hm
      rw [List.foldl_cons]
      have hx : x ∈ vals := hl x (List.mem_cons_self _ _)
      have hl1 : ∀ y ∈ l, y ∈ vals := fun y hy => hl y (List.mem_cons_of_mem _ hy)
      by_cases hc : fl.lt m x = true
      · rw [if_pos hc]
        obtain ⟨h1, h2⟩ := ih x hl1 hx
        have hmx : value m < value x := (hlt m hm x hx).mp hc
        refine ⟨le_trans (le_of_lt hmx) h1, ?_⟩
        intro a ha
        rcases List.mem_cons.mp ha with rfl | ha1
        · exact h1
        · exact h2 a ha1
      · rw [if_neg hc]
        obtain ⟨h1, h2⟩ := ih m hl1 hm
        have hmx : ¬(value m < value x) := fun hcon => hc ((hlt m hm x hx).mpr hcon)
        refine ⟨h1, ?_⟩
        intro a ha
        rcases List.mem_cons.mp ha with rfl | ha1
        · exact le_trans (not_lt.mp hmx) h1
        · exact h2 a ha1
  intro a ha
  cases vals with
  | nil => exact absurd ha (List.not_mem_nil a)
  | cons v0 vs =>
    exact (key (v0 :: vs) v0 (fun x hx => hx) (List.mem_cons_self _ _)).2 a ha

theorem maxLabelLen_le (labels : List String) : maxLabelLen labels ≤ 15 := by
  unfold maxLabelLen
  simp only []
  split_ifs <;> omega

theorem getElem?_take_map {α β : Type} (f : α → β) (l : List α) (n i : Nat) (v : α)
    (hv : l[i]? = some v) (hi : i < n) : ((l.take n).map f)[i]? = some (f v) := by
  rw [List.getElem?_map, List.getElem?_take_of_lt hi, hv]
  rfl

/-- C28. For every non-empty series whose values are all zero (`v == 0`), both bar renderers
use the maximum 1 in place of 0, so the divisor of `val / maxVal` is 1 and not zero, and every
bar they draw has length 0. The three facts of IEEE-754 arithmetic used: a zero divided by 1 is
a zero, an integer times a zero is a zero, and `int` of a zero is 0. -/
theorem all_zero_series_has_empty_bars (fl : Float64) (labels : List String)
    (values : List fl.F) (title : String) (hne : values ≠ [])
    (hzero : ∀ v ∈ values, fl.eq v (fl.ofInt 0) = true)
    (hdiv : ∀ v, fl.eq v (fl.ofInt 0) = true →
      fl.eq (fl.div v (fl.ofInt 1)) (fl.ofInt 0) = true)
    (hmul : ∀ (w : Int) v, fl.eq v (fl.ofInt 0) = true →
      fl.eq (fl.mul (fl.ofInt w) v) (fl.ofInt 0) = true)
    (hint : ∀ v, fl.eq v (fl.ofInt 0) = true → fl.toInt v = 0) :
    fl.eq (maxFloat fl values) (fl.ofInt 0) = true ∧
    renderBarChart fl ⟨labels, values⟩ =
      some ⟨fl.ofInt 1, List.replicate (min labels.length values.length) 0⟩ ∧
    RenderBarChart fl ⟨labels, values, title⟩ =
      some ⟨fl.ofInt 1, List.replicate (min labels.length values.length) 0⟩ := by
  have hmax : fl.eq (maxFloat fl values) (fl.ofInt 0) = true :=
    hzero _ (maxFloat_mem fl values hne)
  have hlen : ¬(values.length = 0) := fun h => hne (List.length_eq_zero.mp h)
  have hbar : ∀ (w : Int), ∀ v ∈ values,
      fl.toInt (fl.mul (fl.ofInt w) (fl.div v (fl.ofInt 1))) = 0 := by
    intro w v hv
    exact hint _ (hmul w _ (hdiv v (hzero v hv)))
  have hmap : ∀ (f : fl.F → Int), (∀ v ∈ values, f v = 0) →
      (values.take labels.length).map f =
        List.replicate (min labels.length values.length) 0 := by
    intro f hf
    apply List.eq_replicate_iff.mpr
    constructor
    · rw [List.length_map, List.length_take]
    · intro b hb
      obtain ⟨v, hv, rfl⟩ := List.mem_map.mp hb
      exact hf v (List.mem_of_mem_take hv)
  refine ⟨hmax, ?_, ?_⟩
  · unfold renderBarChart
    rw [if_neg hlen]
    simp only [hmax, if_true]
    rw [hmap]
    intro v hv
    rw [hbar 40 v hv]
    rfl
  · unfold RenderBarChart
    rw [if_neg hlen]
    simp only [hmax, if_true]
    rw [hmap]
    intro v hv
    rw [hbar _ v hv]
    have := maxLabelLen_le labels
    simp only [lt_irrefl, if_false]
    unfold ChartWidth
    rw [if_neg (by omega)]

/-- C29 (the claim as stated fails). For the series 7, 32 the exact quotient `40 * 7 / 32` is
8.75, with nearest integer 9, and `renderBarChart` draws a bar of length 8; with the bar width
`60 - 1 - 15 = 44` of `RenderBarChart` the quotient is 9.625, with nearest integer 10, and the
bar has length 9. Every operation involved is exact in binary64. -/
theorem bar_length_is_not_rounded :
    (renderBarChart Float64.amd64 ⟨["a", "b"], [Exact.fin 7 1, Exact.fin 32 1]⟩).map
      (fun b => b.barLens) = some [8, 40] ∧
    round ((40 : ℚ) * 7 / 32) = 9 ∧
    (RenderBarChart Float64.amd64 ⟨["a", "b"], [Exact.fin 7 1, Exact.fin 32 1], ""⟩).map
      (fun b => b.barLens) = some [9, 44] ∧
    round ((44 : ℚ) * 7 / 32) = 10 := by
  refine ⟨by decide, ?_, by decide, ?_⟩
  · rw [round_eq, Int.floor_eq_iff]
    norm_num
  · rw [round_eq, Int.floor_eq_iff]
    norm_num

/-- C29 (as amended). For every series with a positive maximum and every value in it whose bar
is drawn, the bar length is the integer part of the `float64` product
`float64(barWidth) * (value / max(values))`: the conversion `int(x)` discards the fraction, it
does not round to nearest. Here `value` gives the number each float of the series stands for,
the comparisons of the series agree with it, and `p` is the product for one of the two bar
widths, 40 in `renderBarChart` and `60 - maxLabelLen - 15` in `RenderBarChart`; where the
product is not negative, at most the bar width, and computed without rounding error, the bar
length is `⌊barWidth * value / max(values)⌋`. -/
theorem bar_length_is_truncated (fl : Float64) (value : fl.F → ℚ) (labels : List String)
    (values : List fl.F) (title : String) (i : Nat) (v : fl.F)
    (hv : values[i]? = some v) (hi : i < labels.length)
    (hlt : ∀ a ∈ values, ∀ b ∈ values, (fl.lt a b = true ↔ value a < value b))
    (hzero : ∀ a ∈ values, (fl.eq a (fl.ofInt 0) = true ↔ value a = 0))
    (hpos : ∃ a ∈ values, 0 < value a)
    (hint : ∀ w ∈ [40, ChartWidth - maxLabelLen labels - 15],
      0 ≤ value (fl.mul (fl.ofInt w) (fl.div v (maxFloat fl values))) ∧
      value (fl.mul (fl.ofInt w) (fl.div v (maxFloat fl values))) ≤ w ∧
      fl.toInt (fl.mul (fl.ofInt w) (fl.div v (maxFloat fl values))) =
        ⌊value (fl.mul (fl.ofInt w) (fl.div v (maxFloat fl values)))⌋) :
    maxFloat fl values ∈ values ∧
    (∀ a ∈ values, value a ≤ value (maxFloat fl values)) ∧
    0 < value (maxFloat fl values) ∧
    (∃ b, renderBarChart fl ⟨labels, values⟩ = some b ∧ b.maxVal = maxFloat fl values ∧
      b.barLens[i]? =
        some ⌊value (fl.mul (fl.ofInt 40) (fl.div v (maxFloat fl values)))⌋ ∧
      (value (fl.mul (fl.ofInt 40) (fl.div v (maxFloat fl values))) =
          40 * value v / value (maxFloat fl values) →
        b.barLens[i]? = some ⌊40 * value v / value (maxFloat fl values)⌋)) ∧
    (∃ b, RenderBarChart fl ⟨labels, values, title⟩ = some b ∧
      b.maxVal = maxFloat fl values ∧
      b.barLens[i]? =
        some ⌊value (fl.mul (fl.ofInt (ChartWidth - maxLabelLen labels - 15))
          (fl.div v (maxFloat fl values)))⌋) := by
  have hvmem : v ∈ values := by
    obtain ⟨h, he⟩ := List.getElem?_eq_some_iff.mp hv
    rw [← he]
    exact List.getElem_mem h
  have hne : values ≠ [] := List.ne_nil_of_mem hvmem
  have hlen : ¬(values.length = 0) := fun h => hne (List.length_eq_zero.mp h)
  have hmem := maxFloat_mem fl values hne
  have hge := maxFloat_ge fl value values hlt
  have hmaxpos : 0 < value (maxFloat fl values) := by
    obtain ⟨a, ha, hapos⟩ := hpos
    exact lt_of_lt_of_le hapos (hge a ha)
  have hnz : ¬(fl.eq (maxFloat fl values) (fl.ofInt 0) = true) := by
    intro h
    have := (hzero _ hmem).mp h
    rw [this] at hmaxpos
    exact lt_irrefl _ hmaxpos
  obtain ⟨h40a, h40b, h40c⟩ := hint 40 (List.mem_cons_self _ _)
  obtain ⟨hwa, hwb, hwc⟩ := hint (ChartWidth - maxLabelLen labels - 15)
    (List.mem_cons_of_mem _ (List.mem_cons_self _ _))
  refine ⟨hmem, hge, hmaxpos, ?_, ?_⟩
  · have hbar : (if fl.toInt (fl.mul (fl.ofInt 40) (fl.div v (maxFloat fl values))) < 0 then 0
        else fl.toInt (fl.mul (fl.ofInt 40) (fl.div v (maxFloat fl values)))) =
        ⌊value (fl.mul (fl.ofInt 40) (fl.div v (maxFloat fl values)))⌋ := by
      rw [h40c, if_neg (not_lt.mpr (Int.floor_nonneg.mpr h40a))]
    have hrender : renderBarChart fl ⟨labels, values⟩ =
        some ⟨maxFloat fl values, (values.take labels.length).map (fun val =>
          if fl.toInt (fl.mul (fl.ofInt 40) (fl.div val (maxFloat fl values))) < 0 then 0
          else fl.toInt (fl.mul (fl.ofInt 40) (fl.div val (maxFloat fl values))))⟩ := by
      unfold renderBarChart
      rw [if_neg hlen]
      simp only [hnz, Bool.false_eq_true, if_false]
    refine ⟨_, hrender, rfl, ?_, ?_⟩
    · simp only []
      rw [getElem?_take_map _ _ _ _ _ hv hi, hbar]
    · intro hexact
      simp only []
      rw [getElem?_take_map _ _ _ _ _ hv hi, hbar, hexact]
  · have hbar : (if (if fl.toInt (fl.mul (fl.ofInt (ChartWidth - maxLabelLen labels - 15))
            (fl.div v (maxFloat fl values))) < 0 then 0
          else fl.toInt (fl.mul (fl.ofInt (ChartWidth - maxLabelLen labels - 15))
            (fl.div v (maxFloat fl values)))) > ChartWidth - maxLabelLen labels - 15
        then ChartWidth - maxLabelLen labels - 15
        else (if fl.toInt (fl.mul (fl.ofInt (ChartWidth - maxLabelLen labels - 15))
            (fl.div v (maxFloat fl values))) < 0 then 0
          else fl.toInt (fl.mul (fl.ofInt (ChartWidth - maxLabelLen labels - 15))
            (fl.div v (maxFloat fl values))))) =
        ⌊value (fl.mul (fl.ofInt (ChartWidth - maxLabelLen labels - 15))
          (fl.div v (maxFloat fl values)))⌋ := by
      rw [hwc, if_neg (not_lt.mpr (Int.floor_nonneg.mpr hwa))]
      rw [if_neg]
      rw [gt_iff_lt, not_lt]
      have h1 := Int.floor_le (value (fl.mul (fl.ofInt (ChartWidth - maxLabelLen labels - 15))
          (fl.div v (maxFloat fl values))))
      have h2 := le_trans h1 hwb
      exact_mod_cast h2
    have hrender : RenderBarChart fl ⟨labels, values, title⟩ =
        some ⟨maxFloat fl values, (values.take labels.length).map (fun val =>
          if (if fl.toInt (fl.mul (fl.ofInt (ChartWidth - maxLabelLen labels - 15))
              (fl.div val (maxFloat fl values))) < 0 then 0
            else fl.toInt (fl.mul (fl.ofInt (ChartWidth - maxLabelLen labels - 15))
              (fl.div val (maxFloat fl values)))) > ChartWidth - maxLabelLen labels - 15
          then ChartWidth - maxLabelLen labels - 15
          else (if fl.toInt (fl.mul (fl.ofInt (ChartWidth - maxLabelLen labels - 15))
              (fl.div val (maxFloat fl values))) < 0 then 0
            else fl.toInt (fl.mul (fl.ofInt (ChartWidth - maxLabelLen labels - 15))
              (fl.div val (maxFloat fl values)))))⟩ := by
      unfold RenderBarChart
      rw [if_neg hlen]
      simp only [hnz, Bool.false_eq_true, if_false]
    refine ⟨_, hrender, rfl, ?_⟩
    simp only []
    rw [getElem?_take_map _ _ _ _ _ hv hi, hbar]


/-! ## A line chart of one point -/

theorem setCell_negative (grid : List (List Char)) (y x : Int) (c : Char) (hx : x < 0) :
    setCell grid y x c = none := by
  unfold setCell
  cases index? grid y with
  | none => rfl
  | some row =>
    simp only []
    rw [if_neg (by omega)]

/-- The plotting loop of `renderLineChart` on a series of one value is one assignment. -/
theorem renderLineChart_single (fl : Float64) (labels : List String) (v : fl.F) :
    renderLineChart fl ⟨labels, [v]⟩ =
      setCell (blankGrid 12 50)
        (lineRow fl 12 v (minFloat fl [v])
          (if fl.eq (maxFloat fl [v]) (minFloat fl [v]) then fl.add (minFloat fl [v]) (fl.ofInt 1)
           else maxFloat fl [v]))
        (lineColumn fl 50 1 0) '●' := rfl

/-- The plotting loop of `RenderLineChart` on a series of one value is one assignment. -/
theorem chart_RenderLineChart_single (fl : Float64) (labels : List String) (v : fl.F)
    (title : String) :
    RenderLineChart fl ⟨labels, [v], title⟩ =
      match setCell (blankGrid ChartHeight ChartWidth)
        (lineRow fl ChartHeight v (minFloat fl [v])
          (if fl.eq (maxFloat fl [v]) (minFloat fl [v]) then fl.add (minFloat fl [v]) (fl.ofInt 1)
           else maxFloat fl [v]))
        (lineColumn fl ChartWidth 1 0) '●' with
      | none => none
      | some grid => some grid := rfl

/-- C27 (the code panics where `int(NaN)` is negative). For a series of one value both line
renderers compute the column as `int(float64(0) * float64(width-1) / float64(0))`: the division
by `float64(len-1) = 0` is not guarded, it does not panic but gives NaN, and the conversion of
NaN to `int` is implementation-dependent. With the conversion of the amd64 port the column is
`-2^63`, which passes the test `x >= width`, and the assignment `grid[y][x]` is out of range:
for every one-element series `renderLineChart` and `RenderLineChart` panic. -/
theorem one_point_line_chart_panics :
    (∀ fl : Float64, lineColumn fl 50 1 0 =
      if fl.toInt (fl.div (fl.mul (fl.ofInt 0) (fl.ofInt 49)) (fl.ofInt 0)) ≥ 50 then 49
      else fl.toInt (fl.div (fl.mul (fl.ofInt 0) (fl.ofInt 49)) (fl.ofInt 0))) ∧
    Float64.amd64.div (Float64.amd64.mul (Float64.amd64.ofInt 0) (Float64.amd64.ofInt 49))
      (Float64.amd64.ofInt 0) = Exact.nan ∧
    lineColumn Float64.amd64 50 1 0 = -2 ^ 63 ∧
    lineColumn Float64.amd64 ChartWidth 1 0 = -2 ^ 63 ∧
    (∀ (labels : List String) (v : Exact),
      renderLineChart Float64.amd64 ⟨labels, [v]⟩ = none) ∧
    (∀ (labels : List String) (v : Exact) (title : String),
      RenderLineChart Float64.amd64 ⟨labels, [v], title⟩ = none) := by
  refine ⟨fun _ => rfl, by decide, by decide, by decide, ?_, ?_⟩
  · intro labels v
    rw [renderLineChart_single, setCell_negative _ _ _ _ (by decide)]
  · intro labels v title
    rw [chart_RenderLineChart_single, setCell_negative _ _ _ _ (by decide)]

theorem exact_eq_zero (n : Int) (v : Exact)
    (h : (Float64.exact n).eq v ((Float64.exact n).ofInt 0) = true) : ∃ b, v = Exact.fin 0 b := by
  cases v with
  | nan => cases h
  | inf s => cases h
  | fin a b =>
    refine ⟨b, ?_⟩
    have h1 : decide (a * 1 = 0 * b) = true := h
    have h2 : a * 1 = 0 * b := of_decide_eq_true h1
    have h3 : a = 0 := by omega
    rw [h3]

theorem exact_zero_div (n : Int) (v : Exact)
    (h : (Float64.exact n).eq v ((Float64.exact n).ofInt 0) = true) :
    (Float64.exact n).eq ((Float64.exact n).div v ((Float64.exact n).ofInt 1))
      ((Float64.exact n).ofInt 0) = true := by
  obtain ⟨b, rfl⟩ := exact_eq_zero n v h
  show Exact.eq (Exact.div (Exact.fin 0 b) (Exact.fin 1 1)) (Exact.fin 0 1) = true
  simp [Exact.div, Exact.eq]

theorem exact_mul_zero (n : Int) (w : Int) (v : Exact)
    (h : (Float64.exact n).eq v ((Float64.exact n).ofInt 0) = true) :
    (Float64.exact n).eq ((Float64.exact n).mul ((Float64.exact n).ofInt w) v)
      ((Float64.exact n).ofInt 0) = true := by
  obtain ⟨b, rfl⟩ := exact_eq_zero n v h
  show Exact.eq (Exact.mul (Exact.fin w 1) (Exact.fin 0 b)) (Exact.fin 0 1) = true
  simp [Exact.mul, Exact.eq]

theorem exact_toInt_zero (n : Int) (v : Exact)
    (h : (Float64.exact n).eq v ((Float64.exact n).ofInt 0) = true) :
    (Float64.exact n).toInt v = 0 := by
  obtain ⟨b, rfl⟩ := exact_eq_zero n v h
  show Exact.toInt n (Exact.fin 0 b) = 0
  simp [Exact.toInt, minInt, maxInt]


/-! ## Instances on concrete series and grids -/

theorem series_values_at_most_labels_witness :
    (0 : Int) ≤ 0 ∧ (0 : Int) + 1 > 0 ∧
    (extractChartData Float64.amd64 jaggedSheet 0 0 2 0).map (fun d => (d.Labels, d.Values)) =
      some (["a", "b", "c"], []) ∧
    (extractChartData Float64.amd64 jaggedSheet 0 0 2 0).isSome = true ∧
    (ExtractChartData Float64.amd64 jaggedSheet 0 0 2 0).isSome = true :=
  ⟨by decide, by decide, by decide,
    (series_values_at_most_labels Float64.amd64 jaggedSheet 0 0 2 0).2.2 (by decide) (by decide)⟩

theorem series_labels_and_values_witness :
    (0 : Int) ≤ 0 ∧ (0 : Int) ≤ 0 ∧
    (chartRows mixedSheet 0 5).filterMap (rowLabel mixedSheet 0) = ["a", "Row 2"] ∧
    (chartRows mixedSheet 0 5).filterMap (rowValue Float64.amd64 mixedSheet 0 1) =
      [Exact.fin 7 1, Exact.fin 0 1] ∧
    ∃ data, extractChartData Float64.amd64 mixedSheet 0 0 5 1 = some data ∧
      ExtractChartData Float64.amd64 mixedSheet 0 0 5 1 = some ⟨data.Labels, data.Values, ""⟩ ∧
      data.Labels = (chartRows mixedSheet 0 5).filterMap (rowLabel mixedSheet 0) ∧
      data.Values =
        (chartRows mixedSheet 0 5).filterMap (rowValue Float64.amd64 mixedSheet 0 1) :=
  ⟨by decide, by decide, by decide, by decide,
    (series_labels_and_values Float64.amd64 mixedSheet 0 0 5 1 (by decide) (by decide)).1⟩

theorem all_zero_series_has_empty_bars_witness :
    [Exact.fin 0 1, Exact.fin 0 4] ≠ [] ∧
    (∀ v ∈ [Exact.fin 0 1, Exact.fin 0 4],
      Float64.amd64.eq v (Float64.amd64.ofInt 0) = true) ∧
    renderBarChart Float64.amd64 ⟨["a", "b"], [Exact.fin 0 1, Exact.fin 0 4]⟩ =
      some ⟨Exact.fin 1 1, [0, 0]⟩ ∧
    RenderBarChart Float64.amd64 ⟨["a", "b"], [Exact.fin 0 1, Exact.fin 0 4], "t"⟩ =
      some ⟨Exact.fin 1 1, [0, 0]⟩ :=
  ⟨by decide, by decide,
    (all_zero_series_has_empty_bars Float64.amd64 ["a", "b"] [Exact.fin 0 1, Exact.fin 0 4] "t"
      (by decide) (by decide) (exact_zero_div minInt) (exact_mul_zero minInt)
      (exact_toInt_zero minInt)).2⟩

theorem bar_length_is_truncated_witness :
    ([Exact.fin 7 1, Exact.fin 32 1] : List Exact)[0]? = some (Exact.fin 7 1) ∧
    maxFloat Float64.amd64 [Exact.fin 7 1, Exact.fin 32 1] = Exact.fin 32 1 ∧
    Exact.value (Exact.fin 7 1) = 7 ∧ Exact.value (Exact.fin 32 1) = 32 ∧
    ⌊(40 : ℚ) * 7 / 32⌋ = 8 ∧
    ∃ b, renderBarChart Float64.amd64 ⟨["a", "b"], [Exact.fin 7 1, Exact.fin 32 1]⟩ = some b ∧
      b.barLens[0]? = some ⌊(40 : ℚ) * 7 / 32⌋ := by
  have hmax : maxFloat Float64.amd64 [Exact.fin 7 1, Exact.fin 32 1] = Exact.fin 32 1 := by
    decide
  have hw : ChartWidth - maxLabelLen ["a", "b"] - 15 = 44 := by decide
  have h7 : Exact.value (Exact.fin 7 1) = 7 := by norm_num [Exact.value]
  have h32 : Exact.value (Exact.fin 32 1) = 32 := by norm_num [Exact.value]
  have hfloor : ⌊(40 : ℚ) * 7 / 32⌋ = 8 := by
    rw [Int.floor_eq_iff]
    norm_num
  obtain ⟨-, -, -, ⟨b, hb, -, -, hbar⟩, -⟩ :=
    bar_length_is_truncated Float64.amd64 Exact.value ["a", "b"]
      [Exact.fin 7 1, Exact.fin 32 1] "" 0 (Exact.fin 7 1) rfl (by decide)
      (by
        intro a ha b hb
        simp only [List.mem_cons, List.mem_singleton, List.not_mem_nil, or_false] at ha hb
        rcases ha with rfl | rfl <;> rcases hb with rfl | rfl <;>
          norm_num [Exact.lt, Exact.value])
      (by
        intro a ha
        simp only [List.mem_cons, List.mem_singleton, List.not_mem_nil, or_false] at ha
        rcases ha with rfl | rfl <;> norm_num [Exact.eq, Exact.value])
      ⟨Exact.fin 7 1, by simp, by norm_num [Exact.value]⟩
      (by
        rw [hmax, hw]
        intro w hw1
        simp only [List.mem_cons, List.mem_singleton, List.not_mem_nil, or_false] at hw1
        rcases hw1 with rfl | rfl
        · have hp : Float64.amd64.mul (Float64.amd64.ofInt 40)
              (Float64.amd64.div (Exact.fin 7 1) (Exact.fin 32 1)) = Exact.fin 280 32 := by
            decide
          rw [hp]
          refine ⟨by norm_num [Exact.value], by norm_num [Exact.value], ?_⟩
          have ht : Float64.amd64.toInt (Exact.fin 280 32) = 8 := by decide
          rw [ht, eq_comm, Int.floor_eq_iff]
          norm_num [Exact.value]
        · have hp : Float64.amd64.mul (Float64.amd64.ofInt 44)
              (Float64.amd64.div (Exact.fin 7 1) (Exact.fin 32 1)) = Exact.fin 308 32 := by
            decide
          rw [hp]
          refine ⟨by norm_num [Exact.value], by norm_num [Exact.value], ?_⟩
          have ht : Float64.amd64.toInt (Exact.fin 308 32) = 9 := by decide
          rw [ht, eq_comm, Int.floor_eq_iff]
          norm_num [Exact.value])
  refine ⟨rfl, hmax, h7, h32, hfloor, b, hb, ?_⟩
  rw [hbar (by
    rw [hmax, h7, h32]
    have hp : Float64.amd64.mul (Float64.amd64.ofInt 40)
        (Float64.amd64.div (Exact.fin 7 1) (Exact.fin 32 1)) = Exact.fin 280 32 := by
      decide
    rw [hp]
    norm_num [Exact.value]), hmax, h7, h32]

theorem drawLine_first_write_wins_witness :
    Rectangular smallGrid 4 ∧ ((3 : Int) - 0).natAbs + ((2 : Int) - 0).natAbs < 6 ∧
    (drawLine 6 smallGrid 0 0 3 2).map (fun g => g.map String.mk) =
      some ["─   ", " ●─ ", "   ─"] ∧
    ∃ g1, drawLine 6 smallGrid 0 0 3 2 = some g1 ∧ Rectangular g1 4 :=
  ⟨by decide, by decide, by decide,
    (drawLine_first_write_wins 6 smallGrid 0 0 3 2).2.2 4 (by decide) (by decide)⟩

theorem visualize_needs_selection_witness :
    selectModel.isSelecting = true ∧ keyString (runeKey 'v') = "v" ∧
    ∃ m1, Update Unicode.ascii { selectModel with mode := Mode.ModeNormal }
        (Msg.KeyMsg (runeKey 'v') quiet) = some m1 ∧
      m1.mode = Mode.ModeChart ∧ m1.chartType = ChartBar := by
  obtain ⟨m1, h1, -, h3, -⟩ :=
    visualize_needs_selection Unicode.ascii { selectModel with mode := Mode.ModeNormal }
      demoSheet (runeKey 'v') quiet (by decide) (by decide) (by decide) (by decide)
  exact ⟨by decide, by decide, m1, h1, (h3 (by decide)).1, (h3 (by decide)).2.1⟩

theorem escape_returns_to_normal_witness :
    ({ demoModel with mode := Mode.ModeChart } : Model).mode ≠ Mode.ModeNormal ∧
    escKey.Typ = KeyType.KeyEscape ∧ escKey.Alt = false ∧
    ∃ m1, Update Unicode.ascii { demoModel with mode := Mode.ModeChart }
        (Msg.KeyMsg escKey quiet) = some m1 ∧ m1.mode = Mode.ModeNormal := by
  obtain ⟨m1, h1, h2, -⟩ :=
    escape_returns_to_normal Unicode.ascii { demoModel with mode := Mode.ModeChart } escKey
      quiet (by decide) (by decide) (fun _ => by decide) (fun h => absurd h (by decide))
  exact ⟨by decide, by decide, by decide, m1, h1, h2⟩

/-! ## What every reachable state satisfies -/

theorem jumpToSearchResult_core (m m1 : Model) (h : jumpToSearchResult m = some m1) :
    m1.mode = m.mode ∧ m1.keys = m.keys ∧ m1.searchResults = m.searchResults ∧
    m1.searchIndex = m.searchIndex ∧ m1.sheets = m.sheets ∧
    m1.currentSheet = m.currentSheet := by
  unfold jumpToSearchResult at h
  split_ifs at h
  · cases h
    exact ⟨rfl, rfl, rfl, rfl, rfl, rfl⟩
  · split at h
    · cases h
    · cases h
      exact ⟨rfl, rfl, rfl, rfl, rfl, rfl⟩

theorem copyCell_StateInv (m m1 : Model) (out : Outside) (hinv : StateInv m)
    (h : copyCell m out = some m1) : StateInv m1 := by
  unfold copyCell at h
  repeat' split at h
  all_goals (try dsimp only at h)
  all_goals (cases h <;> exact hinv)

theorem copyRow_StateInv (m m1 : Model) (out : Outside) (hinv : StateInv m)
    (h : copyRow m out = some m1) : StateInv m1 := by
  unfold copyRow at h
  repeat' split at h
  all_goals (try dsimp only at h)
  all_goals (cases h <;> exact hinv)

theorem exportSheet_StateInv (U : Unicode) (m m1 : Model) (f : String) (out : Outside)
    (hinv : StateInv m) (h : exportSheet U m f out = some m1) : StateInv m1 := by
  unfold exportSheet at h
  repeat' split at h
  all_goals (cases h <;> exact hinv)

theorem jumpToCell_StateInv (U : Unicode) (m m1 : Model) (input : String)
    (hinv : StateInv m) (h : jumpToCell U m input = some m1) : StateInv m1 := by
  obtain ⟨hmode, hkeys, hsearch, hsheet⟩ := hinv
  cases hs : index? m.sheets m.currentSheet with
  | none =>
    unfold jumpToCell at h
    rw [hs] at h
    exact absurd h (by simp)
  | some sheet =>
    rcases jumpToCell_cases U m sheet input hs with
      ⟨m2, e, f⟩ | ⟨m2, e, -, f⟩ | ⟨m2, e, -, -, f⟩ | ⟨e, -⟩
    · rw [e] at h; injection h with h; subst h
      obtain ⟨a1, a2, a3, a4, a5, a6, -⟩ := jumpLetterForm_some m m2 sheet _ f
      unfold StateInv
      rw [a1, a2, a3, a4, a5, a6]
      exact ⟨hmode, hkeys, hsearch, hsheet⟩
    · rw [e] at h; injection h with h; subst h
      obtain ⟨a1, a2, a3, a4, a5, a6, -⟩ := jumpRowForm_some m m2 sheet _ f
      unfold StateInv
      rw [a1, a2, a3, a4, a5, a6]
      exact ⟨hmode, hkeys, hsearch, hsheet⟩
    · rw [e] at h; injection h with h; subst h
      obtain ⟨a1, a2, a3, a4, a5, a6, -⟩ := jumpPairForm_some m m2 sheet _ f
      unfold StateInv
      rw [a1, a2, a3, a4, a5, a6]
      exact ⟨hmode, hkeys, hsearch, hsheet⟩
    · rw [e] at h; injection h with h; subst h
      exact ⟨hmode, hkeys, hsearch, hsheet⟩

theorem applyTheme_StateInv (m : Model) (name : String) (hinv : StateInv m) :
    StateInv (applyTheme m name) := by
  unfold applyTheme
  split
  · exact ⟨by show Mode.ModeNormal ≠ Mode.ModeSelectRange; decide, hinv.2.1, hinv.2.2.1,
      hinv.2.2.2⟩
  · exact hinv

theorem StateInv_normal (m : Model) (hinv : StateInv m) :
    StateInv { m with mode := Mode.ModeNormal } :=
  ⟨by show Mode.ModeNormal ≠ Mode.ModeSelectRange; decide, hinv.2.1, hinv.2.2.1, hinv.2.2.2⟩

theorem updateNormal_StateInv (m m1 : Model) (k : KeyMsg) (out : Outside)
    (hinv : StateInv m) (h : updateNormal m k out = some m1) : StateInv m1 := by
  have hinv0 := hinv
  obtain ⟨hmode, hkeys, hsearch, hsheet⟩ := hinv
  unfold updateNormal at h
  by_cases hlen : m.sheets.length = 0
  · rw [if_pos hlen] at h; cases h; exact hinv0
  rw [if_neg hlen] at h
  cases hs : index? m.sheets m.currentSheet with
  | none => rw [hs] at h; cases h
  | some sheet =>
    rw [hs] at h
    dsimp only at h
    obtain ⟨hcs0, hcs1⟩ := index?_lt_length _ _ _ hs
    by_cases hQuit : Matches k m.keys.Quit = true
    · rw [if_pos hQuit] at h
      cases h; exact hinv0
    rw [if_neg hQuit] at h
    by_cases hUp : Matches k m.keys.Up = true
    · rw [if_pos hUp] at h
      split_ifs at h <;> cases h <;> first | exact hinv0 | (simp only [adjustViewport_eq]; exact hinv0)
    rw [if_neg hUp] at h
    by_cases hDown : Matches k m.keys.Down = true
    · rw [if_pos hDown] at h
      split_ifs at h <;> cases h <;> first | exact hinv0 | (simp only [adjustViewport_eq]; exact hinv0)
    rw [if_neg hDown] at h
    by_cases hLeft : Matches k m.keys.Left = true
    · rw [if_pos hLeft] at h
      split_ifs at h <;> cases h <;> first | exact hinv0 | (simp only [adjustViewport_eq]; exact hinv0)
    rw [if_neg hLeft] at h
    by_cases hRight : Matches k m.keys.Right = true
    · rw [if_pos hRight] at h
      split_ifs at h <;> cases h <;> first | exact hinv0 | (simp only [adjustViewport_eq]; exact hinv0)
    rw [if_neg hRight] at h
    by_cases hPageDown : Matches k m.keys.PageDown = true
    · rw [if_pos hPageDown] at h
      cases h
      (simp only [adjustViewport_eq]; exact hinv0)
    rw [if_neg hPageDown] at h
    by_cases hPageUp : Matches k m.keys.PageUp = true
    · rw [if_pos hPageUp] at h
      cases h
      (simp only [adjustViewport_eq]; exact hinv0)
    rw [if_neg hPageUp] at h
    by_cases hHome : Matches k m.keys.Home = true
    · rw [if_pos hHome] at h
      cases h; exact hinv0
    rw [if_neg hHome] at h
    by_cases hEnd : Matches k m.keys.End = true
    · rw [if_pos hEnd] at h
      cases h
      (simp only [adjustViewport_eq]; exact hinv0)
    rw [if_neg hEnd] at h
    by_cases hFirstCol : Matches k m.keys.FirstCol = true
    · rw [if_pos hFirstCol] at h
      cases h; exact hinv0
    rw [if_neg hFirstCol] at h
    by_cases hLastCol : Matches k m.keys.LastCol = true
    · rw [if_pos hLastCol] at h
      cases h
      (simp only [adjustViewport_eq]; exact hinv0)
    rw [if_neg hLastCol] at h
    by_cases hNextSheet : Matches k m.keys.NextSheet = true
    · rw [if_pos hNextSheet] at h
      split_ifs at h with hc
      · split at h <;> cases h
        refine ⟨hmode, hkeys, hsearch, Or.inr ⟨?_, ?_⟩⟩
        · show 0 ≤ m.currentSheet + 1
          omega
        · show m.currentSheet + 1 < (m.sheets.length : Int)
          omega
      · cases h; exact hinv0
    rw [if_neg hNextSheet] at h
    by_cases hPrevSheet : Matches k m.keys.PrevSheet = true
    · rw [if_pos hPrevSheet] at h
      split_ifs at h with hc
      · split at h <;> cases h
        refine ⟨hmode, hkeys, hsearch, Or.inr ⟨?_, ?_⟩⟩
        · show 0 ≤ m.currentSheet - 1
          omega
        · show m.currentSheet - 1 < (m.sheets.length : Int)
          omega
      · cases h; exact hinv0
    rw [if_neg hPrevSheet] at h
    by_cases hSearch : Matches k m.keys.Search = true
    · rw [if_pos hSearch] at h
      cases h
      exact ⟨by show Mode.ModeSearch ≠ Mode.ModeSelectRange; decide, hkeys, hsearch, hsheet⟩
    rw [if_neg hSearch] at h
    by_cases hNextResult : Matches k m.keys.NextResult = true
    · rw [if_pos hNextResult] at h
      split_ifs at h with hpos
      · split at h
        · cases h
        · rename_i m2 hj
          cases h
          obtain ⟨e1, e2, e3, e4, e5, e6⟩ := jumpToSearchResult_core _ m2 hj
          have hne : m.searchResults ≠ [] := fun he => by rw [he] at hpos; exact absurd hpos (by decide)
          have hidx := hsearch.resolve_left hne
          have hlenpos : (0 : Int) < (m.searchResults.length : Int) := by exact_mod_cast hpos
          refine ⟨?_, ?_, Or.inr ⟨?_, ?_⟩, ?_⟩
          · show m2.mode ≠ Mode.ModeSelectRange
            rw [e1]; exact hmode
          · show m2.keys = DefaultKeyMap
            rw [e2]; exact hkeys
          · show 0 ≤ m2.searchIndex
            rw [e4]
            exact Int.tmod_nonneg _ (by show 0 ≤ m.searchIndex + 1; omega)
          · show m2.searchIndex < (m2.searchResults.length : Int)
            rw [e4, e3]
            exact Int.tmod_lt_of_pos _ hlenpos
          · show m2.sheets = [] ∨ (0 ≤ m2.currentSheet ∧ m2.currentSheet < (m2.sheets.length : Int))
            rw [e5, e6]; exact hsheet
      · cases h; exact hinv0
    rw [if_neg hNextResult] at h
    by_cases hPrevResult : Matches k m.keys.PrevResult = true
    · rw [if_pos hPrevResult] at h
      split_ifs at h with hpos
      · split at h
        · cases h
        · rename_i m2 hj
          cases h
          obtain ⟨e1, e2, e3, e4, e5, e6⟩ := jumpToSearchResult_core _ m2 hj
          have hne : m.searchResults ≠ [] := fun he => by rw [he] at hpos; exact absurd hpos (by decide)
          have hidx := hsearch.resolve_left hne
          have hlenpos : (0 : Int) < (m.searchResults.length : Int) := by exact_mod_cast hpos
          refine ⟨?_, ?_, Or.inr ⟨?_, ?_⟩, ?_⟩
          · show m2.mode ≠ Mode.ModeSelectRange
            rw [e1]; exact hmode
          · show m2.keys = DefaultKeyMap
            rw [e2]; exact hkeys
          · show 0 ≤ m2.searchIndex
            rw [e4]
            exact Int.tmod_nonneg _ (by show 0 ≤ m.searchIndex - 1 + (m.searchResults.length : Int); omega)
          · show m2.searchIndex < (m2.searchResults.length : Int)
            rw [e4, e3]
            exact Int.tmod_lt_of_pos _ hlenpos
          · show m2.sheets = [] ∨ (0 ≤ m2.currentSheet ∧ m2.currentSheet < (m2.sheets.length : Int))
            rw [e5, e6]; exact hsheet
      · cases h; exact hinv0
    rw [if_neg hPrevResult] at h
    by_cases hClearSearch : Matches k m.keys.ClearSearch = true
    · rw [if_pos hClearSearch] at h
      split_ifs at h <;> cases h
      · exact ⟨hmode, hkeys, Or.inl rfl, hsheet⟩
      · exact hinv0
    rw [if_neg hClearSearch] at h
    by_cases hDetail : Matches k m.keys.Detail = true
    · rw [if_pos hDetail] at h
      cases h
      exact ⟨by show Mode.ModeDetail ≠ Mode.ModeSelectRange; decide, hkeys, hsearch, hsheet⟩
    rw [if_neg hDetail] at h
    by_cases hJump : Matches k m.keys.Jump = true
    · rw [if_pos hJump] at h
      cases h
      exact ⟨by show Mode.ModeJump ≠ Mode.ModeSelectRange; decide, hkeys, hsearch, hsheet⟩
    rw [if_neg hJump] at h
    by_cases hToggleForm : Matches k m.keys.ToggleForm = true
    · rw [if_pos hToggleForm] at h
      split_ifs at h <;> cases h <;> exact hinv0
    rw [if_neg hToggleForm] at h
    by_cases hCopy : Matches k m.keys.Copy = true
    · rw [if_pos hCopy] at h
      exact copyCell_StateInv m m1 out hinv0 h
    rw [if_neg hCopy] at h
    by_cases hCopyRow : Matches k m.keys.CopyRow = true
    · rw [if_pos hCopyRow] at h
      exact copyRow_StateInv m m1 out hinv0 h
    rw [if_neg hCopyRow] at h
    by_cases hExport : Matches k m.keys.Export = true
    · rw [if_pos hExport] at h
      cases h
      exact ⟨by show Mode.ModeExport ≠ Mode.ModeSelectRange; decide, hkeys, hsearch, hsheet⟩
    rw [if_neg hExport] at h
    by_cases hTheme : Matches k m.keys.Theme = true
    · rw [if_pos hTheme] at h
      cases h
      exact ⟨by show Mode.ModeTheme ≠ Mode.ModeSelectRange; decide, hkeys, hsearch, hsheet⟩
    rw [if_neg hTheme] at h
    by_cases hHelp : Matches k m.keys.Help = true
    · rw [if_pos hHelp] at h
      cases h; exact hinv0
    rw [if_neg hHelp] at h
    by_cases hVisualize : Matches k m.keys.Visualize = true
    · rw [if_pos hVisualize] at h
      split_ifs at h <;> cases h
      · exact hinv0
      · exact ⟨by show Mode.ModeChart ≠ Mode.ModeSelectRange; decide, hkeys, hsearch, hsheet⟩
    rw [if_neg hVisualize] at h
    by_cases hSelectRange : Matches k m.keys.SelectRange = true
    · rw [if_pos hSelectRange] at h
      split_ifs at h <;> cases h <;> exact hinv0
    rw [if_neg hSelectRange] at h
    cases h; exact hinv0


theorem updateSearch_StateInv (U : Unicode) (m m1 : Model) (k : KeyMsg) (out : Outside)
    (hinv : StateInv m) (h : updateSearch U m k out = some m1) : StateInv m1 := by
  have hinv0 := hinv
  obtain ⟨hmode, hkeys, hsearch, hsheet⟩ := hinv
  unfold updateSearch at h
  split at h
  · cases h; exact StateInv_normal m hinv0
  · dsimp only at h
    split_ifs at h with hterm
    · cases hs : index? m.sheets m.currentSheet with
      | none => rw [hs] at h; cases h
      | some sheet =>
        rw [hs] at h
        dsimp only at h
        split_ifs at h with hpos
        · split at h
          · cases h
          · rename_i m2 hj
            cases h
            obtain ⟨e1, e2, e3, e4, e5, e6⟩ := jumpToSearchResult_core _ m2 hj
            refine ⟨by show Mode.ModeNormal ≠ Mode.ModeSelectRange; decide, ?_,
              Or.inr ⟨?_, ?_⟩, ?_⟩
            · show m2.keys = DefaultKeyMap
              rw [e2]; exact hkeys
            · have h4 : m2.searchIndex = 0 := e4
              show 0 ≤ m2.searchIndex
              omega
            · have h4 : m2.searchIndex = 0 := e4
              have h3 : m2.searchResults =
                  SearchSheet U sheet (String.mk (TrimSpace m.searchInput.data)) := e3
              have hp : (SearchSheet U sheet (String.mk (TrimSpace m.searchInput.data))).length >
                  0 := hpos
              show m2.searchIndex < (m2.searchResults.length : Int)
              rw [h4, h3]
              exact_mod_cast hp
            · show m2.sheets = [] ∨
                (0 ≤ m2.currentSheet ∧ m2.currentSheet < (m2.sheets.length : Int))
              rw [e5, e6]; exact hsheet
        · cases h
          refine ⟨by show Mode.ModeNormal ≠ Mode.ModeSelectRange; decide, hkeys, Or.inl ?_,
            hsheet⟩
          show SearchSheet U sheet (String.mk (TrimSpace m.searchInput.data)) = []
          apply List.eq_nil_of_length_eq_zero
          have hp : ¬((SearchSheet U sheet (String.mk (TrimSpace m.searchInput.data))).length >
              0) := hpos
          omega
    · cases h; exact StateInv_normal m hinv0
  · cases h; exact hinv0

theorem updateDetail_StateInv (m m1 : Model) (k : KeyMsg) (hinv : StateInv m)
    (h : updateDetail m k = some m1) : StateInv m1 := by
  unfold updateDetail at h
  split_ifs at h <;> cases h
  · exact StateInv_normal m hinv
  · exact hinv

theorem updateJump_StateInv (U : Unicode) (m m1 : Model) (k : KeyMsg) (out : Outside)
    (hinv : StateInv m) (h : updateJump U m k out = some m1) : StateInv m1 := by
  unfold updateJump at h
  split at h
  · cases h; exact StateInv_normal m hinv
  · dsimp only at h
    split_ifs at h
    · split at h
      · cases h
      · rename_i m2 hj
        cases h
        exact StateInv_normal m2 (jumpToCell_StateInv U m m2 _ hinv hj)
    · cases h; exact StateInv_normal m hinv
  · cases h; exact hinv

theorem updateExport_StateInv (U : Unicode) (m m1 : Model) (k : KeyMsg) (out : Outside)
    (hinv : StateInv m) (h : updateExport U m k out = some m1) : StateInv m1 := by
  unfold updateExport at h
  split at h
  · cases h; exact StateInv_normal m hinv
  · dsimp only at h
    split_ifs at h
    · split at h
      · cases h
      · rename_i m2 hj
        cases h
        exact StateInv_normal m2 (exportSheet_StateInv U m m2 _ out hinv hj)
    · cases h; exact StateInv_normal m hinv
  · cases h; exact hinv

theorem updateTheme_StateInv (m m1 : Model) (k : KeyMsg) (hinv : StateInv m)
    (h : updateTheme m k = some m1) : StateInv m1 := by
  unfold updateTheme at h
  dsimp only at h
  split_ifs at h <;> cases h <;> first
    | exact StateInv_normal m hinv
    | exact applyTheme_StateInv m _ hinv
    | exact hinv

theorem updateChart_StateInv (m m1 : Model) (k : KeyMsg) (hinv : StateInv m)
    (h : updateChart m k = some m1) : StateInv m1 := by
  unfold updateChart at h
  dsimp only at h
  split_ifs at h <;> cases h <;> first
    | exact StateInv_normal m hinv
    | exact hinv

theorem Update_StateInv (U : Unicode) (m m1 : Model) (msg : Msg) (hinv : StateInv m)
    (h : Update U m msg = some m1) : StateInv m1 := by
  unfold Update at h
  split at h
  · cases h; exact hinv
  · split at h
    · exact updateSearch_StateInv U m m1 _ _ hinv h
    · exact updateDetail_StateInv m m1 _ hinv h
    · exact updateJump_StateInv U m m1 _ _ hinv h
    · exact updateExport_StateInv U m m1 _ _ hinv h
    · exact updateTheme_StateInv m m1 _ hinv h
    · exact updateChart_StateInv m m1 _ hinv h
    · rename_i hm
      exact absurd hm hinv.1
    · exact updateNormal_StateInv m m1 _ _ hinv h
  · cases h; exact hinv

theorem run_StateInv (U : Unicode) :
    ∀ (events : List Msg) (m m1 : Model), StateInv m → run U m events = some m1 →
      StateInv m1 := by
  intro events
  induction events with
  | nil => intro m m1 hinv h; cases h; exact hinv
  | cons ev evs ih =>
    intro m m1 hinv h
    unfold run at h
    split at h
    · cases h
    · rename_i m2 hstep
      exact ih m2 m1 (Update_StateInv U m m2 ev hinv hstep) h

theorem NewModel_StateInv (filename : String) (sheets : List Sheet) (themeName : String) :
    StateInv (NewModel filename sheets themeName) := by
  refine ⟨by show Mode.ModeNormal ≠ Mode.ModeSelectRange; decide, rfl, Or.inl rfl, ?_⟩
  show sheets = [] ∨ ((0 : Int) ≤ 0 ∧ (0 : Int) < (sheets.length : Int))
  cases sheets with
  | nil => exact Or.inl rfl
  | cons s rest =>
    right
    simp only [List.length_cons]
    omega

theorem reachable_StateInv (U : Unicode) (filename : String) (sheets : List Sheet)
    (themeName : String) (m : Model) (h : Reachable U filename sheets themeName m) :
    StateInv m := by
  obtain ⟨events, hrun⟩ := h
  exact run_StateInv U events _ m (NewModel_StateInv filename sheets themeName) hrun

/-- C36. In every state reachable from `NewModel` by `Update` events the mode is not
SelectRange; so on a key event `Update` runs one of the other seven handlers, never
`updateSelectRange`. -/
theorem mode_never_select_range (U : Unicode) (filename : String) (sheets : List Sheet)
    (themeName : String) (m : Model) (h : Reachable U filename sheets themeName m) :
    m.mode ≠ Mode.ModeSelectRange ∧
    ∀ (k : KeyMsg) (out : Outside),
      Update U m (Msg.KeyMsg k out) =
        match m.mode with
        | .ModeSearch => updateSearch U m k out
        | .ModeDetail => updateDetail m k
        | .ModeJump => updateJump U m k out
        | .ModeExport => updateExport U m k out
        | .ModeTheme => updateTheme m k
        | .ModeChart => updateChart m k
        | _ => updateNormal m k out := by
  have hmode := (reachable_StateInv U filename sheets themeName m h).1
  refine ⟨hmode, ?_⟩
  intro k out
  unfold Update
  cases hm : m.mode <;> first | rfl | exact absurd hm hmode


theorem tmod_next_prev (i n : Int) (h0 : 0 ≤ i) (h1 : i < n) :
    Int.tmod (Int.tmod (i + 1) n - 1 + n) n = i := by
  have hn : 0 ≤ n := by omega
  have e1 : Int.tmod (i + 1) n = (i + 1) % n := Int.tmod_eq_emod (by omega) hn
  rw [e1]
  by_cases hlt : i + 1 < n
  · have e2 : (i + 1) % n = i + 1 := Int.emod_eq_of_lt (by omega) hlt
    rw [e2, Int.tmod_eq_emod (by omega) hn]
    have e3 : i + 1 - 1 + n = i + n := by omega
    rw [e3, Int.add_emod_self, Int.emod_eq_of_lt h0 h1]
  · have he : i + 1 = n := by omega
    have e2 : (i + 1) % n = 0 := by rw [he, Int.emod_self]
    rw [e2, Int.tmod_eq_emod (by omega) hn, Int.emod_eq_of_lt (by omega) (by omega)]
    omega

theorem updateNormal_no_sheets (m : Model) (k : KeyMsg) (out : Outside) (h : m.sheets = []) :
    updateNormal m k out = some m := by
  unfold updateNormal
  rw [if_pos (by rw [h]; rfl)]

theorem updateNormal_next_step (m : Model) (sheet : Sheet) (k : KeyMsg) (out : Outside)
    (hs : index? m.sheets m.currentSheet = some sheet) (hkeys : m.keys = DefaultKeyMap)
    (hk : keyString k = "n") (hi0 : 0 ≤ m.searchIndex)
    (hi1 : m.searchIndex < (m.searchResults.length : Int)) :
    ∃ m1, updateNormal m k out = some m1 ∧ m1.mode = m.mode ∧ m1.keys = m.keys ∧
      m1.sheets = m.sheets ∧ m1.currentSheet = m.currentSheet ∧
      m1.searchResults = m.searchResults ∧
      m1.searchIndex = Int.tmod (m.searchIndex + 1) (m.searchResults.length : Int) := by
  have hlen : m.searchResults.length > 0 := by omega
  have hlenI : (0 : Int) < (m.searchResults.length : Int) := by omega
  obtain ⟨r1, -, hj1⟩ := jumpToSearchResult_at m
    (Int.tmod (m.searchIndex + 1) (m.searchResults.length : Int))
    (Int.tmod_nonneg _ (by omega)) (Int.tmod_lt_of_pos _ hlenI)
  have h1 := updateNormal_next m sheet k out hs hkeys hk
  rw [if_pos hlen, hj1] at h1
  exact ⟨_, h1, rfl, rfl, rfl, rfl, rfl, rfl⟩

theorem updateNormal_prev_step (m : Model) (sheet : Sheet) (k : KeyMsg) (out : Outside)
    (hs : index? m.sheets m.currentSheet = some sheet) (hkeys : m.keys = DefaultKeyMap)
    (hk : keyString k = "N") (hi0 : 0 ≤ m.searchIndex)
    (hi1 : m.searchIndex < (m.searchResults.length : Int)) :
    ∃ m1, updateNormal m k out = some m1 ∧ m1.mode = m.mode ∧ m1.keys = m.keys ∧
      m1.sheets = m.sheets ∧ m1.currentSheet = m.currentSheet ∧
      m1.searchResults = m.searchResults ∧
      m1.searchIndex =
        Int.tmod (m.searchIndex - 1 + (m.searchResults.length : Int))
          (m.searchResults.length : Int) := by
  have hlen : m.searchResults.length > 0 := by omega
  have hlenI : (0 : Int) < (m.searchResults.length : Int) := by omega
  obtain ⟨r1, -, hj1⟩ := jumpToSearchResult_at m
    (Int.tmod (m.searchIndex - 1 + (m.searchResults.length : Int))
      (m.searchResults.length : Int))
    (Int.tmod_nonneg _ (by omega)) (Int.tmod_lt_of_pos _ hlenI)
  have h1 := updateNormal_prev m sheet k out hs hkeys hk
  rw [if_pos hlen, hj1] at h1
  exact ⟨_, h1, rfl, rfl, rfl, rfl, rfl, rfl⟩

/-- The next-result key followed by the previous-result key, in a state that satisfies the
invariant of the reachable states and is in Normal mode. -/
theorem next_then_prev (U : Unicode) (m : Model) (hinv : StateInv m)
    (hmode : m.mode = Mode.ModeNormal) (kn kp : KeyMsg) (o1 o2 : Outside)
    (hkn : keyString kn = "n") (hkp : keyString kp = "N") :
    ∃ m1 m2, Update U m (Msg.KeyMsg kn o1) = some m1 ∧
      Update U m1 (Msg.KeyMsg kp o2) = some m2 ∧
      m2.searchIndex = m.searchIndex ∧ m2.searchResults = m.searchResults := by
  obtain ⟨-, hkeys, hsearch, hsheet⟩ := hinv
  have hU : ∀ (x : Model) (k : KeyMsg) (o : Outside), x.mode = Mode.ModeNormal →
      Update U x (Msg.KeyMsg k o) = updateNormal x k o := by
    intro x k o hx
    unfold Update
    simp only [hx]
  rcases hsheet with hnil | ⟨hc0, hc1⟩
  · refine ⟨m, m, ?_, ?_, rfl, rfl⟩
    · rw [hU m kn o1 hmode, updateNormal_no_sheets m kn o1 hnil]
    · rw [hU m kp o2 hmode, updateNormal_no_sheets m kp o2 hnil]
  · obtain ⟨sheet, hs⟩ := index?_some_of_lt m.sheets m.currentSheet hc0 hc1
    rcases hsearch with hres | ⟨hi0, hi1⟩
    · have hlen : ¬(m.searchResults.length > 0) := by
        rw [hres]
        decide
      refine ⟨m, m, ?_, ?_, rfl, rfl⟩
      · rw [hU m kn o1 hmode, updateNormal_next m sheet kn o1 hs hkeys hkn, if_neg hlen]
      · rw [hU m kp o2 hmode, updateNormal_prev m sheet kp o2 hs hkeys hkp, if_neg hlen]
    · have hlenI : (0 : Int) < (m.searchResults.length : Int) := by omega
      obtain ⟨m1, h1, a1, a2, a3, a4, a5, a6⟩ :=
        updateNormal_next_step m sheet kn o1 hs hkeys hkn hi0 hi1
      have hs1 : index? m1.sheets m1.currentSheet = some sheet := by rw [a3, a4]; exact hs
      have hb0 : 0 ≤ m1.searchIndex := by
        rw [a6]
        exact Int.tmod_nonneg _ (by omega)
      have hb1 : m1.searchIndex < (m1.searchResults.length : Int) := by
        rw [a6, a5]
        exact Int.tmod_lt_of_pos _ hlenI
      obtain ⟨m2, h2, -, -, -, -, b5, b6⟩ :=
        updateNormal_prev_step m1 sheet kp o2 hs1 (by rw [a2]; exact hkeys) hkp hb0 hb1
      refine ⟨m1, m2, ?_, ?_, ?_, ?_⟩
      · rw [hU m kn o1 hmode]; exact h1
      · rw [hU m1 kp o2 (by rw [a1]; exact hmode)]; exact h2
      · rw [b6, a6, a5]
        exact tmod_next_prev _ _ hi0 hi1
      · rw [b5, a5]

/-- C38. In every state reachable from `NewModel` by `Update` events, either there are no
stored search results or `0 ≤ searchIndex < len(searchResults)`, so the indexing
`searchResults[searchIndex]` of `jumpToSearchResult` is in range and the function returns; and
in Normal mode the next-result key `n` followed by the previous-result key `N` is handled
without a panic and leaves `searchIndex` (and the result list) as it was. -/
theorem search_index_in_range (U : Unicode) (filename : String) (sheets : List Sheet)
    (themeName : String) (m : Model) (h : Reachable U filename sheets themeName m) :
    (m.searchResults = [] ∨
      (0 ≤ m.searchIndex ∧ m.searchIndex < (m.searchResults.length : Int))) ∧
    (m.searchResults ≠ [] → ∃ result, index? m.searchResults m.searchIndex = some result) ∧
    (∃ m1, jumpToSearchResult m = some m1) ∧
    (m.mode = Mode.ModeNormal → ∀ (kn kp : KeyMsg) (o1 o2 : Outside),
      keyString kn = "n" → keyString kp = "N" →
      ∃ m1 m2, Update U m (Msg.KeyMsg kn o1) = some m1 ∧
        Update U m1 (Msg.KeyMsg kp o2) = some m2 ∧
        m2.searchIndex = m.searchIndex ∧ m2.searchResults = m.searchResults) := by
  have hinv := reachable_StateInv U filename sheets themeName m h
  have hidx : m.searchResults ≠ [] →
      ∃ result, index? m.searchResults m.searchIndex = some result := by
    intro hne
    obtain ⟨h0, h1⟩ := hinv.2.2.1.resolve_left hne
    exact index?_some_of_lt _ _ h0 h1
  refine ⟨hinv.2.2.1, hidx, ?_, ?_⟩
  · unfold jumpToSearchResult
    by_cases hlen : m.searchResults.length = 0
    · rw [if_pos hlen]
      exact ⟨_, rfl⟩
    · rw [if_neg hlen]
      obtain ⟨result, hr⟩ := hidx (fun he => hlen (by rw [he]; rfl))
      rw [hr]
      exact ⟨_, rfl⟩
  · intro hmode kn kp o1 o2 hkn hkp
    exact next_then_prev U m hinv hmode kn kp o1 o2 hkn hkp

theorem centerView_visible (m : Model) (hr : 0 ≤ m.cursorRow) (hc : 0 ≤ m.cursorCol) :
    cursorVisible (centerView m) := by
  have h1 := visibleRows_pos m
  have h2 := visibleCols_pos m
  have d1 : Int.tdiv (visibleRows m) 2 * 2 ≤ visibleRows m := by
    have := Int.tdiv_add_tmod (visibleRows m) 2
    have := Int.tmod_nonneg 2 (show 0 ≤ visibleRows m by omega)
    omega
  have d1n : 0 ≤ Int.tdiv (visibleRows m) 2 := Int.tdiv_nonneg (by omega) (by decide)
  have d2 : Int.tdiv (visibleCols m) 2 * 2 ≤ visibleCols m := by
    have := Int.tdiv_add_tmod (visibleCols m) 2
    have := Int.tmod_nonneg 2 (show 0 ≤ visibleCols m by omega)
    omega
  have d2n : 0 ≤ Int.tdiv (visibleCols m) 2 := Int.tdiv_nonneg (by omega) (by decide)
  show Max 0 (m.cursorRow - Int.tdiv (visibleRows m) 2) ≤ m.cursorRow ∧
    m.cursorRow < Max 0 (m.cursorRow - Int.tdiv (visibleRows m) 2) + visibleRows m ∧
    Max 0 (m.cursorCol - Int.tdiv (visibleCols m) 2) ≤ m.cursorCol ∧
    m.cursorCol < Max 0 (m.cursorCol - Int.tdiv (visibleCols m) 2) + visibleCols m
  rw [Max_eq_max, Max_eq_max]
  refine ⟨?_, ?_, ?_, ?_⟩ <;> omega

theorem cursorVisible_status (m : Model) (s : StatusMsg) (h : cursorVisible m) :
    cursorVisible { m with status := s } := h

/-- C37. For every cursor with non-negative row and column and every terminal size, after
`centerView` the cursor is inside the visible window on both axes. Hence a successful jump
(from a state whose cursor column is not negative, which the row-only form keeps) and a jump to
a stored search result with non-negative coordinates leave the target cell visible. -/
theorem centerView_keeps_cursor_visible (U : Unicode) (m : Model) :
    (0 ≤ m.cursorRow → 0 ≤ m.cursorCol →
      (centerView m).cursorRow = m.cursorRow ∧ (centerView m).cursorCol = m.cursorCol ∧
      (centerView m).offsetRow ≤ m.cursorRow ∧
      m.cursorRow < (centerView m).offsetRow + visibleRows (centerView m) ∧
      (centerView m).offsetCol ≤ m.cursorCol ∧
      m.cursorCol < (centerView m).offsetCol + visibleCols (centerView m)) ∧
    (∀ (input : String) (m1 : Model), 0 ≤ m.cursorCol → jumpToCell U m input = some m1 →
      m1.status.Typ = StatusSuccess → cursorVisible m1) ∧
    (∀ (m1 : Model) (result : Cell), m.searchResults ≠ [] →
      index? m.searchResults m.searchIndex = some result → 0 ≤ result.Row → 0 ≤ result.Col →
      jumpToSearchResult m = some m1 →
      m1.cursorRow = result.Row ∧ m1.cursorCol = result.Col ∧ cursorVisible m1) := by
  refine ⟨?_, ?_, ?_⟩
  · intro hr hc
    have hv := centerView_visible m hr hc
    exact ⟨rfl, rfl, hv.1, hv.2.1, hv.2.2.1, hv.2.2.2⟩
  · intro input m1 hc h hst
    cases hs : index? m.sheets m.currentSheet with
    | none =>
      unfold jumpToCell at h
      rw [hs] at h
      exact absurd h (by simp)
    | some sheet =>
      rcases jumpToCell_cases U m sheet input hs with
        ⟨m2, e, f⟩ | ⟨m2, e, -, f⟩ | ⟨m2, e, -, -, f⟩ | ⟨e, -⟩
      · rw [e] at h; injection h with h; subst h
        unfold jumpLetterForm at f
        split at f
        · exact absurd f (by simp)
        · dsimp only at f
          split_ifs at f with h1 h2
          injection f with f
          subst f
          exact centerView_visible _ h2.1 h2.2.2.1
      · rw [e] at h; injection h with h; subst h
        unfold jumpRowForm at f
        split at f
        · dsimp only at f
          split_ifs at f with h1
          injection f with f
          subst f
          exact centerView_visible _ h1.1 hc
        · exact absurd f (by simp)
      · rw [e] at h; injection h with h; subst h
        unfold jumpPairForm at f
        split at f
        · split at f
          · split at f
            · dsimp only at f
              split_ifs at f with h1
              injection f with f
              subst f
              exact centerView_visible _ h1.1 h1.2.2.1
            · exact absurd f (by simp)
          · exact absurd f (by simp)
        · exact absurd f (by simp)
      · rw [e] at h; injection h with h; subst h
        have hst1 : StatusError = StatusSuccess := hst
        exact absurd hst1 (by decide)
  · intro m1 result hne hidx hr hc h
    unfold jumpToSearchResult at h
    rw [if_neg (fun hl => hne (List.length_eq_zero.mp hl)), hidx] at h
    cases h
    exact ⟨rfl, rfl, centerView_visible _ hr hc⟩

/-! ## The two series extractions -/

/-- C39. The series extraction chart mode calls, `extractChartData` of the app package, and
`ExtractChartData` of the chart package return the same labels and the same values for every
sheet and every rectangle, and the one panics exactly when the other does. -/
theorem extractions_agree (fl : Float64) (sheet : Sheet)
    (startRow startCol endRow endCol : Int) :
    (ExtractChartData fl sheet startRow startCol endRow endCol).map
        (fun d => (d.Labels, d.Values)) =
      (extractChartData fl sheet startRow startCol endRow endCol).map
        (fun d => (d.Labels, d.Values)) ∧
    (ExtractChartData fl sheet startRow startCol endRow endCol = none ↔
      extractChartData fl sheet startRow startCol endRow endCol = none) := by
  rw [ExtractChartData_eq]
  cases extractChartData fl sheet startRow startCol endRow endCol with
  | none => exact ⟨rfl, ⟨fun _ => rfl, fun _ => rfl⟩⟩
  | some d =>
    refine ⟨rfl, ?_⟩
    constructor <;> intro h <;> cases h

/-! ## The empty sheet -/

/-- C40. `loadCSV` returns for an empty file one sheet with `MaxRows = 0` and `MaxCols = 0`; the
sheet list is not empty, so `main` starts the program on it. There the page-down key sets
`cursorRow` and `offsetRow` to -1, after which the test `m.cursorRow < len(sheet.Rows)` of
`renderFormulaBar` passes and its lookup `sheet.Rows[m.cursorRow]` is out of range; and the
end key sets `cursorCol` (and `offsetCol`) to -1. On a sheet with `MaxCols = 0` that has a row,
the end key sets `cursorCol` to -1 and the lookup `sheet.Rows[m.cursorRow][m.cursorCol]` of
`renderFormulaBar` is out of range. In general, on an active sheet with `MaxRows = 0`
page-down moves a cursor and offset at row 0 to row -1, and on one with `MaxCols = 0` the end
key moves a cursor and offset at column 0 to column -1. -/
theorem empty_sheet_cursor_leaves_bounds (U : Unicode) :
    emptyBook = [⟨"empty.csv", [], 0, 0⟩] ∧ emptyBook.length ≠ 0 ∧
    (run U emptyModel [Msg.WindowSizeMsg 80 24, Msg.KeyMsg (namedKey "pgdown") quiet]).map
        (fun m => (m.cursorRow, m.offsetRow)) = some (-1, -1) ∧
    (run U emptyModel [Msg.WindowSizeMsg 80 24, Msg.KeyMsg (namedKey "pgdown") quiet]).map
        (fun m => (index? m.sheets m.currentSheet).map
          (fun sheet => (decide (m.cursorRow < (sheet.Rows.length : Int)),
            index? sheet.Rows m.cursorRow))) = some (some (true, none)) ∧
    (run U emptyModel [Msg.WindowSizeMsg 80 24, Msg.KeyMsg (namedKey "pgdown") quiet]).map
        renderFormulaBar = some none ∧
    (run U emptyModel [Msg.WindowSizeMsg 80 24, Msg.KeyMsg (namedKey "end") quiet]).map
        (fun m => (m.cursorCol, m.offsetCol)) = some (-1, -1) ∧
    blankRowBook = [⟨"blank", [[]], 1, 0⟩] ∧
    (run U blankRowModel [Msg.WindowSizeMsg 80 24, Msg.KeyMsg (namedKey "end") quiet]).map
        (fun m => (m.cursorRow, m.cursorCol, renderFormulaBar m)) = some (0, -1, none) ∧
    (∀ (m : Model) (sheet : Sheet) (k : KeyMsg) (out : Outside),
      m.mode = Mode.ModeNormal → m.keys = DefaultKeyMap →
      index? m.sheets m.currentSheet = some sheet →
      (keyString k = "pgdown" → sheet.MaxRows = 0 → m.cursorRow = 0 → m.offsetRow = 0 →
        ∃ m1, Update U m (Msg.KeyMsg k out) = some m1 ∧
          m1.cursorRow = -1 ∧ m1.offsetRow = -1) ∧
      (keyString k = "end" → sheet.MaxCols = 0 → m.cursorCol = 0 → m.offsetCol = 0 →
        ∃ m1, Update U m (Msg.KeyMsg k out) = some m1 ∧
          m1.cursorCol = -1 ∧ m1.offsetCol = -1)) := by
  refine ⟨rfl, by decide, rfl, rfl, rfl, rfl, rfl, rfl, ?_⟩
  intro m sheet k out hmode hkeys hs
  have hU : Update U m (Msg.KeyMsg k out) = updateNormal m k out := by
    unfold Update
    simp only [hmode]
  have hlen : ¬(m.sheets.length = 0) := by
    intro h0
    rw [List.length_eq_zero] at h0
    rw [h0] at hs
    unfold index? at hs
    split_ifs at hs
    simp at hs
  have hvr := visibleRows_pos m
  constructor
  · intro hk hmax hc ho
    rw [hU]
    unfold updateNormal
    rw [if_neg hlen]
    simp only [hs, hkeys]
    rw [if_neg (not_Matches k "pgdown" DefaultKeyMap.Quit hk (by decide)),
      if_neg (not_Matches k "pgdown" DefaultKeyMap.Up hk (by decide)),
      if_neg (not_Matches k "pgdown" DefaultKeyMap.Down hk (by decide)),
      if_neg (not_Matches k "pgdown" DefaultKeyMap.Left hk (by decide)),
      if_neg (not_Matches k "pgdown" DefaultKeyMap.Right hk (by decide)),
      if_pos (yes_Matches k "pgdown" DefaultKeyMap.PageDown hk (by decide))]
    refine ⟨_, rfl, ?_, ?_⟩
    · rw [adjustViewport_eq]
      show Min (m.cursorRow + Max 1 (m.height - 9)) (sheet.MaxRows - 1) = -1
      have : visibleRows m = Max 1 (m.height - 9) := rfl
      rw [← this, Min_eq_min]
      omega
    · rw [adjustViewport_eq]
      show minimalScroll (Min (m.cursorRow + Max 1 (m.height - 9)) (sheet.MaxRows - 1))
        m.offsetRow _ = -1
      have : visibleRows m = Max 1 (m.height - 9) := rfl
      rw [← this, Min_eq_min]
      have h1 : min (m.cursorRow + visibleRows m) (sheet.MaxRows - 1) = -1 := by omega
      rw [h1, ho]
      unfold minimalScroll
      rw [if_pos (by decide)]
  · intro hk hmax hc ho
    rw [hU]
    unfold updateNormal
    rw [if_neg hlen]
    simp only [hs, hkeys]
    rw [if_neg (not_Matches k "end" DefaultKeyMap.Quit hk (by decide)),
      if_neg (not_Matches k "end" DefaultKeyMap.Up hk (by decide)),
      if_neg (not_Matches k "end" DefaultKeyMap.Down hk (by decide)),
      if_neg (not_Matches k "end" DefaultKeyMap.Left hk (by decide)),
      if_neg (not_Matches k "end" DefaultKeyMap.Right hk (by decide)),
      if_neg (not_Matches k "end" DefaultKeyMap.PageDown hk (by decide)),
      if_neg (not_Matches k "end" DefaultKeyMap.PageUp hk (by decide)),
      if_neg (not_Matches k "end" DefaultKeyMap.Home hk (by decide)),
      if_pos (yes_Matches k "end" DefaultKeyMap.End hk (by decide))]
    refine ⟨_, rfl, ?_, ?_⟩
    · rw [adjustViewport_eq]
      show sheet.MaxCols - 1 = -1
      omega
    · rw [adjustViewport_eq]
      show minimalScroll (sheet.MaxCols - 1) m.offsetCol _ = -1
      rw [hmax, ho]
      unfold minimalScroll
      rw [if_pos (by decide)]
      rfl

/-! ## The sheets the loader builds -/

theorem appendRow_loop (cellOf : Int → Int → String → Cell) (rowIdx : Int) :
    ∀ (l : List String) (k : Nat) (cells : List Cell) (mc : Int),
      (l.enumFrom k).foldl
          (fun (acc : List Cell × Int) jv =>
            (acc.1 ++ [cellOf rowIdx jv.1 jv.2],
             if (jv.1 : Int) + 1 > acc.2 then (jv.1 : Int) + 1 else acc.2))
          (cells, mc) =
        (cells ++ (l.enumFrom k).map (fun jv => cellOf rowIdx jv.1 jv.2),
         if l = [] then mc else max mc ((k : Int) + l.length)) := by
  intro l
  induction l with
  | nil => intro k cells mc; simp
  | cons v rest ih =>
    intro k cells mc
    rw [List.enumFrom_cons, List.foldl_cons, ih]
    refine Prod.ext ?_ ?_
    · simp
    · simp only [List.length_cons, reduceCtorEq, if_false]
      by_cases hr : rest = []
      · subst hr
        simp only [if_true, List.length_nil]
        split_ifs <;> push_cast <;> omega
      · rw [if_neg hr]
        split_ifs <;> push_cast <;> omega

theorem appendRow_eq (cellOf : Int → Int → String → Cell) (rowIdx : Int) (record : List String)
    (sheet : Sheet) (h : 0 ≤ sheet.MaxCols) :
    appendRow cellOf rowIdx record sheet =
      { sheet with
        Rows := sheet.Rows ++ [record.enum.map (fun jv => cellOf rowIdx jv.1 jv.2)],
        MaxCols := max sheet.MaxCols (record.length : Int) } := by
  unfold appendRow
  unfold List.enum
  rw [appendRow_loop]
  simp only [List.nil_append]
  congr 1
  by_cases hr : record = []
  · subst hr
    simp only [if_true, List.length_nil]
    push_cast
    omega
  · rw [if_neg hr]
    push_cast
    omega

theorem loadRows_eq (cellOf : Int → Int → String → Cell) :
    ∀ (l : List (List String)) (k : Nat) (sheet : Sheet), 0 ≤ sheet.MaxCols →
      (l.enumFrom k).foldl (fun sheet ir => appendRow cellOf ir.1 ir.2 sheet) sheet =
        { sheet with
          Rows := sheet.Rows ++
            (l.enumFrom k).map (fun ir => ir.2.enum.map (fun jv => cellOf ir.1 jv.1 jv.2)),
          MaxCols := (l.map List.length).foldl (fun (a : Int) (b : Nat) => max a (b : Int))
            sheet.MaxCols } := by
  intro l
  induction l with
  | nil => intro k sheet _; simp
  | cons record rest ih =>
    intro k sheet h
    rw [List.enumFrom_cons, List.foldl_cons, appendRow_eq _ _ _ _ h, ih]
    · simp
    · show 0 ≤ max sheet.MaxCols (record.length : Int)
      omega

theorem foldl_max_cast : ∀ (l : List Nat) (a : Nat),
    l.foldl (fun (a : Int) (b : Nat) => max a (b : Int)) (a : Int) =
      ((l.foldl Nat.max a : Nat) : Int) := by
  intro l
  induction l with
  | nil => intro a; rfl
  | cons b rest ih =>
    intro a
    rw [List.foldl_cons, List.foldl_cons]
    have : max (a : Int) (b : Int) = ((Nat.max a b : Nat) : Int) := by
      show max (a : Int) (b : Int) = ((max a b : Nat) : Int)
      push_cast
      rfl
    rw [this, ih]

theorem loadedSheet_wellFormed (cellOf : Int → Int → String → Cell)
    (hcell : ∀ r c v, (cellOf r c v).Row = r ∧ (cellOf r c v).Col = c)
    (name : String) (records : List (List String)) :
    (records.enum.foldl (fun sheet ir => appendRow cellOf ir.1 ir.2 sheet)
        ⟨name, [], records.length, 0⟩) =
      ⟨name, records.enum.map (fun ir => ir.2.enum.map (fun jv => cellOf ir.1 jv.1 jv.2)),
        records.length, (((records.map List.length).foldl Nat.max 0 : Nat) : Int)⟩ ∧
    Sheet.wellFormed
      ⟨name, records.enum.map (fun ir => ir.2.enum.map (fun jv => cellOf ir.1 jv.1 jv.2)),
        records.length, (((records.map List.length).foldl Nat.max 0 : Nat) : Int)⟩ = true := by
  constructor
  · unfold List.enum
    rw [loadRows_eq cellOf records 0 _ (le_refl _)]
    have := foldl_max_cast (records.map List.length) 0
    simp only [List.nil_append]
    rw [← this]
    rfl
  · unfold Sheet.wellFormed
    simp only [Bool.and_eq_true, List.all_eq_true, decide_eq_true_eq]
    refine ⟨⟨?_, ?_⟩, ?_⟩
    · simp
    · congr 2
      rw [List.map_map]
      apply List.ext_getElem?
      intro i
      simp only [List.getElem?_map, List.getElem?_enum, Option.map_map]
      cases records[i]? <;> simp
    · rintro ⟨i, row⟩ hi ⟨j, cell⟩ hj
      rw [List.mk_mem_enum_iff_getElem?] at hi hj
      simp only [List.getElem?_map, List.getElem?_enum, Option.map_map] at hi
      cases hrec : records[i]? with
      | none => rw [hrec] at hi; simp at hi
      | some record =>
        rw [hrec] at hi
        simp only [Option.map_some', Function.comp_apply, Option.some.injEq] at hi
        subst hi
        simp only [List.getElem?_map, List.getElem?_enum, Option.map_map] at hj
        cases hv : record[j]? with
        | none => rw [hv] at hj; simp at hj
        | some v =>
          rw [hv] at hj
          simp only [Option.map_some', Function.comp_apply, Option.some.injEq] at hj
          subst hj
          exact (hcell i j v)

theorem loadExcel_mem (formula : String → Int → Int → String) :
    ∀ (book : List (String × Option (List (List String)))) (acc : List Sheet) (sheet : Sheet),
      sheet ∈ book.foldl
          (fun sheets entry =>
            match entry.2 with
            | none => sheets
            | some rows =>
              sheets ++ [rows.enum.foldl
                (fun sheet ir =>
                  appendRow (fun r c v => ⟨v, formula entry.1 r c, r, c⟩) ir.1 ir.2 sheet)
                ⟨entry.1, [], rows.length, 0⟩])
          acc →
      sheet ∈ acc ∨ ∃ name rows, (name, some rows) ∈ book ∧
        sheet = rows.enum.foldl
          (fun sheet ir => appendRow (fun r c v => ⟨v, formula name r c, r, c⟩) ir.1 ir.2 sheet)
          ⟨name, [], rows.length, 0⟩ := by
  intro book
  induction book with
  | nil => intro acc sheet h; exact Or.inl h
  | cons entry rest ih =>
    intro acc sheet h
    rw [List.foldl_cons] at h
    rcases ih _ _ h with h1 | ⟨name, rows, hmem, heq⟩
    · obtain ⟨name, orows⟩ := entry
      cases orows with
      | none => exact Or.inl h1
      | some rows =>
        simp only [List.mem_append, List.mem_singleton] at h1
        rcases h1 with h1 | h1
        · exact Or.inl h1
        · exact Or.inr ⟨name, rows, List.mem_cons_self _ _, h1⟩
    · exact Or.inr ⟨name, rows, List.mem_cons_of_mem _ hmem, heq⟩

/-- C34. Every sheet `loadCSV` and `loadExcel` build satisfies the loader invariant: `MaxRows`
is the number of rows, `MaxCols` the largest row length (0 without rows), and the cell stored
at row `i`, column `j` carries `Row = i` and `Col = j`. The rows keep the lengths of the records
read, so they can differ in length. -/
theorem loader_sheet_invariant (name : String) (records : List (List String))
    (formula : String → Int → Int → String)
    (book : List (String × Option (List (List String)))) :
    (∀ sheet ∈ loadCSV name records,
      sheet.wellFormed = true ∧ sheet.Rows.map List.length = records.map List.length) ∧
    (∀ sheet ∈ loadExcel formula book,
      sheet.wellFormed = true ∧
      ∃ rows, (sheet.Name, some rows) ∈ book ∧
        sheet.Rows.map List.length = rows.map List.length) ∧
    (∀ sheet : Sheet, sheet.wellFormed = true →
      sheet.MaxRows = (sheet.Rows.length : Int) ∧
      sheet.MaxCols = (((sheet.Rows.map List.length).foldl Nat.max 0 : Nat) : Int) ∧
      (∀ row ∈ sheet.Rows, (row.length : Int) ≤ sheet.MaxCols) ∧
      ∀ (i j : Nat) (row : List Cell) (cell : Cell),
        sheet.Rows[i]? = some row → row[j]? = some cell →
        cell.Row = (i : Int) ∧ cell.Col = (j : Int)) := by
  have hlen : ∀ (cellOf : Int → Int → String → Cell) (l : List (List String)),
      (l.enum.map (fun ir => ir.2.enum.map (fun jv => cellOf ir.1 jv.1 jv.2))).map
        List.length = l.map List.length := by
    intro cellOf l
    rw [List.map_map]
    apply List.ext_getElem?
    intro i
    simp only [List.getElem?_map, List.getElem?_enum, Option.map_map]
    cases l[i]? <;> simp
  refine ⟨?_, ?_, ?_⟩
  · intro sheet hs
    unfold loadCSV at hs
    rw [List.mem_singleton] at hs
    have key := loadedSheet_wellFormed (fun r c v => ⟨v, "", r, c⟩)
      (fun _ _ _ => ⟨rfl, rfl⟩) name records
    rw [hs, key.1]
    exact ⟨key.2, hlen (fun r c v => ⟨v, "", r, c⟩) records⟩
  · intro sheet hs
    unfold loadExcel at hs
    rcases loadExcel_mem formula book [] sheet hs with h | ⟨nm, rows, hmem, heq⟩
    · cases h
    · have key := loadedSheet_wellFormed (fun r c v => ⟨v, formula nm r c, r, c⟩)
        (fun _ _ _ => ⟨rfl, rfl⟩) nm rows
      rw [heq, key.1]
      exact ⟨key.2, rows, hmem, hlen (fun r c v => ⟨v, formula nm r c, r, c⟩) rows⟩
  · intro sheet h
    have h0 := h
    unfold Sheet.wellFormed at h
    simp only [Bool.and_eq_true, List.all_eq_true, decide_eq_true_eq] at h
    refine ⟨h.1.1, h.1.2, ?_,
      fun i j row cell hr hc => wellFormed_getElem sheet h0 i j row cell hr hc⟩
    intro row hrow
    rw [h.1.2]
    have hge : ∀ (l : List Nat) (a : Nat),
        a ≤ l.foldl Nat.max a ∧ ∀ x ∈ l, x ≤ l.foldl Nat.max a := by
      intro l
      induction l with
      | nil => intro a; exact ⟨le_refl _, fun x hx => by cases hx⟩
      | cons b rest ih =>
        intro a
        rw [List.foldl_cons]
        have h1 := ih (Nat.max a b)
        refine ⟨le_trans (Nat.le_max_left a b) h1.1, ?_⟩
        intro x hx
        rcases List.mem_cons.mp hx with hx | hx
        · rw [hx]; exact le_trans (Nat.le_max_right a b) h1.1
        · exact h1.2 x hx
    exact_mod_cast (hge _ 0).2 _ (List.mem_map_of_mem _ hrow)

/-! ## The cells `drawLine` visits -/

/-- One iteration of the loop of `drawLine` away from the endpoint: with `rx` steps left along
x and `ry` along y, the next state has `rx1 ≤ rx` and `ry1 ≤ ry` steps left, fewer in total,
and again the error term that belongs to its position. -/
theorem drawLine_step (dx dy sx sy x1 y1 : Int) (hdx : 0 ≤ dx) (hdy : 0 ≤ dy) (rx ry : Nat)
    (hrx : (rx : Int) ≤ dx) (hry : (ry : Int) ≤ dy) (hnot0 : ¬(rx = 0 ∧ ry = 0)) :
    ∃ rx1 ry1 : Nat, rx1 ≤ rx ∧ ry1 ≤ ry ∧ rx1 + ry1 < rx + ry ∧
      (if 2 * (dx - dy + dy * rx - dx * ry) > -dy then x1 - sx * rx + sx else x1 - sx * rx) =
        x1 - sx * rx1 ∧
      (if 2 * (dx - dy + dy * rx - dx * ry) < dx then y1 - sy * ry + sy else y1 - sy * ry) =
        y1 - sy * ry1 ∧
      (if 2 * (dx - dy + dy * rx - dx * ry) < dx then
          (if 2 * (dx - dy + dy * rx - dx * ry) > -dy then dx - dy + dy * rx - dx * ry - dy
            else dx - dy + dy * rx - dx * ry) + dx
        else
          (if 2 * (dx - dy + dy * rx - dx * ry) > -dy then dx - dy + dy * rx - dx * ry - dy
            else dx - dy + dy * rx - dx * ry)) =
        dx - dy + dy * rx1 - dx * ry1 := by
  have hprodx : dy * (rx : Int) ≥ 0 := mul_nonneg hdy (Int.ofNat_nonneg rx)
  have hprody : dx * (ry : Int) ≥ 0 := mul_nonneg hdx (Int.ofNat_nonneg ry)
  by_cases hxs : 2 * (dx - dy + dy * (rx : Int) - dx * (ry : Int)) > -dy
  · have hrxpos : 0 < rx := by
      by_contra hcon
      have hrx0 : rx = 0 := by omega
      have hry1 : 1 ≤ ry := by omega
      subst hrx0
      have : dx * (ry : Int) ≥ dx * 1 :=
        mul_le_mul_of_nonneg_left (by exact_mod_cast hry1) hdx
      simp only [Nat.cast_zero, mul_zero, add_zero] at hxs
      omega
    have h1 : ((rx - 1 : Nat) : Int) = (rx : Int) - 1 := by omega
    by_cases hys : 2 * (dx - dy + dy * (rx : Int) - dx * (ry : Int)) < dx
    · have hrypos : 0 < ry := by
        by_contra hcon
        have hry0 : ry = 0 := by omega
        have hrx1 : 1 ≤ rx := by omega
        subst hry0
        have : dy * (rx : Int) ≥ dy * 1 :=
          mul_le_mul_of_nonneg_left (by exact_mod_cast hrx1) hdy
        simp only [Nat.cast_zero, mul_zero, sub_zero] at hys
        omega
      have h2 : ((ry - 1 : Nat) : Int) = (ry : Int) - 1 := by omega
      refine ⟨rx - 1, ry - 1, by omega, by omega, by omega, ?_, ?_, ?_⟩
      · rw [if_pos hxs, h1]; ring
      · rw [if_pos hys, h2]; ring
      · rw [if_pos hys, if_pos hxs, h1, h2]; ring
    · refine ⟨rx - 1, ry, by omega, le_refl _, by omega, ?_, ?_, ?_⟩
      · rw [if_pos hxs, h1]; ring
      · rw [if_neg hys]
      · rw [if_neg hys, if_pos hxs, h1]; ring
  · have hys : 2 * (dx - dy + dy * (rx : Int) - dx * (ry : Int)) < dx := by
      by_contra hcon
      have hdx0 : dx = 0 := by omega
      have hdy0 : dy = 0 := by omega
      apply hnot0
      constructor <;> omega
    have hrypos : 0 < ry := by
      by_contra hcon
      have hry0 : ry = 0 := by omega
      have hrx1 : 1 ≤ rx := by omega
      subst hry0
      have : dy * (rx : Int) ≥ dy * 1 :=
        mul_le_mul_of_nonneg_left (by exact_mod_cast hrx1) hdy
      simp only [Nat.cast_zero, mul_zero, sub_zero] at hys
      omega
    have h2 : ((ry - 1 : Nat) : Int) = (ry : Int) - 1 := by omega
    refine ⟨rx, ry - 1, le_refl _, by omega, by omega, ?_, ?_, ?_⟩
    · rw [if_neg hxs]
    · rw [if_pos hys, h2]; ring
    · rw [if_pos hys, if_neg hxs, h2]; ring

/-- The cells the loop of `drawLine` visits from a position with `rx` steps left along x and
`ry` along y: the loop ends within `rx + ry + 1` iterations, the first cell is the position
it starts from, the last one the endpoint, and every cell has at most `rx` and `ry` steps left
to the endpoint. -/
theorem drawLinePath_spec (dx dy sx sy x1 y1 : Int) (hdx : 0 ≤ dx) (hdy : 0 ≤ dy) :
    ∀ (n fuel rx ry : Nat),
      rx + ry = n → n < fuel → (rx : Int) ≤ dx → (ry : Int) ≤ dy →
      ∃ cells, drawLinePath dx dy sx sy x1 y1 fuel (x1 - sx * rx) (y1 - sy * ry)
          (dx - dy + dy * rx - dx * ry) = some cells ∧
        cells.head? = some (x1 - sx * rx, y1 - sy * ry) ∧
        cells.getLast? = some (x1, y1) ∧
        cells.length ≤ n + 1 ∧
        ∀ p ∈ cells, ∃ a b : Nat, a ≤ rx ∧ b ≤ ry ∧ p = (x1 - sx * a, y1 - sy * b) := by
  intro n
  induction n using Nat.strong_induction_on with
  | _ n ih =>
    intro fuel rx ry hn hfuel hrx hry
    obtain ⟨f, rfl⟩ : ∃ f, fuel = f + 1 := ⟨fuel - 1, by omega⟩
    rw [drawLinePath]
    by_cases hend : x1 - sx * (rx : Int) = x1 ∧ y1 - sy * (ry : Int) = y1
    · rw [if_pos hend]
      refine ⟨_, rfl, rfl, ?_, by simp, ?_⟩
      · show some (x1 - sx * (rx : Int), y1 - sy * (ry : Int)) = some (x1, y1)
        rw [hend.1, hend.2]
      · intro p hp
        rw [List.mem_singleton] at hp
        exact ⟨rx, ry, le_refl _, le_refl _, hp⟩
    · rw [if_neg hend]
      have hnot0 : ¬(rx = 0 ∧ ry = 0) := by
        rintro ⟨h1, h2⟩
        apply hend
        subst h1
        subst h2
        simp
      obtain ⟨rx1, ry1, hle1, hle2, hlt, ex, ey, ee⟩ :=
        drawLine_step dx dy sx sy x1 y1 hdx hdy rx ry hrx hry hnot0
      simp only [apply_ite Prod.snd, apply_ite Prod.fst]
      rw [ex, ey, ee]
      obtain ⟨cells, hcells, hhead, hlast, hlen, hall⟩ :=
        ih (rx1 + ry1) (by omega) f rx1 ry1 rfl (by omega)
          (le_trans (by exact_mod_cast hle1) hrx) (le_trans (by exact_mod_cast hle2) hry)
      rw [hcells]
      refine ⟨_, rfl, rfl, ?_, ?_, ?_⟩
      · cases cells with
        | nil => simp at hhead
        | cons c rest => rw [List.getLast?_cons_cons]; exact hlast
      · rw [List.length_cons]
        omega
      · intro p hp
        rcases List.mem_cons.mp hp with hp | hp
        · exact ⟨rx, ry, le_refl _, le_refl _, hp⟩
        · obtain ⟨a, b, ha, hb, hpab⟩ := hall p hp
          exact ⟨a, b, le_trans ha hle1, le_trans hb hle2, hpab⟩

/-- The loop of `drawLine` is the loop over the visited cells: it writes the cells of
`drawLinePath` in order. -/
theorem drawLineLoop_eq_path (dx dy sx sy x1 y1 : Int) :
    ∀ (fuel : Nat) (grid : List (List Char)) (x0 y0 err : Int),
      drawLineLoop dx dy sx sy x1 y1 fuel grid x0 y0 err =
        (drawLinePath dx dy sx sy x1 y1 fuel x0 y0 err).bind
          (fun cells => cells.foldlM (fun g p => drawLineCell g dx dy sx sy p.1 p.2) grid) := by
  intro fuel
  induction fuel with
  | zero => intro grid x0 y0 err; rfl
  | succ f ih =>
    intro grid x0 y0 err
    rw [drawLineLoop, drawLinePath]
    by_cases hend : x0 = x1 ∧ y0 = y1
    · rw [if_pos hend]
      simp only [Option.some_bind, List.foldlM_cons, List.foldlM_nil]
      cases drawLineCell grid dx dy sx sy x0 y0 with
      | none => rfl
      | some g => simp only [if_pos hend]; rfl
    · rw [if_neg hend]
      cases hc : drawLineCell grid dx dy sx sy x0 y0 with
      | none =>
        simp only []
        cases drawLinePath dx dy sx sy x1 y1 f
            (if 2 * err > -dy then (err - dy, x0 + sx) else (err, x0)).2
            (if 2 * err < dx then
              ((if 2 * err > -dy then (err - dy, x0 + sx) else (err, x0)).1 + dx, y0 + sy)
              else ((if 2 * err > -dy then (err - dy, x0 + sx) else (err, x0)).1, y0)).2
            (if 2 * err < dx then
              ((if 2 * err > -dy then (err - dy, x0 + sx) else (err, x0)).1 + dx, y0 + sy)
              else ((if 2 * err > -dy then (err - dy, x0 + sx) else (err, x0)).1, y0)).1 with
        | none => rfl
        | some cells =>
          simp only [Option.some_bind, List.foldlM_cons, hc]
          rfl
      | some g =>
        simp only [if_neg hend]
        rw [ih]
        cases drawLinePath dx dy sx sy x1 y1 f
            (if 2 * err > -dy then (err - dy, x0 + sx) else (err, x0)).2
            (if 2 * err < dx then
              ((if 2 * err > -dy then (err - dy, x0 + sx) else (err, x0)).1 + dx, y0 + sy)
              else ((if 2 * err > -dy then (err - dy, x0 + sx) else (err, x0)).1, y0)).2
            (if 2 * err < dx then
              ((if 2 * err > -dy then (err - dy, x0 + sx) else (err, x0)).1 + dx, y0 + sy)
              else ((if 2 * err > -dy then (err - dy, x0 + sx) else (err, x0)).1, y0)).1 with
        | none => rfl
        | some cells =>
          simp only [Option.some_bind, List.foldlM_cons, hc]
          rfl

/-- Within 61 bits nothing in the loop of `drawLine` leaves the range of `int`: the error term
stays within `-3*dy ≤ 2*err ≤ 3*dx`, so the loop in 64-bit arithmetic is the loop in unbounded
arithmetic. -/
theorem drawLinePath64_eq (dx dy sx sy x1 y1 : Int) (hdx : 0 ≤ dx) (hdy : 0 ≤ dy)
    (hdxB : dx ≤ 2 ^ 61) (hdyB : dy ≤ 2 ^ 61) (hsx : sx = 1 ∨ sx = -1) (hsy : sy = 1 ∨ sy = -1)
    (hx1 : -(2 ^ 60) ≤ x1 ∧ x1 ≤ 2 ^ 60) (hy1 : -(2 ^ 60) ≤ y1 ∧ y1 ≤ 2 ^ 60) :
    ∀ (fuel rx ry : Nat), (rx : Int) ≤ dx → (ry : Int) ≤ dy →
      -(3 * dy) ≤ 2 * (dx - dy + dy * rx - dx * ry) →
      2 * (dx - dy + dy * rx - dx * ry) ≤ 3 * dx →
      drawLinePath64 dx dy sx sy x1 y1 fuel (x1 - sx * rx) (y1 - sy * ry)
          (dx - dy + dy * rx - dx * ry) =
        drawLinePath dx dy sx sy x1 y1 fuel (x1 - sx * rx) (y1 - sy * ry)
          (dx - dy + dy * rx - dx * ry) := by
  intro fuel
  induction fuel with
  | zero => intro rx ry _ _ _ _; rfl
  | succ f ih =>
    intro rx ry hrx hry hlo hhi
    rw [drawLinePath64, drawLinePath]
    by_cases hend : x1 - sx * (rx : Int) = x1 ∧ y1 - sy * (ry : Int) = y1
    · rw [if_pos hend, if_pos hend]
    · rw [if_neg hend, if_neg hend]
      have hnot0 : ¬(rx = 0 ∧ ry = 0) := by
        rintro ⟨h1, h2⟩
        apply hend
        subst h1
        subst h2
        simp
      obtain ⟨rx1, ry1, hle1, hle2, hlt, ex, ey, ee⟩ :=
        drawLine_step dx dy sx sy x1 y1 hdx hdy rx ry hrx hry hnot0
      have hpx : -(2 ^ 62) ≤ x1 - sx * (rx : Int) ∧ x1 - sx * (rx : Int) ≤ 2 ^ 62 := by
        rcases hsx with h | h <;> subst h <;> constructor <;> omega
      have hpy : -(2 ^ 62) ≤ y1 - sy * (ry : Int) ∧ y1 - sy * (ry : Int) ≤ 2 ^ 62 := by
        rcases hsy with h | h <;> subst h <;> constructor <;> omega
      have w1 : wrap64 (2 * (dx - dy + dy * rx - dx * ry)) = 2 * (dx - dy + dy * rx - dx * ry) :=
        wrap64_id _ (by omega) (by omega)
      have w2 : wrap64 (-dy) = -dy := wrap64_id _ (by omega) (by omega)
      have w3 : wrap64 (dx - dy + dy * rx - dx * ry - dy) = dx - dy + dy * rx - dx * ry - dy :=
        wrap64_id _ (by omega) (by omega)
      have w4 : wrap64 (x1 - sx * rx + sx) = x1 - sx * rx + sx :=
        wrap64_id _ (by rcases hsx with h | h <;> subst h <;> omega)
          (by rcases hsx with h | h <;> subst h <;> omega)
      have w5 : wrap64 (dx - dy + dy * rx - dx * ry - dy + dx) =
          dx - dy + dy * rx - dx * ry - dy + dx :=
        wrap64_id _ (by omega) (by omega)
      have w6 : wrap64 (dx - dy + dy * rx - dx * ry + dx) = dx - dy + dy * rx - dx * ry + dx :=
        wrap64_id _ (by omega) (by omega)
      have w7 : wrap64 (y1 - sy * ry + sy) = y1 - sy * ry + sy :=
        wrap64_id _ (by rcases hsy with h | h <;> subst h <;> omega)
          (by rcases hsy with h | h <;> subst h <;> omega)
      simp only [w1, w2]
      have hbound : -(3 * dy) ≤ 2 * (dx - dy + dy * rx1 - dx * ry1) ∧
          2 * (dx - dy + dy * rx1 - dx * ry1) ≤ 3 * dx := by
        rw [← ee]
        split_ifs <;> constructor <;> omega
      have hnext := ih rx1 ry1 (le_trans (by exact_mod_cast hle1) hrx)
        (le_trans (by exact_mod_cast hle2) hry) hbound.1 hbound.2
      by_cases hxs : 2 * (dx - dy + dy * (rx : Int) - dx * (ry : Int)) > -dy
      · by_cases hys : 2 * (dx - dy + dy * (rx : Int) - dx * (ry : Int)) < dx
        · simp only [if_pos hxs, if_pos hys] at ex ey ee ⊢
          rw [w3, w4, w5, w7, ex, ey, ee, hnext]
        · simp only [if_pos hxs, if_neg hys] at ex ey ee ⊢
          rw [w3, w4, ex, ey, ee, hnext]
      · by_cases hys : 2 * (dx - dy + dy * (rx : Int) - dx * (ry : Int)) < dx
        · simp only [if_neg hxs, if_pos hys] at ex ey ee ⊢
          rw [w6, w7, ex, ey, ee, hnext]
        · simp only [if_neg hxs, if_neg hys] at ex ey ee ⊢
          rw [ex, ey, ee, hnext]

/-- For endpoints within 60 bits `drawLine` computes in 64-bit arithmetic what it computes in
unbounded arithmetic. -/
theorem drawLineVisits64_eq (fuel : Nat) (x0 y0 x1 y1 : Int)
    (hx0 : -(2 ^ 60) ≤ x0 ∧ x0 ≤ 2 ^ 60) (hy0 : -(2 ^ 60) ≤ y0 ∧ y0 ≤ 2 ^ 60)
    (hx1 : -(2 ^ 60) ≤ x1 ∧ x1 ≤ 2 ^ 60) (hy1 : -(2 ^ 60) ≤ y1 ∧ y1 ≤ 2 ^ 60) :
    drawLineVisits64 fuel x0 y0 x1 y1 = drawLineVisits fuel x0 y0 x1 y1 := by
  have hdx : abs64 (wrap64 (x1 - x0)) = abs (x1 - x0) := by
    rw [wrap64_id _ (by omega) (by omega)]
    unfold abs64 abs
    split_ifs
    · exact wrap64_id _ (by omega) (by omega)
    · rfl
  have hdy : abs64 (wrap64 (y1 - y0)) = abs (y1 - y0) := by
    rw [wrap64_id _ (by omega) (by omega)]
    unfold abs64 abs
    split_ifs
    · exact wrap64_id _ (by omega) (by omega)
    · rfl
  have hax : abs (x1 - x0) = ((x1 - x0).natAbs : Int) := abs_eq_natAbs _
  have hay : abs (y1 - y0) = ((y1 - y0).natAbs : Int) := abs_eq_natAbs _
  unfold drawLineVisits64 drawLineVisits
  simp only [hdx, hdy]
  rw [wrap64_id (abs (x1 - x0) - abs (y1 - y0)) (by omega) (by omega)]
  have hx : x1 - (if x0 > x1 then (-1 : Int) else 1) * ((x1 - x0).natAbs : Int) = x0 := by
    split_ifs <;> omega
  have hy : y1 - (if y0 > y1 then (-1 : Int) else 1) * ((y1 - y0).natAbs : Int) = y0 := by
    split_ifs <;> omega
  have he : abs (x1 - x0) - abs (y1 - y0) +
      abs (y1 - y0) * ((x1 - x0).natAbs : Int) - abs (x1 - x0) * ((y1 - y0).natAbs : Int) =
      abs (x1 - x0) - abs (y1 - y0) := by
    rw [hax, hay]
    ring
  have key := drawLinePath64_eq (abs (x1 - x0)) (abs (y1 - y0))
    (if x0 > x1 then -1 else 1) (if y0 > y1 then -1 else 1) x1 y1
    (by omega) (by omega) (by omega) (by omega)
    (by split_ifs; exact Or.inr rfl; exact Or.inl rfl)
    (by split_ifs; exact Or.inr rfl; exact Or.inl rfl) hx1 hy1
    fuel (x1 - x0).natAbs (y1 - y0).natAbs (by omega) (by omega)
    (by rw [he]; omega) (by rw [he]; omega)
  rw [hx, hy, he] at key
  exact key

/-- C35. Line rasterisation terminates for every pair of integer endpoints, whether equal,
on a horizontal, on a vertical or on a diagonal line or neither: `drawLine` visits its cells
within `|x1-x0| + |y1-y0| + 1` iterations of its loop, the first visited cell is `(x0, y0)`,
the last one is `(x1, y1)`, and every visited cell lies in the bounding box of the two
endpoints. The cells `drawLine` writes to a grid are the visited ones, in that order. For
endpoints within 60 bits the 64-bit arithmetic of `int` visits the same cells as the unbounded
arithmetic of the embedding. -/
theorem drawLine_terminates_in_bounding_box (fuel : Nat) (x0 y0 x1 y1 : Int)
    (hfuel : (x1 - x0).natAbs + (y1 - y0).natAbs < fuel) :
    (∃ cells, drawLineVisits fuel x0 y0 x1 y1 = some cells ∧
      cells.head? = some (x0, y0) ∧ cells.getLast? = some (x1, y1) ∧
      cells.length ≤ (x1 - x0).natAbs + (y1 - y0).natAbs + 1 ∧
      ∀ p ∈ cells, min x0 x1 ≤ p.1 ∧ p.1 ≤ max x0 x1 ∧ min y0 y1 ≤ p.2 ∧ p.2 ≤ max y0 y1) ∧
    (∀ grid : List (List Char),
      drawLine fuel grid x0 y0 x1 y1 =
        (drawLineVisits fuel x0 y0 x1 y1).bind
          (fun cells => cells.foldlM
            (fun g p => drawLineCell g (abs (x1 - x0)) (abs (y1 - y0))
              (if x0 > x1 then -1 else 1) (if y0 > y1 then -1 else 1) p.1 p.2) grid)) ∧
    (-(2 ^ 60) ≤ x0 ∧ x0 ≤ 2 ^ 60 → -(2 ^ 60) ≤ y0 ∧ y0 ≤ 2 ^ 60 →
      -(2 ^ 60) ≤ x1 ∧ x1 ≤ 2 ^ 60 → -(2 ^ 60) ≤ y1 ∧ y1 ≤ 2 ^ 60 →
      drawLineVisits64 fuel x0 y0 x1 y1 = drawLineVisits fuel x0 y0 x1 y1) := by
  refine ⟨?_, ?_, fun hx0 hy0 hx1 hy1 => drawLineVisits64_eq fuel x0 y0 x1 y1 hx0 hy0 hx1 hy1⟩
  · have hdx : abs (x1 - x0) = ((x1 - x0).natAbs : Int) := abs_eq_natAbs _
    have hdy : abs (y1 - y0) = ((y1 - y0).natAbs : Int) := abs_eq_natAbs _
    obtain ⟨cells, hcells, hhead, hlast, hlen, hall⟩ :=
      drawLinePath_spec (abs (x1 - x0)) (abs (y1 - y0))
        (if x0 > x1 then -1 else 1) (if y0 > y1 then -1 else 1) x1 y1
        (by rw [hdx]; exact Int.ofNat_nonneg _) (by rw [hdy]; exact Int.ofNat_nonneg _)
        ((x1 - x0).natAbs + (y1 - y0).natAbs) fuel (x1 - x0).natAbs (y1 - y0).natAbs rfl
        hfuel (by rw [hdx]) (by rw [hdy])
    have hx : x1 - (if x0 > x1 then (-1 : Int) else 1) * ((x1 - x0).natAbs : Int) = x0 := by
      split_ifs <;> omega
    have hy : y1 - (if y0 > y1 then (-1 : Int) else 1) * ((y1 - y0).natAbs : Int) = y0 := by
      split_ifs <;> omega
    have he : abs (x1 - x0) - abs (y1 - y0) +
        abs (y1 - y0) * ((x1 - x0).natAbs : Int) - abs (x1 - x0) * ((y1 - y0).natAbs : Int) =
        abs (x1 - x0) - abs (y1 - y0) := by
      rw [hdx, hdy]
      ring
    rw [hx, hy, he] at hcells
    rw [hx, hy] at hhead
    refine ⟨cells, hcells, hhead, hlast, hlen, ?_⟩
    intro p hp
    obtain ⟨a, b, ha, hb, hpab⟩ := hall p hp
    rw [hpab]
    show min x0 x1 ≤ x1 - (if x0 > x1 then (-1 : Int) else 1) * (a : Int) ∧
      x1 - (if x0 > x1 then (-1 : Int) else 1) * (a : Int) ≤ max x0 x1 ∧
      min y0 y1 ≤ y1 - (if y0 > y1 then (-1 : Int) else 1) * (b : Int) ∧
      y1 - (if y0 > y1 then (-1 : Int) else 1) * (b : Int) ≤ max y0 y1
    refine ⟨?_, ?_, ?_, ?_⟩ <;> split_ifs <;> omega
  · intro grid
    unfold drawLine drawLineVisits
    exact drawLineLoop_eq_path _ _ _ _ _ _ _ _ _ _ _

/-! ## Sparkline, placeholders and the pie legend -/

theorem sparkIndex_range (fl : Float64) (val minVal maxVal : fl.F) :
    0 ≤ sparkIndex fl val minVal maxVal ∧ sparkIndex fl val minVal maxVal ≤ 7 := by
  unfold sparkIndex
  have h8 : (sparkChars.length : Int) = 8 := rfl
  simp only [h8]
  split_ifs <;> omega

theorem sparkIndex_eq (fl : Float64) (val minVal maxVal : fl.F) :
    sparkIndex fl val minVal maxVal =
      max 0 (min 7 (fl.toInt (fl.mul (fl.div (fl.sub val minVal) (fl.sub maxVal minVal))
        (fl.ofInt 7)))) := by
  unfold sparkIndex
  have h8 : (sparkChars.length : Int) = 8 := rfl
  simp only [h8]
  have h7 : ((8 : Int) - 1) = 7 := rfl
  rw [h7]
  split_ifs <;> omega

theorem sparkline_fold (fl : Float64) (minVal maxVal : fl.F) :
    ∀ (l : List fl.F) (acc : List Char),
      l.foldl (fun b val =>
          match b with
          | none => none
          | some b =>
            match index? sparkChars (sparkIndex fl val minVal maxVal) with
            | none => none
            | some c => some (b ++ [c])) (some acc) =
        some (acc ++ l.map (fun v =>
          (index? sparkChars (sparkIndex fl v minVal maxVal)).getD ' ')) := by
  intro l
  induction l with
  | nil => intro acc; simp
  | cons v rest ih =>
    intro acc
    rw [List.foldl_cons]
    obtain ⟨c, hc⟩ := index?_some_of_lt sparkChars (sparkIndex fl v minVal maxVal)
      (sparkIndex_range fl v minVal maxVal).1
      (by
        have h8 : (sparkChars.length : Int) = 8 := rfl
        have := (sparkIndex_range fl v minVal maxVal).2
        omega)
    simp only [hc]
    rw [ih]
    simp [hc]

theorem minFloat_mem (fl : Float64) (vals : List fl.F) (h : vals ≠ []) :
    minFloat fl vals ∈ vals := by
  have key : ∀ (l : List fl.F) (m : fl.F),
      l.foldl (fun min v => if fl.lt v min then v else min) m = m ∨
      l.foldl (fun min v => if fl.lt v min then v else min) m ∈ l := by
    intro l
    induction l with
    | nil =>
      intro m
      exact Or.inl rfl
    | cons a l ih =>
      intro m
      rw [List.foldl_cons]
      rcases ih (if fl.lt a m then a else m) with h1 | h1
      · rw [h1]
        split_ifs
        · exact Or.inr (List.mem_cons_self _ _)
        · exact Or.inl rfl
      · exact Or.inr (List.mem_cons_of_mem _ h1)
  cases vals with
  | nil => exact absurd rfl h
  | cons v0 vs =>
    show (v0 :: vs).foldl (fun min v => if fl.lt v min then v else min) v0 ∈ v0 :: vs
    rcases key (v0 :: vs) v0 with h1 | h1
    · rw [h1]
      exact List.mem_cons_self _ _
    · exact h1

theorem minFloat_le (fl : Float64) (value : fl.F → ℚ) (vals : List fl.F)
    (hlt : ∀ a ∈ vals, ∀ b ∈ vals, (fl.lt a b = true ↔ value a < value b)) :
    ∀ a ∈ vals, value (minFloat fl vals) ≤ value a := by
  have key : ∀ (l : List fl.F) (m : fl.F), (∀ x ∈ l, x ∈ vals) → m ∈ vals →
      value (l.foldl (fun min v => if fl.lt v min then v else min) m) ≤ value m ∧
      ∀ a ∈ l, value (l.foldl (fun min v => if fl.lt v min then v else min) m) ≤ value a := by
    intro l
    induction l with
    | nil =>
      intro m _ _
      exact ⟨le_refl _, fun a ha => absurd ha (List.not_mem_nil a)⟩
    | cons x l ih =>
      intro m hl hm
      rw [List.foldl_cons]
      have hx : x ∈ vals := hl x (List.mem_cons_self _ _)
      have hl1 : ∀ y ∈ l, y ∈ vals := fun y hy => hl y (List.mem_cons_of_mem _ hy)
      by_cases hc : fl.lt x m = true
      · rw [if_pos hc]
        obtain ⟨h1, h2⟩ := ih x hl1 hx
        have hmx : value x < value m := (hlt x hx m hm).mp hc
        refine ⟨le_trans h1 (le_of_lt hmx), ?_⟩
        intro a ha
        rcases List.mem_cons.mp ha with rfl | ha1
        · exact h1
        · exact h2 a ha1
      · rw [if_neg hc]
        obtain ⟨h1, h2⟩ := ih m hl1 hm
        have hmx : ¬(value x < value m) := fun hcon => hc ((hlt x hx m hm).mpr hcon)
        refine ⟨h1, ?_⟩
        intro a ha
        rcases List.mem_cons.mp ha with rfl | ha1
        · exact le_trans h1 (not_lt.mp hmx)
        · exact h2 a ha1
  intro a ha
  cases hvals : vals with
  | nil => rw [hvals] at ha; cases ha
  | cons v0 vs =>
    have hv0 : v0 ∈ vals := by rw [hvals]; exact List.mem_cons_self _ _
    have hall : ∀ x ∈ v0 :: vs, x ∈ vals := by intro x hx; rw [hvals]; exact hx
    have := (key (v0 :: vs) v0 hall hv0).2 a (by rw [← hvals]; exact ha)
    exact this

/-- C31 (the claim as stated fails). The series 0, +Inf has its minimum below its maximum, and
both sparklines give the maximum the lowest glyph, not the highest: `max - min` is +Inf, the
quotient `(max - min) / (max - min)` is NaN, and `int(NaN)`, which is -2^63 on amd64 and 0 on
arm64, is brought to the level 0. -/
theorem sparkline_maximum_gets_lowest_glyph :
    minFloat Float64.amd64 unboundedValues = Exact.fin 0 1 ∧
    maxFloat Float64.amd64 unboundedValues = Exact.inf false ∧
    Float64.amd64.lt (minFloat Float64.amd64 unboundedValues)
      (maxFloat Float64.amd64 unboundedValues) = true ∧
    sparkScaled Float64.amd64 unboundedValues (Exact.inf false) = Exact.nan ∧
    sparkLevel Float64.amd64 unboundedValues (Exact.inf false) = 0 ∧
    sparkLevel (Float64.exact 0) unboundedValues (Exact.inf false) = 0 ∧
    RenderSparkline Float64.amd64 ⟨["a", "b"], unboundedValues, ""⟩ = some ['▁', '▁'] ∧
    renderSparkline Float64.amd64 ⟨["a", "b"], unboundedValues⟩ = some ['▁', '▁'] := by
  decide

/-- C31 (as amended). For every series both sparklines return one glyph per value: the glyph of
the value `v` is the one at the level `sparkLevel`, an index from 0 to 7 into the eight glyphs,
got by truncating the product `p(v) = ((v - min) / (max - min)) * 7` and clamping it to 0..7,
with `max` taken as `min + 1` when `max == min`; this needs no fact about the floats. If
moreover `value` gives numbers the floats of the series stand for such that the comparisons of
the series agree with them, `p` is non-decreasing in `v`, `p(min)` is 0, `p(max)` is 7 when the
minimum is below the maximum, and `int(p(v))` is the integer part of `p(v)` (what IEEE-754
gives for finite values when no difference overflows or is absorbed), then a value that is a
minimum of the series gets the lowest glyph, one that is a maximum and above some other value
gets the highest glyph, and a larger value never gets a lower glyph. -/
theorem sparkline_levels (fl : Float64) (labels : List String) (values : List fl.F)
    (title : String) :
    (∃ glyphs, RenderSparkline fl ⟨labels, values, title⟩ = some glyphs ∧
      renderSparkline fl ⟨labels, values⟩ = some glyphs ∧
      glyphs.length = values.length ∧
      ∀ (i : Nat) (v : fl.F), values[i]? = some v →
        0 ≤ sparkLevel fl values v ∧ sparkLevel fl values v ≤ 7 ∧
        sparkLevel fl values v = max 0 (min 7 (fl.toInt (sparkScaled fl values v))) ∧
        glyphs[i]? = sparkChars[(sparkLevel fl values v).toNat]?) ∧
    (∀ value : fl.F → ℚ,
      (∀ a ∈ values, ∀ b ∈ values, (fl.lt a b = true ↔ value a < value b)) →
      (∀ a ∈ values, ∀ b ∈ values, value a ≤ value b →
        value (sparkScaled fl values a) ≤ value (sparkScaled fl values b)) →
      value (sparkScaled fl values (minFloat fl values)) = 0 →
      (value (minFloat fl values) < value (maxFloat fl values) →
        value (sparkScaled fl values (maxFloat fl values)) = 7) →
      (∀ v ∈ values,
        fl.toInt (sparkScaled fl values v) = ⌊value (sparkScaled fl values v)⌋) →
      (∀ v ∈ values, (∀ w ∈ values, value v ≤ value w) → sparkLevel fl values v = 0) ∧
      (∀ v ∈ values, (∀ w ∈ values, value w ≤ value v) → (∃ w ∈ values, value w < value v) →
        sparkLevel fl values v = 7) ∧
      (∀ a ∈ values, ∀ b ∈ values, value a ≤ value b →
        sparkLevel fl values a ≤ sparkLevel fl values b)) := by
  have hlevel : ∀ v, sparkLevel fl values v =
      max 0 (min 7 (fl.toInt (sparkScaled fl values v))) := by
    intro v
    unfold sparkLevel sparkScaled
    exact sparkIndex_eq fl v _ _
  have hrange : ∀ v, 0 ≤ sparkLevel fl values v ∧ sparkLevel fl values v ≤ 7 :=
    fun v => sparkIndex_range fl v _ _
  have hglyphs : ∀ (i : Nat) (v : fl.F), values[i]? = some v →
      (values.map (fun v => (index? sparkChars (sparkLevel fl values v)).getD ' '))[i]? =
        sparkChars[(sparkLevel fl values v).toNat]? := by
    intro i v hv
    rw [List.getElem?_map, hv, Option.map_some']
    obtain ⟨c, hc⟩ := index?_some_of_lt sparkChars (sparkLevel fl values v) (hrange v).1
      (by
        have h8 : (sparkChars.length : Int) = 8 := rfl
        have := (hrange v).2
        omega)
    rw [hc]
    unfold index? at hc
    rw [if_pos (hrange v).1] at hc
    rw [hc]
    rfl
  have hfirst : ∃ glyphs, RenderSparkline fl ⟨labels, values, title⟩ = some glyphs ∧
      renderSparkline fl ⟨labels, values⟩ = some glyphs ∧
      glyphs.length = values.length ∧
      ∀ (i : Nat) (v : fl.F), values[i]? = some v →
        0 ≤ sparkLevel fl values v ∧ sparkLevel fl values v ≤ 7 ∧
        sparkLevel fl values v = max 0 (min 7 (fl.toInt (sparkScaled fl values v))) ∧
        glyphs[i]? = sparkChars[(sparkLevel fl values v).toNat]? := by
    refine ⟨values.map (fun v => (index? sparkChars (sparkLevel fl values v)).getD ' '),
      ?_, ?_, by simp, fun i v hv => ⟨(hrange v).1, (hrange v).2, hlevel v, hglyphs i v hv⟩⟩
    · unfold RenderSparkline
      by_cases h0 : values.length = 0
      · rw [List.length_eq_zero] at h0
        subst h0
        rfl
      · simp only []
        rw [if_neg h0]
        have := sparkline_fold fl (minFloat fl values) (scaleMax fl values) values []
        rw [List.nil_append] at this
        exact this
    · unfold renderSparkline
      by_cases h0 : values.length = 0
      · rw [List.length_eq_zero] at h0
        subst h0
        rfl
      · simp only []
        rw [if_neg h0]
        have := sparkline_fold fl (minFloat fl values) (scaleMax fl values) values []
        rw [List.nil_append] at this
        exact this
  refine ⟨hfirst, ?_⟩
  intro value hlt hmono hmin hmax hint
  have hmonoLevel : ∀ a ∈ values, ∀ b ∈ values, value a ≤ value b →
      sparkLevel fl values a ≤ sparkLevel fl values b := by
    intro a ha b hb hab
    rw [hlevel a, hlevel b]
    have h1 := hmono a ha b hb hab
    rw [hint a ha, hint b hb]
    have hfl : ⌊value (sparkScaled fl values a)⌋ ≤ ⌊value (sparkScaled fl values b)⌋ :=
      Int.floor_mono h1
    omega
  refine ⟨?_, ?_, hmonoLevel⟩
  · intro v hv hleast
    have hne : values ≠ [] := List.ne_nil_of_mem hv
    have hm := minFloat_mem fl values hne
    have h1 := hmonoLevel v hv _ hm (hleast _ hm)
    have h2 : sparkLevel fl values (minFloat fl values) = 0 := by
      rw [hlevel, hint _ hm, hmin]
      simp
    have := (hrange v).1
    omega
  · intro v hv hgreatest ⟨w, hw, hwv⟩
    have hne : values ≠ [] := List.ne_nil_of_mem hv
    have hM := maxFloat_mem fl values hne
    have hlow : value (minFloat fl values) < value (maxFloat fl values) :=
      lt_of_le_of_lt (minFloat_le fl value values hlt w hw)
        (lt_of_lt_of_le hwv (maxFloat_ge fl value values hlt v hv))
    have h1 := hmonoLevel _ hM v hv (hgreatest _ hM)
    have h2 : sparkLevel fl values (maxFloat fl values) = 7 := by
      rw [hlevel, hint _ hM, hmax hlow]
      simp
    have := (hrange v).2
    omega

/-- C32 (as amended). On a series without values the bar, line and pie renderers return
their placeholder and nothing else, "No data to visualize" in the style of the caller in the
chart package and "No data" in the app package; the two sparklines return the empty string.
Nothing is drawn: no bars, no grid, no glyph, no legend line. -/
theorem empty_series_placeholders (fl : Float64) (labels : List String) (title : String)
    (values : List fl.F) (colors : List String) (h : values.length = 0) :
    RenderBarChart_noData fl ⟨labels, values, title⟩ =
      some (.styled "No data to visualize") ∧
    RenderLineChart_noData fl ⟨labels, values, title⟩ =
      some (.styled "No data to visualize") ∧
    RenderPieChart_noData fl ⟨labels, values, title⟩ =
      some (.styled "No data to visualize") ∧
    RenderSparkline_noData fl ⟨labels, values, title⟩ = some (.plain "") ∧
    renderBarChart_noData fl ⟨labels, values⟩ = some (.plain "No data") ∧
    renderLineChart_noData fl ⟨labels, values⟩ = some (.plain "No data") ∧
    renderPieChart_noData fl ⟨labels, values⟩ = some (.plain "No data") ∧
    renderSparkline_noData fl ⟨labels, values⟩ = some (.plain "") ∧
    RenderBarChart fl ⟨labels, values, title⟩ = none ∧
    renderBarChart fl ⟨labels, values⟩ = none ∧
    RenderLineChart fl ⟨labels, values, title⟩ = some [] ∧
    renderLineChart fl ⟨labels, values⟩ = some [] ∧
    RenderSparkline fl ⟨labels, values, title⟩ = some [] ∧
    renderSparkline fl ⟨labels, values⟩ = some [] ∧
    RenderPieChartLegend fl ⟨labels, values, title⟩ colors = some [] ∧
    renderPieChartLegend fl ⟨labels, values⟩ colors = some [] := by
  refine ⟨?_, ?_, ?_, ?_, ?_, ?_, ?_, ?_, ?_, ?_, ?_, ?_, ?_, ?_, ?_, ?_⟩
  · unfold RenderBarChart_noData; rw [if_pos h]
  · unfold RenderLineChart_noData; rw [if_pos h]
  · unfold RenderPieChart_noData; rw [if_pos h]
  · unfold RenderSparkline_noData; rw [if_pos h]
  · unfold renderBarChart_noData; rw [if_pos h]
  · unfold renderLineChart_noData; rw [if_pos h]
  · unfold renderPieChart_noData; rw [if_pos h]
  · unfold renderSparkline_noData; rw [if_pos h]
  · unfold RenderBarChart; rw [if_pos h]
  · unfold renderBarChart; rw [if_pos h]
  · unfold RenderLineChart; rw [if_pos h]
  · unfold renderLineChart; rw [if_pos h]
  · unfold RenderSparkline; rw [if_pos h]
  · unfold renderSparkline; rw [if_pos h]
  · unfold RenderPieChartLegend; rw [if_pos h]
  · unfold renderPieChartLegend; rw [if_pos h]

/-- C32 (the claim as stated fails). On the series without values `RenderSparkline` and
`renderSparkline` return the empty string, which is neither the placeholder
"No data to visualize" of the chart package nor the placeholder "No data" of the app
package. -/
theorem empty_sparkline_is_not_placeholder :
    RenderSparkline_noData Float64.amd64 ⟨[], [], ""⟩ = some (.plain "") ∧
    RenderSparkline_noData Float64.amd64 ⟨[], [], ""⟩ ≠
      RenderBarChart_noData Float64.amd64 ⟨[], [], ""⟩ ∧
    RenderSparkline_noData Float64.amd64 ⟨[], [], ""⟩ ≠ some (.plain "No data to visualize") ∧
    renderSparkline_noData Float64.amd64 ⟨[], []⟩ = some (.plain "") ∧
    renderSparkline_noData Float64.amd64 ⟨[], []⟩ ≠
      renderBarChart_noData Float64.amd64 ⟨[], []⟩ ∧
    RenderSparkline Float64.amd64 ⟨[], [], ""⟩ = some [] ∧
    renderSparkline Float64.amd64 ⟨[], []⟩ = some [] := by
  decide

theorem pieLegendLoop_eq (fl : Float64) (values : List fl.F) (colors : List String)
    (total : fl.F) :
    ∀ (labels : List String) (i : Nat),
      pieLegendLoop fl values colors total labels i =
        some (List.zipWith
          (fun label vc => (vc.2, label, fl.mul (fl.div vc.1 total) (fl.ofInt 100)))
          labels ((values.drop i).zip (colors.drop i))) := by
  intro labels
  induction labels with
  | nil => intro i; rfl
  | cons label rest ih =>
    intro i
    rw [pieLegendLoop]
    by_cases hstop : i ≥ values.length ∨ i ≥ colors.length
    · rw [if_pos hstop]
      rcases hstop with h | h
      · rw [List.drop_eq_nil_of_le h]
        rfl
      · rw [List.drop_eq_nil_of_le h, List.zip_nil_right]
        rfl
    · rw [if_neg hstop]
      push_neg at hstop
      obtain ⟨hv, hc⟩ := hstop
      have hmod : i % colors.length = i := Nat.mod_eq_of_lt hc
      rw [hmod, List.getElem?_eq_getElem hv, List.getElem?_eq_getElem hc]
      simp only []
      rw [ih, List.drop_eq_getElem_cons hv, List.drop_eq_getElem_cons hc]
      rfl

/-- The legend of both pie charts has one line for each of the first entries that have a
label, a value and a colour: `min(len(Labels), len(Values), len(colors))` lines. Line `i` carries colour `i`, label `i` and the percentage `(Values[i] / total) * 100`,
where `total` is the sum of the values, or 1 when that sum is zero. In chart mode `renderChart`
passes five colours, so a series with `n` values and at least `n` labels gets `min(n, 5)`
legend lines: exactly `n` when `n ≤ 5`, and five when it has more. -/
theorem pie_legend_lines (fl : Float64) (labels : List String) (title : String)
    (values : List fl.F) (colors : List String) :
    (fl.eq (sumFloat fl values) (fl.ofInt 0) = true → pieTotal fl values = fl.ofInt 1) ∧
    (fl.eq (sumFloat fl values) (fl.ofInt 0) = false → pieTotal fl values = sumFloat fl values) ∧
    (∃ lines, renderPieChartLegend fl ⟨labels, values⟩ colors = some lines ∧
      (title = "" ∨ colors ≠ [] → RenderPieChartLegend fl ⟨labels, values, title⟩ colors =
        some lines) ∧
      lines.length = min labels.length (min values.length colors.length) ∧
      (∀ (i : Nat) (label color : String) (v : fl.F),
        i < lines.length → labels[i]? = some label → values[i]? = some v →
        colors[i]? = some color →
        lines[i]? = some (color, label, fl.mul (fl.div v (pieTotal fl values)) (fl.ofInt 100))) ∧
      (colors = renderChartColors → values.length ≤ labels.length →
        lines.length = min values.length 5 ∧
        (values.length ≤ 5 → lines.length = values.length) ∧
        (5 < values.length → lines.length = 5))) := by
  refine ⟨fun h => by unfold pieTotal; rw [if_pos h],
    fun h => by unfold pieTotal; rw [if_neg (by rw [h]; decide)], ?_⟩
  have hlines :
      renderPieChartLegend fl ⟨labels, values⟩ colors =
        some (List.zipWith
          (fun label vc => (vc.2, label, fl.mul (fl.div vc.1 (pieTotal fl values)) (fl.ofInt 100)))
          labels (values.zip colors)) ∧
      (title = "" ∨ colors ≠ [] → RenderPieChartLegend fl ⟨labels, values, title⟩ colors =
        some (List.zipWith
          (fun label vc => (vc.2, label, fl.mul (fl.div vc.1 (pieTotal fl values)) (fl.ofInt 100)))
          labels (values.zip colors))) := by
    unfold renderPieChartLegend RenderPieChartLegend
    by_cases h0 : values.length = 0
    · simp only [if_pos h0]
      rw [List.length_eq_zero] at h0
      rw [h0, List.zip_nil_left, List.zipWith_nil_right]
      exact ⟨rfl, fun _ => rfl⟩
    · simp only [if_neg h0]
      have := pieLegendLoop_eq fl values colors (pieTotal fl values) labels 0
      rw [List.drop_zero, List.drop_zero] at this
      refine ⟨this, ?_⟩
      intro htitle
      have hno : ¬(title ≠ "" ∧ colors[0]? = none) := by
        rintro ⟨h1, h2⟩
        rcases htitle with h | h
        · exact h1 h
        · cases colors with
          | nil => exact h rfl
          | cons c cs => simp at h2
      rw [if_neg hno]
      exact this
  obtain ⟨h1, h2⟩ := hlines
  have hlen : (List.zipWith
      (fun label (vc : fl.F × String) =>
        (vc.2, label, fl.mul (fl.div vc.1 (pieTotal fl values)) (fl.ofInt 100)))
      labels (values.zip colors)).length =
      min labels.length (min values.length colors.length) := by
    rw [List.length_zipWith, List.length_zip]
  refine ⟨_, h1, h2, hlen, ?_, ?_⟩
  · intro i label color v hi hl hv hc
    rw [List.getElem?_zipWith, hl]
    have hz : (values.zip colors)[i]? = some (v, color) := by
      rw [List.getElem?_zip_eq_some]
      exact ⟨hv, hc⟩
    rw [hz]
  · intro hcolors hle
    rw [hlen, hcolors]
    have h5 : renderChartColors.length = 5 := rfl
    rw [h5]
    omega

/-- C33 (the code stops the legend at the number of colours). In chart mode the pie chart of
six values with six labels has a legend of five lines: the sixth entry is not listed, though
its value counts in the total the five percentages are taken of (they add up to 71 of 100). -/
theorem pie_legend_omits_sixth_entry :
    sixValues.length = 6 ∧ sixLabels.length = 6 ∧ renderChartColors.length = 5 ∧
    (renderPieChartLegend Float64.amd64 ⟨sixLabels, sixValues⟩ renderChartColors).map
      (fun lines => lines.map (fun line => line.2.1)) = some ["a", "b", "c", "d", "e"] ∧
    (renderPieChartLegend Float64.amd64 ⟨sixLabels, sixValues⟩ renderChartColors).map
      List.length = some 5 ∧
    (renderPieChartLegend Float64.amd64 ⟨sixLabels, sixValues⟩ renderChartColors).map
      (fun lines => lines.map (fun line => line.2.2)) =
      some [Exact.fin 100 21, Exact.fin 200 21, Exact.fin 300 21, Exact.fin 400 21,
        Exact.fin 500 21] ∧
    (RenderPieChartLegend Float64.amd64 ⟨sixLabels, sixValues, ""⟩ renderChartColors).map
      List.length = some 5 := by
  decide

/-! ## Instances on concrete states, sheets and series -/

theorem sparkline_levels_witness :
    RenderSparkline Float64.amd64 ⟨[], threeValues, ""⟩ = some ['▁', '█', '▄'] ∧
    threeValues.map (sparkLevel Float64.amd64 threeValues) = [0, 7, 3] ∧
    (∀ w ∈ threeValues, Exact.value (Exact.fin 2 1) ≤ Exact.value w) ∧
    sparkLevel Float64.amd64 threeValues (Exact.fin 2 1) = 0 := by
  have hmn : minFloat Float64.amd64 threeValues = Exact.fin 2 1 := by decide
  have hmx : maxFloat Float64.amd64 threeValues = Exact.fin 4 1 := by decide
  have s2 : sparkScaled Float64.amd64 threeValues (Exact.fin 2 1) = Exact.fin 0 2 := by decide
  have s4 : sparkScaled Float64.amd64 threeValues (Exact.fin 4 1) = Exact.fin 14 2 := by decide
  have s3 : sparkScaled Float64.amd64 threeValues (Exact.fin 3 1) = Exact.fin 7 2 := by decide
  have t2 : Float64.amd64.toInt (Exact.fin 0 2) = 0 := by decide
  have t4 : Float64.amd64.toInt (Exact.fin 14 2) = 7 := by decide
  have t3 : Float64.amd64.toInt (Exact.fin 7 2) = 3 := by decide
  have hleast : ∀ w ∈ threeValues, Exact.value (Exact.fin 2 1) ≤ Exact.value w := by
    intro w hw
    simp only [threeValues, List.mem_cons, List.mem_singleton, List.not_mem_nil, or_false] at hw
    rcases hw with rfl | rfl | rfl <;> norm_num [Exact.value]
  have h := (sparkline_levels Float64.amd64 [] threeValues "").2 Exact.value
    (by
      intro a ha b hb
      simp only [threeValues, List.mem_cons, List.mem_singleton, List.not_mem_nil,
        or_false] at ha hb
      rcases ha with rfl | rfl | rfl <;> rcases hb with rfl | rfl | rfl <;>
        norm_num [Exact.lt, Exact.value])
    (by
      intro a ha b hb hab
      simp only [threeValues, List.mem_cons, List.mem_singleton, List.not_mem_nil,
        or_false] at ha hb
      rcases ha with rfl | rfl | rfl <;> rcases hb with rfl | rfl | rfl <;>
        simp only [s2, s3, s4] <;> norm_num [Exact.value] at hab ⊢)
    (by rw [hmn, s2]; norm_num [Exact.value])
    (by intro _; rw [hmx, s4]; norm_num [Exact.value])
    (by
      intro v hv
      simp only [threeValues, List.mem_cons, List.mem_singleton, List.not_mem_nil,
        or_false] at hv
      rcases hv with rfl | rfl | rfl
      · rw [s2, t2, eq_comm, Int.floor_eq_iff]; norm_num [Exact.value]
      · rw [s4, t4, eq_comm, Int.floor_eq_iff]; norm_num [Exact.value]
      · rw [s3, t3, eq_comm, Int.floor_eq_iff]; norm_num [Exact.value])
  exact ⟨by decide, by decide, hleast, h.1 _ (by decide) hleast⟩

theorem empty_series_placeholders_witness :
    ([] : List Exact).length = 0 ∧
    RenderBarChart_noData Float64.amd64 ⟨["a"], [], "t"⟩ =
      some (.styled "No data to visualize") ∧
    RenderSparkline_noData Float64.amd64 ⟨["a"], [], "t"⟩ = some (.plain "") :=
  ⟨rfl, (empty_series_placeholders Float64.amd64 ["a"] "t" [] renderChartColors rfl).1,
    (empty_series_placeholders Float64.amd64 ["a"] "t" [] renderChartColors rfl).2.2.2.1⟩

theorem pie_legend_lines_witness :
    threeValues.length ≤ ["a", "b", "c"].length ∧ threeValues.length ≤ 5 ∧
    (renderPieChartLegend Float64.amd64 ⟨["a", "b", "c"], threeValues⟩ renderChartColors).map
      (fun lines => lines.map (fun line => (line.1, line.2.1, Float64.amd64.toInt line.2.2))) =
      some [("Accent", "a", 22), ("Primary", "b", 44), ("Secondary", "c", 33)] ∧
    ∃ lines,
      renderPieChartLegend Float64.amd64 ⟨["a", "b", "c"], threeValues⟩ renderChartColors =
        some lines ∧
      lines.length = threeValues.length := by
  obtain ⟨-, -, lines, h1, -, -, -, h5⟩ :=
    pie_legend_lines Float64.amd64 ["a", "b", "c"] "" threeValues renderChartColors
  exact ⟨by decide, by decide, by decide, lines, h1, (h5 rfl (by decide)).2.1 (by decide)⟩

theorem mode_never_select_range_witness :
    Reachable Unicode.ascii "book.xlsx" demoBook "nord" demoReached ∧
    demoReached.mode ≠ Mode.ModeSelectRange :=
  ⟨⟨[Msg.WindowSizeMsg 80 24, press '/' "", press 'x' "x", pressEnter, Msg.WindowSizeMsg 10 3],
      by decide⟩,
    (mode_never_select_range Unicode.ascii "book.xlsx" demoBook "nord" demoReached
      ⟨[Msg.WindowSizeMsg 80 24, press '/' "", press 'x' "x", pressEnter,
        Msg.WindowSizeMsg 10 3], by decide⟩).1⟩

theorem centerView_keeps_cursor_visible_witness :
    0 ≤ demoReached.cursorRow ∧ 0 ≤ demoReached.cursorCol ∧
    (centerView demoReached).offsetRow ≤ demoReached.cursorRow ∧
    demoReached.cursorRow <
      (centerView demoReached).offsetRow + visibleRows (centerView demoReached) :=
  ⟨by decide, by decide,
    ((centerView_keeps_cursor_visible Unicode.ascii demoReached).1
      (by decide) (by decide)).2.2.1,
    ((centerView_keeps_cursor_visible Unicode.ascii demoReached).1
      (by decide) (by decide)).2.2.2.1⟩

theorem search_index_in_range_witness :
    Reachable Unicode.ascii "book.xlsx" demoBook "nord" demoReached ∧
    demoReached.searchResults ≠ [] ∧
    ∃ result, index? demoReached.searchResults demoReached.searchIndex = some result :=
  ⟨⟨[Msg.WindowSizeMsg 80 24, press '/' "", press 'x' "x", pressEnter, Msg.WindowSizeMsg 10 3],
      by decide⟩,
    by decide,
    (search_index_in_range Unicode.ascii "book.xlsx" demoBook "nord" demoReached
      ⟨[Msg.WindowSizeMsg 80 24, press '/' "", press 'x' "x", pressEnter,
        Msg.WindowSizeMsg 10 3], by decide⟩).2.1 (by decide)⟩

theorem empty_sheet_cursor_leaves_bounds_witness :
    emptyModel.mode = Mode.ModeNormal ∧
    index? emptyModel.sheets emptyModel.currentSheet = some ⟨"empty.csv", [], 0, 0⟩ ∧
    keyString (namedKey "pgdown") = "pgdown" ∧
    ∃ m1, Update Unicode.ascii emptyModel (Msg.KeyMsg (namedKey "pgdown") quiet) = some m1 ∧
      m1.cursorRow = -1 ∧ m1.offsetRow = -1 :=
  ⟨by decide, by decide, by decide,
    ((empty_sheet_cursor_leaves_bounds Unicode.ascii).2.2.2.2.2.2.2.2 emptyModel
      ⟨"empty.csv", [], 0, 0⟩ (namedKey "pgdown") quiet (by decide) (by decide)
      (by decide)).1 (by decide) (by decide) (by decide) (by decide)⟩

theorem loader_sheet_invariant_witness :
    (loadExcel (fun _ _ _ => "") demoWorkbook).map (fun s => (s.Name, s.MaxRows, s.MaxCols)) =
      [("first", 3, 3), ("last", 0, 0)] ∧
    demoLoaded ∈ loadExcel (fun _ _ _ => "") demoWorkbook ∧
    demoLoaded.wellFormed = true ∧
    ∃ rows, (demoLoaded.Name, some rows) ∈ demoWorkbook ∧
      demoLoaded.Rows.map List.length = rows.map List.length :=
  ⟨by decide, by decide,
    (loader_sheet_invariant "a.csv" [] (fun _ _ _ => "") demoWorkbook).2.1 demoLoaded
      (by decide)⟩

theorem drawLine_terminates_in_bounding_box_witness :
    ((3 : Int) - 0).natAbs + ((2 : Int) - 0).natAbs < 6 ∧
    drawLineVisits 6 0 0 3 2 = some [(0, 0), (1, 1), (2, 1), (3, 2)] ∧
    ∃ cells, drawLineVisits 6 0 0 3 2 = some cells ∧
      cells.head? = some (0, 0) ∧ cells.getLast? = some (3, 2) ∧
      cells.length ≤ ((3 : Int) - 0).natAbs + ((2 : Int) - 0).natAbs + 1 ∧
      ∀ p ∈ cells, min 0 3 ≤ p.1 ∧ p.1 ≤ max 0 3 ∧ min 0 2 ≤ p.2 ∧ p.2 ≤ max 0 2 :=
  ⟨by decide, by decide, (drawLine_terminates_in_bounding_box 6 0 0 3 2 (by decide)).1⟩

end Vexcel
